import Mathlib

/-!
USBApi: line de-multiplexing and flat-field calibration

A shallow embedding of the word stream (`VtPipeData.h`), the two line parsers
(`VthdsLineParser.h`, `VtpcLineParser.h`), the line-sensor calibration
(`VtPanoramicCalibration.h`, `VtABDiff.h`), the area-sensor calibration and its
file (`VthdsCalib.h`, `VthdsImpAPI.h`), the hardware-identity record
(`VthdsAPI.h`), the region of interest of an image (`VtImage.cpp`) and the
transposition of a line image (`VtpcImpAPI.h`), followed by the properties settled
about them.

Conventions of the embedding.

* A 16-bit word is a `Nat`; the masks of the source are applied with `&&&`.
* A C++ pointer into a buffer is the index it points at; the buffer is a `List`.
* A function that can raise (`Vt_fail`) returns a `Run`: either `done` with the
  value and the state reached, or `raised` with the failure and the state
  reached when it was raised (side effects made before a `throw` persist).
* A `while` loop without a bound in the source is a recursion on a fuel
  argument; the caller passes a fuel that the loop cannot use up, and the
  outcome `outOfFuel` marks the (unreachable) exhaustion.
* A `double` is a rational number. The calibration members come twice. In the
  members of the namespaces of their classes the arithmetic is exact. In the
  members of the namespace `F64` every operation on `double` values is rounded
  to the nearest binary64 number by `fl` (ties to even, gradual underflow, no
  overflow to infinity), `long double` is taken as `double`, and the 32-bit sum
  of `BCoffset` wraps around; they are the ones used where a property depends
  on the rounding of a value computed.
* A division by zero, whose `double` result is no finite number, is the outcome
  `notFinite`; an access outside an allocation or a read of an element that was
  never set is the outcome `undefined`.
-/

namespace Vt

/-! ## Failures and outcomes -/

/-- The messages given to `Vt_fail` in the embedded code, one constructor each. -/
inductive Failure where
  /-- "Data corruption - invalid sentinel value" (`reset_ptrs`). -/
  | corruptSentinel
  /-- "short line detected", with the prefixes "a:", "b:", "c:" in the multi-chip parser. -/
  | shortLine
  /-- "long line detected::data overrun", with the same prefixes. -/
  | longLine
  /-- "Invalid sentinel" (`CVtUSBPipeData::operator++`). -/
  | invalidSentinel
  /-- "EOD" (`CVtUSBPipeData::operator++`). -/
  | EOD
  /-- "chip data type not found" (`CVtpcLineParser::align`). -/
  | chipTypeNotFound
  /-- "Unsupported number of chips" (`CVtpcLineParser::get_line`). -/
  | unsupportedChips
  /-- "Invalid dark bright frames" (`CVtHalfLineCalib::recalc`). -/
  | invalidFrames
  /-- "Invalid dark or bright frame" (`CVtHalfLineCalib::recalc`). -/
  | invalidDarkOrBright
  /-- "No images present" (`CVthdsCalib::operator()`). -/
  | noImagesPresent
  /-- "no calibration file available. A calibration run must be performed to obtain
  calibrated images" (`CVthdsImpAPI::init`). -/
  | noCalibrationFile
  /-- "Calibration file hardware information does not match EPROM hardware
  information" (`CVthdsImpAPI::init`). -/
  | hwInfoMismatch
  /-- "Region of interest origin must be greater than or equal to zero" (`SetROI`). -/
  | roiOriginNegative
  /-- "Region of interest size must be greater than or equal to zero" (`SetROI`). -/
  | roiSizeNegative
  /-- "Region of interest origin must not be greater than the image size" (`SetROI`). -/
  | roiOriginOutside
  /-- "Region of interest size must not be greater than the image size" (`SetROI`). -/
  | roiSizeOutside
  deriving DecidableEq, Repr

/-- Outcome of running a piece of code from a state of type `σ`. -/
inductive Run (σ : Type) (α : Type) where
  | done (a : α) (s : σ)
  | raised (e : Failure) (s : σ)
  | outOfFuel (s : σ)
  deriving DecidableEq, Repr

/-! ## The word stream: `CVtUSBPipeData` -/

/-- The value `gSentinel` placed after the last word of every raw buffer. -/
def gSentinel : Nat := 0xdead

/-- The fields of `CVtUSBPipeData` that the consumer side uses. `m_queue` is the
queue of raw buffers (front first), `m_data` the buffer being read. -/
structure CVtUSBPipeData where
  m_queue : List (List Nat)
  m_data : List Nat
  m_pos : Nat
  m_bufno : Nat
  m_size : Nat
  m_sync : Bool
  m_eod : Bool
  deriving DecidableEq, Repr

namespace CVtUSBPipeData

/-- The `init` member: position 0 of the first buffer; the queue holds the given buffers. -/
def init (buffers : List (List Nat)) (bufferSize : Nat) (sync : Bool) : CVtUSBPipeData :=
  { m_queue := buffers, m_data := buffers.headD [], m_pos := 0, m_bufno := 0,
    m_size := bufferSize, m_sync := sync, m_eod := false }

/-- The `get_front` member: drop the consumed buffer when another one is queued,
otherwise flag end of data; the position goes back to 0 in both cases. -/
def get_front (p : CVtUSBPipeData) : CVtUSBPipeData :=
  if p.m_queue.length > 1 then
    { p with m_queue := p.m_queue.tail, m_pos := 0, m_eod := false,
             m_data := p.m_queue.tail.headD [] }
  else
    { p with m_pos := 0, m_eod := true }

/-- The `operator*` member: the word under the read position. -/
def deref (p : CVtUSBPipeData) : Nat := p.m_data.getD p.m_pos 0

/-- The prefix `operator++`. In synchronised mode the wait loop of the source runs
only while `m_data` is null, which it is not once a buffer was read, so that
both modes raise `EOD` when `get_front` flagged the end of data. -/
def increment (p : CVtUSBPipeData) : Run CVtUSBPipeData Unit :=
  let p1 := { p with m_pos := p.m_pos + 1 }
  if p1.m_pos ≥ p1.m_size then
    let p2 := { p1 with m_bufno := p1.m_bufno + 1 }
    if p2.m_data.getD p2.m_size 0 ≠ gSentinel then
      .raised .invalidSentinel p2
    else
      let p3 := get_front p2
      if p3.m_eod then .raised .EOD p3 else .done () p3
  else
    .done () p1

/-- The stream is positioned at the words `ws`: the word under the read position
is the first of them and each following one is reached by one `operator++`
that does not raise. -/
def positioned : CVtUSBPipeData → List Nat → Bool
  | _, [] => true
  | p, w :: ws =>
    p.deref == w &&
      match ws with
      | [] => true
      | _ :: _ =>
        match p.increment with
        | .done _ p1 => positioned p1 ws
        | _ => false

/-- The stream after `n` increments, when none of them raises. -/
def skip : Nat → CVtUSBPipeData → Option CVtUSBPipeData
  | 0, p => some p
  | n + 1, p =>
    match p.increment with
    | .done _ p1 => skip n p1
    | _ => none

/-- An upper bound on the number of increments that can still succeed. -/
def remaining (p : CVtUSBPipeData) : Nat :=
  p.m_queue.length * (p.m_size + 1) + (p.m_size - p.m_pos)

end CVtUSBPipeData

/-! ## The single-chip parser: `CVthdsLineParser` -/

namespace CVthdsLineParser

def HDR_MASK : Nat := 0x8000
def HDR_SOL_EOL_MASK : Nat := 0x4000
def HALF_INFO_MASK : Nat := 0x2000
def FRAME_LINE_INFO_MASK : Nat := 0x1fff
def TRY_MAX : Nat := 20000
def SENTINEL : Nat := 0xdead
def CHIP_DATA_MASK : Nat := 0x0fff
def HDR_EOL_PTRN : Nat := HDR_MASK ||| HDR_SOL_EOL_MASK

end CVthdsLineParser

/-- The state of `CVthdsLineParser`. `Buff` is the line buffer of
`m_bufferSize + 1` words (the last one is the sentinel); `m_pBuff` and
`m_pBuffEnd` are indices into it. -/
structure CVthdsLineParser where
  m_pipeData : CVtUSBPipeData
  m_bufferSize : Nat
  m_first_idx : Nat
  m_image_height : Nat
  m_quiet : Bool
  Buff : List Nat
  m_pBuff : Nat
  m_pBuffEnd : Nat
  m_corrCount : Nat
  m_errCount : Nat
  deriving DecidableEq, Repr

namespace CVthdsLineParser

/-- The test `(word & (HDR_MASK | HDR_SOL_EOL_MASK)) == HDR_EOL_PTRN`. -/
def isEOL (w : Nat) : Bool := (w &&& (HDR_MASK ||| HDR_SOL_EOL_MASK)) == HDR_EOL_PTRN

/-- The test `word & HDR_MASK`. -/
def isHdr (w : Nat) : Bool := (w &&& HDR_MASK) != 0

/-- Run `operator++` on the stream held by the parser. -/
def advance (s : CVthdsLineParser) : Run CVthdsLineParser Unit :=
  match s.m_pipeData.increment with
  | .done _ p => .done () { s with m_pipeData := p }
  | .raised e p => .raised e { s with m_pipeData := p }
  | .outOfFuel p => .outOfFuel { s with m_pipeData := p }

/-- The `reset_ptrs` member. -/
def reset_ptrs (s : CVthdsLineParser) : Run CVthdsLineParser Unit :=
  if s.Buff.getD s.m_bufferSize 0 ≠ SENTINEL then
    .raised .corruptSentinel s
  else
    .done () { s with m_pBuff := 0, m_pBuffEnd := s.m_bufferSize }

/-- The `init` member, with the height and the quiet flag that it reads from the
API object as arguments. The words of the new buffer are unspecified in the
source; `fill` gives them. -/
def init (pipe : CVtUSBPipeData) (height : Nat) (quiet : Bool) (fill : Nat) :
    CVthdsLineParser :=
  { m_pipeData := pipe, m_bufferSize := height, m_first_idx := 0, m_image_height := height,
    m_quiet := quiet, Buff := List.replicate height fill ++ [SENTINEL],
    m_pBuff := 0, m_pBuffEnd := height, m_corrCount := 0, m_errCount := 0 }

/-- The `MOV` member. -/
def MOV (s : CVthdsLineParser) : Run CVthdsLineParser Unit :=
  let data := s.m_pipeData.deref
  if isEOL data then
    .raised .shortLine { s with Buff := s.Buff.set s.m_pBuff 0, m_pBuff := s.m_pBuff + 1 }
  else if s.m_pBuff < s.m_pBuffEnd then
    advance { s with Buff := s.Buff.set s.m_pBuff (data &&& CHIP_DATA_MASK),
                     m_pBuff := s.m_pBuff + 1 }
  else
    .raised .longLine s

/-- The loop `while (curr_data & HDR_MASK) { ++m_pipeData; curr_data = *m_pipeData; }`. -/
def skipHdr : Nat → CVthdsLineParser → Run CVthdsLineParser Unit
  | 0, s => .outOfFuel s
  | fuel + 1, s =>
    if isHdr s.m_pipeData.deref then
      match advance s with
      | .done _ s1 => skipHdr fuel s1
      | r => r
    else
      .done () s

/-- The `align(line)` member, returning the value left in `line`. -/
def align (s : CVthdsLineParser) (line : Nat) : Run CVthdsLineParser Nat :=
  let curr_data := s.m_pipeData.deref
  let line1 := if isHdr curr_data then curr_data &&& FRAME_LINE_INFO_MASK else line
  match skipHdr (s.m_pipeData.remaining + 1) s with
  | .done _ s1 => .done line1 s1
  | .raised e s1 => .raised e s1
  | .outOfFuel s1 => .outOfFuel s1

/-- The loop of `find_hdr` with `tries = TRY_MAX - length` iterations left. The
increment of the `for` statement runs after every iteration, so that the word
that carries the header bit is consumed too. -/
def find_hdr_loop : Nat → Nat → CVthdsLineParser → Run CVthdsLineParser (Bool × Nat)
  | 0, length, s => .done (false, length) s
  | tries + 1, length, s =>
    let hdr_found := (s.m_pipeData.deref &&& HDR_MASK) == HDR_MASK
    match advance s with
    | .done _ s1 =>
      if hdr_found then .done (true, length + 1) s1 else find_hdr_loop tries (length + 1) s1
    | .raised e s1 => .raised e s1
    | .outOfFuel s1 => .outOfFuel s1

/-- The `find_hdr` member: the flag returned and the value left in `length`. -/
def find_hdr (s : CVthdsLineParser) : Run CVthdsLineParser (Bool × Nat) :=
  find_hdr_loop TRY_MAX 0 s

/-- The loop `while (!eol_found) { MOV(); eol_found = ...; count++; }` of `get_line`,
the state paired with the local `count`. -/
def fillLine : Nat → CVthdsLineParser → Nat → Run (CVthdsLineParser × Nat) Unit
  | 0, s, count => .outOfFuel (s, count)
  | fuel + 1, s, count =>
    if isEOL s.m_pipeData.deref then
      .done () (s, count)
    else
      match MOV s with
      | .done _ s1 => fillLine fuel s1 (count + 1)
      | .raised e s1 => .raised e (s1, count)
      | .outOfFuel s1 => .outOfFuel (s1, count)

/-- The `try` block of `get_line`: `reset_ptrs`, `align`, then the filling loop.
The loop ends with `eol_found` true, or leaves it false by raising. -/
def get_line_try (s : CVthdsLineParser) : Run (CVthdsLineParser × Nat) Unit :=
  match reset_ptrs s with
  | .raised e s1 => .raised e (s1, 0)
  | .outOfFuel s1 => .outOfFuel (s1, 0)
  | .done _ s1 =>
    match align s1 0 with
    | .raised e s2 => .raised e (s2, 0)
    | .outOfFuel s2 => .outOfFuel (s2, 0)
    | .done _ s2 => fillLine (s2.m_pBuffEnd + 1) s2 0

/-- The statements of `get_line` after the `catch` block: the comparison of `count`
with the line length (the error counter moves only when not quiet, inside the
argument list of `printf`) and `return eol_found`. -/
def get_line_end (s : CVthdsLineParser) (count : Nat) (eol_found : Bool) :
    Run CVthdsLineParser Bool :=
  if count = s.m_image_height then
    .done eol_found s
  else if !s.m_quiet then
    .done eol_found { s with m_errCount := s.m_errCount + 1 }
  else
    .done eol_found s

/-- The `get_line` member. The handler looks for "short line detected", then "long
line detected", then "EOD" in the message; a failure raised by `find_hdr` inside
the handler is outside the `try` block and leaves `get_line`. -/
def get_line (s : CVthdsLineParser) : Run CVthdsLineParser Bool :=
  match get_line_try s with
  | .done _ (s1, count) => get_line_end s1 count true
  | .outOfFuel (s1, _) => .outOfFuel s1
  | .raised e (s1, count) =>
    match e with
    | .shortLine => get_line_end s1 count true
    | .longLine =>
      match find_hdr s1 with
      | .done (found, _) s2 => get_line_end s2 count found
      | .raised e2 s2 => .raised e2 s2
      | .outOfFuel s2 => .outOfFuel s2
    | .EOD => .done false s1
    | _ => get_line_end s1 count false

/-- What `init` establishes and every call keeps: the buffer has `m_bufferSize + 1`
words, the last is the sentinel, and the buffer size is the line length. -/
def WF (s : CVthdsLineParser) : Prop :=
  s.Buff.length = s.m_bufferSize + 1 ∧ s.Buff.getD s.m_bufferSize 0 = SENTINEL ∧
    s.m_bufferSize = s.m_image_height

end CVthdsLineParser

end Vt

namespace Vt

/-! ## The multi-chip parser: `CVtpcLineParser` -/

namespace CVtpcLineParser

def HDR_MASK : Nat := 0x8000
def HDR_SOL_EOL_MASK : Nat := 0x4000
def HALF_INFO_MASK : Nat := 0x2000
def FRAME_LINE_INFO_MASK : Nat := 0x1fff
def DATA_CHIP_MASK : Nat := 0x3000
def DATA_CHIPA_PTRN : Nat := 0x0000
def DATA_CHIPB_PTRN : Nat := 0x1000
def DATA_CHIPC_PTRN : Nat := 0x2000
def CHIP_DATA_MASK : Nat := 0x0fff
def HDR_EOL_PTRN : Nat := HDR_MASK ||| HDR_SOL_EOL_MASK
def TRY_MAX : Nat := 20000
def SENTINEL : Nat := 0xdead
def MAX_HEIGHT : Nat := 1536
def DEFAULT_HALF_IDX : Nat := 2000

end CVtpcLineParser

/-- The state of `CVtpcLineParser`. `Buff` holds `3 * m_bufferSize + 1` words, the
last one the sentinel; the chip cursors and limits are indices into it. The
cursor of chip C moves downwards and is an integer, as it can step below its
segment. -/
structure CVtpcLineParser where
  m_pipeData : CVtUSBPipeData
  m_bufferSize : Nat
  m_pBuff : Nat
  m_chipABuff : Nat
  m_chipBBuff : Nat
  m_chipCBuff : Int
  m_AEnd : Nat
  m_BEnd : Nat
  m_CBeg : Nat
  m_CEnd : Int
  Buff : List Nat
  ABuff : Nat
  BBuff : Nat
  CBuff : Nat
  m_chip_height : Nat
  m_numChips : Nat
  m_quiet : Bool
  m_half : Bool
  m_half_idx : Nat
  m_first_idx : Nat
  m_corrCount : Nat
  m_errCount : Nat
  deriving DecidableEq, Repr

namespace CVtpcLineParser

/-- The test `(word & (HDR_MASK | HDR_SOL_EOL_MASK)) == HDR_EOL_PTRN`. -/
def isEOL (w : Nat) : Bool := (w &&& (HDR_MASK ||| HDR_SOL_EOL_MASK)) == HDR_EOL_PTRN

/-- The test `word & HDR_MASK`. -/
def isHdr (w : Nat) : Bool := (w &&& HDR_MASK) != 0

/-- Run `operator++` on the stream held by the parser. -/
def advance (s : CVtpcLineParser) : Run CVtpcLineParser Unit :=
  match s.m_pipeData.increment with
  | .done _ p => .done () { s with m_pipeData := p }
  | .raised e p => .raised e { s with m_pipeData := p }
  | .outOfFuel p => .outOfFuel { s with m_pipeData := p }

/-- A store through the chip C cursor; an index below the buffer is outside the
allocation and leaves the list as it is. -/
def setC (buf : List Nat) (i : Int) (v : Nat) : List Nat :=
  if 0 ≤ i then buf.set i.toNat v else buf

/-- The `reset_ptrs` member. -/
def reset_ptrs (s : CVtpcLineParser) : Run CVtpcLineParser Unit :=
  if s.Buff.getD (s.m_bufferSize * 3) 0 ≠ SENTINEL then
    .raised .corruptSentinel s
  else
    .done () { s with m_pBuff := 0,
                      m_chipABuff := s.ABuff, m_AEnd := s.ABuff + s.m_bufferSize,
                      m_chipBBuff := s.BBuff, m_BEnd := s.BBuff + s.m_bufferSize,
                      m_chipCBuff := s.m_CEnd, m_CBeg := s.BBuff + s.m_bufferSize }

/-- The `init` member, with the values it reads from the API object (quiet flag,
number of chips, image height) as arguments; `fill` gives the unspecified words of
the new buffer. -/
def init (pipe : CVtUSBPipeData) (numChips image_height : Nat) (quiet : Bool) (fill : Nat) :
    CVtpcLineParser :=
  let h := image_height / numChips
  { m_pipeData := pipe, m_bufferSize := h, m_pBuff := 0,
    m_chipABuff := 0, m_AEnd := h, m_chipBBuff := h, m_BEnd := h + h,
    m_chipCBuff := ((h + h + h : Nat) : Int) - 1, m_CBeg := h + h,
    m_CEnd := ((h + h + h : Nat) : Int) - 1,
    Buff := List.replicate (h * 3) fill ++ [SENTINEL],
    ABuff := 0, BBuff := h, CBuff := h + h,
    m_chip_height := h, m_numChips := numChips, m_quiet := quiet, m_half := false,
    m_half_idx := DEFAULT_HALF_IDX, m_first_idx := 0, m_corrCount := 0, m_errCount := 0 }

/-- The `MOVA` member; chip A words are stored unmasked. -/
def MOVA (s : CVtpcLineParser) : Run CVtpcLineParser Unit :=
  let data := s.m_pipeData.deref
  if isEOL data then
    .raised .shortLine
      { s with Buff := s.Buff.set s.m_chipABuff 0, m_chipABuff := s.m_chipABuff + 1 }
  else if s.m_chipABuff < s.m_AEnd then
    advance { s with Buff := s.Buff.set s.m_chipABuff data, m_chipABuff := s.m_chipABuff + 1 }
  else
    .raised .longLine s

/-- The `MOVB` member. -/
def MOVB (s : CVtpcLineParser) : Run CVtpcLineParser Unit :=
  let data := s.m_pipeData.deref
  if isEOL data then
    .raised .shortLine
      { s with Buff := s.Buff.set s.m_chipBBuff 0, m_chipBBuff := s.m_chipBBuff + 1 }
  else if s.m_chipBBuff < s.m_BEnd then
    advance { s with Buff := s.Buff.set s.m_chipBBuff (data &&& CHIP_DATA_MASK),
                     m_chipBBuff := s.m_chipBBuff + 1 }
  else
    .raised .longLine s

/-- The `MOVC` member; the cursor of chip C is decremented. -/
def MOVC (s : CVtpcLineParser) : Run CVtpcLineParser Unit :=
  let data := s.m_pipeData.deref
  if isEOL data then
    .raised .shortLine
      { s with Buff := setC s.Buff s.m_chipCBuff 0, m_chipCBuff := s.m_chipCBuff - 1 }
  else if (s.m_CBeg : Int) ≤ s.m_chipCBuff then
    advance { s with Buff := setC s.Buff s.m_chipCBuff (data &&& CHIP_DATA_MASK),
                     m_chipCBuff := s.m_chipCBuff - 1 }
  else
    .raised .longLine s

/-- The loop `while (curr_data & HDR_MASK) { ++m_pipeData; curr_data = *m_pipeData; }`. -/
def skipHdr : Nat → CVtpcLineParser → Run CVtpcLineParser Unit
  | 0, s => .outOfFuel s
  | fuel + 1, s =>
    if isHdr s.m_pipeData.deref then
      match advance s with
      | .done _ s1 => skipHdr fuel s1
      | r => r
    else
      .done () s

/-- The half-index latched by `align` from the line index `line` of a header word
that carries the half marker; the subtraction is on 32-bit unsigned values. -/
def half_idx (s : CVtpcLineParser) (line : Nat) : Nat :=
  let idx :=
    if s.m_first_idx > line then
      (FRAME_LINE_INFO_MASK + 2 ^ 32 - s.m_first_idx % 2 ^ 32 + line) % 2 ^ 32
    else
      line - s.m_first_idx
  if s.m_chip_height < MAX_HEIGHT then idx / 2 else idx

/-- The part of `align(line)` before the header is skipped: the line index and,
the first time the half marker shows, the half-index. -/
def alignHeader (s : CVtpcLineParser) (line : Nat) : CVtpcLineParser × Nat :=
  let curr_data := s.m_pipeData.deref
  if isHdr curr_data then
    let line1 := curr_data &&& FRAME_LINE_INFO_MASK
    if !s.m_half && (curr_data &&& HALF_INFO_MASK) == HALF_INFO_MASK then
      ({ s with m_half := true, m_half_idx := half_idx s line1 }, line1)
    else
      (s, line1)
  else
    (s, line)

/-- The chip dispatch at the end of `align(line)`. -/
def alignChips (s : CVtpcLineParser) : Run CVtpcLineParser Bool :=
  let test := s.m_pipeData.deref &&& DATA_CHIP_MASK
  if s.m_numChips > 2 then
    if test = DATA_CHIPA_PTRN then
      .done true s
    else if test = DATA_CHIPB_PTRN then
      match MOVB s with
      | .done _ s1 =>
        match MOVC s1 with
        | .done _ s2 => .done true s2
        | .raised e s2 => .raised e s2
        | .outOfFuel s2 => .outOfFuel s2
      | .raised e s1 => .raised e s1
      | .outOfFuel s1 => .outOfFuel s1
    else if test = DATA_CHIPC_PTRN then
      match MOVC s with
      | .done _ s1 => .done true s1
      | .raised e s1 => .raised e s1
      | .outOfFuel s1 => .outOfFuel s1
    else
      .raised .chipTypeNotFound s
  else if s.m_numChips = 2 then
    if test = DATA_CHIPA_PTRN then
      .done true s
    else if test = DATA_CHIPB_PTRN then
      match MOVB s with
      | .done _ s1 => .done true s1
      | .raised e s1 => .raised e s1
      | .outOfFuel s1 => .outOfFuel s1
    else
      .raised .chipTypeNotFound s
  else
    .done true s

/-- The `align(line)` member: the flag returned and the value left in `line`. -/
def align (s : CVtpcLineParser) (line : Nat) : Run CVtpcLineParser (Bool × Nat) :=
  let (s0, line1) := alignHeader s line
  match skipHdr (s0.m_pipeData.remaining + 1) s0 with
  | .raised e s1 => .raised e s1
  | .outOfFuel s1 => .outOfFuel s1
  | .done _ s1 =>
    match alignChips s1 with
    | .done b s2 => .done (b, line1) s2
    | .raised e s2 => .raised e s2
    | .outOfFuel s2 => .outOfFuel s2

/-- The loop of `find_hdr` with `tries = TRY_MAX - length` iterations left; the
word tested is consumed in the same iteration. -/
def find_hdr_loop : Nat → Nat → CVtpcLineParser → Run CVtpcLineParser (Bool × Nat)
  | 0, length, s => .done (false, length) s
  | tries + 1, length, s =>
    let hdr_found := (s.m_pipeData.deref &&& HDR_MASK) == HDR_MASK
    match advance s with
    | .done _ s1 =>
      if hdr_found then .done (true, length + 1) s1 else find_hdr_loop tries (length + 1) s1
    | .raised e s1 => .raised e s1
    | .outOfFuel s1 => .outOfFuel s1

/-- The `find_hdr` member: the flag returned and the value left in `length`. -/
def find_hdr (s : CVtpcLineParser) : Run CVtpcLineParser (Bool × Nat) :=
  find_hdr_loop TRY_MAX 0 s

/-- The `switch (m_numChips)` of the filling loop: one word per chip. -/
def moveChips (s : CVtpcLineParser) : Run CVtpcLineParser Unit :=
  if s.m_numChips = 1 then
    MOVA s
  else if s.m_numChips = 2 then
    match MOVA s with
    | .done _ s1 => MOVB s1
    | r => r
  else if s.m_numChips = 3 then
    match MOVA s with
    | .done _ s1 =>
      match MOVB s1 with
      | .done _ s2 => MOVC s2
      | r => r
    | r => r
  else
    .raised .unsupportedChips s

/-- The loop `while (!eol_found) { switch ...; eol_found = ...; count++; }` of
`get_line`, the state paired with the local `count`. -/
def fillLine : Nat → CVtpcLineParser → Nat → Run (CVtpcLineParser × Nat) Unit
  | 0, s, count => .outOfFuel (s, count)
  | fuel + 1, s, count =>
    if isEOL s.m_pipeData.deref then
      .done () (s, count)
    else
      match moveChips s with
      | .done _ s1 => fillLine fuel s1 (count + 1)
      | .raised e s1 => .raised e (s1, count)
      | .outOfFuel s1 => .outOfFuel (s1, count)

/-- The `try` block of `get_line`. -/
def get_line_try (s : CVtpcLineParser) : Run (CVtpcLineParser × Nat) Unit :=
  match reset_ptrs s with
  | .raised e s1 => .raised e (s1, 0)
  | .outOfFuel s1 => .outOfFuel (s1, 0)
  | .done _ s1 =>
    match align s1 0 with
    | .raised e s2 => .raised e (s2, 0)
    | .outOfFuel s2 => .outOfFuel (s2, 0)
    | .done _ s2 => fillLine (s2.m_bufferSize + 1) s2 0

/-- The statements of `get_line` after the `catch` block. -/
def get_line_end (s : CVtpcLineParser) (count : Nat) (eol_found : Bool) :
    Run CVtpcLineParser Bool :=
  if count = s.m_chip_height then
    .done eol_found s
  else if !s.m_quiet then
    .done eol_found { s with m_errCount := s.m_errCount + 1 }
  else
    .done eol_found s

/-- The `get_line()` member. The handler looks for "short line detected", then
"long line detected", then "EOD" in the message and has no other branch; the
result of `find_hdr` is dropped, so that `eol_found` stays false after a long
line. A failure raised by `find_hdr` inside the handler leaves `get_line`. -/
def get_line (s : CVtpcLineParser) : Run CVtpcLineParser Bool :=
  match get_line_try s with
  | .done _ (s1, count) => get_line_end s1 count true
  | .outOfFuel (s1, _) => .outOfFuel s1
  | .raised e (s1, count) =>
    match e with
    | .shortLine => get_line_end s1 count true
    | .longLine =>
      match find_hdr s1 with
      | .done _ s2 => get_line_end s2 count false
      | .raised e2 s2 => .raised e2 s2
      | .outOfFuel s2 => .outOfFuel s2
    | .EOD => .done false s1
    | _ => get_line_end s1 count false

end CVtpcLineParser

end Vt

namespace Vt

/-! ## Outcomes of the calibration code -/

/-- Outcome of a computation of the calibration code. -/
inductive Calc (α : Type) where
  /-- The computation returns. -/
  | value (a : α)
  /-- The computation raises with `Vt_fail`. -/
  | failed (e : Failure)
  /-- An access outside an allocation, or a read of an element never set. -/
  | undefined
  /-- A division by zero: the `double` result is no finite number. -/
  | notFinite
  /-- A loop used up its fuel. -/
  | outOfFuel
  deriving DecidableEq, Repr

namespace Calc

/-- Sequencing: the first outcome that is not a value ends the computation. -/
def bind {α β : Type} (x : Calc α) (f : α → Calc β) : Calc β :=
  match x with
  | .value a => f a
  | .failed e => .failed e
  | .undefined => .undefined
  | .notFinite => .notFinite
  | .outOfFuel => .outOfFuel

instance : Monad Calc where
  pure := Calc.value
  bind := Calc.bind

/-- The outcome with a function applied to the value returned. -/
def view {α β : Type} (f : α → β) (x : Calc α) : Calc β :=
  Calc.bind x fun a => .value (f a)

end Calc

/-- The element `xs[i]` of an array. -/
def readAt {α : Type} (xs : List α) (i : Nat) : Calc α :=
  match xs[i]? with
  | some a => .value a
  | none => .undefined

/-- The assignment `xs[i] = v` to an array. -/
def writeAt {α : Type} (xs : List α) (i : Nat) (v : α) : Calc (List α) :=
  if i < xs.length then .value (xs.set i v) else .undefined

/-- The quotient `a / b` of two `double` values. -/
def fdiv (a b : ℚ) : Calc ℚ :=
  if b = 0 then .notFinite else .value (a / b)

/-- The difference `a - b` of two `vt_ulong` values (32 bits). -/
def usub32 (a b : Nat) : Nat :=
  (a % 4294967296 + 4294967296 - b % 4294967296) % 4294967296

/-- The value `USHRT_MAX`. -/
def USHRT_MAX : Nat := 65535

/-- The conversion of a `double` to `vt_ushort`: the fraction is dropped (towards
zero) and the value is taken modulo 2^16. -/
def toUShort (x : ℚ) : Nat :=
  ((if 0 ≤ x then ⌊x⌋ else -⌊-x⌋) % 65536).toNat

/-- The conversion of an `int` to `vt_ushort`: the value modulo 2^16. -/
def intToUShort (x : Int) : Nat := (x % 65536).toNat

/-! ## Images: `CVtImage<vt_ushort>` -/

/-- An image: `m_lines` holds `m_height` rows of `m_width` pixels. -/
structure CVtImage where
  m_width : Nat
  m_height : Nat
  m_lines : List (List Nat)
  deriving DecidableEq, Repr

namespace CVtImage

/-- The constructor `CVtImage(width, height, d)`: every pixel is `d`; nothing is
allocated when `width * height` is 0. -/
def filled (width height d : Nat) : CVtImage :=
  { m_width := width, m_height := height,
    m_lines := if width * height > 0 then List.replicate height (List.replicate width d)
               else [] }

end CVtImage

/-- The API types of `CVtAPI`. -/
inductive API_TYPE where
  | INVALID_API
  | PANO_API
  | CEPH_API
  | HDS15_API
  | HDS20_API
  | MAX_API_NUM
  deriving DecidableEq, Repr

/-! ## Row means -/

/-- The inner loop of `row_mean`: the sum of the first `width` pixels of row `row`. -/
def rowSum (data : List (List Nat)) (width row : Nat) : Calc ℚ :=
  (readAt data row).bind fun r =>
    if r.length < width then .undefined else .value (((r.take width).sum : Nat) : ℚ)

/-- The outer loop of `row_mean` with `n` rows left from `row` on: the means
stored so far and the running total. -/
def rowMeanLoop (data : List (List Nat)) (width : Nat) :
    Nat → Nat → List ℚ → ℚ → Calc (List ℚ × ℚ)
  | 0, _, row_means, tot_sum => .value (row_means, tot_sum)
  | n + 1, row, row_means, tot_sum =>
    (rowSum data width row).bind fun sum =>
    (fdiv sum width).bind fun m =>
    (writeAt row_means row m).bind fun row_means1 =>
      rowMeanLoop data width n (row + 1) row_means1 (tot_sum + sum)

/-- The function `row_mean(row_means, data, width, row_start, row_end)`: the row
means stored into `row_means` and the overall mean returned. -/
def row_mean (row_means : List ℚ) (data : List (List Nat)) (width row_start row_end : Nat) :
    Calc (List ℚ × ℚ) :=
  (rowMeanLoop data width (row_end - row_start) row_start row_means 0).bind fun r =>
  (fdiv r.2 ((width : ℚ) * ((row_end : ℚ) - (row_start : ℚ)))).bind fun mean =>
    .value (r.1, mean)

/-! ## The line-sensor calibration: `CVtHalfLineCalib<vt_ushort, double>` -/

/-- The state of `CVtHalfLineCalib`; a null coefficient array is the empty list.
`m_smooth` is a constant false and `m_max_coef` the constant `MAX_COEF`. -/
structure CVtHalfLineCalib where
  m_bright : CVtImage
  m_dark : CVtImage
  m_chip_height : Nat
  m_numChips : Nat
  m_darkC : List ℚ
  m_brightC : List ℚ
  m_coef : List ℚ
  m_initialised : Bool
  m_pedestal : ℚ
  deriving DecidableEq, Repr

namespace CVtHalfLineCalib

def MAX_COEF : ℚ := 4
def DEFAULT_PEDESTAL : ℚ := 1000

/-- The constant `eps = 0.000001` of the main loop of `recalc`. -/
def eps : ℚ := 1 / 1000000

/-- The constructor `CVtHalfLineCalib(height, numChips)`. -/
def create (height numChips : Nat) : CVtHalfLineCalib :=
  { m_bright := ⟨0, 0, []⟩, m_dark := ⟨0, 0, []⟩, m_chip_height := height,
    m_numChips := numChips, m_darkC := [], m_brightC := [], m_coef := [],
    m_initialised := false, m_pedestal := DEFAULT_PEDESTAL }

/-- The locals of the main loop of `recalc`. An element of `dfvec` is `none` until
it is assigned. -/
structure CoefLoop where
  m_coef : List ℚ
  dfvec : List (Option ℚ)
  dfsum : ℚ
  dfsumsq : ℚ
  dfcnt : Nat
  deriving DecidableEq, Repr

/-- The gain that the main loop of `recalc` stores for a row with the difference
`diff` of its bright and dark means. -/
def gainOf (mean_signal diff : ℚ) : ℚ :=
  if diff > eps then
    if mean_signal / diff > MAX_COEF then 0 else mean_signal / diff
  else 0

/-- One iteration of the main loop of `recalc`, for the row `row`. -/
def coefStep (darkC brightC : List ℚ) (mean_signal : ℚ) (row : Nat) (st : CoefLoop) :
    Calc CoefLoop :=
  (readAt brightC row).bind fun b =>
  (readAt darkC row).bind fun d =>
  (writeAt st.m_coef row (gainOf mean_signal (b - d))).bind fun coef1 =>
  if b - d > eps ∧ row > 0 then
    (readAt coef1 (row - 1)).bind fun prev =>
    (writeAt st.dfvec row (some |prev - gainOf mean_signal (b - d)|)).bind fun dfvec1 =>
    .value { m_coef := coef1, dfvec := dfvec1,
             dfsum := st.dfsum + |prev - gainOf mean_signal (b - d)|,
             dfsumsq := st.dfsumsq + |prev - gainOf mean_signal (b - d)| *
               |prev - gainOf mean_signal (b - d)|,
             dfcnt := st.dfcnt + 1 }
  else
    .value { st with m_coef := coef1 }

/-- The main loop `for (row = start_row + 1; row < end_row; row++)` of `recalc`,
with `n` rows left from `row` on. -/
def coefLoop (darkC brightC : List ℚ) (mean_signal : ℚ) :
    Nat → Nat → CoefLoop → Calc CoefLoop
  | 0, _, st => .value st
  | n + 1, row, st =>
    (coefStep darkC brightC mean_signal row st).bind fun st1 =>
      coefLoop darkC brightC mean_signal n (row + 1) st1

/-- The comparison `df > 3 * df_std` with `df_std = sqrt(var)`, without the square
root: for `var ≥ 0` it holds exactly when `df > 0` and `df * df > 9 * var`; the
square root of a negative number is no number and the comparison is false. -/
def exceeds3Std (df var : ℚ) : Bool :=
  decide (0 ≤ var ∧ 0 < df ∧ 9 * var < df * df)

/-- The body `if (dfvec[row] > 3 * df_std) m_coef[row] = 0.0;` of the loop of
`recalc` that is to reject the outliers. -/
def rejectStep (dfvec : List (Option ℚ)) (var : ℚ) (row : Nat) (coef : List ℚ) :
    Calc (List ℚ) :=
  (readAt dfvec row).bind fun v =>
    match v with
    | none => .undefined
    | some df => if exceeds3Std df var then writeAt coef row 0 else .value coef

/-- The loop `for (row = start_row + 1; end_row < height; row++)` of `recalc` that
is to reject the outliers. Its condition does not depend on `row`: the loop is
not entered when `end_row < height` fails, and otherwise only ends by reading
`dfvec` behind its last element (or an element never set). -/
def rejectLoop (end_row height : Nat) (dfvec : List (Option ℚ)) (var : ℚ) :
    Nat → Nat → List ℚ → Calc (List ℚ)
  | 0, _, _ => .outOfFuel
  | fuel + 1, row, coef =>
    if end_row < height then
      (rejectStep dfvec var row coef).bind fun coef1 =>
        rejectLoop end_row height dfvec var fuel (row + 1) coef1
    else
      .value coef

/-- The block of `recalc` under `if (mean_signal != 0)`: the main loop and the
rejection of the outliers; the coefficients it leaves in `m_coef`. -/
def recalcCoef (darkC brightC : List ℚ) (mean_signal : ℚ) (start_row end_row height : Nat) :
    Calc (List ℚ) :=
  (coefLoop darkC brightC mean_signal (end_row - (start_row + 1)) (start_row + 1)
      { m_coef := List.replicate height 0, dfvec := List.replicate height none, dfsum := 0,
        dfsumsq := 0, dfcnt := 0 }).bind fun st =>
    if st.dfcnt > 0 then
      rejectLoop end_row height st.dfvec
        (st.dfsumsq / st.dfcnt - st.dfsum / st.dfcnt * (st.dfsum / st.dfcnt))
        (height + 1) (start_row + 1) st.m_coef
    else
      .value st.m_coef

/-- The first row of the active range: `m_chip_height` in pano mode, 0 otherwise. -/
def startRow (s : CVtHalfLineCalib) (api_type : API_TYPE) : Nat :=
  if api_type = .PANO_API then s.m_chip_height else 0

/-- The end of the active row range. -/
def endRow (s : CVtHalfLineCalib) : Nat := s.m_numChips * s.m_chip_height

/-- The member `recalc(BrightFrame, DarkFrame)`, with the API type that it reads
from the API object as an argument. The smoothing branches are left out, as
`m_smooth` is a constant false. -/
def recalc (s : CVtHalfLineCalib) (api_type : API_TYPE) (BrightFrame DarkFrame : CVtImage) :
    Calc CVtHalfLineCalib :=
  if BrightFrame.m_height ≠ DarkFrame.m_height then .failed .invalidFrames else
  let height := BrightFrame.m_height
  (row_mean (List.replicate height 0) DarkFrame.m_lines DarkFrame.m_width
      (startRow s api_type) (endRow s)).bind fun dark =>
  (row_mean (List.replicate height 0) BrightFrame.m_lines BrightFrame.m_width
      (startRow s api_type) (endRow s)).bind fun bright =>
  let mean_signal := bright.2 - dark.2
  if mean_signal ≠ 0 then
    (recalcCoef dark.1 bright.1 mean_signal (startRow s api_type) (endRow s) height).bind
      fun coef =>
        .value { s with m_bright := BrightFrame, m_dark := DarkFrame, m_darkC := dark.1,
                        m_brightC := bright.1, m_coef := coef, m_initialised := true }
  else
    .failed .invalidDarkOrBright

end CVtHalfLineCalib

end Vt

namespace Vt

/-! ## The A/B tile offset: `VtABDiff.h` -/

namespace CVtRectPairs

def RECT_SIZE : Nat := 32
def OFFSET : Nat := 3
def RECT_SPACING : Nat := 32
def NUM_RECTS : Nat := 40

end CVtRectPairs

/-- A rectangle `CVtRect`: origin `(x, y)` (column, row) and size. -/
structure CVtRect where
  x : Nat
  y : Nat
  xsize : Nat
  ysize : Nat
  deriving DecidableEq, Repr

/-- The constructor `CVtRectPairs(ab_split)`: 40 pairs of a rectangle above and a
rectangle below the split, 32 columns apart. -/
def CVtRectPairs.create (ab_split : Nat) : List (CVtRect × CVtRect) :=
  (List.range CVtRectPairs.NUM_RECTS).map fun rectno =>
    let tl_col := CVtRectPairs.RECT_SPACING * (rectno + 1)
    (⟨tl_col, usub32 ab_split (CVtRectPairs.RECT_SIZE + CVtRectPairs.OFFSET),
        CVtRectPairs.RECT_SIZE, CVtRectPairs.RECT_SIZE⟩,
     ⟨tl_col, ab_split + CVtRectPairs.OFFSET, CVtRectPairs.RECT_SIZE, CVtRectPairs.RECT_SIZE⟩)

/-- The pixels `in[row][c_start .. c_end)` read by the inner loop of `roi_mu_std`. -/
def roiRow (im : List (List Nat)) (row c_start c_end : Nat) : Calc (List Nat) := do
  let r ← readAt im row
  if c_end ≤ c_start then pure []
  else if r.length < c_end then .undefined
  else pure ((r.take c_end).drop c_start)

/-- The pixels of the rows `[row, row + n)` of a region of interest. -/
def roiPixels (im : List (List Nat)) (c_start c_end : Nat) : Nat → Nat → Calc (List Nat)
  | 0, _ => pure []
  | n + 1, row => do
    let r ← roiRow im row c_start c_end
    let rest ← roiPixels im c_start c_end n (row + 1)
    pure (r ++ rest)

/-- The function `roi_mu_std`: the count returned and, when it is not 0, the mean
and the variance stored through `xbar` and `var`. The squares are exact. -/
def roi_mu_std (im : List (List Nat)) (r : CVtRect) : Calc (Nat × Option (ℚ × ℚ)) := do
  let px ← roiPixels im r.x (r.x + r.xsize) r.ysize r.y
  let cnt := px.length
  if cnt = 0 then pure (0, none) else
  let sum : ℚ := ((px.sum : Nat) : ℚ)
  let sumsq : ℚ := (((px.map fun v => v * v).sum : Nat) : ℚ)
  let ave := sum / cnt
  pure (cnt, some (ave, sumsq / cnt - ave * ave))

/-- The function `pooled_var`; the factor `(n1 + n2) / (n1 * n2)` is an integer
division. -/
def pooled_var (var1 : ℚ) (n1 : Nat) (var2 : ℚ) (n2 : Nat) : Calc ℚ :=
  if n1 = 0 ∨ n2 = 0 then pure (-1) else do
  let mult : ℚ := (((n1 + n2) / (n1 * n2) : Nat) : ℚ)
  let pv ← fdiv (((n1 : ℚ) - 1) * var1 + ((n2 : ℚ) - 1) * var2) ((n1 : ℚ) + n2 - 2)
  pure (mult * pv)

/-- The statistics `VAR_STATS` kept for a pair of rectangles. -/
structure VAR_STATS where
  pooled_var : ℚ
  xbar1 : ℚ
  xbar2 : ℚ
  deriving DecidableEq, Repr

/-- The member `roi_pooled_var`: both statistics are taken over the top rectangle,
into locals. A variance that was not stored (empty rectangle) is not used by
`pooled_var`, which returns -1 for a count of 0. -/
def roi_pooled_var (im : List (List Nat)) (top_rect _bot_rect : CVtRect) : Calc ℚ := do
  let (n1, s1) ← roi_mu_std im top_rect
  let (n2, s2) ← roi_mu_std im top_rect
  pooled_var (s1.elim 0 Prod.snd) n1 (s2.elim 0 Prod.snd) n2

/-- Insertion into a list of statistics ordered by `pooled_var`. -/
def insertStat (a : VAR_STATS) : List VAR_STATS → List VAR_STATS
  | [] => [a]
  | b :: bs => if a.pooled_var < b.pooled_var then a :: b :: bs else b :: insertStat a bs

/-- The call `std::sort(stats.begin(), stats.end(), compare_objects)`. -/
def sortStats (l : List VAR_STATS) : List VAR_STATS := l.foldr insertStat []

/-- The statistics collected by `CVtABDiff::operator()`, in the order of the pairs.
The means recorded are the members `m_xbar1` and `m_xbar2`, which stay at the 0.0
of the constructor. -/
def collectStats (im : List (List Nat)) : List (CVtRect × CVtRect) → Calc (List VAR_STATS)
  | [] => pure []
  | (top, bot) :: rest => do
    let pv ← roi_pooled_var im top bot
    let stats ← collectStats im rest
    pure ({ pooled_var := pv, xbar1 := 0, xbar2 := 0 } :: stats)

/-- The member `ABoffset(ab_split, out)`, that is `CVtABDiff(ab_split)(out)`: the
difference of the means summed over the four pairs of smallest pooled variance. -/
def ABoffset (ab_split : Nat) (out : List (List Nat)) : Calc ℚ := do
  let stats ← collectStats out (CVtRectPairs.create ab_split)
  let best := (sortStats stats).take 4
  if best.length < 4 then .undefined else
  let sum1 := (best.map VAR_STATS.xbar1).sum
  let sum2 := (best.map VAR_STATS.xbar2).sum
  pure ((sum1 - sum2) / 4)

/-! ## Applying the line-sensor calibration -/

namespace CVtHalfLineCalib

/-- The local `overshoot = RECT_SIZE + OFFSET + 2` of `operator()`. -/
def overshoot : Nat := CVtRectPairs.RECT_SIZE + CVtRectPairs.OFFSET + 2

/-- The member `BCoffset(imptr, width)`. -/
def BCoffset (s : CVtHalfLineCalib) (imptr : List (List Nat)) (width : Nat) : Calc ℚ :=
  (readAt imptr (usub32 (2 * s.m_chip_height) 2)).bind fun prow1 =>
  (readAt imptr (2 * s.m_chip_height + 1)).bind fun prow2 =>
    if width = 0 then .notFinite
    else if prow1.length < width ∨ prow2.length < width then .undefined
    else fdiv (((List.zipWith (fun (d1 d2 : Nat) => (d2 : Int) - (d1 : Int)) (prow1.take width)
      (prow2.take width)).sum : Int) : ℚ) width

/-- The value `out` computed for a pixel in the main pass of `operator()`. -/
def calibValue (inp : Nat) (dark coef actual_offset : ℚ) : ℚ :=
  ((inp : ℚ) - dark) * coef + actual_offset

/-- The pixel stored in the main pass of `operator()`. -/
def calibPixel (inp : Nat) (dark coef actual_offset : ℚ) : Nat :=
  let out := calibValue inp dark coef actual_offset
  if out < 0 then 0
  else if out ≥ USHRT_MAX then USHRT_MAX
  else toUShort out

/-- The column loop of the main pass: the first `width` pixels of the output row
are computed from the input row. -/
def calibRow (InVec OutVec : List Nat) (width : Nat) (dark coef actual_offset : ℚ) :
    Calc (List Nat) :=
  if width = 0 then .value OutVec
  else if InVec.length < width ∨ OutVec.length < width then .undefined
  else .value ((InVec.take width).map (calibPixel · dark coef actual_offset) ++
    OutVec.drop width)

/-- The locals of the main pass of `operator()` together with the output rows. -/
structure ApplyLoop where
  out : List (List Nat)
  row : Int
  c1to2_done : Bool
  c2to3_done : Bool
  offset : ℚ
  deriving DecidableEq, Repr

/-- The seam branch of the main pass: at the row `m_chip_height - overshoot` the
A/B offset is taken (0 in pano mode) and `row` goes back to the A/B boundary; at
the row `2 * m_chip_height - overshoot` the B/C offset is taken and `row` goes
back to the B/C boundary; each once. The comparison is on 32-bit unsigned values. -/
def seamStep (s : CVtHalfLineCalib) (api_type : API_TYPE) (width : Nat) (st : ApplyLoop) :
    Calc ApplyLoop :=
  if st.row.toNat % 4294967296 = usub32 s.m_chip_height overshoot ∧ st.c1to2_done = false then
    (if api_type = .PANO_API then .value 0 else ABoffset s.m_chip_height st.out).bind
      fun offset =>
        .value { st with offset := offset, row := s.m_chip_height, c1to2_done := true }
  else if st.row.toNat % 4294967296 = usub32 (2 * s.m_chip_height) overshoot ∧
      st.c2to3_done = false then
    (BCoffset s st.out width).bind fun offset =>
      .value { st with offset := offset, row := 2 * s.m_chip_height, c2to3_done := true }
  else
    .value st

/-- One iteration of the main pass, for `st.row ≥ 0`. The rows `InVec` and `OutVec`
and the coefficients are those of the row at which the iteration starts, also when
the seam branch moves `row` back to the chip boundary. -/
def applyStep (s : CVtHalfLineCalib) (api_type : API_TYPE) (inptr : List (List Nat))
    (width : Nat) (st : ApplyLoop) : Calc ApplyLoop :=
  (readAt inptr st.row.toNat).bind fun InVec =>
  (readAt s.m_darkC st.row.toNat).bind fun dark =>
  (readAt s.m_coef st.row.toNat).bind fun coef =>
  (readAt st.out st.row.toNat).bind fun OutVec =>
  (seamStep s api_type width st).bind fun st1 =>
  (calibRow InVec OutVec width dark coef (s.m_pedestal + st1.offset)).bind fun newRow =>
    .value { st1 with out := st1.out.set st.row.toNat newRow, row := st1.row - 1 }

/-- The main pass `for (row = m_chip_height * m_numChips - 1; row >= 0; row--)`. -/
def applyLoop (s : CVtHalfLineCalib) (api_type : API_TYPE) (inptr : List (List Nat))
    (width : Nat) : Nat → ApplyLoop → Calc ApplyLoop
  | 0, _ => .outOfFuel
  | fuel + 1, st =>
    if st.row < 0 then .value st
    else
      (applyStep s api_type inptr width st).bind fun st1 =>
        applyLoop s api_type inptr width fuel st1

/-- The value `new_val` that `gap_fixAB` computes for a pixel. -/
def gapValueAB (vm vp : Nat) (mult_fac : ℚ) : ℚ :=
  (vm : ℚ) + mult_fac * (((vp : Int) - (vm : Int) : Int) : ℚ)

/-- The column loop of `gap_fixAB` for one row of the band. -/
def gapRowAB (VecM VecP Vec : List Nat) (width : Nat) (mult_fac : ℚ) : Calc (List Nat) :=
  if width = 0 then .value Vec
  else if VecM.length < width ∨ VecP.length < width ∨ Vec.length < width then .undefined
  else .value (List.zipWith (fun vm vp => toUShort (gapValueAB vm vp mult_fac))
    (VecM.take width) (VecP.take width) ++ Vec.drop width)

/-- The row loop of `gap_fixAB` with `n` rows left: `k` rows of the band are done,
the factor of the next one is `(k + 1) / 9`. The reference rows are read through
the pointers taken before the loop, so that a reference row rewritten by the loop
is read with its new contents. -/
def gapLoopAB (rowM rowP width : Nat) : Nat → Nat → List (List Nat) → Calc (List (List Nat))
  | 0, _, im => .value im
  | n + 1, k, im =>
    (readAt im rowM).bind fun VecM =>
    (readAt im rowP).bind fun VecP =>
    (readAt im (rowM + k)).bind fun Vec =>
    (gapRowAB VecM VecP Vec width (((k : ℚ) + 1) / 9)).bind fun newRow =>
      gapLoopAB rowM rowP width n (k + 1) (im.set (rowM + k) newRow)

/-- The member `gap_fixAB(imptr, pos, width)`: the band is the rows
`[pos - 2, pos + 7)`. -/
def gap_fixAB (imptr : List (List Nat)) (pos width : Nat) : Calc (List (List Nat)) :=
  (readAt imptr (pos + 7)).bind fun _ =>
  (readAt imptr (usub32 pos 2)).bind fun _ =>
    gapLoopAB (usub32 pos 2) (pos + 7) width (pos + 7 - usub32 pos 2) 0 imptr

/-- The value that `gap_fix` computes for a pixel, in `int` arithmetic. -/
def gapValue (vm1 vp1 : Nat) : Int :=
  (vm1 : Int) + Int.tdiv ((vp1 : Int) - (vm1 : Int)) 2

/-- The member `gap_fix(imptr, pos, width)`: the row `pos - 1` becomes the mean of
its two neighbours. -/
def gap_fix (imptr : List (List Nat)) (pos width : Nat) : Calc (List (List Nat)) :=
  (readAt imptr pos).bind fun VecP1 =>
  (readAt imptr (usub32 pos 1)).bind fun Vec =>
  (readAt imptr (usub32 pos 2)).bind fun VecM1 =>
    if width = 0 then .value imptr
    else if VecP1.length < width ∨ Vec.length < width ∨ VecM1.length < width then .undefined
    else .value (imptr.set (usub32 pos 1)
      (List.zipWith (fun vm1 vp1 => intToUShort (gapValue vm1 vp1))
        (VecM1.take width) (VecP1.take width) ++ Vec.drop width))

/-- The member `operator()(InFrame, OutFrame)`: the output frame after the call. -/
def apply (s : CVtHalfLineCalib) (api_type : API_TYPE) (InFrame OutFrame : CVtImage) :
    Calc CVtImage :=
  if s.m_initialised = false then .value OutFrame else
  (applyLoop s api_type InFrame.m_lines InFrame.m_width
      (s.m_chip_height * s.m_numChips + 2 * overshoot + 2)
      { out := OutFrame.m_lines, row := ((s.m_chip_height * s.m_numChips : Nat) : Int) - 1,
        c1to2_done := false, c2to3_done := false, offset := 0 }).bind fun st =>
  (gap_fixAB st.out s.m_chip_height InFrame.m_width).bind fun o1 =>
  (gap_fix o1 (2 * s.m_chip_height) InFrame.m_width).bind fun o2 =>
    .value { OutFrame with m_lines := o2 }

end CVtHalfLineCalib

end Vt

namespace Vt

/-! ## Auxiliary definitions for the statements -/

/-- Write the values `vs` into `buf` at consecutive indices from `i` on. -/
def store : List Nat → Nat → List Nat → List Nat
  | buf, _, [] => buf
  | buf, i, v :: vs => store (buf.set i v) (i + 1) vs

/-- The clamp as the specification words it: 0 below 0, 65535 at or above 65535,
the integer part otherwise; no reduction modulo 2^16. -/
def clampExact (x : ℚ) : Nat :=
  if x < 0 then 0 else if x ≥ 65535 then 65535 else ⌊x⌋.toNat

/-- The main pass of apply on a uniform frame of `3 * h` rows of `W` pixels, seen
between two iterations: no seam offset so far, the output has its `3 * h` rows of
`W` pixels, and every row above `row` holds the value `c` in all its pixels. -/
def CVtHalfLineCalib.UniformPass (h W c : Nat) (st : CVtHalfLineCalib.ApplyLoop) : Prop :=
  st.offset = 0 ∧ st.out.length = 3 * h ∧
    (∀ r, r < 3 * h → (st.out.getD r []).length = W) ∧
    (∀ r : Nat, st.row < (r : Int) → r < 3 * h → st.out.getD r [] = List.replicate W c) ∧
    -1 ≤ st.row ∧ st.row < ((3 * h : Nat) : Int)

/-- A bound on the iterations that the main pass of apply still makes: the rows
below, and 37 rows for each seam not yet crossed. -/
def CVtHalfLineCalib.passMeasure (st : CVtHalfLineCalib.ApplyLoop) : Nat :=
  (st.row + 1).toNat + (if st.c1to2_done = true then 0 else 37) +
    (if st.c2to3_done = true then 0 else 37)

/-- The part of the multi-chip parser that bounds its filling loop: the cursor and
the limit of chip A, the buffer size and the number of chips. -/
def CVtpcLineParser.frameA (s : CVtpcLineParser) : Nat × Nat × Nat × Nat :=
  (s.m_chipABuff, s.m_AEnd, s.m_bufferSize, s.m_numChips)

end Vt

namespace Vt

/-! ## Concrete inputs -/

/-- A line of two samples in one raw buffer of five words. -/
def hdsFullLine : CVthdsLineParser :=
  CVthdsLineParser.init
    (CVtUSBPipeData.init [[0x8001, 0x1234, 0x0fff, 0xC000, 0x8002, 0xdead]] 5 false) 2 true 7

/-- A short line in quiet mode: line length 2, one data word before the end of line. -/
def hdsShortLine : CVthdsLineParser :=
  CVthdsLineParser.init
    (CVtUSBPipeData.init [[0x8001, 0x1234, 0xC000, 0x8002, 0x0001, 0xdead]] 5 false) 2 true 7

/-- A header word directly followed by the end-of-line word, then the end of the data. -/
def hdsEmptyLine : CVthdsLineParser :=
  CVthdsLineParser.init (CVtUSBPipeData.init [[0x8001, 0xC000, 0xdead]] 2 false) 2 true 7

/-- An overlong line (three data words for a line length of 2) followed by a
well-formed line, in one raw buffer. -/
def hdsLongLine : CVthdsLineParser :=
  CVthdsLineParser.init
    (CVtUSBPipeData.init
      [[0x8001, 0x1111, 0x2222, 0x3333, 0xC000, 0x8002, 0x1abc, 0x2def, 0xC000, 0x8003, 0xdead]]
      10 false) 2 true 7

/-- The parser `hdsLongLine` with messages on (not quiet). -/
def hdsLongLineLoud : CVthdsLineParser := { hdsLongLine with m_quiet := false }

/-- The parser `hdsFullLine` with messages on (not quiet). -/
def hdsFullLineLoud : CVthdsLineParser := { hdsFullLine with m_quiet := false }

/-- An overlong line that runs into the end of the data: line length 2, a header
word and four data words in the only raw buffer (single-chip parser). -/
def hdsLongAtEnd : CVthdsLineParser :=
  CVthdsLineParser.init
    (CVtUSBPipeData.init [[0x8001, 0x0001, 0x0002, 0x0003, 0x0004, 0xdead]] 5 false) 2 true 7

/-- The same stream read by the multi-chip parser configured with one chip. -/
def pcLongAtEnd : CVtpcLineParser :=
  CVtpcLineParser.init
    (CVtUSBPipeData.init [[0x8001, 0x0001, 0x0002, 0x0003, 0x0004, 0xdead]] 5 false) 1 2 true 7

/-- Three chips, chip height 1: the first data word after the header carries the
chip tag `0x3000`. -/
def pcBadTag3 : CVtpcLineParser :=
  CVtpcLineParser.init
    (CVtUSBPipeData.init [[0x8001, 0x3005, 0x1006, 0x2007, 0xC000, 0x8002, 0xdead]] 6 false)
    3 3 true 7

/-- Two chips, chip height 1: the first data word after the header carries the
chip tag `0x2000`. -/
def pcBadTag2 : CVtpcLineParser :=
  CVtpcLineParser.init
    (CVtUSBPipeData.init [[0x8001, 0x2005, 0x1006, 0xC000, 0x8002, 0xdead]] 5 false)
    2 2 true 7

/-- The three coefficient arrays of a calibration. -/
def CVtHalfLineCalib.coefs (s : CVtHalfLineCalib) : List ℚ × List ℚ × List ℚ :=
  (s.m_darkC, s.m_brightC, s.m_coef)

/-- The locals of the main loop of `recalc` for uniform frames of 10 rows with
dark 100 and bright 300 in ceph mode, after the loop. -/
def uniformTenLoop : CVtHalfLineCalib.CoefLoop :=
  { m_coef := [0, 1, 1, 1, 1, 1, 1, 1, 1, 1],
    dfvec := [none, some 1, some 0, some 0, some 0, some 0, some 0, some 0, some 0, some 0],
    dfsum := 1, dfsumsq := 1, dfcnt := 9 }

/-- A calibration with dark 100 and gain 1 on each of the `h * n` rows, pedestal
1000, marked initialised. -/
def unitCalib (h n : Nat) : CVtHalfLineCalib :=
  { m_bright := ⟨0, 0, []⟩, m_dark := ⟨0, 0, []⟩, m_chip_height := h, m_numChips := n,
    m_darkC := List.replicate (h * n) 100, m_brightC := List.replicate (h * n) 300,
    m_coef := List.replicate (h * n) 1, m_initialised := true, m_pedestal := 1000 }

/-- The main pass of apply before its first iteration on a 12-row output of zeros. -/
def firstPass : CVtHalfLineCalib.ApplyLoop :=
  { out := List.replicate 12 [0, 0, 0], row := 11, c1to2_done := false, c2to3_done := false,
    offset := 0 }

/-- The main pass after the iteration for row 11 on an input of all 150. -/
def firstPassDone : CVtHalfLineCalib.ApplyLoop :=
  { out := List.replicate 11 [0, 0, 0] ++ [[1050, 1050, 1050]], row := 10,
    c1to2_done := false, c2to3_done := false, offset := 0 }

/-- A dark frame of four rows of one pixel, all 0. -/
def darkFour : CVtImage := { m_width := 1, m_height := 4, m_lines := [[0], [0], [0], [0]] }

/-- A bright frame of four rows of one pixel: 10, 50, 0 and 1000. -/
def brightFour : CVtImage :=
  { m_width := 1, m_height := 4, m_lines := [[10], [50], [0], [1000]] }

/-- The calibration that `recalc` computes from `brightFour` and `darkFour` for 2
chips of height 2 in ceph mode: the mean signal is 265; row 0 is not visited, the
gain 265/50 of row 1 exceeds 4, row 2 has no signal, row 3 has the gain 265/1000. -/
def calibFour : CVtHalfLineCalib :=
  { m_bright := brightFour, m_dark := darkFour, m_chip_height := 2, m_numChips := 2,
    m_darkC := [0, 0, 0, 0], m_brightC := [10, 50, 0, 1000], m_coef := [0, 0, 0, 53 / 200],
    m_initialised := true, m_pedestal := 1000 }

end Vt

namespace Vt

/-! ## Statement-level definitions for `recalc` -/

/-- An image whose row table has `m_height` rows of `m_width` pixels each. -/
def CVtImage.WF (im : CVtImage) : Prop :=
  im.m_lines.length = im.m_height ∧ ∀ r ∈ im.m_lines, r.length = im.m_width

instance (im : CVtImage) : Decidable im.WF := by
  unfold CVtImage.WF
  infer_instance

/-- The sum of all pixels of the rows `[row_start, row_end)` of an image. -/
def CVtImage.activeSum (im : CVtImage) (row_start row_end : Nat) : Nat :=
  (((im.m_lines.drop row_start).take (row_end - row_start)).map List.sum).sum

/-- The overall mean of an image over the rows `[row_start, row_end)`, as the
specification words it: the sum of the pixels over their number. -/
def CVtImage.activeMean (im : CVtImage) (row_start row_end : Nat) : ℚ :=
  (im.activeSum row_start row_end : ℚ) / ((im.m_width : ℚ) * ((row_end : ℚ) - (row_start : ℚ)))

/-! ## The coefficient file of the line-sensor calibration

The file is the sequence of the `CoefType` values written, in file order. -/

/-- The call `fwrite(p, sizeof(p[0]), n, fpout)` on a coefficient array: its first
`n` elements; reading behind the array is undefined. -/
def fwriteCoefs (p : List ℚ) (n : Nat) : Calc (List ℚ) :=
  if p.length < n then .undefined else .value (p.take n)

/-- The call `IS.read((char *) p, n * sizeof(CoefType))` into a new array of `n`
elements: the array read and the rest of the stream. When the stream ends
before, the elements not read stay unset. -/
def readCoefs (IS : List ℚ) (n : Nat) : Calc (List ℚ × List ℚ) :=
  if IS.length < n then .undefined else .value (IS.take n, IS.drop n)

namespace CVtHalfLineCalib

/-- The member `save(FILE *fpout)` on an open file: the values written. -/
def save (s : CVtHalfLineCalib) : Calc (List ℚ) :=
  (fwriteCoefs s.m_darkC (s.m_chip_height * s.m_numChips)).bind fun dark =>
  (fwriteCoefs s.m_brightC (s.m_chip_height * s.m_numChips)).bind fun bright =>
  (fwriteCoefs s.m_coef (s.m_chip_height * s.m_numChips)).bind fun coef =>
    .value (dark ++ bright ++ coef)

/-- The friend `operator>>(IS, Object)` on a good stream: the rest of the stream
and the object read. -/
def load (IS : List ℚ) (Object : CVtHalfLineCalib) : Calc (List ℚ × CVtHalfLineCalib) :=
  (readCoefs IS (Object.m_chip_height * Object.m_numChips)).bind fun dark =>
  (readCoefs dark.2 (Object.m_chip_height * Object.m_numChips)).bind fun bright =>
  (readCoefs bright.2 (Object.m_chip_height * Object.m_numChips)).bind fun coef =>
    .value (coef.2, { Object with m_darkC := dark.1, m_brightC := bright.1, m_coef := coef.1,
                                  m_initialised := true })

end CVtHalfLineCalib

/-! ## Statement-level definitions for apply on two output buffers -/

/-- Two outcomes agree: both return, with values related by `R`, or both end in
the same way without a value. -/
def Calc.Rel {α : Type} (R : α → α → Prop) : Calc α → Calc α → Prop
  | .value a, .value b => R a b
  | .failed e, .failed e1 => e = e1
  | .undefined, .undefined => True
  | .notFinite, .notFinite => True
  | .outOfFuel, .outOfFuel => True
  | _, _ => False

/-- Two states of the main pass of apply that run on two output buffers of `N` rows
of at most `W` pixels, row by row equally long: the locals are equal and the rows
above `row`, which the pass has written, are equal. -/
def CVtHalfLineCalib.SamePass (W N : Nat) (a b : CVtHalfLineCalib.ApplyLoop) : Prop :=
  a.row = b.row ∧ a.c1to2_done = b.c1to2_done ∧ a.c2to3_done = b.c2to3_done ∧
    a.offset = b.offset ∧ a.out.length = N ∧ b.out.length = N ∧ a.row < (N : Int) ∧
    (∀ r, (a.out.getD r []).length ≤ W ∧
      (b.out.getD r []).length = (a.out.getD r []).length) ∧
    (∀ r : Nat, a.row < (r : Int) → a.out.getD r [] = b.out.getD r [])

/-! ## The hardware-identity record: `sensor_info` (`VthdsAPI.h`) -/

/-- The value `SENSOR_INFO_SIZE`. -/
def SENSOR_INFO_SIZE : Nat := 16

/-- The nine fields of `sensor_info`; the member `buf` is the scratch buffer of
the encoder and is returned by `encode`. The widths of the fields in the source
are 32, 16, 8, 16, 16, 8, 8, 16 and 16 bits. -/
structure sensor_info where
  serial_number : Nat
  manufacturing_date : Nat
  sensor_type : Nat
  row : Nat
  col : Nat
  size : Nat
  location : Nat
  detector_batch : Nat
  asic_batch : Nat
  deriving DecidableEq, Repr

namespace sensor_info

/-- The default constructor. -/
def default : sensor_info :=
  { serial_number := 0x12345678, manufacturing_date := 0xDC83, sensor_type := 0x00,
    row := 688, col := 944, size := 1, location := 0, detector_batch := 0, asic_batch := 0 }

/-- The member `byte_shift(byte, bytenum)`, with its `vt_ulong` result (32 bits). -/
def byte_shift (byte bytenum : Nat) : Nat := (byte <<< (8 * bytenum)) % 4294967296

/-- The member `operator=(vt_byte buf[SENSOR_INFO_SIZE])`: the record decoded from
16 bytes. Each assignment narrows to the width of its field. -/
def decode (buf : List Nat) : Calc sensor_info :=
  if buf.length < SENSOR_INFO_SIZE then .undefined else
  let b := fun i => buf.getD i 0
  let serial0 := byte_shift (b 0) 3 % 4294967296
  let serial1 := (serial0 + byte_shift (b 1) 2) % 4294967296
  let serial2 := (serial1 + byte_shift (b 2) 1) % 4294967296
  let serial3 := (serial2 + byte_shift (b 3) 0) % 4294967296
  let date0 := byte_shift (b 4) 1 % 65536
  let date1 := (date0 + byte_shift (b 5) 0) % 65536
  let type0 := byte_shift (b 6) 0 % 256
  let row0 := byte_shift (b 7) 1 % 65536
  let row1 := (row0 + byte_shift (b 8) 0) % 65536
  let col0 := byte_shift (b 9) 1 % 65536
  let col1 := (col0 + byte_shift (b 10) 0) % 65536
  let locsize := b 11
  let det0 := byte_shift (b 12) 1 % 65536
  let det1 := (det0 + byte_shift (b 13) 0) % 65536
  let asic0 := byte_shift (b 14) 1 % 65536
  let asic1 := (asic0 + byte_shift (b 15) 0) % 65536
  .value { serial_number := serial3, manufacturing_date := date1, sensor_type := type0,
           row := row1, col := col1, size := locsize &&& 0x0f,
           location := (locsize &&& 0xf0) >>> 4, detector_batch := det1, asic_batch := asic1 }

/-- The member `operator vt_byte*()`: the 16 bytes encoded from the record. Each
store narrows to a byte. -/
def encode (r : sensor_info) : List Nat :=
  [ ((r.serial_number &&& 0xff000000) >>> (3 * 8)) % 256,
    ((r.serial_number &&& 0x00ff0000) >>> (2 * 8)) % 256,
    ((r.serial_number &&& 0x0000ff00) >>> (1 * 8)) % 256,
    (r.serial_number &&& 0x000000ff) % 256,
    ((r.manufacturing_date &&& 0xff00) >>> (1 * 8)) % 256,
    (r.manufacturing_date &&& 0x00ff) % 256,
    r.sensor_type % 256,
    ((r.row &&& 0xff00) >>> (1 * 8)) % 256,
    (r.row &&& 0x00ff) % 256,
    ((r.col &&& 0xff00) >>> (1 * 8)) % 256,
    (r.col &&& 0x00ff) % 256,
    ((r.size &&& 0x0f) ||| ((r.location &&& 0x0f) <<< 4)) % 256,
    ((r.detector_batch &&& 0xff00) >>> (1 * 8)) % 256,
    (r.detector_batch &&& 0x00ff) % 256,
    ((r.asic_batch &&& 0xff00) >>> (1 * 8)) % 256,
    (r.asic_batch &&& 0x00ff) % 256 ]

/-- The member `operator!=`: the fields are compared one by one. -/
def ne (a rhs : sensor_info) : Bool :=
  if a.serial_number ≠ rhs.serial_number then true
  else if a.manufacturing_date ≠ rhs.manufacturing_date then true
  else if a.sensor_type ≠ rhs.sensor_type then true
  else if a.row ≠ rhs.row then true
  else if a.col ≠ rhs.col then true
  else if a.size ≠ rhs.size then true
  else if a.location ≠ rhs.location then true
  else if a.detector_batch ≠ rhs.detector_batch then true
  else if a.asic_batch ≠ rhs.asic_batch then true
  else false

/-- The member `operator==`. -/
def eq (a rhs : sensor_info) : Bool :=
  if ne a rhs then false else true

/-- The member `length()`. -/
def length : Nat := SENSOR_INFO_SIZE

/-- Every field of the record fits the width of its type, and `size` and
`location` fit in 4 bits. -/
def Fits (r : sensor_info) : Prop :=
  r.serial_number < 4294967296 ∧ r.manufacturing_date < 65536 ∧ r.sensor_type < 256 ∧
    r.row < 65536 ∧ r.col < 65536 ∧ r.size < 16 ∧ r.location < 16 ∧
    r.detector_batch < 65536 ∧ r.asic_batch < 65536

instance (r : sensor_info) : Decidable r.Fits := by
  unfold Fits
  infer_instance

end sensor_info

/-! ## The area-sensor calibration: `CVthdsCalib<vt_ushort, double, vt_byte>` -/

/-- A coefficient image `CVtImage<POLY5COEF>` or `CVtImage<POLY3COEF>`: `m_data`
is the storage behind `begin()`, one `double` per element, `none` while an element
was never set; the coefficients of the pixel `(row, col)` start at the index
`(row * m_width + col) * k`, with `k` doubles per pixel. `m_lines` is null when
`m_width * m_height` is 0. -/
structure CoefImage where
  m_width : Nat
  m_height : Nat
  m_data : List (Option ℚ)
  deriving DecidableEq, Repr

/-- The state of `CVthdsCalib`: `m_data` holds the images of the dataset that the
object refers to, `m_dark` and `m_mask` the frames it refers to. -/
structure CVthdsCalib where
  m_hw_info : sensor_info
  m_cal5 : CoefImage
  m_cal3 : CoefImage
  m_dark : CVtImage
  m_mask : CVtImage
  m_data : List CVtImage
  deriving DecidableEq, Repr

/-- The pixel `im[row][col]` of an image. -/
def CVtImage.pixel (im : CVtImage) (row col : Nat) : Calc Nat :=
  (readAt im.m_lines row).bind fun r => readAt r col

/-- The element `p[i]` of the storage of a coefficient image. -/
def readCoef (p : List (Option ℚ)) (i : Nat) : Calc ℚ :=
  (readAt p i).bind fun v =>
    match v with
    | some x => .value x
    | none => .undefined

/-- The pointer `im[row][col]` to the `k` coefficients of a pixel: the index of the
first of them. -/
def CoefImage.pixelIndex (im : CoefImage) (k row col : Nat) : Calc Nat :=
  if im.m_width * im.m_height = 0 ∨ im.m_height ≤ row then .undefined
  else .value ((row * im.m_width + col) * k)

namespace CVthdsCalib

/-- The loop `for (coefno = 2; coefno < order; coefno++) val = coefs[coefno] + data * val`
of `poly`, with `n` iterations left. -/
def polyLoop (data : ℚ) (p : List (Option ℚ)) (base : Nat) : Nat → Nat → ℚ → Calc ℚ
  | 0, _, val => .value val
  | n + 1, coefno, val =>
    (readCoef p (base + coefno)).bind fun c =>
      polyLoop data p base n (coefno + 1) (c + data * val)

/-- The member `poly(data, coefs, order)`, the coefficients being those from the
index `base` on. -/
def poly (data : ℚ) (p : List (Option ℚ)) (base order : Nat) : Calc ℚ :=
  (readCoef p (base + 1)).bind fun c1 =>
  (readCoef p base).bind fun c0 =>
  (polyLoop data p base (order - 2) 2 (c1 + c0 * data)).bind fun val =>
    .value (val * data)

/-- The loop of `operator()` over the images of the dataset: the signal summed. -/
def sumLoop (s : CVthdsCalib) (base row col : Nat) (dark : ℚ) : List CVtImage → ℚ → Calc ℚ
  | [], sum => .value sum
  | im :: rest, sum =>
    (im.pixel row col).bind fun data =>
    (poly (data : ℚ) s.m_cal5.m_data base 5).bind fun v =>
      sumLoop s base row col dark rest (sum + (v - dark))

/-- The body of the loops of `operator()` over the pixels: the value stored into
`out[row][col]`. -/
def applyPixel (s : CVthdsCalib) (num_images row col : Nat) : Calc Nat :=
  (s.m_dark.pixel row col).bind fun d =>
  (s.m_cal5.pixelIndex 6 row col).bind fun base5 =>
  (poly (d : ℚ) s.m_cal5.m_data base5 5).bind fun dark =>
  (sumLoop s base5 row col dark s.m_data 0).bind fun sum =>
  (fdiv sum num_images).bind fun ave =>
  (s.m_cal3.pixelIndex 3 row col).bind fun base3 =>
  (poly ave s.m_cal3.m_data base3 3).bind fun v =>
    .value (toUShort v)

/-- The column loop of `operator()` for one row, with `n` columns left. -/
def applyCols (s : CVthdsCalib) (num_images row : Nat) : Nat → Nat → List Nat → Calc (List Nat)
  | 0, _, outRow => .value outRow
  | n + 1, col, outRow =>
    (applyPixel s num_images row col).bind fun v =>
    (writeAt outRow col v).bind fun outRow1 =>
      applyCols s num_images row n (col + 1) outRow1

/-- The row loop of `operator()`, with `n` rows left. -/
def applyRows (s : CVthdsCalib) (num_images : Nat) :
    Nat → Nat → List (List Nat) → Calc (List (List Nat))
  | 0, _, out => .value out
  | n + 1, row, out =>
    (if s.m_mask.m_width = 0 then .value out
     else
      (readAt out row).bind fun outRow =>
      (applyCols s num_images row s.m_mask.m_width 0 outRow).bind fun outRow1 =>
        .value (out.set row outRow1)).bind fun out1 =>
      applyRows s num_images n (row + 1) out1

/-- The member `operator()(out, num_images)`. `Vt_precondition(c, m)` raises when
`c` is false. The scratch arrays `val3` and `val5` are never used and are left
out. -/
def apply (s : CVthdsCalib) (out : CVtImage) (num_images : Nat) : Calc CVtImage :=
  if ¬ (s.m_data.length = 0) then .failed .noImagesPresent
  else
    (applyRows s num_images s.m_mask.m_height 0 out.m_lines).bind fun lines =>
      .value { out with m_lines := lines }

end CVthdsCalib

/-- An area-sensor calibration for a sensor of 1 x 1 pixels: the 5th-order
coefficients 1, 2, 3, 4, 5, 6, the 3rd-order coefficients 7, 8, 9, a dark frame of
5, the mask 1, the identity record of the default constructor, and no image in the
dataset. -/
def hdsCalibOne : CVthdsCalib :=
  { m_hw_info := sensor_info.default,
    m_cal5 := { m_width := 1, m_height := 1,
                m_data := [some 1, some 2, some 3, some 4, some 5, some 6] },
    m_cal3 := { m_width := 1, m_height := 1, m_data := [some 7, some 8, some 9] },
    m_dark := { m_width := 1, m_height := 1, m_lines := [[5]] },
    m_mask := { m_width := 1, m_height := 1, m_lines := [[1]] },
    m_data := [] }

/-! ## The calibration file of the area sensor -/

/-- An element of a binary file as the code writes and reads it: a byte, or the 8
bytes of a `double`. -/
inductive Cell where
  | byte (b : Nat)
  | coef (x : ℚ)
  deriving DecidableEq, Repr

/-- The number of bytes of an element: `sizeof(vt_byte)` is 1 and
`sizeof(CoefType)`, a `double`, is 8. -/
def Cell.size : Cell → Nat
  | .byte _ => 1
  | .coef _ => 8

/-- The number of bytes of a file. -/
def fileSize (file : List Cell) : Nat := (file.map Cell.size).sum

/-- The call `fwrite(p, sizeof(CoefType), n, fpout)` on the storage of a
coefficient image: its first `n` elements. Reading behind the storage or an
element never set is undefined. -/
def fwriteCells (p : List (Option ℚ)) (n : Nat) : Calc (List Cell) :=
  if p.length < n then .undefined
  else if (p.take n).all Option.isSome then
    .value ((p.take n).map fun v => Cell.coef (v.getD 0))
  else .undefined

/-- The call `fwrite(p, sizeof(vt_byte), n, fpout)` on an array of bytes. -/
def fwriteBytes (p : List Nat) (n : Nat) : Calc (List Cell) :=
  if p.length < n then .undefined else .value ((p.take n).map Cell.byte)

/-- The call `IS.read(p, n)` of `n` bytes: the bytes and the rest of the stream. A
stream that ends before, or that holds other elements there, leaves bytes of the
array unset: this outcome is undefined. -/
def readBytes : Nat → List Cell → Calc (List Nat × List Cell)
  | 0, IS => .value ([], IS)
  | n + 1, .byte b :: IS => (readBytes n IS).bind fun r => .value (b :: r.1, r.2)
  | _ + 1, _ => .undefined

/-- The call `IS.read(p, n * sizeof(CoefType))` of `n` values of type `double`. -/
def readCells : Nat → List Cell → Calc (List ℚ × List Cell)
  | 0, IS => .value ([], IS)
  | n + 1, .coef x :: IS => (readCells n IS).bind fun r => .value (x :: r.1, r.2)
  | _ + 1, _ => .undefined

/-- The row table that `initLineStartArray(data, width, height)` builds over a
flat array, row `y` starting at `data + y * width`; null when `width * height`
is 0. -/
def rowsOver (data : List Nat) (width height : Nat) : List (List Nat) :=
  if width * height > 0 then
    (List.range height).map fun y => (data.drop (y * width)).take width
  else []

namespace CVthdsCalib

/-- The member `save(fname)` on a file that could be opened, with the image size
that it reads from the API object as arguments: the elements written. The count
of each `fwrite` of coefficients is `num_pix` elements of `sizeof(CoefType)`. -/
def save (s : CVthdsCalib) (image_width image_height : Nat) : Calc (List Cell) :=
  let num_pix := (image_height * image_width) % 4294967296
  (fwriteBytes (sensor_info.encode s.m_hw_info) sensor_info.length).bind fun hw =>
  (fwriteCells s.m_cal5.m_data num_pix).bind fun c5 =>
  (fwriteCells s.m_cal3.m_data num_pix).bind fun c3 =>
  (fwriteBytes s.m_mask.m_lines.flatten num_pix).bind fun mask =>
    .value (hw ++ c5 ++ c3 ++ mask)

/-- The friend `operator>>(IS, Object)` on a good stream, with the image size that
it reads from the API object as arguments. The array for the 5th-order
coefficients has `6 * num_pix` elements and the one for the 3rd-order
coefficients `3 * num_pix`, of which `num_pix` are read in each case. -/
def load (IS : List Cell) (Object : CVthdsCalib) (image_width image_height : Nat) :
    Calc (List Cell × CVthdsCalib) :=
  let num_pix := (image_width * image_height) % 4294967296
  (readBytes sensor_info.length IS).bind fun hw =>
  (sensor_info.decode hw.1).bind fun info =>
  (readCells num_pix hw.2).bind fun c5 =>
  (readCells num_pix c5.2).bind fun c3 =>
  (readBytes num_pix c3.2).bind fun mask =>
    .value (mask.2,
      { Object with
        m_hw_info := info,
        m_cal5 := { m_width := image_width, m_height := image_height,
                    m_data := c5.1.map some ++ List.replicate (6 * num_pix - num_pix) none },
        m_cal3 := { m_width := image_width, m_height := image_height,
                    m_data := c3.1.map some ++ List.replicate (3 * num_pix - num_pix) none },
        m_mask := { m_width := image_width, m_height := image_height,
                    m_lines := rowsOver mask.1 image_width image_height } })

end CVthdsCalib

/-- The fields of `CVthdsImpAPI` that `init` uses: `initialised` is the static
local of `init`; the dataset is the one held in `m_calib.m_data`. -/
structure CVthdsImpAPI where
  initialised : Bool
  m_hw_info : sensor_info
  m_calib : CVthdsCalib
  deriving DecidableEq, Repr

namespace CVthdsImpAPI

/-- The member `init()`. `file` is the contents of the calibration file, `none`
when it cannot be opened; `eprom` is the 16 bytes that `get_hw_info` receives from
the sensor; the image size is that of the API object. The driver is initialised
before the file is read, which touches none of these fields. A failure raised in
the `try` block is caught and replaced. -/
def init (api : CVthdsImpAPI) (file : Option (List Cell)) (eprom : List Nat)
    (image_width image_height : Nat) : Calc (Run CVthdsImpAPI Bool) :=
  let api0 := { api with m_calib := { api.m_calib with m_data := [] } }
  if api0.initialised then .value (.done true api0)
  else
    let api1 := { api0 with initialised := true }
    match file with
    | none => .value (.raised .noCalibrationFile api1)
    | some IS =>
      (CVthdsCalib.load IS api1.m_calib image_width image_height).bind fun r =>
      (sensor_info.decode eprom).bind fun info =>
        let api2 := { api1 with m_calib := r.2, m_hw_info := info }
        if sensor_info.ne api2.m_hw_info api2.m_calib.m_hw_info then
          .value (.raised .hwInfoMismatch api2)
        else .value (.done true api2)

end CVthdsImpAPI

/-- The API object before `init`: not initialised, with the calibration
`hdsCalibOne` in memory. -/
def hdsApiOne : CVthdsImpAPI :=
  { initialised := false, m_hw_info := sensor_info.default, m_calib := hdsCalibOne }

/-- A calibration file for a sensor of 1 x 1 pixels that was written for the
sensor with the serial number 1: the 16 bytes of its identity record, one value of
the 5th-order coefficients, one of the 3rd-order coefficients and one mask byte. -/
def hdsFileOther : List Cell :=
  (sensor_info.encode { sensor_info.default with serial_number := 1 }).map Cell.byte ++
    [Cell.coef 100, Cell.coef 200, Cell.byte 0]

/-! ## The region of interest of an image: `CVtImageBaseClass::SetROI` -/

/-- A coordinate pair `Diff2D`; `x` and `y` are `vt_int` values. -/
structure Diff2D where
  x : Int
  y : Int
  deriving DecidableEq, Repr

/-- The fields of `CVtImageBaseClass`; `m_width` and `m_height` are `vt_uint`
values. -/
structure CVtImageBaseClass where
  m_roiorigin : Diff2D
  m_roisize : Diff2D
  m_width : Nat
  m_height : Nat
  deriving DecidableEq, Repr

/-- The conversion of an `int` to `unsigned int` that a comparison of the two
makes. -/
def toUInt (v : Int) : Nat := (v % 4294967296).toNat

namespace CVtImageBaseClass

/-- The constructor `CVtImageBaseClass(width, height)`. -/
def create (width height : Nat) : CVtImageBaseClass :=
  { m_roiorigin := ⟨0, 0⟩, m_roisize := ⟨0, 0⟩, m_width := width, m_height := height }

/-- The member `SetROI(ROIOrigin, ROISize)`: four preconditions, each raising when
it is false, then the two assignments. -/
def SetROI (im : CVtImageBaseClass) (ROIOrigin ROISize : Diff2D) :
    Run CVtImageBaseClass Unit :=
  if ¬ (ROIOrigin.x ≥ 0 ∧ ROIOrigin.y ≥ 0) then .raised .roiOriginNegative im
  else if ¬ (ROISize.x ≥ 0 ∧ ROISize.y ≥ 0) then .raised .roiSizeNegative im
  else if ¬ (toUInt ROIOrigin.x < im.m_width ∧ toUInt ROIOrigin.y < im.m_height) then
    .raised .roiOriginOutside im
  else if ¬ (toUInt ROISize.x < im.m_width ∧ toUInt ROISize.y < im.m_height) then
    .raised .roiSizeOutside im
  else .done () { im with m_roiorigin := ROIOrigin, m_roisize := ROISize }

end CVtImageBaseClass

/-! ## The transposition of a line image: `CVtpcImpAPI::transpose_lineim` -/

namespace CVtpcImpAPI

/-- A tile loop `for (row = row0; row < row0 + n; row++) im[row][lineno] = *inptr++`
(or `*inptr--`, for the step -1), with `n` rows left: the image and the position
of `inptr` in the input line after it. -/
def tileLoop (inRow : List Nat) (lineno : Nat) (step : Int) :
    Nat → Nat → Int → List (List Nat) → Calc (List (List Nat) × Int)
  | 0, _, inptr, im => .value (im, inptr)
  | n + 1, row, inptr, im =>
    (if inptr < 0 then .undefined else readAt inRow inptr.toNat).bind fun v =>
    (readAt im row).bind fun r =>
    (writeAt r lineno v).bind fun r1 =>
      tileLoop inRow lineno step n (row + 1) (inptr + step) (im.set row r1)

/-- The body of the loop over the lines: the tiles A and B are copied upwards,
the tile C upwards or, with `m_invertC`, from the last sample of the line
downwards. -/
def transposeLine (m_chip_height : Nat) (m_invertC : Bool) (inRow : List Nat) (lineno : Nat)
    (im : List (List Nat)) : Calc (List (List Nat)) :=
  (tileLoop inRow lineno 1 m_chip_height 0 0 im).bind fun a =>
  (tileLoop inRow lineno 1 (2 * m_chip_height - m_chip_height) m_chip_height a.2 a.1).bind
    fun b =>
  if m_invertC then
    (tileLoop inRow lineno (-1) (3 * m_chip_height - 2 * m_chip_height) (2 * m_chip_height)
      (b.2 + ((m_chip_height : Int) - 1)) b.1).bind fun c => .value c.1
  else
    (tileLoop inRow lineno 1 (3 * m_chip_height - 2 * m_chip_height) (2 * m_chip_height)
      b.2 b.1).bind fun c => .value c.1

/-- The loop `for (lineno = 0; lineno < width; lineno++)`, with `n` lines left. -/
def transposeLoop (m_chip_height : Nat) (m_invertC : Bool) (lines : List (List Nat)) :
    Nat → Nat → List (List Nat) → Calc (List (List Nat))
  | 0, _, im => .value im
  | n + 1, lineno, im =>
    (readAt lines lineno).bind fun inRow =>
    (transposeLine m_chip_height m_invertC inRow lineno im).bind fun im1 =>
      transposeLoop m_chip_height m_invertC lines n (lineno + 1) im1

/-- The member `transpose_lineim(lineim)`, with the members `m_chip_height`,
`m_numChips` and `m_invertC` that it reads as arguments: the new image, as wide as
the line image is high. -/
def transpose_lineim (m_chip_height m_numChips : Nat) (m_invertC : Bool) (lineim : CVtImage) :
    Calc CVtImage :=
  let width := lineim.m_height
  let im := CVtImage.filled width (m_chip_height * m_numChips) 0
  (transposeLoop m_chip_height m_invertC lineim.m_lines width 0 im.m_lines).bind fun lines =>
    .value { im with m_lines := lines }

/-- The sample of an input line that the row `r` of the transposed image takes, as
the specification words it: the sample `r`, and in the rows of chip C with
inversion the sample `5 * chip_height - 1 - r`. -/
def sampleFor (chip_height : Nat) (invertC : Bool) (line : List Nat) (r : Nat) : Nat :=
  if r < 2 * chip_height ∨ invertC = false then line.getD r 0
  else line.getD (5 * chip_height - 1 - r) 0

end CVtpcImpAPI

/-- A line image of 2 lines of 6 samples, for 3 chips of height 2. -/
def lineTwo : CVtImage :=
  { m_width := 6, m_height := 2, m_lines := [[1, 2, 3, 4, 5, 6], [7, 8, 9, 10, 11, 12]] }

/-! ## Statement-level definitions for the multi-chip parser -/

/-- The words of a line of three chips in stream order: for every triple the word
of chip A, then that of chip B, then that of chip C. -/
def flatten3 : List (Nat × Nat × Nat) → List Nat
  | [] => []
  | (a, b, c) :: ts => a :: b :: c :: flatten3 ts

/-- The line buffer after the triples `ts` were stored through the three chip
cursors: chip A unmasked and chip B masked, both upwards from `ia` and `ib`, chip
C masked and downwards from `ic`. -/
def storeLine3 : List Nat → Nat → Nat → Int → List (Nat × Nat × Nat) → List Nat
  | buf, _, _, _, [] => buf
  | buf, ia, ib, ic, (a, b, c) :: ts =>
    storeLine3
      (CVtpcLineParser.setC ((buf.set ia a).set ib (b &&& CVtpcLineParser.CHIP_DATA_MASK)) ic
        (c &&& CVtpcLineParser.CHIP_DATA_MASK))
      (ia + 1) (ib + 1) (ic - 1) ts

/-- What `init` establishes for three chips and every call keeps: the buffer has
`3 * m_bufferSize + 1` words, the last is the sentinel, the three chip segments
follow one another from index 0 on, and the buffer size is the chip height. -/
def CVtpcLineParser.WF3 (s : CVtpcLineParser) : Prop :=
  s.m_numChips = 3 ∧ s.m_bufferSize = s.m_chip_height ∧
    s.Buff.length = 3 * s.m_bufferSize + 1 ∧
    s.Buff.getD (s.m_bufferSize * 3) 0 = CVtpcLineParser.SENTINEL ∧
    s.ABuff = 0 ∧ s.BBuff = s.m_bufferSize ∧ s.CBuff = 2 * s.m_bufferSize ∧
    s.m_CEnd = ((3 * s.m_bufferSize : Nat) : Int) - 1

/-- The value returned by a run together with a view of the state reached. -/
def Run.view {σ α β : Type} (f : σ → β) : Run σ α → Option (α × β)
  | .done a s => some (a, f s)
  | _ => none

/-- A parser for 3 chips of height 2 (image height 6) at the start of a stream
with one well-formed line: header, two triples, end of line, next header. -/
def pcFullLine : CVtpcLineParser :=
  CVtpcLineParser.init
    (CVtUSBPipeData.init
      [[0x8001, 0x0111, 0x1222, 0x2333, 0x4444, 0x1555, 0x2666, 0xC000, 0x8002, 0xdead]] 9
      false)
    3 6 true 7

end Vt

namespace Vt

/-! ## Further definitions: stored samples, smoothing, inputs -/

/-- The state that a run ends in, whatever its outcome. -/
def Run.state {σ α : Type} : Run σ α → σ
  | .done _ s => s
  | .raised _ s => s
  | .outOfFuel s => s

/-- The stream of `hdsLongLine` read by the multi-chip parser configured with one
chip of height 2: an overlong line of three data words, then a well-formed line. -/
def pcLongLine : CVtpcLineParser :=
  CVtpcLineParser.init
    (CVtUSBPipeData.init
      [[0x8001, 0x1111, 0x2222, 0x3333, 0xC000, 0x8002, 0x1abc, 0x2def, 0xC000, 0x8003, 0xdead]]
      10 false) 1 2 true 7

/-- A parser for 3 chips of height 2 whose first line index is 100, at a header
word with the half marker and the line index 50 (`0xA032`): the 13-bit line
counter has wrapped once. -/
def pcHalfWrap : CVtpcLineParser :=
  { CVtpcLineParser.init
      (CVtUSBPipeData.init
        [[0xA032, 0x0111, 0x1222, 0x2333, 0x0444, 0x1555, 0x2666, 0xC000, 0x8002, 0xdead]] 9
        false)
      3 6 true 7 with m_first_idx := 100 }

/-- The same parser at a header word with the half marker and the line index 150:
no wraparound. -/
def pcHalfPlain : CVtpcLineParser :=
  { CVtpcLineParser.init
      (CVtUSBPipeData.init
        [[0xA096, 0x0111, 0x1222, 0x2333, 0x0444, 0x1555, 0x2666, 0xC000, 0x8002, 0xdead]] 9
        false)
      3 6 true 7 with m_first_idx := 100 }

/-- A parser for 3 chips of height 2 with the cursors at the start of their
segments, positioned at the data word `0x4444`. -/
def pcAtSample : CVtpcLineParser :=
  CVtpcLineParser.init (CVtUSBPipeData.init [[0x4444, 0x1555, 0x2666, 0xC000, 0xdead]] 4 false)
    3 6 true 7

/-- Six rows of one pixel for 3 chips of height 2: the rows 3 and 4 next to the
B/C seam hold 20 and 50, the rows 2 and 5 one further out hold 10 and 100. -/
def seamSix : List (List Nat) := [[1], [2], [10], [20], [50], [100]]

/-- Twelve rows of one pixel around an A/B seam at row 4: row 2 holds 0, row 11
holds 900 and the rows between them 5. -/
def gapTwelve : List (List Nat) :=
  [[1], [2], [0], [5], [5], [5], [5], [5], [5], [5], [5], [900]]

/-! ## Smoothing of the row means: `CVtHalfLineCalib::smooth` -/

namespace CVtHalfLineCalib

def SMOOTH_SPAN : Nat := 5
def TOTAL_SPAN : Nat := 11

/-- The loop `for (idx = -smooth_span; idx < smooth_span; idx++) sum += vec[pos + idx]`
with `n` elements left from the index `i` on. -/
def windowSum (vec : List ℚ) : Nat → Nat → ℚ → Calc ℚ
  | 0, _, sum => .value sum
  | n + 1, i, sum =>
    (readAt vec i).bind fun v => windowSum vec n (i + 1) (sum + v)

/-- A loop `for (...; idx++) smth_vec[idx] = mn` with `n` elements left from the
index `idx` on. -/
def fillMean (mn : ℚ) : Nat → Nat → List ℚ → Calc (List ℚ)
  | 0, _, smth_vec => .value smth_vec
  | n + 1, idx, smth_vec =>
    (writeAt smth_vec idx mn).bind fun smth_vec1 => fillMean mn n (idx + 1) smth_vec1

/-- The update of `sum` at the start of an iteration of `smooth`: at the first
position the elements `vec[pos - 5] .. vec[pos + 4]` are added up and the mean
is copied to the positions before; at a later position `vec[pos - 6]` leaves the
sum and `vec[pos + 5]` enters. -/
def smoothSum (vec : List ℚ) (pos : Nat) (st : ℚ × List ℚ) : Calc (ℚ × List ℚ) :=
  if SMOOTH_SPAN = pos then
    (windowSum vec (2 * SMOOTH_SPAN) (pos - SMOOTH_SPAN) st.1).bind fun sum =>
    (fillMean (sum / TOTAL_SPAN) SMOOTH_SPAN 0 st.2).bind fun smth_vec =>
      .value (sum, smth_vec)
  else
    (readAt vec (usub32 (usub32 pos SMOOTH_SPAN) 1)).bind fun last =>
    (readAt vec (pos + SMOOTH_SPAN)).bind fun new =>
      .value (st.1 - last + new, st.2)

/-- One iteration of the loop of `smooth` over `pos`; the state is `sum` and the
array `smth_vec`. -/
def smoothStep (vec : List ℚ) (length pos : Nat) (st : ℚ × List ℚ) : Calc (ℚ × List ℚ) :=
  (smoothSum vec pos st).bind fun st1 =>
  (writeAt st1.2 pos (st1.1 / TOTAL_SPAN)).bind fun smth_vec =>
    if usub32 (usub32 length SMOOTH_SPAN) 1 = pos then
      (fillMean (st1.1 / TOTAL_SPAN) (length - (pos + 1)) (pos + 1) smth_vec).bind
        fun smth_vec1 => .value (st1.1, smth_vec1)
    else
      .value (st1.1, smth_vec)

/-- The loop `for (pos = smooth_span; pos < length - smooth_span; pos++)` with `n`
iterations left. -/
def smoothLoop (vec : List ℚ) (length : Nat) : Nat → Nat → ℚ × List ℚ → Calc (List ℚ)
  | 0, _, st => .value st.2
  | n + 1, pos, st =>
    (smoothStep vec length pos st).bind fun st1 => smoothLoop vec length n (pos + 1) st1

/-- The member `smooth(vec, length)`: the new array returned. The bound
`length - smooth_span` is a 32-bit unsigned difference. -/
def smooth (vec : List ℚ) (length : Nat) : Calc (List ℚ) :=
  smoothLoop vec length (usub32 length SMOOTH_SPAN - SMOOTH_SPAN) SMOOTH_SPAN
    (0, List.replicate length 0)

end CVtHalfLineCalib

/-- Three chips of height 1: after the header the first data word carries the tag
of chip B; the words of chip B and chip C are followed by a word of chip A and
the end-of-line word. -/
def pcMisaligned : CVtpcLineParser :=
  CVtpcLineParser.init
    (CVtUSBPipeData.init [[0x8001, 0x1005, 0x2006, 0x0007, 0xC000, 0x8002, 0xdead]] 6 false)
    3 3 true 9

/-- The locals of the main loop of `recalc` for uniform frames of 5 rows, dark 100
and bright 300, with 2 chips of height 2 in ceph mode, after the loop: the rows
1 to 3 are visited, row 4 lies behind the chips. -/
def uniformFiveLoop : CVtHalfLineCalib.CoefLoop :=
  { m_coef := [0, 1, 1, 1, 0], dfvec := [none, some 1, some 0, some 0, none], dfsum := 1,
    dfsumsq := 1, dfcnt := 3 }

/-! ## The main pass of apply, iteration by iteration -/

namespace CVtHalfLineCalib

/-- The locals of the main pass of `operator()` after `k` iterations of the body of
its loop, the loop condition aside. -/
def applyIter (s : CVtHalfLineCalib) (api_type : API_TYPE) (inptr : List (List Nat))
    (width : Nat) : Nat → ApplyLoop → Calc ApplyLoop
  | 0, st => .value st
  | k + 1, st => (applyIter s api_type inptr width k st).bind (applyStep s api_type inptr width)

/-- The first `width` pixels of the row `r` as the column loop of the main pass
computes them with the seam offset `off`. -/
def calibratedRow (s : CVtHalfLineCalib) (inptr : List (List Nat)) (width r : Nat) (off : ℚ) :
    List Nat :=
  ((inptr.getD r []).take width).map
    (calibPixel · (s.m_darkC.getD r 0) (s.m_coef.getD r 0) (s.m_pedestal + off))

/-- The output rows `out` with the rows `[lo, hi)` written by the main pass with the
seam offset `off`. -/
def passOut (s : CVtHalfLineCalib) (inptr out : List (List Nat)) (width lo hi : Nat) (off : ℚ) :
    List (List Nat) :=
  (List.range out.length).map fun r =>
    if lo ≤ r ∧ r < hi then calibratedRow s inptr width r off else out.getD r []

/-- The data of a main pass over 3 chips of height `h ≥ 37`: the input has `3 * h`
rows of at least `W ≥ 1` pixels, and the dark and gain arrays have `3 * h`
elements. -/
def PassData (s : CVtHalfLineCalib) (inptr : List (List Nat)) (W h : Nat) : Prop :=
  s.m_chip_height = h ∧ 37 ≤ h ∧ 3 * h < 2147483648 ∧ 1 ≤ W ∧ 3 * h ≤ inptr.length ∧
    (∀ r, r < 3 * h → W ≤ (inptr.getD r []).length) ∧ 3 * h ≤ s.m_darkC.length ∧
    3 * h ≤ s.m_coef.length

end CVtHalfLineCalib

/-- An input of 111 rows of one pixel for 3 chips of height 37: the pixel of row
`r` is `200 + r`. -/
def rampInput : List (List Nat) :=
  (List.range 111).map fun r => [200 + r]

end Vt

namespace Vt

/-! ## Binary64 rounding -/

/-- The integer nearest to `N / D`, the even one of the two when `N / D` lies half
way between them. -/
def roundHalfEven (N D : Nat) : Nat :=
  if 2 * (N % D) < D then N / D
  else if D < 2 * (N % D) then N / D + 1
  else if N / D % 2 = 0 then N / D else N / D + 1

/-- The number of binary digits of `n`, by halving at most `fuel` times. -/
def bitsLoop : Nat → Nat → Nat
  | 0, _ => 0
  | fuel + 1, n => if n = 0 then 0 else bitsLoop fuel (n / 2) + 1

/-- The number of binary digits of `n`: `2^(bits n - 1) ≤ n < 2^(bits n)` for
`n > 0`. -/
def bits (n : Nat) : Nat := bitsLoop n n

/-- The exponent `e` with `2^e ≤ n / d < 2^(e + 1)`, for `n, d > 0`. -/
def ilog2 (n d : Nat) : Int :=
  if d * 2 ^ ((bits n : Int) - (bits d : Int)).toNat ≤
      n * 2 ^ ((bits d : Int) - (bits n : Int)).toNat then
    (bits n : Int) - (bits d : Int)
  else (bits n : Int) - (bits d : Int) - 1

/-- The number of binary digits kept behind the point when `n / d` is rounded: 52
minus its exponent, the exponent not taken below -1022 (subnormal numbers). -/
def flScale (n d : Nat) : Int := 52 - max (ilog2 n d) (-1022)

/-- The binary64 number nearest to `n / d`, for `n, d > 0`. -/
def flAbs (n d : Nat) : ℚ :=
  ((roundHalfEven (n * 2 ^ (flScale n d).toNat) (d * 2 ^ (-flScale n d).toNat) : Nat) : ℚ) *
    2 ^ (-flScale n d).toNat / 2 ^ (flScale n d).toNat

/-- The result of an operation on `double` values whose exact result is `x`: the
binary64 number nearest to `x`, ties to even. There is no largest exponent: an
overflow to infinity is outside the model. -/
def fl (x : ℚ) : ℚ :=
  if x = 0 then 0
  else if x < 0 then -flAbs x.num.natAbs x.den
  else flAbs x.num.natAbs x.den

end Vt

namespace Vt

/-! ## The arithmetic of the calibration code in binary64

The members below are those of the sections before with every operation on
`double` values rounded by `fl`. They are the ones used where a property depends
on the rounding of a value computed. `long double` is taken as `double` and a
32-bit signed sum wraps around. -/

namespace F64

/-- The value of a `vt_long` (32 bits, two's complement) after an operation whose
exact result is `z`. -/
def wrap32 (z : Int) : Int := (z + 2147483648) % 4294967296 - 2147483648

/-- The quotient `a / b` of two `double` values. -/
def fdiv (a b : ℚ) : Calc ℚ :=
  if b = 0 then .notFinite else .value (fl (a / b))

/-! ### Row means -/

/-- The loop `for (col = 0; col < width; col++) sum += data[row][col]` over the
pixels given. -/
def sumLoop : List Nat → ℚ → ℚ
  | [], sum => sum
  | v :: vs, sum => sumLoop vs (fl (sum + (v : ℚ)))

/-- The inner loop of `row_mean`: the sum of the first `width` pixels of row `row`. -/
def rowSum (data : List (List Nat)) (width row : Nat) : Calc ℚ :=
  (readAt data row).bind fun r =>
    if r.length < width then .undefined else .value (sumLoop (r.take width) 0)

/-- The outer loop of `row_mean` with `n` rows left from `row` on: the means
stored so far and the running total. -/
def rowMeanLoop (data : List (List Nat)) (width : Nat) :
    Nat → Nat → List ℚ → ℚ → Calc (List ℚ × ℚ)
  | 0, _, row_means, tot_sum => .value (row_means, tot_sum)
  | n + 1, row, row_means, tot_sum =>
    (rowSum data width row).bind fun sum =>
    (fdiv sum width).bind fun m =>
    (writeAt row_means row m).bind fun row_means1 =>
      rowMeanLoop data width n (row + 1) row_means1 (fl (tot_sum + sum))

/-- The function `row_mean(row_means, data, width, row_start, row_end)`: the row
means stored into `row_means` and the overall mean
`tot_sum / ((vt_double) width * cnt)` returned. -/
def row_mean (row_means : List ℚ) (data : List (List Nat)) (width row_start row_end : Nat) :
    Calc (List ℚ × ℚ) :=
  (rowMeanLoop data width (row_end - row_start) row_start row_means 0).bind fun r =>
  (fdiv r.2 (fl ((width : ℚ) * ((row_end : ℚ) - (row_start : ℚ))))).bind fun mean =>
    .value (r.1, mean)

/-! ### `recalc` -/

/-- The constant `eps = 0.000001` of the main loop of `recalc`. -/
def eps : ℚ := fl (1 / 1000000)

/-- The gain that the main loop of `recalc` stores for a row with the difference
`diff` of its bright and dark means. -/
def gainOf (mean_signal diff : ℚ) : ℚ :=
  if diff > eps then
    if fl (mean_signal / diff) > CVtHalfLineCalib.MAX_COEF then 0 else fl (mean_signal / diff)
  else 0

/-- One iteration of the main loop of `recalc`, for the row `row`. -/
def coefStep (darkC brightC : List ℚ) (mean_signal : ℚ) (row : Nat)
    (st : CVtHalfLineCalib.CoefLoop) : Calc CVtHalfLineCalib.CoefLoop :=
  (readAt brightC row).bind fun b =>
  (readAt darkC row).bind fun d =>
  (writeAt st.m_coef row (gainOf mean_signal (fl (b - d)))).bind fun coef1 =>
  if fl (b - d) > eps ∧ row > 0 then
    (readAt coef1 (row - 1)).bind fun prev =>
    (writeAt st.dfvec row (some |fl (prev - gainOf mean_signal (fl (b - d)))|)).bind
      fun dfvec1 =>
    .value { m_coef := coef1, dfvec := dfvec1,
             dfsum := fl (st.dfsum + |fl (prev - gainOf mean_signal (fl (b - d)))|),
             dfsumsq := fl (st.dfsumsq + fl (|fl (prev - gainOf mean_signal (fl (b - d)))| *
               |fl (prev - gainOf mean_signal (fl (b - d)))|)),
             dfcnt := st.dfcnt + 1 }
  else
    .value { st with m_coef := coef1 }

/-- The main loop `for (row = start_row + 1; row < end_row; row++)` of `recalc`,
with `n` rows left from `row` on. -/
def coefLoop (darkC brightC : List ℚ) (mean_signal : ℚ) :
    Nat → Nat → CVtHalfLineCalib.CoefLoop → Calc CVtHalfLineCalib.CoefLoop
  | 0, _, st => .value st
  | n + 1, row, st =>
    (coefStep darkC brightC mean_signal row st).bind fun st1 =>
      coefLoop darkC brightC mean_signal n (row + 1) st1

/-- The block of `recalc` under `if (mean_signal != 0)`. The test inside the
rejection loop is the one of the exact members: that loop is not entered or does
not return, so that the rounding of the test cannot show in a result. -/
def recalcCoef (darkC brightC : List ℚ) (mean_signal : ℚ) (start_row end_row height : Nat) :
    Calc (List ℚ) :=
  (coefLoop darkC brightC mean_signal (end_row - (start_row + 1)) (start_row + 1)
      { m_coef := List.replicate height 0, dfvec := List.replicate height none, dfsum := 0,
        dfsumsq := 0, dfcnt := 0 }).bind fun st =>
    if st.dfcnt > 0 then
      CVtHalfLineCalib.rejectLoop end_row height st.dfvec
        (fl (fl (st.dfsumsq / st.dfcnt) -
          fl (fl (st.dfsum / st.dfcnt) * fl (st.dfsum / st.dfcnt))))
        (height + 1) (start_row + 1) st.m_coef
    else
      .value st.m_coef

/-- The member `recalc(BrightFrame, DarkFrame)`, with the API type that it reads
from the API object as an argument. -/
def recalc (s : CVtHalfLineCalib) (api_type : API_TYPE) (BrightFrame DarkFrame : CVtImage) :
    Calc CVtHalfLineCalib :=
  if BrightFrame.m_height ≠ DarkFrame.m_height then .failed .invalidFrames else
  (row_mean (List.replicate BrightFrame.m_height 0) DarkFrame.m_lines DarkFrame.m_width
      (CVtHalfLineCalib.startRow s api_type) (CVtHalfLineCalib.endRow s)).bind fun dark =>
  (row_mean (List.replicate BrightFrame.m_height 0) BrightFrame.m_lines BrightFrame.m_width
      (CVtHalfLineCalib.startRow s api_type) (CVtHalfLineCalib.endRow s)).bind fun bright =>
  if fl (bright.2 - dark.2) ≠ 0 then
    (recalcCoef dark.1 bright.1 (fl (bright.2 - dark.2)) (CVtHalfLineCalib.startRow s api_type)
        (CVtHalfLineCalib.endRow s) BrightFrame.m_height).bind
      fun coef =>
        .value { s with m_bright := BrightFrame, m_dark := DarkFrame, m_darkC := dark.1,
                        m_brightC := bright.1, m_coef := coef, m_initialised := true }
  else
    .failed .invalidDarkOrBright

/-! ### The main pass of `operator()` -/

/-- The loop `sum += d2 - d1` of `BCoffset` over the columns given, `sum` being a
`vt_long`. -/
def diffSum : List Nat → List Nat → Int → Int
  | d1 :: prow1, d2 :: prow2, sum => diffSum prow1 prow2 (wrap32 (sum + ((d2 : Int) - (d1 : Int))))
  | _, _, sum => sum

/-- The member `BCoffset(imptr, width)`. -/
def BCoffset (s : CVtHalfLineCalib) (imptr : List (List Nat)) (width : Nat) : Calc ℚ :=
  (readAt imptr (usub32 (2 * s.m_chip_height) 2)).bind fun prow1 =>
  (readAt imptr (2 * s.m_chip_height + 1)).bind fun prow2 =>
    if width = 0 then .notFinite
    else if prow1.length < width ∨ prow2.length < width then .undefined
    else fdiv ((diffSum (prow1.take width) (prow2.take width) 0 : Int) : ℚ) width

/-- The value `out` computed for a pixel in the main pass of `operator()`. -/
def calibValue (inp : Nat) (dark coef actual_offset : ℚ) : ℚ :=
  fl (fl (fl ((inp : ℚ) - dark) * coef) + actual_offset)

/-- The pixel stored in the main pass of `operator()`. -/
def calibPixel (inp : Nat) (dark coef actual_offset : ℚ) : Nat :=
  if calibValue inp dark coef actual_offset < 0 then 0
  else if calibValue inp dark coef actual_offset ≥ USHRT_MAX then USHRT_MAX
  else toUShort (calibValue inp dark coef actual_offset)

/-- The column loop of the main pass: the first `width` pixels of the output row
are computed from the input row. -/
def calibRow (InVec OutVec : List Nat) (width : Nat) (dark coef actual_offset : ℚ) :
    Calc (List Nat) :=
  if width = 0 then .value OutVec
  else if InVec.length < width ∨ OutVec.length < width then .undefined
  else .value ((InVec.take width).map (calibPixel · dark coef actual_offset) ++
    OutVec.drop width)

/-- The seam branch of the main pass. -/
def seamStep (s : CVtHalfLineCalib) (api_type : API_TYPE) (width : Nat)
    (st : CVtHalfLineCalib.ApplyLoop) : Calc CVtHalfLineCalib.ApplyLoop :=
  if st.row.toNat % 4294967296 = usub32 s.m_chip_height CVtHalfLineCalib.overshoot ∧
      st.c1to2_done = false then
    (if api_type = .PANO_API then .value 0 else ABoffset s.m_chip_height st.out).bind
      fun offset =>
        .value { st with offset := offset, row := s.m_chip_height, c1to2_done := true }
  else if st.row.toNat % 4294967296 = usub32 (2 * s.m_chip_height) CVtHalfLineCalib.overshoot ∧
      st.c2to3_done = false then
    (BCoffset s st.out width).bind fun offset =>
      .value { st with offset := offset, row := 2 * s.m_chip_height, c2to3_done := true }
  else
    .value st

/-- One iteration of the main pass, for `st.row ≥ 0`; `actual_offset` is the sum
`m_pedestal + offset`. -/
def applyStep (s : CVtHalfLineCalib) (api_type : API_TYPE) (inptr : List (List Nat))
    (width : Nat) (st : CVtHalfLineCalib.ApplyLoop) : Calc CVtHalfLineCalib.ApplyLoop :=
  (readAt inptr st.row.toNat).bind fun InVec =>
  (readAt s.m_darkC st.row.toNat).bind fun dark =>
  (readAt s.m_coef st.row.toNat).bind fun coef =>
  (readAt st.out st.row.toNat).bind fun OutVec =>
  (seamStep s api_type width st).bind fun st1 =>
  (calibRow InVec OutVec width dark coef (fl (s.m_pedestal + st1.offset))).bind fun newRow =>
    .value { st1 with out := st1.out.set st.row.toNat newRow, row := st1.row - 1 }

/-- The main pass `for (row = m_chip_height * m_numChips - 1; row >= 0; row--)`. -/
def applyLoop (s : CVtHalfLineCalib) (api_type : API_TYPE) (inptr : List (List Nat))
    (width : Nat) : Nat → CVtHalfLineCalib.ApplyLoop → Calc CVtHalfLineCalib.ApplyLoop
  | 0, _ => .outOfFuel
  | fuel + 1, st =>
    if st.row < 0 then .value st
    else
      (applyStep s api_type inptr width st).bind fun st1 =>
        applyLoop s api_type inptr width fuel st1

/-! ### The gap fix at the A/B seam -/

/-- The value `new_val` that `gap_fixAB` computes for a pixel; the difference of the
two pixels is taken in `int`. -/
def gapValueAB (vm vp : Nat) (mult_fac : ℚ) : ℚ :=
  fl ((vm : ℚ) + fl (mult_fac * (((vp : Int) - (vm : Int) : Int) : ℚ)))

/-- The values `new_val` of the column loop of `gap_fixAB` for one row of the band. -/
def gapRowVals (VecM VecP : List Nat) (width : Nat) (mult_fac : ℚ) : List ℚ :=
  List.zipWith (fun vm vp => gapValueAB vm vp mult_fac) (VecM.take width) (VecP.take width)

/-- The column loop of `gap_fixAB` for one row of the band: the values narrowed to
`vt_ushort`. -/
def gapRowAB (VecM VecP Vec : List Nat) (width : Nat) (mult_fac : ℚ) : Calc (List Nat) :=
  if width = 0 then .value Vec
  else if VecM.length < width ∨ VecP.length < width ∨ Vec.length < width then .undefined
  else .value ((gapRowVals VecM VecP width mult_fac).map toUShort ++ Vec.drop width)

/-- The row loop of `gap_fixAB` with `n` rows left from `row` on, `mult_fac` being
the factor of the row `row`; the factor grows by `mult_inc = 1.0 / 9` with every
row. The reference rows are read through the pointers taken before the loop. The
second component collects the values `new_val` in the order of the loop, as they
are before the narrowing. -/
def gapLoopAB (rowM rowP width : Nat) :
    Nat → Nat → ℚ → List (List Nat) × List ℚ → Calc (List (List Nat) × List ℚ)
  | 0, _, _, r => .value r
  | n + 1, row, mult_fac, r =>
    (readAt r.1 rowM).bind fun VecM =>
    (readAt r.1 rowP).bind fun VecP =>
    (readAt r.1 row).bind fun Vec =>
    (gapRowAB VecM VecP Vec width mult_fac).bind fun newRow =>
      gapLoopAB rowM rowP width n (row + 1) (fl (mult_fac + fl (1 / 9)))
        (r.1.set row newRow, r.2 ++ gapRowVals VecM VecP width mult_fac)

/-- The member `gap_fixAB(imptr, pos, width)`: the image after the call and the
values `new_val` it computed. -/
def gap_fixAB (imptr : List (List Nat)) (pos width : Nat) :
    Calc (List (List Nat) × List ℚ) :=
  (readAt imptr (pos + 7)).bind fun _ =>
  (readAt imptr (usub32 pos 2)).bind fun _ =>
    gapLoopAB (usub32 pos 2) (pos + 7) width (pos + 7 - usub32 pos 2) (usub32 pos 2)
      (fl (1 / 9)) (imptr, [])

/-- The member `operator()(InFrame, OutFrame)`: the output frame after the call. -/
def apply (s : CVtHalfLineCalib) (api_type : API_TYPE) (InFrame OutFrame : CVtImage) :
    Calc CVtImage :=
  if s.m_initialised = false then .value OutFrame else
  (applyLoop s api_type InFrame.m_lines InFrame.m_width
      (s.m_chip_height * s.m_numChips + 2 * CVtHalfLineCalib.overshoot + 2)
      { out := OutFrame.m_lines, row := ((s.m_chip_height * s.m_numChips : Nat) : Int) - 1,
        c1to2_done := false, c2to3_done := false, offset := 0 }).bind fun st =>
  (gap_fixAB st.out s.m_chip_height InFrame.m_width).bind fun o1 =>
  (CVtHalfLineCalib.gap_fix o1.1 (2 * s.m_chip_height) InFrame.m_width).bind fun o2 =>
    .value { OutFrame with m_lines := o2 }

/-! ### The polynomial of the area-sensor calibration -/

/-- The loop `for (coefno = 2; coefno < order; coefno++) val = coefs[coefno] + data * val`
of `poly`, with `n` iterations left. -/
def polyLoop (data : ℚ) (p : List (Option ℚ)) (base : Nat) : Nat → Nat → ℚ → Calc ℚ
  | 0, _, val => .value val
  | n + 1, coefno, val =>
    (readCoef p (base + coefno)).bind fun c =>
      polyLoop data p base n (coefno + 1) (fl (c + fl (data * val)))

/-- The member `poly(data, coefs, order)`, the coefficients being those from the
index `base` on. -/
def poly (data : ℚ) (p : List (Option ℚ)) (base order : Nat) : Calc ℚ :=
  (readCoef p (base + 1)).bind fun c1 =>
  (readCoef p base).bind fun c0 =>
  (polyLoop data p base (order - 2) 2 (fl (c1 + fl (c0 * data)))).bind fun val =>
    .value (fl (val * data))

end F64

end Vt

namespace Vt

/-- Four rows for chips of height 1: the rows 0 and 3, those that `BCoffset` reads,
hold 40000 pixels each, all 0 and all 65535. -/
def wideSeam : List (List Nat) :=
  [List.replicate (39999 + 1) 0, [], [], List.replicate (39999 + 1) 65535]

end Vt

namespace Vt

/-- The Horner evaluation as the specification words it, on `double` values:
`val = c[1] + c[0] * x`, then `val = c[k] + x * val` for the further
coefficients in increasing order, finally `val *= x`. -/
def hornerSpec (x : ℚ) : List ℚ → ℚ
  | c0 :: c1 :: cs =>
    fl (cs.foldl (fun val c => fl (c + fl (x * val))) (fl (c1 + fl (c0 * x))) * x)
  | _ => 0

/-- The coefficients 0.2, 0.9 and 0.7 as `double` values, stored for one pixel. -/
def tenthsCoefs : List (Option ℚ) := [some (fl (1 / 5)), some (fl (9 / 10)), some (fl (7 / 10))]

end Vt

namespace Vt

/-- The overall mean of an image over the rows `[row_start, row_end)` as a `double`:
the `double` nearest to the sum of the pixels over their number. -/
def CVtImage.activeMean64 (im : CVtImage) (row_start row_end : Nat) : ℚ :=
  fl (im.activeMean row_start row_end)

/-- A frame of one row of `n + 1` pixels: one pixel 65535, all others 65534. -/
def nearFlat (n : Nat) : CVtImage :=
  { m_width := n + 1, m_height := 1, m_lines := [65535 :: List.replicate n 65534] }

end Vt

namespace Vt

/-- The factor `mult_fac` of `gap_fixAB` in its iteration `j` (from 0): it starts
with `mult_inc = 1.0 / 9` and grows by `mult_inc` with every row. -/
def gapFactor : Nat → ℚ
  | 0 => fl (1 / 9)
  | j + 1 => fl (gapFactor j + fl (1 / 9))

/-- An image of 16-bit pixels. -/
def Image16 (im : List (List Nat)) : Prop := ∀ r ∈ im, ∀ v ∈ r, v ≤ 65535

instance (im : List (List Nat)) : Decidable (Image16 im) := by
  unfold Image16
  infer_instance

/-- A calibration of one row: dark 0, gain 0.3, pedestal 1000. -/
def tenthCalib : CVtHalfLineCalib :=
  { m_bright := ⟨0, 0, []⟩, m_dark := ⟨0, 0, []⟩, m_chip_height := 1, m_numChips := 1,
    m_darkC := [0], m_brightC := [0], m_coef := [fl (3 / 10)], m_initialised := true,
    m_pedestal := 1000 }

/-- The main pass of apply before its only iteration on an output of one pixel. -/
def onePass : CVtHalfLineCalib.ApplyLoop :=
  { out := [[0]], row := 0, c1to2_done := false, c2to3_done := false, offset := 0 }

/-- Twelve rows of one pixel around an A/B seam at row 4: row 2 holds 0 and row 11
holds 65535. -/
def gapRising : List (List Nat) :=
  [[1], [2], [0], [5], [5], [5], [5], [5], [5], [5], [5], [65535]]

/-- Twelve rows of one pixel around an A/B seam at row 4: row 2 holds 65535 and
row 11 holds 0. -/
def gapFalling : List (List Nat) :=
  [[1], [2], [65535], [5], [5], [5], [5], [5], [5], [5], [5], [0]]

end Vt

namespace Vt

/-- The image `gapTwelve` after `gap_fixAB` at the seam row 4, with the nine values
`new_val` of the call: the first one and those of the rows 3 to 10. -/
def gapTwelveFixed : List (List Nat) × List ℚ :=
  ([[1], [2], [100], [277], [366], [455], [544], [633], [722], [811], [900], [900]],
   [100, 4886718345671111 / 17592186044416, 3225234108142933 / 8796093022208,
    4007109043450311 / 8796093022208, 4788983978757689 / 8796093022208,
    5570858914065067 / 8796093022208, 6352733849372445 / 8796093022208,
    7134608784679823 / 8796093022208, 3958241859993601 / 4398046511104])

end Vt

/-! # Properties -/

namespace Vt
namespace CVtUSBPipeData

theorem increment_remaining (p p1 : CVtUSBPipeData) (h : p.increment = .done () p1) :
    p1.remaining < p.remaining := by
  unfold increment at h
  simp only [] at h
  split at h
  · split at h
    · cases h
    · split at h
      · cases h
      · rename_i h1 h2 h3
        injection h with _ h
        subst h
        unfold get_front at h3 ⊢
        split
        · rename_i h4
          simp only [remaining, List.length_tail] at *
          have : 1 ≤ p.m_queue.length := by omega
          obtain ⟨k, hk⟩ : ∃ k, p.m_queue.length = k + 1 := ⟨p.m_queue.length - 1, by omega⟩
          rw [hk]
          simp only [Nat.add_sub_cancel, Nat.sub_zero]
          nlinarith
        · rename_i h4
          simp [h4] at h3
  · rename_i h1
    injection h with _ h
    subst h
    simp only [remaining]
    simp only [ge_iff_le, not_le] at h1
    omega

end CVtUSBPipeData
end Vt

namespace Vt

theorem store_length (vs : List Nat) : ∀ (buf : List Nat) (i : Nat),
    (store buf i vs).length = buf.length := by
  induction vs with
  | nil => intro buf i; rfl
  | cons v vs ih => intro buf i; simp [store, ih]

theorem store_getD_lt (vs : List Nat) : ∀ (buf : List Nat) (i j : Nat), j < i →
    (store buf i vs).getD j 0 = buf.getD j 0 := by
  induction vs with
  | nil => intro buf i j _; rfl
  | cons v vs ih =>
    intro buf i j hj
    simp only [store]
    rw [ih _ _ _ (by omega)]
    simp only [List.getD_eq_getElem?_getD]
    rw [List.getElem?_set_ne (by omega)]

theorem store_getD_ge (vs : List Nat) : ∀ (buf : List Nat) (i j : Nat), i + vs.length ≤ j →
    (store buf i vs).getD j 0 = buf.getD j 0 := by
  induction vs with
  | nil => intro buf i j _; rfl
  | cons v vs ih =>
    intro buf i j hj
    simp only [store]
    simp only [List.length_cons] at hj
    rw [ih _ _ _ (by omega)]
    simp only [List.getD_eq_getElem?_getD]
    rw [List.getElem?_set_ne (by omega)]

theorem store_getD (vs : List Nat) : ∀ (buf : List Nat) (i k : Nat), k < vs.length →
    i + vs.length ≤ buf.length → (store buf i vs).getD (i + k) 0 = vs.getD k 0 := by
  induction vs with
  | nil => intro buf i k hk; simp at hk
  | cons v vs ih =>
    intro buf i k hk hlen
    simp only [List.length_cons] at hk hlen
    simp only [store]
    cases k with
    | zero =>
      rw [Nat.add_zero, store_getD_lt _ _ _ _ (by omega)]
      have hi : i < buf.length := by omega
      simp [List.getD_eq_getElem?_getD, List.getElem?_set_self, hi]
    | succ k =>
      have := ih (buf.set i v) (i + 1) k (by omega) (by simp; omega)
      rw [show i + (k + 1) = i + 1 + k by omega, this]
      simp

namespace CVthdsLineParser

theorem isEOL_of_land (w : Nat) (h : w &&& 0xC000 = 0xC000) : isEOL w = true := by
  simp only [isEOL, HDR_EOL_PTRN, HDR_MASK, HDR_SOL_EOL_MASK, beq_iff_eq]
  exact h

theorem land_hdr_of_eol (w : Nat) (h : w &&& 0xC000 = 0xC000) : w &&& 0x8000 = 0x8000 := by
  have h1 : w &&& 0x8000 = (w &&& 0xC000) &&& 0x8000 := by
    rw [Nat.land_assoc]; rfl
  rw [h1, h]; rfl

theorem isEOL_of_data (w : Nat) (h : w &&& 0x8000 = 0) : isEOL w = false := by
  cases hE : isEOL w with
  | false => rfl
  | true =>
    simp only [isEOL, HDR_EOL_PTRN, HDR_MASK, HDR_SOL_EOL_MASK, beq_iff_eq] at hE
    have := land_hdr_of_eol w hE
    omega

theorem isHdr_of_land (w : Nat) (h : w &&& 0x8000 = 0x8000) : isHdr w = true := by
  simp [isHdr, HDR_MASK, h]

theorem isHdr_of_data (w : Nat) (h : w &&& 0x8000 = 0) : isHdr w = false := by
  simp [isHdr, HDR_MASK, h]

end CVthdsLineParser

namespace CVtUSBPipeData

theorem positioned_cons (p : CVtUSBPipeData) (w v : Nat) (ws : List Nat)
    (h : positioned p (w :: v :: ws) = true) :
    p.deref = w ∧ ∃ p1, p.increment = .done () p1 ∧ positioned p1 (v :: ws) = true := by
  simp only [positioned, Bool.and_eq_true, beq_iff_eq] at h
  refine ⟨h.1, ?_⟩
  have h2 := h.2
  split at h2
  · rename_i u p1 hinc
    exact ⟨p1, hinc, by simpa [positioned] using h2⟩
  · simp at h2

theorem positioned_head (p : CVtUSBPipeData) (w : Nat) (ws : List Nat)
    (h : positioned p (w :: ws) = true) : p.deref = w := by
  simp only [positioned, Bool.and_eq_true, beq_iff_eq] at h
  exact h.1

theorem skip_add (a b : Nat) : ∀ p : CVtUSBPipeData,
    skip (a + b) p = (skip a p).bind (skip b) := by
  induction a with
  | zero => intro p; simp [skip]
  | succ a ih =>
    intro p
    rw [show a + 1 + b = (a + b) + 1 by omega]
    simp only [skip]
    cases hinc : p.increment with
    | done u p1 => simp only [ih]
    | raised e p1 => simp
    | outOfFuel p1 => simp

theorem skip_succ_of_increment (n : Nat) (p p1 q : CVtUSBPipeData)
    (hinc : p.increment = .done () p1) (h : skip n p1 = some q) : skip (n + 1) p = some q := by
  simp only [skip, hinc, h]

end CVtUSBPipeData

namespace CVthdsLineParser
open CVtUSBPipeData

theorem advance_done (s : CVthdsLineParser) (p1 : CVtUSBPipeData)
    (h : s.m_pipeData.increment = .done () p1) :
    advance s = .done () { s with m_pipeData := p1 } := by
  simp [advance, h]

/-- Filling over data words that fit the buffer: the loop of `get_line` stores the
masked words one after the other and goes on from the word that follows them. -/
theorem fillLine_steps (w : Nat) (rest : List Nat) (ds : List Nat) :
    ∀ (s : CVthdsLineParser) (count fuel : Nat),
      s.m_pBuff + ds.length ≤ s.m_pBuffEnd → (∀ d ∈ ds, d &&& 0x8000 = 0) →
      positioned s.m_pipeData (ds ++ w :: rest) = true →
      ∃ p, skip ds.length s.m_pipeData = some p ∧ positioned p (w :: rest) = true ∧
        fillLine (fuel + ds.length) s count =
          fillLine fuel
            { s with m_pipeData := p,
                     Buff := store s.Buff s.m_pBuff (ds.map (· &&& CHIP_DATA_MASK)),
                     m_pBuff := s.m_pBuff + ds.length } (count + ds.length) := by
  induction ds with
  | nil =>
    intro s count fuel _ _ hpos
    exact ⟨s.m_pipeData, rfl, by simpa using hpos, by simp [store]⟩
  | cons d ds ih =>
    intro s count fuel hroom hdata hpos
    simp only [List.length_cons] at hroom
    have hpos1 : positioned s.m_pipeData (d :: (ds ++ w :: rest)) = true := by simpa using hpos
    obtain ⟨v, vs, hvs⟩ : ∃ v vs, ds ++ w :: rest = v :: vs := by
      cases ds with
      | nil => exact ⟨w, rest, rfl⟩
      | cons a as => exact ⟨a, as ++ w :: rest, rfl⟩
    rw [hvs] at hpos1
    obtain ⟨hd, p1, hinc, hp1⟩ := positioned_cons _ _ _ _ hpos1
    rw [← hvs] at hp1
    have hd0 : d &&& 0x8000 = 0 := hdata d (by simp)
    set s1 : CVthdsLineParser :=
      { s with m_pipeData := p1, Buff := s.Buff.set s.m_pBuff (d &&& CHIP_DATA_MASK),
               m_pBuff := s.m_pBuff + 1 } with hs1
    have hmov : MOV s = .done () s1 := by
      have hlt : s.m_pBuff < s.m_pBuffEnd := by omega
      simp only [MOV, hd, isEOL_of_data d hd0, hlt, if_true, Bool.false_eq_true, if_false]
      rw [advance_done _ p1 (by simpa using hinc)]
    obtain ⟨p, hskip, hpp, hfill⟩ := ih s1 (count + 1) fuel
      (by simp only [hs1]; omega) (fun x hx => hdata x (by simp [hx])) (by simpa [hs1] using hp1)
    refine ⟨p, ?_, hpp, ?_⟩
    · simp only [List.length_cons, skip, hinc]
      simpa [hs1] using hskip
    · rw [show fuel + (d :: ds).length = (fuel + ds.length) + 1 by simp; omega]
      simp only [fillLine, hd, isEOL_of_data d hd0, Bool.false_eq_true, if_false, hmov]
      rw [hfill]
      simp only [hs1, List.map_cons, store, List.length_cons]
      rw [show s.m_pBuff + 1 + ds.length = s.m_pBuff + (ds.length + 1) by omega,
        show count + 1 + ds.length = count + (ds.length + 1) by omega]

end CVthdsLineParser

namespace CVthdsLineParser
open CVtUSBPipeData

/-- Alignment on a single header word followed by a data word: the header is
skipped and the stream stops on the data word. -/
theorem align_header (s : CVthdsLineParser) (line hdr d : Nat) (ws : List Nat)
    (hhdr : hdr &&& 0x8000 = 0x8000) (hd : d &&& 0x8000 = 0)
    (hpos : positioned s.m_pipeData (hdr :: d :: ws) = true) :
    ∃ p1, s.m_pipeData.increment = .done () p1 ∧ positioned p1 (d :: ws) = true ∧
      align s line = .done (hdr &&& FRAME_LINE_INFO_MASK) { s with m_pipeData := p1 } := by
  obtain ⟨hd0, p1, hinc, hp1⟩ := positioned_cons _ _ _ _ hpos
  refine ⟨p1, hinc, hp1, ?_⟩
  have hrem := increment_remaining _ _ hinc
  obtain ⟨f, hf⟩ : ∃ f, s.m_pipeData.remaining = f + 1 :=
    ⟨s.m_pipeData.remaining - 1, by omega⟩
  have hd1 : p1.deref = d := positioned_head _ _ _ hp1
  simp only [align, hf, skipHdr, hd0, isHdr_of_land hdr hhdr, if_true,
    advance_done s p1 hinc, hd1, isHdr_of_data d hd, Bool.false_eq_true, if_false]

end CVthdsLineParser

namespace CVthdsLineParser
open CVtUSBPipeData

/-- A header word, `k ≥ 1` data words that fit the buffer, then an end-of-line
word: `get_line` stores the masked data words from index 0 on, stops on the
end-of-line word and goes on to its closing statements with `count = k` and
`eol_found` true. -/
theorem get_line_data (s : CVthdsLineParser) (hdr eol : Nat) (ds rest : List Nat)
    (hsent : s.Buff.getD s.m_bufferSize 0 = SENTINEL)
    (hk : 1 ≤ ds.length) (hfit : ds.length ≤ s.m_bufferSize)
    (hhdr : hdr &&& 0x8000 = 0x8000) (hdata : ∀ d ∈ ds, d &&& 0x8000 = 0)
    (heol : eol &&& 0xC000 = 0xC000)
    (hpos : positioned s.m_pipeData (hdr :: ds ++ eol :: rest) = true) :
    ∃ p, skip (ds.length + 1) s.m_pipeData = some p ∧ positioned p (eol :: rest) = true ∧
      get_line s = get_line_end
        { s with m_pipeData := p, Buff := store s.Buff 0 (ds.map (· &&& CHIP_DATA_MASK)),
                 m_pBuff := ds.length, m_pBuffEnd := s.m_bufferSize } ds.length true := by
  obtain ⟨d, ds1, rfl⟩ : ∃ d ds1, ds = d :: ds1 := by
    cases ds with
    | nil => simp at hk
    | cons d ds1 => exact ⟨d, ds1, rfl⟩
  have hreset : reset_ptrs s = .done () { s with m_pBuff := 0, m_pBuffEnd := s.m_bufferSize } := by
    simp only [reset_ptrs, hsent, ne_eq, not_true_eq_false, if_false]
  obtain ⟨p1, hinc, hp1, halign⟩ :=
    align_header { s with m_pBuff := 0, m_pBuffEnd := s.m_bufferSize } 0 hdr d
      (ds1 ++ eol :: rest) hhdr (hdata d (by simp)) (by simpa using hpos)
  obtain ⟨p, hskip, hpp, hfill⟩ := fillLine_steps eol rest (d :: ds1)
    { s with m_pipeData := p1, m_pBuff := 0, m_pBuffEnd := s.m_bufferSize } 0
    (s.m_bufferSize + 1 - (d :: ds1).length) (by simpa using hfit) hdata (by simpa using hp1)
  rw [show s.m_bufferSize + 1 - (d :: ds1).length + (d :: ds1).length = s.m_bufferSize + 1 by
    omega] at hfill
  obtain ⟨f, hf⟩ : ∃ f, s.m_bufferSize + 1 - (d :: ds1).length = f + 1 :=
    ⟨s.m_bufferSize - (d :: ds1).length, by omega⟩
  have hpd : p.deref = eol := positioned_head _ _ _ hpp
  simp only [] at hinc halign hfill hskip
  refine ⟨p, ?_, hpp, ?_⟩
  · rw [skip, hinc]
    simpa using hskip
  · simp only [get_line, get_line_try, hreset, halign]
    rw [hfill, hf]
    simp only [fillLine, hpd, isEOL_of_land eol heol, if_true]
    simp

end CVthdsLineParser

namespace CVthdsLineParser
open CVtUSBPipeData

/-- The header search over data words followed by a header word: every word up
to and including the header word is consumed and the search reports success. -/
theorem find_hdr_loop_data (H x : Nat) (rest : List Nat) (hH : H &&& 0x8000 = 0x8000)
    (es : List Nat) :
    ∀ (s : CVthdsLineParser) (length tries : Nat), es.length < tries →
      (∀ d ∈ es, d &&& 0x8000 = 0) →
      positioned s.m_pipeData (es ++ H :: x :: rest) = true →
      ∃ p, skip (es.length + 1) s.m_pipeData = some p ∧ positioned p (x :: rest) = true ∧
        find_hdr_loop tries length s =
          .done (true, length + es.length + 1) { s with m_pipeData := p } := by
  induction es with
  | nil =>
    intro s length tries ht _ hpos
    obtain ⟨t, rfl⟩ : ∃ t, tries = t + 1 := ⟨tries - 1, by simp at ht; omega⟩
    obtain ⟨hd, p1, hinc, hp1⟩ := positioned_cons _ _ _ _ (by simpa using hpos)
    refine ⟨p1, by simp [skip, hinc], hp1, ?_⟩
    simp only [find_hdr_loop, hd, HDR_MASK, hH, advance_done s p1 hinc, beq_self_eq_true,
      if_true, List.length_nil, Nat.add_zero]
  | cons e es ih =>
    intro s length tries ht hdata hpos
    obtain ⟨t, rfl⟩ : ∃ t, tries = t + 1 := ⟨tries - 1, by omega⟩
    simp only [List.length_cons] at ht
    obtain ⟨v, vs, hvs⟩ : ∃ v vs, es ++ H :: x :: rest = v :: vs := by
      cases es with
      | nil => exact ⟨H, x :: rest, rfl⟩
      | cons a as => exact ⟨a, as ++ H :: x :: rest, rfl⟩
    have hpos1 : positioned s.m_pipeData (e :: v :: vs) = true := by
      rw [← hvs]; simpa using hpos
    obtain ⟨hd, p1, hinc, hp1⟩ := positioned_cons _ _ _ _ hpos1
    rw [← hvs] at hp1
    have he0 : e &&& 0x8000 = 0 := hdata e (by simp)
    obtain ⟨p, hskip, hpp, hloop⟩ := ih { s with m_pipeData := p1 } (length + 1) t (by omega)
      (fun y hy => hdata y (by simp [hy])) (by simpa using hp1)
    refine ⟨p, ?_, hpp, ?_⟩
    · rw [List.length_cons, skip, hinc]
      simpa using hskip
    · have hne : ((e &&& HDR_MASK) == HDR_MASK) = false := by
        simp [HDR_MASK, he0]
      simp only [find_hdr_loop, hd, hne, advance_done s p1 hinc, Bool.false_eq_true, if_false]
      rw [hloop]
      simp only [List.length_cons]
      rw [show length + 1 + es.length + 1 = length + (es.length + 1) + 1 by omega]

/-- A header word, as many data words as the buffer holds, at least one more data
word and then a header word within reach of the search: `get_line` stores the
first `m_bufferSize` masked data words, skips up to and including the header word
found and goes on to its closing statements with `count` equal to the buffer size
and `eol_found` true. -/
theorem get_line_overrun (s : CVthdsLineParser) (hdr H x : Nat) (ds es rest : List Nat)
    (hsent : s.Buff.getD s.m_bufferSize 0 = SENTINEL)
    (hk : 1 ≤ ds.length) (hfit : ds.length = s.m_bufferSize)
    (hes : 1 ≤ es.length) (hreach : es.length < TRY_MAX)
    (hhdr : hdr &&& 0x8000 = 0x8000) (hdata : ∀ d ∈ ds, d &&& 0x8000 = 0)
    (hextra : ∀ d ∈ es, d &&& 0x8000 = 0) (hH : H &&& 0x8000 = 0x8000)
    (hpos : positioned s.m_pipeData (hdr :: ds ++ es ++ H :: x :: rest) = true) :
    ∃ p, skip (ds.length + es.length + 2) s.m_pipeData = some p ∧
      positioned p (x :: rest) = true ∧
      get_line s = get_line_end
        { s with m_pipeData := p, Buff := store s.Buff 0 (ds.map (· &&& CHIP_DATA_MASK)),
                 m_pBuff := ds.length, m_pBuffEnd := s.m_bufferSize } ds.length true := by
  obtain ⟨d, ds1, rfl⟩ : ∃ d ds1, ds = d :: ds1 := by
    cases ds with
    | nil => simp at hk
    | cons d ds1 => exact ⟨d, ds1, rfl⟩
  obtain ⟨e, es1, rfl⟩ : ∃ e es1, es = e :: es1 := by
    cases es with
    | nil => simp at hes
    | cons e es1 => exact ⟨e, es1, rfl⟩
  have hreset : reset_ptrs s = .done () { s with m_pBuff := 0, m_pBuffEnd := s.m_bufferSize } := by
    simp only [reset_ptrs, hsent, ne_eq, not_true_eq_false, if_false]
  obtain ⟨p1, hinc, hp1, halign⟩ :=
    align_header { s with m_pBuff := 0, m_pBuffEnd := s.m_bufferSize } 0 hdr d
      (ds1 ++ e :: es1 ++ H :: x :: rest) hhdr (hdata d (by simp)) (by simpa using hpos)
  obtain ⟨p2, hskip2, hpp2, hfill⟩ := fillLine_steps e (es1 ++ H :: x :: rest) (d :: ds1)
    { s with m_pipeData := p1, m_pBuff := 0, m_pBuffEnd := s.m_bufferSize } 0 1
    (by simp only [Nat.zero_add]; omega) hdata (by simpa using hp1)
  have he0 : e &&& 0x8000 = 0 := hextra e (by simp)
  have hpd : p2.deref = e := positioned_head _ _ _ hpp2
  obtain ⟨p, hskip, hpp, hfind⟩ := find_hdr_loop_data H x rest hH (e :: es1)
    { s with m_pipeData := p2, Buff := store s.Buff 0 ((d :: ds1).map (· &&& CHIP_DATA_MASK)),
             m_pBuff := (d :: ds1).length, m_pBuffEnd := s.m_bufferSize } 0 TRY_MAX hreach hextra
    (by simpa using hpp2)
  simp only [] at hinc halign hfill hskip hskip2 hfind
  refine ⟨p, ?_, hpp, ?_⟩
  · rw [show (d :: ds1).length + (e :: es1).length + 2 =
      ((d :: ds1).length + ((e :: es1).length + 1)) + 1 by omega]
    apply skip_succ_of_increment _ _ p1 _ hinc
    rw [skip_add, hskip2]
    exact hskip
  · simp only [get_line, get_line_try, hreset, halign]
    rw [show s.m_bufferSize + 1 = 1 + (d :: ds1).length by omega, hfill]
    have hmov : ∀ t : CVthdsLineParser, t.m_pipeData = p2 → t.m_pBuff = t.m_pBuffEnd →
        MOV t = .raised .longLine t := by
      intro t h1 h2
      simp [MOV, h1, hpd, isEOL_of_data e he0, h2]
    simp only [fillLine, hpd, isEOL_of_data e he0, Bool.false_eq_true, if_false, Nat.zero_add]
    rw [hmov _ rfl (by simp only []; omega)]
    simp only [find_hdr, hfind]

end CVthdsLineParser

namespace CVthdsLineParser
open CVtUSBPipeData

/-- The closing statements of `get_line` return the flag they are given and touch
nothing but the error counter, which moves only for a wrong count when not quiet. -/
theorem get_line_end_spec (s : CVthdsLineParser) (count : Nat) (b : Bool) :
    ∃ s1, get_line_end s count b = .done b s1 ∧ s1.Buff = s.Buff ∧
      s1.m_pipeData = s.m_pipeData ∧ s1.m_bufferSize = s.m_bufferSize ∧
      s1.m_image_height = s.m_image_height ∧ s1.m_quiet = s.m_quiet ∧
      s1.m_errCount =
        s.m_errCount + (if count = s.m_image_height ∨ s.m_quiet = true then 0 else 1) := by
  unfold get_line_end
  by_cases h1 : count = s.m_image_height
  · exact ⟨s, by simp [h1]⟩
  · cases h2 : s.m_quiet with
    | true => exact ⟨s, by simp [h1, h2]⟩
    | false => exact ⟨{ s with m_errCount := s.m_errCount + 1 }, by simp [h1, h2]⟩

theorem getD_map_mask (ds : List Nat) (i : Nat) (hi : i < ds.length) :
    (ds.map (· &&& CHIP_DATA_MASK)).getD i 0 = ds.getD i 0 &&& 0x0FFF := by
  simp [List.getD_eq_getElem?_getD, List.getElem?_map, List.getElem?_eq_getElem hi,
    CHIP_DATA_MASK]

/-- The buffer after the masked words `ds` were stored from index 0 on: index `i`
holds the `i`-th of them, and a well-formed buffer stays well formed. -/
theorem store_line (s : CVthdsLineParser) (ds : List Nat) (hwf : s.WF)
    (hfit : ds.length ≤ s.m_bufferSize) :
    (∀ i, i < ds.length →
      (store s.Buff 0 (ds.map (· &&& CHIP_DATA_MASK))).getD i 0 = ds.getD i 0 &&& 0x0FFF) ∧
    (∀ i, ds.length ≤ i →
      (store s.Buff 0 (ds.map (· &&& CHIP_DATA_MASK))).getD i 0 = s.Buff.getD i 0) ∧
    (store s.Buff 0 (ds.map (· &&& CHIP_DATA_MASK))).length = s.m_bufferSize + 1 := by
  obtain ⟨hlen, _, _⟩ := hwf
  refine ⟨?_, ?_, ?_⟩
  · intro i hi
    have := store_getD (ds.map (· &&& CHIP_DATA_MASK)) s.Buff 0 i (by simpa using hi)
      (by simp; omega)
    rw [Nat.zero_add] at this
    rw [this, getD_map_mask ds i hi]
  · intro i hi
    exact store_getD_ge _ _ _ _ (by simpa using hi)
  · rw [store_length, hlen]

end CVthdsLineParser

open CVtUSBPipeData CVthdsLineParser

/-- The parser stays well formed when a line of at most `m_bufferSize` words was
stored from index 0 on. -/
theorem CVthdsLineParser.wf_after_store (s s1 : CVthdsLineParser) (ds : List Nat) (hwf : s.WF)
    (hfit : ds.length ≤ s.m_bufferSize)
    (hB : s1.Buff = store s.Buff 0 (ds.map (· &&& CHIP_DATA_MASK)))
    (hS : s1.m_bufferSize = s.m_bufferSize) (hH : s1.m_image_height = s.m_image_height) :
    s1.WF := by
  obtain ⟨_, hst2, hst3⟩ := store_line s ds hwf hfit
  refine ⟨by rw [hB, hS]; exact hst3, ?_, by rw [hS, hH]; exact hwf.2.2⟩
  rw [hB, hS, hst2 _ hfit]
  exact hwf.2.1

namespace CVtpcLineParser
open CVtUSBPipeData

theorem pc_isHdr_of_land (w : Nat) (h : w &&& 0x8000 = 0x8000) : isHdr w = true := by
  simp [isHdr, HDR_MASK, h]

theorem pc_isHdr_of_data (w : Nat) (h : w &&& 0x8000 = 0) : isHdr w = false := by
  simp [isHdr, HDR_MASK, h]

theorem pc_advance_done (s : CVtpcLineParser) (p1 : CVtUSBPipeData)
    (h : s.m_pipeData.increment = .done () p1) :
    advance s = .done () { s with m_pipeData := p1 } := by
  simp [advance, h]

/-- The first part of `align` changes nothing but the half flag and the half-index. -/
theorem alignHeader_spec (s : CVtpcLineParser) (line : Nat) :
    ∃ hf hi, (alignHeader s line).1 = { s with m_half := hf, m_half_idx := hi } := by
  unfold alignHeader
  simp only []
  split
  · split
    · exact ⟨_, _, rfl⟩
    · exact ⟨s.m_half, s.m_half_idx, rfl⟩
  · exact ⟨s.m_half, s.m_half_idx, rfl⟩

/-- Skipping a single header word that is followed by a data word. -/
theorem skipHdr_header (s : CVtpcLineParser) (hdr d : Nat) (ws : List Nat)
    (hhdr : hdr &&& 0x8000 = 0x8000) (hd : d &&& 0x8000 = 0)
    (hpos : positioned s.m_pipeData (hdr :: d :: ws) = true) :
    ∃ p1, s.m_pipeData.increment = .done () p1 ∧ positioned p1 (d :: ws) = true ∧
      skipHdr (s.m_pipeData.remaining + 1) s = .done () { s with m_pipeData := p1 } := by
  obtain ⟨hd0, p1, hinc, hp1⟩ := positioned_cons _ _ _ _ hpos
  refine ⟨p1, hinc, hp1, ?_⟩
  have hrem := increment_remaining _ _ hinc
  obtain ⟨f, hf⟩ : ∃ f, s.m_pipeData.remaining = f + 1 :=
    ⟨s.m_pipeData.remaining - 1, by omega⟩
  have hd1 : p1.deref = d := positioned_head _ _ _ hp1
  simp only [hf, skipHdr, hd0, pc_isHdr_of_land hdr hhdr, if_true,
    pc_advance_done s p1 hinc, hd1, pc_isHdr_of_data d hd, Bool.false_eq_true, if_false]

/-- The chip dispatch on a word whose tag is not valid for the configuration. -/
theorem alignChips_bad_tag (s : CVtpcLineParser)
    (hbad : (s.m_numChips = 3 ∧ s.m_pipeData.deref &&& 0x3000 = 0x3000) ∨
      (s.m_numChips = 2 ∧ s.m_pipeData.deref &&& 0x3000 ≠ 0 ∧
        s.m_pipeData.deref &&& 0x3000 ≠ 0x1000)) :
    alignChips s = .raised .chipTypeNotFound s := by
  unfold alignChips
  simp only [DATA_CHIP_MASK, DATA_CHIPA_PTRN, DATA_CHIPB_PTRN, DATA_CHIPC_PTRN]
  rcases hbad with ⟨h3, ht⟩ | ⟨h2, ht0, ht1⟩
  · simp [h3, ht]
  · simp [h2, ht0, ht1]

end CVtpcLineParser

theorem CVtUSBPipeData.increment_cases (p : CVtUSBPipeData) :
    (∃ p1, p.increment = .done () p1) ∨ (∃ e p1, p.increment = .raised e p1) := by
  unfold CVtUSBPipeData.increment
  simp only []
  split
  · split
    · exact Or.inr ⟨_, _, rfl⟩
    · split
      · exact Or.inr ⟨_, _, rfl⟩
      · exact Or.inl ⟨_, rfl⟩
  · exact Or.inl ⟨_, rfl⟩

namespace CVthdsLineParser
open CVtUSBPipeData

/-- The increment of the stream either succeeds, with fewer increments left, or
raises; it never runs out of fuel. -/
theorem advance_cases (s : CVthdsLineParser) :
    (∃ s1, advance s = .done () s1 ∧ s1.m_pipeData.remaining < s.m_pipeData.remaining ∧
        s1.m_pBuff = s.m_pBuff ∧ s1.m_pBuffEnd = s.m_pBuffEnd) ∨
      (∃ e s1, advance s = .raised e s1) := by
  rcases increment_cases s.m_pipeData with ⟨p1, h⟩ | ⟨e, p1, h⟩
  · exact Or.inl ⟨_, advance_done s p1 h, increment_remaining _ _ h, rfl, rfl⟩
  · exact Or.inr ⟨e, { s with m_pipeData := p1 }, by simp [advance, h]⟩

/-- The header-skipping loop of `align` does not use up a fuel above the number of
increments that the stream can still make. -/
theorem skipHdr_fuel (fuel : Nat) : ∀ s : CVthdsLineParser,
    s.m_pipeData.remaining < fuel → ∀ s1, skipHdr fuel s ≠ .outOfFuel s1 := by
  induction fuel with
  | zero => intro s h; omega
  | succ fuel ih =>
    intro s h s1
    unfold skipHdr
    split
    · rcases advance_cases s with ⟨s2, h2, hrem, _, _⟩ | ⟨e, s2, h2⟩
      · rw [h2]
        exact ih s2 (by omega) s1
      · rw [h2]
        intro hc
        cases hc
    · intro hc
      cases hc

/-- The member `MOV` either stores a word and moves the cursor by one, below the
end of the buffer, or raises. -/
theorem MOV_cases (s : CVthdsLineParser) :
    (∃ s1, MOV s = .done () s1 ∧ s.m_pBuff < s.m_pBuffEnd ∧ s1.m_pBuff = s.m_pBuff + 1 ∧
        s1.m_pBuffEnd = s.m_pBuffEnd) ∨
      (∃ e s1, MOV s = .raised e s1) := by
  unfold MOV
  simp only []
  split
  · exact Or.inr ⟨_, _, rfl⟩
  · split
    · rename_i hlt
      generalize ht : ({ s with Buff := s.Buff.set s.m_pBuff (s.m_pipeData.deref &&& CHIP_DATA_MASK),
                                m_pBuff := s.m_pBuff + 1 } : CVthdsLineParser) = t
      have hb0 : t.m_pBuff = s.m_pBuff + 1 := by rw [← ht]
      have he0 : t.m_pBuffEnd = s.m_pBuffEnd := by rw [← ht]
      rcases advance_cases t with ⟨s2, h2, _, hb, he⟩ | ⟨e, s2, h2⟩
      · exact Or.inl ⟨s2, h2, hlt, by rw [hb, hb0], by rw [he, he0]⟩
      · exact Or.inr ⟨e, s2, h2⟩
    · exact Or.inr ⟨_, _, rfl⟩

/-- The filling loop of `get_line` does not use up a fuel above the room left in
the line buffer. -/
theorem fillLine_fuel (fuel : Nat) : ∀ (s : CVthdsLineParser) (count : Nat),
    s.m_pBuffEnd - s.m_pBuff < fuel → ∀ r, fillLine fuel s count ≠ .outOfFuel r := by
  induction fuel with
  | zero => intro s count h; omega
  | succ fuel ih =>
    intro s count h r
    unfold fillLine
    split
    · intro hc
      cases hc
    · rcases MOV_cases s with ⟨s1, h1, hlt, hb, he⟩ | ⟨e, s1, h1⟩
      · rw [h1]
        exact ih s1 (count + 1) (by omega) r
      · rw [h1]
        intro hc
        cases hc

/-- The header search never runs out of fuel. -/
theorem find_hdr_loop_fuel (tries : Nat) : ∀ (length : Nat) (s s1 : CVthdsLineParser),
    find_hdr_loop tries length s ≠ .outOfFuel s1 := by
  induction tries with
  | zero => intro length s s1 hc; cases hc
  | succ tries ih =>
    intro length s s1
    unfold find_hdr_loop
    simp only []
    rcases advance_cases s with ⟨s2, h2, _, _, _⟩ | ⟨e, s2, h2⟩
    · rw [h2]
      simp only []
      split
      · intro hc
        cases hc
      · exact ih _ _ _
    · rw [h2]
      intro hc
      cases hc

theorem align_fuel (s : CVthdsLineParser) (line : Nat) (s1 : CVthdsLineParser) :
    align s line ≠ .outOfFuel s1 := by
  unfold align
  simp only []
  cases hsk : skipHdr (s.m_pipeData.remaining + 1) s with
  | done u s2 => intro hc; cases hc
  | raised e s2 => intro hc; cases hc
  | outOfFuel s2 => exact absurd hsk (skipHdr_fuel _ _ (by omega) _)

theorem get_line_try_fuel (s : CVthdsLineParser) (r : CVthdsLineParser × Nat) :
    get_line_try s ≠ .outOfFuel r := by
  unfold get_line_try
  cases hr : reset_ptrs s with
  | raised e s1 => intro hc; cases hc
  | outOfFuel s1 =>
    exfalso
    unfold reset_ptrs at hr
    split at hr <;> cases hr
  | done u s1 =>
    simp only []
    cases ha : align s1 0 with
    | raised e s2 => intro hc; cases hc
    | outOfFuel s2 => exact absurd ha (align_fuel _ _ _)
    | done l s2 => exact fillLine_fuel _ _ _ (by omega) _

/-- The member `get_line` always ends: it returns or raises, from every state of
the parser and of the stream; the fuel of its loops is never used up. -/
theorem get_line_ends (s : CVthdsLineParser) :
    (∃ b s1, get_line s = .done b s1) ∨ (∃ e s1, get_line s = .raised e s1) := by
  have hend : ∀ (t : CVthdsLineParser) (c : Nat) (b : Bool),
      ∃ s1, get_line_end t c b = .done b s1 :=
    fun t c b => by
      obtain ⟨s1, h, _⟩ := get_line_end_spec t c b
      exact ⟨s1, h⟩
  have htry := get_line_try_fuel s
  unfold get_line
  cases htr : get_line_try s with
  | done u r =>
    obtain ⟨s1, c⟩ := r
    obtain ⟨s2, h2⟩ := hend s1 c true
    exact Or.inl ⟨true, s2, by simp only [h2]⟩
  | outOfFuel r => exact absurd htr (htry r)
  | raised e r =>
    obtain ⟨s1, c⟩ := r
    cases e with
    | shortLine =>
      obtain ⟨s2, h2⟩ := hend s1 c true
      exact Or.inl ⟨true, s2, by simp only [h2]⟩
    | longLine =>
      simp only []
      cases hf : find_hdr s1 with
      | done fr s2 =>
        obtain ⟨found, len⟩ := fr
        obtain ⟨s3, h3⟩ := hend s2 c found
        exact Or.inl ⟨found, s3, by simp only [h3]⟩
      | raised e2 s2 => exact Or.inr ⟨e2, s2, rfl⟩
      | outOfFuel s2 => exact absurd hf (find_hdr_loop_fuel _ _ _ _)
    | EOD => exact Or.inl ⟨false, s1, rfl⟩
    | corruptSentinel =>
      obtain ⟨s2, h2⟩ := hend s1 c false
      exact Or.inl ⟨false, s2, by simp only [h2]⟩
    | invalidSentinel =>
      obtain ⟨s2, h2⟩ := hend s1 c false
      exact Or.inl ⟨false, s2, by simp only [h2]⟩
    | chipTypeNotFound =>
      obtain ⟨s2, h2⟩ := hend s1 c false
      exact Or.inl ⟨false, s2, by simp only [h2]⟩
    | unsupportedChips =>
      obtain ⟨s2, h2⟩ := hend s1 c false
      exact Or.inl ⟨false, s2, by simp only [h2]⟩
    | invalidFrames =>
      obtain ⟨s2, h2⟩ := hend s1 c false
      exact Or.inl ⟨false, s2, by simp only [h2]⟩
    | invalidDarkOrBright =>
      obtain ⟨s2, h2⟩ := hend s1 c false
      exact Or.inl ⟨false, s2, by simp only [h2]⟩
    | noImagesPresent =>
      obtain ⟨s2, h2⟩ := hend s1 c false
      exact Or.inl ⟨false, s2, by simp only [h2]⟩
    | noCalibrationFile =>
      obtain ⟨s2, h2⟩ := hend s1 c false
      exact Or.inl ⟨false, s2, by simp only [h2]⟩
    | hwInfoMismatch =>
      obtain ⟨s2, h2⟩ := hend s1 c false
      exact Or.inl ⟨false, s2, by simp only [h2]⟩
    | roiOriginNegative =>
      obtain ⟨s2, h2⟩ := hend s1 c false
      exact Or.inl ⟨false, s2, by simp only [h2]⟩
    | roiSizeNegative =>
      obtain ⟨s2, h2⟩ := hend s1 c false
      exact Or.inl ⟨false, s2, by simp only [h2]⟩
    | roiOriginOutside =>
      obtain ⟨s2, h2⟩ := hend s1 c false
      exact Or.inl ⟨false, s2, by simp only [h2]⟩
    | roiSizeOutside =>
      obtain ⟨s2, h2⟩ := hend s1 c false
      exact Or.inl ⟨false, s2, by simp only [h2]⟩

end CVthdsLineParser

namespace CVtpcLineParser
open CVtUSBPipeData

/-- The increment of the stream either succeeds, with fewer increments left and the
cursors of the parser untouched, or raises. -/
theorem pc_advance_cases (s : CVtpcLineParser) :
    (∃ s1, advance s = .done () s1 ∧ s1.m_pipeData.remaining < s.m_pipeData.remaining ∧
        frameA s1 = frameA s) ∨
      (∃ e s1, advance s = .raised e s1) := by
  rcases increment_cases s.m_pipeData with ⟨p1, h⟩ | ⟨e, p1, h⟩
  · exact Or.inl ⟨_, pc_advance_done s p1 h, increment_remaining _ _ h, rfl⟩
  · exact Or.inr ⟨e, { s with m_pipeData := p1 }, by simp [advance, h]⟩

theorem pc_skipHdr_fuel (fuel : Nat) : ∀ s : CVtpcLineParser,
    s.m_pipeData.remaining < fuel →
      (∃ s1, skipHdr fuel s = .done () s1 ∧ frameA s1 = frameA s) ∨
        (∃ e s1, skipHdr fuel s = .raised e s1) := by
  induction fuel with
  | zero => intro s h; omega
  | succ fuel ih =>
    intro s h
    unfold skipHdr
    split
    · rcases pc_advance_cases s with ⟨s2, h2, hrem, hf⟩ | ⟨e, s2, h2⟩
      · rw [h2]
        simp only []
        rcases ih s2 (by omega) with ⟨s3, h3, hf3⟩ | ⟨e, s3, h3⟩
        · exact Or.inl ⟨s3, h3, by rw [hf3, hf]⟩
        · exact Or.inr ⟨e, s3, h3⟩
      · rw [h2]
        exact Or.inr ⟨e, s2, rfl⟩
    · exact Or.inl ⟨s, rfl, rfl⟩

theorem MOVA_cases (s : CVtpcLineParser) :
    (∃ s1, MOVA s = .done () s1 ∧ s.m_chipABuff < s.m_AEnd ∧
        frameA s1 = (s.m_chipABuff + 1, s.m_AEnd, s.m_bufferSize, s.m_numChips)) ∨
      (∃ e s1, MOVA s = .raised e s1) := by
  unfold MOVA
  simp only []
  split
  · exact Or.inr ⟨_, _, rfl⟩
  · split
    · rename_i hlt
      generalize ht : ({ s with Buff := s.Buff.set s.m_chipABuff s.m_pipeData.deref,
                                m_chipABuff := s.m_chipABuff + 1 } : CVtpcLineParser) = t
      have hf0 : frameA t = (s.m_chipABuff + 1, s.m_AEnd, s.m_bufferSize, s.m_numChips) := by
        rw [← ht]; rfl
      rcases pc_advance_cases t with ⟨s2, h2, _, hf⟩ | ⟨e, s2, h2⟩
      · exact Or.inl ⟨s2, h2, hlt, by rw [hf, hf0]⟩
      · exact Or.inr ⟨e, s2, h2⟩
    · exact Or.inr ⟨_, _, rfl⟩

theorem MOVB_cases (s : CVtpcLineParser) :
    (∃ s1, MOVB s = .done () s1 ∧ frameA s1 = frameA s) ∨
      (∃ e s1, MOVB s = .raised e s1) := by
  unfold MOVB
  simp only []
  split
  · exact Or.inr ⟨_, _, rfl⟩
  · split
    · generalize ht : ({ s with Buff := s.Buff.set s.m_chipBBuff
                                  (s.m_pipeData.deref &&& CHIP_DATA_MASK),
                                m_chipBBuff := s.m_chipBBuff + 1 } : CVtpcLineParser) = t
      have hf0 : frameA t = frameA s := by rw [← ht]; rfl
      rcases pc_advance_cases t with ⟨s2, h2, _, hf⟩ | ⟨e, s2, h2⟩
      · exact Or.inl ⟨s2, h2, by rw [hf, hf0]⟩
      · exact Or.inr ⟨e, s2, h2⟩
    · exact Or.inr ⟨_, _, rfl⟩

theorem MOVC_cases (s : CVtpcLineParser) :
    (∃ s1, MOVC s = .done () s1 ∧ frameA s1 = frameA s) ∨
      (∃ e s1, MOVC s = .raised e s1) := by
  unfold MOVC
  simp only []
  split
  · exact Or.inr ⟨_, _, rfl⟩
  · split
    · generalize ht : ({ s with Buff := setC s.Buff s.m_chipCBuff
                                  (s.m_pipeData.deref &&& CHIP_DATA_MASK),
                                m_chipCBuff := s.m_chipCBuff - 1 } : CVtpcLineParser) = t
      have hf0 : frameA t = frameA s := by rw [← ht]; rfl
      rcases pc_advance_cases t with ⟨s2, h2, _, hf⟩ | ⟨e, s2, h2⟩
      · exact Or.inl ⟨s2, h2, by rw [hf, hf0]⟩
      · exact Or.inr ⟨e, s2, h2⟩
    · exact Or.inr ⟨_, _, rfl⟩

/-- One round of the filling loop either moves the cursor of chip A by one, below
its limit, or raises. -/
theorem moveChips_cases (s : CVtpcLineParser) :
    (∃ s1, moveChips s = .done () s1 ∧ s.m_chipABuff < s.m_AEnd ∧
        frameA s1 = (s.m_chipABuff + 1, s.m_AEnd, s.m_bufferSize, s.m_numChips)) ∨
      (∃ e s1, moveChips s = .raised e s1) := by
  unfold moveChips
  split
  · exact MOVA_cases s
  · split
    · rcases MOVA_cases s with ⟨s1, h1, hlt, hf⟩ | ⟨e, s1, h1⟩
      · rw [h1]
        simp only []
        rcases MOVB_cases s1 with ⟨s2, h2, hf2⟩ | ⟨e, s2, h2⟩
        · exact Or.inl ⟨s2, h2, hlt, by rw [hf2, hf]⟩
        · exact Or.inr ⟨e, s2, h2⟩
      · rw [h1]
        exact Or.inr ⟨e, s1, rfl⟩
    · split
      · rcases MOVA_cases s with ⟨s1, h1, hlt, hf⟩ | ⟨e, s1, h1⟩
        · rw [h1]
          simp only []
          rcases MOVB_cases s1 with ⟨s2, h2, hf2⟩ | ⟨e, s2, h2⟩
          · rw [h2]
            simp only []
            rcases MOVC_cases s2 with ⟨s3, h3, hf3⟩ | ⟨e, s3, h3⟩
            · exact Or.inl ⟨s3, h3, hlt, by rw [hf3, hf2, hf]⟩
            · exact Or.inr ⟨e, s3, h3⟩
          · rw [h2]
            exact Or.inr ⟨e, s2, rfl⟩
        · rw [h1]
          exact Or.inr ⟨e, s1, rfl⟩
      · exact Or.inr ⟨_, _, rfl⟩

theorem pc_fillLine_fuel (fuel : Nat) : ∀ (s : CVtpcLineParser) (count : Nat),
    s.m_AEnd - s.m_chipABuff < fuel → ∀ r, fillLine fuel s count ≠ .outOfFuel r := by
  induction fuel with
  | zero => intro s count h; omega
  | succ fuel ih =>
    intro s count h r
    unfold fillLine
    split
    · intro hc
      cases hc
    · rcases moveChips_cases s with ⟨s1, h1, hlt, hf⟩ | ⟨e, s1, h1⟩
      · rw [h1]
        simp only [frameA, Prod.mk.injEq] at hf
        exact ih s1 (count + 1) (by omega) r
      · rw [h1]
        intro hc
        cases hc

theorem alignChips_cases (s : CVtpcLineParser) :
    (∃ b s1, alignChips s = .done b s1 ∧ frameA s1 = frameA s) ∨
      (∃ e s1, alignChips s = .raised e s1) := by
  unfold alignChips
  simp only []
  split
  · split
    · exact Or.inl ⟨_, _, rfl, rfl⟩
    · split
      · rcases MOVB_cases s with ⟨s1, h1, hf⟩ | ⟨e, s1, h1⟩
        · rw [h1]
          simp only []
          rcases MOVC_cases s1 with ⟨s2, h2, hf2⟩ | ⟨e, s2, h2⟩
          · rw [h2]
            exact Or.inl ⟨_, _, rfl, by rw [hf2, hf]⟩
          · rw [h2]
            exact Or.inr ⟨_, _, rfl⟩
        · rw [h1]
          exact Or.inr ⟨_, _, rfl⟩
      · split
        · rcases MOVC_cases s with ⟨s1, h1, hf⟩ | ⟨e, s1, h1⟩
          · rw [h1]
            exact Or.inl ⟨_, _, rfl, hf⟩
          · rw [h1]
            exact Or.inr ⟨_, _, rfl⟩
        · exact Or.inr ⟨_, _, rfl⟩
  · split
    · split
      · exact Or.inl ⟨_, _, rfl, rfl⟩
      · split
        · rcases MOVB_cases s with ⟨s1, h1, hf⟩ | ⟨e, s1, h1⟩
          · rw [h1]
            exact Or.inl ⟨_, _, rfl, hf⟩
          · rw [h1]
            exact Or.inr ⟨_, _, rfl⟩
        · exact Or.inr ⟨_, _, rfl⟩
    · exact Or.inl ⟨_, _, rfl, rfl⟩

theorem pc_align_cases (s : CVtpcLineParser) (line : Nat) :
    (∃ r s1, align s line = .done r s1 ∧ frameA s1 = frameA s) ∨
      (∃ e s1, align s line = .raised e s1) := by
  obtain ⟨hf, hi, hah⟩ := alignHeader_spec s line
  have hpair : alignHeader s line =
      ({ s with m_half := hf, m_half_idx := hi }, (alignHeader s line).2) := Prod.ext hah rfl
  unfold align
  rw [hpair]
  simp only []
  rcases pc_skipHdr_fuel _ { s with m_half := hf, m_half_idx := hi } (Nat.lt_succ_self _) with
    ⟨s1, h1, hf1⟩ | ⟨e, s1, h1⟩
  · rw [h1]
    simp only []
    rcases alignChips_cases s1 with ⟨b, s2, h2, hf2⟩ | ⟨e, s2, h2⟩
    · rw [h2]
      exact Or.inl ⟨_, _, rfl, by rw [hf2, hf1]; rfl⟩
    · rw [h2]
      exact Or.inr ⟨_, _, rfl⟩
  · rw [h1]
    exact Or.inr ⟨_, _, rfl⟩

theorem pc_find_hdr_loop_fuel (tries : Nat) : ∀ (length : Nat) (s s1 : CVtpcLineParser),
    find_hdr_loop tries length s ≠ .outOfFuel s1 := by
  induction tries with
  | zero => intro length s s1 hc; cases hc
  | succ tries ih =>
    intro length s s1
    unfold find_hdr_loop
    simp only []
    rcases pc_advance_cases s with ⟨s2, h2, _, _⟩ | ⟨e, s2, h2⟩
    · rw [h2]
      simp only []
      split
      · intro hc
        cases hc
      · exact ih _ _ _
    · rw [h2]
      intro hc
      cases hc

theorem pc_get_line_try_fuel (s : CVtpcLineParser) (r : CVtpcLineParser × Nat) :
    get_line_try s ≠ .outOfFuel r := by
  unfold get_line_try
  cases hr : reset_ptrs s with
  | raised e s1 => intro hc; cases hc
  | outOfFuel s1 =>
    exfalso
    unfold reset_ptrs at hr
    split at hr <;> cases hr
  | done u s1 =>
    simp only []
    have hfr : s1.m_AEnd - s1.m_chipABuff ≤ s1.m_bufferSize := by
      unfold reset_ptrs at hr
      split at hr
      · cases hr
      · injection hr with _ hr
        rw [← hr]
        simp
    rcases pc_align_cases s1 0 with ⟨l, s2, h2, hf2⟩ | ⟨e, s2, h2⟩
    · rw [h2]
      simp only [frameA, Prod.mk.injEq] at hf2
      exact pc_fillLine_fuel _ _ _ (by omega) _
    · rw [h2]
      intro hc
      cases hc

/-- The member `get_line` of the multi-chip parser always ends: it returns or
raises; the fuel of its loops is never used up. -/
theorem pc_get_line_ends (s : CVtpcLineParser) :
    (∃ b s1, get_line s = .done b s1) ∨ (∃ e s1, get_line s = .raised e s1) := by
  have hend : ∀ (t : CVtpcLineParser) (c : Nat) (b : Bool),
      ∃ s1, get_line_end t c b = .done b s1 := by
    intro t c b
    unfold get_line_end
    split
    · exact ⟨_, rfl⟩
    · split
      · exact ⟨_, rfl⟩
      · exact ⟨_, rfl⟩
  unfold get_line
  cases htr : get_line_try s with
  | done u r =>
    obtain ⟨s1, c⟩ := r
    obtain ⟨s2, h2⟩ := hend s1 c true
    exact Or.inl ⟨true, s2, by simp only [h2]⟩
  | outOfFuel r => exact absurd htr (pc_get_line_try_fuel s r)
  | raised e r =>
    obtain ⟨s1, c⟩ := r
    cases e with
    | longLine =>
      simp only []
      cases hf : find_hdr s1 with
      | done fr s2 =>
        obtain ⟨s3, h3⟩ := hend s2 c false
        exact Or.inl ⟨false, s3, by simp only [h3]⟩
      | raised e2 s2 => exact Or.inr ⟨e2, s2, rfl⟩
      | outOfFuel s2 => exact absurd hf (pc_find_hdr_loop_fuel _ _ _ _)
    | EOD => exact Or.inl ⟨false, s1, rfl⟩
    | shortLine =>
      obtain ⟨s2, h2⟩ := hend s1 c true
      exact Or.inl ⟨true, s2, by simp only [h2]⟩
    | corruptSentinel =>
      obtain ⟨s2, h2⟩ := hend s1 c false
      exact Or.inl ⟨false, s2, by simp only [h2]⟩
    | invalidSentinel =>
      obtain ⟨s2, h2⟩ := hend s1 c false
      exact Or.inl ⟨false, s2, by simp only [h2]⟩
    | chipTypeNotFound =>
      obtain ⟨s2, h2⟩ := hend s1 c false
      exact Or.inl ⟨false, s2, by simp only [h2]⟩
    | unsupportedChips =>
      obtain ⟨s2, h2⟩ := hend s1 c false
      exact Or.inl ⟨false, s2, by simp only [h2]⟩
    | invalidFrames =>
      obtain ⟨s2, h2⟩ := hend s1 c false
      exact Or.inl ⟨false, s2, by simp only [h2]⟩
    | invalidDarkOrBright =>
      obtain ⟨s2, h2⟩ := hend s1 c false
      exact Or.inl ⟨false, s2, by simp only [h2]⟩
    | noImagesPresent =>
      obtain ⟨s2, h2⟩ := hend s1 c false
      exact Or.inl ⟨false, s2, by simp only [h2]⟩
    | noCalibrationFile =>
      obtain ⟨s2, h2⟩ := hend s1 c false
      exact Or.inl ⟨false, s2, by simp only [h2]⟩
    | hwInfoMismatch =>
      obtain ⟨s2, h2⟩ := hend s1 c false
      exact Or.inl ⟨false, s2, by simp only [h2]⟩
    | roiOriginNegative =>
      obtain ⟨s2, h2⟩ := hend s1 c false
      exact Or.inl ⟨false, s2, by simp only [h2]⟩
    | roiSizeNegative =>
      obtain ⟨s2, h2⟩ := hend s1 c false
      exact Or.inl ⟨false, s2, by simp only [h2]⟩
    | roiOriginOutside =>
      obtain ⟨s2, h2⟩ := hend s1 c false
      exact Or.inl ⟨false, s2, by simp only [h2]⟩
    | roiSizeOutside =>
      obtain ⟨s2, h2⟩ := hend s1 c false
      exact Or.inl ⟨false, s2, by simp only [h2]⟩

end CVtpcLineParser

end Vt

namespace Vt

open CVtHalfLineCalib

theorem readAt_value {α : Type} (xs : List α) (i : Nat) (a : α) (h : readAt xs i = .value a) :
    ∃ hi : i < xs.length, xs[i] = a := by
  unfold readAt at h
  split at h
  · rename_i b hb
    injection h with h
    subst h
    obtain ⟨hi, hb⟩ := List.getElem?_eq_some_iff.mp hb
    exact ⟨hi, hb⟩
  · cases h

theorem readAt_getD {α : Type} (xs : List α) (i : Nat) (a d : α) (h : readAt xs i = .value a) :
    xs.getD i d = a := by
  obtain ⟨hi, ha⟩ := readAt_value xs i a h
  simp [List.getD_eq_getElem?_getD, List.getElem?_eq_getElem hi, ha]

open CVtHalfLineCalib

/-- A `double` in `[0, 65535]` converts to `vt_ushort` without wraparound. -/
theorem toUShort_of_range (x : ℚ) (h0 : 0 ≤ x) (h1 : x ≤ 65535) :
    toUShort x = ⌊x⌋.toNat ∧ toUShort x ≤ 65535 := by
  have hf0 : 0 ≤ ⌊x⌋ := Int.floor_nonneg.mpr h0
  have hf1 : ⌊x⌋ ≤ 65535 := by
    have : (⌊x⌋ : ℚ) ≤ x := Int.floor_le x
    have h2 : ((⌊x⌋ : ℤ) : ℚ) ≤ ((65535 : ℤ) : ℚ) := by push_cast; linarith
    exact_mod_cast h2
  have hm : ⌊x⌋ % 65536 = ⌊x⌋ := Int.emod_eq_of_lt hf0 (by omega)
  simp only [toUShort, h0, if_true, hm]
  exact ⟨trivial, by omega⟩

/-- The value of `gap_fix` lies between the two neighbouring pixels. -/
theorem gapValue_range (vm1 vp1 : Nat) (hvm : vm1 ≤ 65535) (hvp : vp1 ≤ 65535) :
    0 ≤ gapValue vm1 vp1 ∧ gapValue vm1 vp1 ≤ 65535 ∧
      intToUShort (gapValue vm1 vp1) = (gapValue vm1 vp1).toNat := by
  unfold gapValue intToUShort
  have key : 0 ≤ (vm1 : Int) + Int.tdiv ((vp1 : Int) - (vm1 : Int)) 2 ∧
      (vm1 : Int) + Int.tdiv ((vp1 : Int) - (vm1 : Int)) 2 ≤ 65535 := by
    by_cases hle : vm1 ≤ vp1
    · have h0 : (0 : Int) ≤ (vp1 : Int) - vm1 := by omega
      rw [Int.tdiv_eq_ediv h0 (by norm_num)]
      omega
    · have h0 : (0 : Int) ≤ (vm1 : Int) - vp1 := by omega
      have h1 : (vp1 : Int) - vm1 = -((vm1 : Int) - vp1) := by ring
      rw [h1, Int.neg_tdiv, Int.tdiv_eq_ediv h0 (by norm_num)]
      omega
  refine ⟨key.1, key.2, ?_⟩
  rw [Int.emod_eq_of_lt key.1 (by omega)]

open CVtHalfLineCalib

theorem Calc.bind_eq_value {α β : Type} (x : Calc α) (f : α → Calc β) (b : β)
    (h : x.bind f = .value b) : ∃ a, x = .value a ∧ f a = .value b := by
  cases x with
  | value a => exact ⟨a, rfl, h⟩
  | failed e => cases h
  | undefined => cases h
  | notFinite => cases h
  | outOfFuel => cases h

open CVtHalfLineCalib

theorem writeAt_value {α : Type} (xs ys : List α) (i : Nat) (v : α)
    (h : writeAt xs i v = .value ys) : i < xs.length ∧ ys = xs.set i v := by
  unfold writeAt at h
  split at h
  · rename_i hi
    injection h with h
    exact ⟨hi, h.symm⟩
  · cases h

theorem getD_replicate_zero (n r : Nat) : (List.replicate n (0 : ℚ)).getD r 0 = 0 := by
  simp only [List.getD_eq_getElem?_getD, List.getElem?_replicate]
  split <;> rfl

theorem gainOf_le (mean_signal diff : ℚ) : gainOf mean_signal diff ≤ 4 := by
  unfold gainOf MAX_COEF
  split
  · split
    · norm_num
    · rename_i h
      exact not_lt.mp h
  · norm_num

theorem gainOf_of_le_eps (mean_signal diff : ℚ) (h : diff ≤ eps) :
    gainOf mean_signal diff = 0 := by
  unfold gainOf
  simp [not_lt.mpr h]

/-- The rejection loop returns only when it is not entered. -/
theorem rejectLoop_value (end_row height : Nat) (dfvec : List (Option ℚ)) (var : ℚ)
    (fuel : Nat) : ∀ (row : Nat) (coef c : List ℚ),
    rejectLoop end_row height dfvec var fuel row coef = .value c →
      ¬ end_row < height ∧ c = coef := by
  induction fuel with
  | zero => intro row coef c h; cases h
  | succ fuel ih =>
    intro row coef c h
    unfold rejectLoop at h
    by_cases hlt : end_row < height
    · simp only [hlt, if_true] at h
      obtain ⟨coef1, _, h2⟩ := Calc.bind_eq_value _ _ _ h
      exact absurd hlt (ih _ _ _ h2).1
    · simp only [hlt, if_false] at h
      injection h with h
      exact ⟨hlt, h.symm⟩

/-- One iteration of the main loop of `recalc` stores the gain of its row and
leaves the other gains alone. -/
theorem coefStep_spec (darkC brightC : List ℚ) (mean_signal : ℚ) (row : Nat)
    (st st1 : CoefLoop) (h : coefStep darkC brightC mean_signal row st = .value st1) :
    row < st.m_coef.length ∧
      st1.m_coef = st.m_coef.set row
        (gainOf mean_signal (brightC.getD row 0 - darkC.getD row 0)) := by
  unfold coefStep at h
  obtain ⟨b, hb, h⟩ := Calc.bind_eq_value _ _ _ h
  obtain ⟨d, hd, h⟩ := Calc.bind_eq_value _ _ _ h
  obtain ⟨coef1, hw, h⟩ := Calc.bind_eq_value _ _ _ h
  obtain ⟨hlt, hcoef1⟩ := writeAt_value _ _ _ _ hw
  rw [readAt_getD _ _ _ 0 hb, readAt_getD _ _ _ 0 hd]
  refine ⟨hlt, ?_⟩
  split at h
  · obtain ⟨prev, _, h⟩ := Calc.bind_eq_value _ _ _ h
    obtain ⟨dfvec1, _, h⟩ := Calc.bind_eq_value _ _ _ h
    injection h with h
    rw [← h, hcoef1]
  · injection h with h
    rw [← h, hcoef1]

/-- The main loop of `recalc` over the rows `[row, row + n)`: the gains of these
rows are those of `gainOf`, the others are left alone. -/
theorem coefLoop_spec (darkC brightC : List ℚ) (mean_signal : ℚ) (n : Nat) :
    ∀ (row : Nat) (st st1 : CoefLoop),
    coefLoop darkC brightC mean_signal n row st = .value st1 →
      st1.m_coef.length = st.m_coef.length ∧
      (∀ r, r < row ∨ row + n ≤ r → st1.m_coef.getD r 0 = st.m_coef.getD r 0) ∧
      (∀ r, row ≤ r → r < row + n →
        st1.m_coef.getD r 0 = gainOf mean_signal (brightC.getD r 0 - darkC.getD r 0)) := by
  induction n with
  | zero =>
    intro row st st1 h
    unfold coefLoop at h
    injection h with h
    subst h
    exact ⟨rfl, fun _ _ => rfl, fun r h1 h2 => by omega⟩
  | succ n ih =>
    intro row st st1 h
    unfold coefLoop at h
    obtain ⟨st2, hstep, h⟩ := Calc.bind_eq_value _ _ _ h
    obtain ⟨hlt, hset⟩ := coefStep_spec _ _ _ _ _ _ hstep
    obtain ⟨hlen, hout, hin⟩ := ih _ _ _ h
    refine ⟨by rw [hlen, hset, List.length_set], ?_, ?_⟩
    · intro r hr
      rw [hout r (by omega), hset]
      simp only [List.getD_eq_getElem?_getD]
      rw [List.getElem?_set_ne (by omega)]
    · intro r h1 h2
      by_cases hr : r = row
      · subst hr
        rw [hout r (by omega), hset]
        simp [List.getD_eq_getElem?_getD, List.getElem?_set_self, hlt]
      · exact hin r (by omega) (by omega)

/-- A successful `recalc`: every gain is 0 or the gain that `gainOf` gives for the
row means stored, and it is 0 off the rows `(start_row, end_row)`. -/
theorem recalc_value (s s1 : CVtHalfLineCalib) (api_type : API_TYPE)
    (BrightFrame DarkFrame : CVtImage)
    (h : recalc s api_type BrightFrame DarkFrame = .value s1) :
    ∃ mean_signal : ℚ, s1.m_initialised = true ∧ s1.m_coef.length = BrightFrame.m_height ∧
      (∀ r, r < startRow s api_type + 1 ∨ endRow s ≤ r → s1.m_coef.getD r 0 = 0) ∧
      (∀ r, startRow s api_type + 1 ≤ r → r < endRow s → s1.m_coef.getD r 0 =
        gainOf mean_signal (s1.m_brightC.getD r 0 - s1.m_darkC.getD r 0)) := by
  unfold recalc at h
  split at h
  · cases h
  · simp only [] at h
    obtain ⟨dark, _, h⟩ := Calc.bind_eq_value _ _ _ h
    obtain ⟨bright, _, h⟩ := Calc.bind_eq_value _ _ _ h
    split at h
    · obtain ⟨coef, hcoef, h⟩ := Calc.bind_eq_value _ _ _ h
      injection h with h
      subst h
      unfold recalcCoef at hcoef
      obtain ⟨st, hloop, hrej⟩ := Calc.bind_eq_value _ _ _ hcoef
      have hc : coef = st.m_coef := by
        split at hrej
        · exact (rejectLoop_value _ _ _ _ _ _ _ _ hrej).2
        · injection hrej with hrej
          exact hrej.symm
      obtain ⟨hlen, hout, hin⟩ := coefLoop_spec _ _ _ _ _ _ _ hloop
      refine ⟨bright.2 - dark.2, rfl, ?_, ?_, ?_⟩
      · simp only [hc, hlen, List.length_replicate]
      · intro r hr
        simp only [hc]
        rw [hout r (by omega)]
        exact getD_replicate_zero _ r
      · intro r h1 h2
        simp only [hc]
        exact hin r h1 (by omega)
    · cases h

open CVtHalfLineCalib

theorem readAt_of_lt {α : Type} (xs : List α) (i : Nat) (d : α) (hi : i < xs.length) :
    readAt xs i = .value (xs.getD i d) := by
  simp [readAt, List.getD_eq_getElem?_getD, List.getElem?_eq_getElem hi]

theorem readAt_replicate {α : Type} (n i : Nat) (a : α) (hi : i < n) :
    readAt (List.replicate n a) i = .value a := by
  simp [readAt, List.getElem?_replicate, hi]

theorem toUShort_natCast (c : Nat) (hc : c ≤ 65535) : toUShort (c : ℚ) = c := by
  have h := (toUShort_of_range (c : ℚ) (by positivity) (by exact_mod_cast hc)).1
  rw [h, Int.floor_natCast, Int.toNat_ofNat]

/-- With unit gain and no seam offset the pixel stored is `v - d + p`, when that
lies in `[0, 65535)`. -/
theorem calibPixel_unit (v d p : Nat) (hd : d ≤ v + p) (hc : v + p - d < 65535) :
    calibPixel v (d : ℚ) 1 ((p : ℚ) + 0) = v + p - d := by
  have hval : calibValue v (d : ℚ) 1 ((p : ℚ) + 0) = ((v + p - d : Nat) : ℚ) := by
    unfold calibValue
    rw [Nat.cast_sub hd]
    push_cast
    ring
  unfold calibPixel
  simp only [hval, USHRT_MAX]
  have h0 : ¬ (((v + p - d : Nat) : ℚ) < 0) := by
    have : (0 : ℚ) ≤ ((v + p - d : Nat) : ℚ) := by positivity
    linarith
  have h1 : ¬ (((v + p - d : Nat) : ℚ) ≥ ((65535 : Nat) : ℚ)) := by
    rw [ge_iff_le, Nat.cast_le]
    omega
  simp only [h0, h1, if_false]
  exact toUShort_natCast _ (by omega)

/-- The column loop of the main pass on a uniform input row, with unit gain and no
seam offset: the output row becomes uniform. -/
theorem calibRow_uniform (v d p W : Nat) (OutVec : List Nat) (hd : d ≤ v + p)
    (hc : v + p - d < 65535) (hW : 1 ≤ W) (hlen : OutVec.length = W) :
    calibRow (List.replicate W v) OutVec W (d : ℚ) 1 ((p : ℚ) + 0) =
      .value (List.replicate W (v + p - d)) := by
  unfold calibRow
  have hw : W ≠ 0 := by omega
  simp only [hw, if_false, List.length_replicate, hlen, lt_self_iff_false, or_self]
  congr 1
  rw [List.take_of_length_le (by simp), List.drop_of_length_le (by omega),
    List.map_replicate, calibPixel_unit v d p hd hc, List.append_nil]

theorem gapValueAB_same (c : Nat) (t : ℚ) : gapValueAB c c t = c := by
  unfold gapValueAB
  simp

theorem gapValue_same (c : Nat) : gapValue c c = c := by
  unfold gapValue
  simp

theorem zipWith_replicate_same {α β : Type} (f : α → α → β) (n : Nat) (a : α) :
    List.zipWith f (List.replicate n a) (List.replicate n a) = List.replicate n (f a a) := by
  induction n with
  | zero => rfl
  | succ n ih => simp [List.replicate_succ, ih]

/-- The column loop of `gap_fixAB` between two uniform rows of the same value
gives that uniform row. -/
theorem gapRowAB_uniform (c W : Nat) (t : ℚ) (hc : c ≤ 65535) :
    gapRowAB (List.replicate W c) (List.replicate W c) (List.replicate W c) W t =
      .value (List.replicate W c) := by
  unfold gapRowAB
  by_cases hw : W = 0
  · simp [hw]
  · simp only [hw, if_false, List.length_replicate, lt_self_iff_false, or_self]
    congr 1
    rw [List.take_of_length_le (by simp), List.drop_of_length_le (by simp),
      zipWith_replicate_same, gapValueAB_same, toUShort_natCast c hc, List.append_nil]

open CVtHalfLineCalib

theorem set_replicate_same {α : Type} (n i : Nat) (a : α) :
    (List.replicate n a).set i a = List.replicate n a := by
  apply List.ext_getElem?
  intro j
  by_cases hj : i = j
  · subst hj
    by_cases hi : i < n
    · simp [List.getElem?_set_self, hi, List.getElem?_replicate]
    · simp [List.getElem?_replicate, hi]
  · rw [List.getElem?_set_ne hj]

theorem usub32_of_le (a b : Nat) (ha : a < 4294967296) (hb : b ≤ a) : usub32 a b = a - b := by
  unfold usub32
  omega

theorem intToUShort_natCast (c : Nat) (hc : c ≤ 65535) : intToUShort (c : Int) = c := by
  unfold intToUShort
  rw [Int.emod_eq_of_lt (by omega) (by omega), Int.toNat_ofNat]

/-- The row loop of `gap_fixAB` on a uniform image leaves the image as it is. -/
theorem gapLoopAB_uniform (c W N rowM rowP : Nat) (hc : c ≤ 65535) (hM : rowM < N)
    (hP : rowP < N) (n : Nat) : ∀ k, rowM + k + n ≤ N →
    gapLoopAB rowM rowP W n k (List.replicate N (List.replicate W c)) =
      .value (List.replicate N (List.replicate W c)) := by
  induction n with
  | zero => intro k _; rfl
  | succ n ih =>
    intro k hk
    unfold gapLoopAB
    rw [readAt_replicate _ _ _ hM, readAt_replicate _ _ _ hP,
      readAt_replicate _ _ _ (by omega : rowM + k < N)]
    simp only [Calc.bind, gapRowAB_uniform c W _ hc, set_replicate_same]
    exact ih (k + 1) (by omega)

/-- The member `gap_fixAB` on a uniform image whose band lies inside the image. -/
theorem gap_fixAB_uniform (c W N pos : Nat) (hc : c ≤ 65535) (h2 : 2 ≤ pos)
    (hN : pos + 7 < N) (hpos : pos < 4294967296) :
    gap_fixAB (List.replicate N (List.replicate W c)) pos W =
      .value (List.replicate N (List.replicate W c)) := by
  unfold gap_fixAB
  rw [usub32_of_le pos 2 hpos h2, readAt_replicate _ _ _ hN,
    readAt_replicate _ _ _ (by omega : pos - 2 < N)]
  simp only [Calc.bind]
  rw [show pos + 7 - (pos - 2) = 9 by omega]
  exact gapLoopAB_uniform c W N (pos - 2) (pos + 7) hc (by omega) hN 9 0 (by omega)

/-- The member `gap_fix` on a uniform image whose three rows lie inside the image. -/
theorem gap_fix_uniform (c W N pos : Nat) (hc : c ≤ 65535) (h2 : 2 ≤ pos)
    (hN : pos < N) (hpos : pos < 4294967296) :
    gap_fix (List.replicate N (List.replicate W c)) pos W =
      .value (List.replicate N (List.replicate W c)) := by
  unfold gap_fix
  rw [usub32_of_le pos 2 hpos h2, usub32_of_le pos 1 hpos (by omega),
    readAt_replicate _ _ _ hN, readAt_replicate _ _ _ (by omega : pos - 1 < N),
    readAt_replicate _ _ _ (by omega : pos - 2 < N)]
  simp only [Calc.bind]
  by_cases hw : W = 0
  · simp [hw]
  · simp only [hw, if_false, List.length_replicate, lt_self_iff_false, or_self]
    congr 1
    rw [List.take_of_length_le (by simp), List.drop_of_length_le (by simp),
      zipWith_replicate_same, gapValue_same, intToUShort_natCast c hc, List.append_nil,
      set_replicate_same]

open CVtHalfLineCalib

/-- A row of a region of interest that lies inside the image is read. -/
theorem roiRow_value (im : List (List Nat)) (W row c_start c_end : Nat)
    (hrow : row < im.length) (hlen : (im.getD row []).length = W) (hce : c_end ≤ W) :
    ∃ px, roiRow im row c_start c_end = .value px ∧ px.length = c_end - c_start := by
  unfold roiRow
  rw [readAt_of_lt im row [] hrow]
  simp only [bind, Calc.bind]
  by_cases h1 : c_end ≤ c_start
  · exact ⟨[], by simp only [h1, if_true, pure], by simp; omega⟩
  · have h2 : ¬ (im.getD row []).length < c_end := by omega
    refine ⟨((im.getD row []).take c_end).drop c_start,
      by simp only [h1, h2, if_false, pure], ?_⟩
    simp only [List.length_drop, List.length_take]
    omega

/-- The rows of a region of interest that lies inside the image are read. -/
theorem roiPixels_value (im : List (List Nat)) (W c_start c_end : Nat)
    (hrows : ∀ r, r < im.length → (im.getD r []).length = W) (hce : c_end ≤ W) (n : Nat) :
    ∀ row, row + n ≤ im.length →
      ∃ px, roiPixels im c_start c_end n row = .value px ∧
        px.length = n * (c_end - c_start) := by
  induction n with
  | zero => intro row _; exact ⟨[], rfl, by simp⟩
  | succ n ih =>
    intro row hrow
    obtain ⟨p1, hp1, hl1⟩ := roiRow_value im W row c_start c_end (by omega)
      (hrows row (by omega)) hce
    obtain ⟨p2, hp2, hl2⟩ := ih (row + 1) (by omega)
    refine ⟨p1 ++ p2, ?_, ?_⟩
    · unfold roiPixels
      simp only [bind, Calc.bind, hp1, hp2, pure]
    · rw [List.length_append, hl1, hl2]
      ring

/-- The pooled variance of a rectangle of 32 by 32 pixels inside the image is
computed: the count is 1024 and no division is by zero. -/
theorem roi_pooled_var_value (im : List (List Nat)) (W : Nat) (top bot : CVtRect)
    (hrows : ∀ r, r < im.length → (im.getD r []).length = W)
    (hx : top.x + top.xsize ≤ W) (hy : top.y + top.ysize ≤ im.length)
    (hxs : top.xsize = 32) (hys : top.ysize = 32) :
    ∃ pv, roi_pooled_var im top bot = .value pv := by
  obtain ⟨px, hpx, hlen⟩ := roiPixels_value im W top.x (top.x + top.xsize) hrows hx
    top.ysize top.y hy
  have hcnt : px.length = 1024 := by
    rw [hlen, hxs, hys]
    simp
  have hmu : ∃ m, roi_mu_std im top = .value (1024, some m) := by
    unfold roi_mu_std
    simp only [bind, Calc.bind, hpx, hcnt, pure]
    simp only [show ¬ (1024 = 0) by decide, if_false]
    exact ⟨_, rfl⟩
  obtain ⟨m, hm⟩ := hmu
  unfold roi_pooled_var
  simp only [bind, Calc.bind, hm]
  unfold pooled_var fdiv
  norm_num [bind, Calc.bind, pure]

/-- The statistics of pairs whose top rectangles lie inside the image are
collected, one per pair, all with the means 0. -/
theorem collectStats_value (im : List (List Nat)) (W : Nat)
    (hrows : ∀ r, r < im.length → (im.getD r []).length = W) (pairs : List (CVtRect × CVtRect)) :
    (∀ pr ∈ pairs, pr.1.x + pr.1.xsize ≤ W ∧ pr.1.y + pr.1.ysize ≤ im.length ∧
      pr.1.xsize = 32 ∧ pr.1.ysize = 32) →
    ∃ stats, collectStats im pairs = .value stats ∧ stats.length = pairs.length ∧
      ∀ st ∈ stats, st.xbar1 = 0 ∧ st.xbar2 = 0 := by
  induction pairs with
  | nil => intro _; exact ⟨[], rfl, rfl, by simp⟩
  | cons pr rest ih =>
    intro hall
    obtain ⟨h1, h2, h3, h4⟩ := hall pr (by simp)
    obtain ⟨pv, hpv⟩ := roi_pooled_var_value im W pr.1 pr.2 hrows h1 h2 h3 h4
    obtain ⟨stats, hstats, hlen, hz⟩ := ih (fun q hq => hall q (by simp [hq]))
    refine ⟨{ pooled_var := pv, xbar1 := 0, xbar2 := 0 } :: stats, ?_, by simp [hlen], ?_⟩
    · obtain ⟨top, bot⟩ := pr
      unfold collectStats
      simp only [bind, Calc.bind, hpv, hstats, pure]
    · intro st hst
      rcases List.mem_cons.mp hst with h | h
      · subst h; exact ⟨rfl, rfl⟩
      · exact hz st h

theorem insertStat_spec (a : VAR_STATS) (l : List VAR_STATS) :
    (insertStat a l).length = l.length + 1 ∧
      ∀ st ∈ insertStat a l, st = a ∨ st ∈ l := by
  induction l with
  | nil => simp [insertStat]
  | cons b bs ih =>
    unfold insertStat
    split
    · simp
    · refine ⟨by simp [ih.1], ?_⟩
      intro st hst
      rcases List.mem_cons.mp hst with h | h
      · exact Or.inr (by simp [h])
      · rcases ih.2 st h with h | h
        · exact Or.inl h
        · exact Or.inr (by simp [h])

theorem sortStats_spec (l : List VAR_STATS) :
    (sortStats l).length = l.length ∧ ∀ st ∈ sortStats l, st ∈ l := by
  induction l with
  | nil => simp [sortStats]
  | cons b bs ih =>
    have h := insertStat_spec b (sortStats bs)
    simp only [sortStats, List.foldr_cons] at h ih ⊢
    refine ⟨by rw [h.1, ih.1]; simp, ?_⟩
    intro st hst
    rcases h.2 st hst with h1 | h1
    · simp [h1]
    · simp [ih.2 st h1]

theorem sum_map_zero (l : List VAR_STATS) (f : VAR_STATS → ℚ) (h : ∀ st ∈ l, f st = 0) :
    (l.map f).sum = 0 := by
  induction l with
  | nil => rfl
  | cons a as ih =>
    simp only [List.map_cons, List.sum_cons]
    rw [h a (by simp), ih (fun st hst => h st (by simp [hst]))]
    simp

/-- The A/B offset is 0 whenever the forty top rectangles lie inside the image:
the means that enter it are the members left at 0. -/
theorem ABoffset_zero (h W : Nat) (out : List (List Nat)) (h37 : 37 ≤ h)
    (hh : h < 4294967296) (hW : 1312 ≤ W) (hlen : h ≤ out.length)
    (hrows : ∀ r, r < out.length → (out.getD r []).length = W) :
    ABoffset h out = .value 0 := by
  obtain ⟨stats, hstats, hslen, hz⟩ := collectStats_value out W hrows (CVtRectPairs.create h)
    (by
      intro pr hpr
      simp only [CVtRectPairs.create, List.mem_map, List.mem_range] at hpr
      obtain ⟨k, hk, rfl⟩ := hpr
      simp only [CVtRectPairs.RECT_SIZE, CVtRectPairs.OFFSET, CVtRectPairs.RECT_SPACING,
        CVtRectPairs.NUM_RECTS] at hk ⊢
      rw [usub32_of_le h (32 + 3) hh (by omega)]
      refine ⟨by omega, by omega, trivial, trivial⟩)
  have hsort := sortStats_spec stats
  have h40 : stats.length = 40 := by
    rw [hslen]
    simp [CVtRectPairs.create, CVtRectPairs.NUM_RECTS]
  have hz' : ∀ st ∈ (sortStats stats).take 4, st.xbar1 = 0 ∧ st.xbar2 = 0 :=
    fun st hst => hz st (hsort.2 st (List.mem_of_mem_take hst))
  unfold ABoffset
  simp only [bind, Calc.bind, hstats]
  have hl4 : ¬ ((sortStats stats).take 4).length < 4 := by
    rw [List.length_take, hsort.1, h40]
    omega
  simp only [hl4, if_false, pure]
  rw [sum_map_zero _ _ (fun st hst => (hz' st hst).1),
    sum_map_zero _ _ (fun st hst => (hz' st hst).2)]
  norm_num

open CVtHalfLineCalib

theorem zipWith_sub_replicate_sum (W c : Nat) :
    (List.zipWith (fun (d1 d2 : Nat) => (d2 : Int) - (d1 : Int)) (List.replicate W c)
      (List.replicate W c)).sum = 0 := by
  rw [zipWith_replicate_same]
  simp

/-- The B/C offset between two uniform rows of the same value is 0. -/
theorem BCoffset_uniform (s : CVtHalfLineCalib) (im : List (List Nat)) (W c : Nat)
    (hW : 1 ≤ W) (h1 : 1 ≤ s.m_chip_height) (hh : 2 * s.m_chip_height < 4294967296)
    (hr1 : readAt im (2 * s.m_chip_height - 2) = .value (List.replicate W c))
    (hr2 : readAt im (2 * s.m_chip_height + 1) = .value (List.replicate W c)) :
    BCoffset s im W = .value 0 := by
  unfold BCoffset
  rw [usub32_of_le _ 2 hh (by omega), hr1, hr2]
  have hw : W ≠ 0 := by omega
  simp only [Calc.bind, hw, if_false, List.length_replicate, lt_self_iff_false, or_self]
  rw [List.take_of_length_le (by simp), zipWith_sub_replicate_sum]
  unfold fdiv
  have hq : (W : ℚ) ≠ 0 := by exact_mod_cast hw
  simp [hq]

/-- The seam branch of the main pass on a uniform frame: the offset it takes is 0,
the output is not touched, and `row` moves up by 37 exactly when a seam flag is
set. -/
theorem seamStep_uniform (s : CVtHalfLineCalib) (api_type : API_TYPE) (h W c : Nat)
    (st : ApplyLoop) (hs : s.m_chip_height = h) (hh : 3 * h < 2147483648) (hW : 1 ≤ W)
    (hwide : api_type = .PANO_API ∨ h < 37 ∨ 1312 ≤ W)
    (hinv : UniformPass h W c st) (hrow : 0 ≤ st.row) :
    ∃ st1, seamStep s api_type W st = .value st1 ∧ st1.out = st.out ∧ st1.offset = 0 ∧
      st.row ≤ st1.row ∧ st1.row < ((3 * h : Nat) : Int) + 1 ∧
      (st1.row + 1).toNat + (if st1.c1to2_done = true then 0 else 37) +
        (if st1.c2to3_done = true then 0 else 37) ≤ passMeasure st := by
  obtain ⟨hoff, hlen, hrows, hdone, hlo, hhi⟩ := hinv
  unfold seamStep
  rw [hs]
  by_cases t1 : st.row.toNat % 4294967296 = usub32 h overshoot ∧ st.c1to2_done = false
  · simp only [t1, and_self, if_true]
    have hr : 37 ≤ h ∧ st.row = (h : Int) - 37 := by
      have := t1.1
      simp only [usub32, overshoot, CVtRectPairs.RECT_SIZE, CVtRectPairs.OFFSET] at this
      omega
    have hoffset : (if api_type = .PANO_API then (.value 0 : Calc ℚ)
        else ABoffset h st.out) = .value 0 := by
      by_cases hp : api_type = .PANO_API
      · simp [hp]
      · simp only [hp, if_false]
        have hW2 : 1312 ≤ W := by
          rcases hwide with h1 | h1 | h1
          · exact absurd h1 hp
          · omega
          · exact h1
        exact ABoffset_zero h W st.out hr.1 (by omega) hW2 (by omega)
          (fun r hr' => hrows r (by omega))
    rw [hoffset]
    refine ⟨_, rfl, rfl, rfl, by simp only []; omega, by simp only []; omega, ?_⟩
    simp only [passMeasure, t1.2, if_true]
    simp
    omega
  · simp only [t1, if_false]
    by_cases t2 : st.row.toNat % 4294967296 = usub32 (2 * h) overshoot ∧
        st.c2to3_done = false
    · simp only [t2, and_self, if_true]
      have hr : 37 ≤ 2 * h ∧ st.row = ((2 * h : Nat) : Int) - 37 := by
        have := t2.1
        simp only [usub32, overshoot, CVtRectPairs.RECT_SIZE, CVtRectPairs.OFFSET] at this
        omega
      have hbc : BCoffset s st.out W = .value 0 := by
        apply BCoffset_uniform s st.out W c hW (by omega) (by omega)
        · rw [hs, readAt_of_lt st.out _ [] (by omega), hdone _ (by omega) (by omega)]
        · rw [hs, readAt_of_lt st.out _ [] (by omega), hdone _ (by omega) (by omega)]
      rw [hbc]
      refine ⟨_, rfl, rfl, rfl, by simp only []; omega, by simp only []; omega, ?_⟩
      simp only [passMeasure, t2.2, if_true]
      simp
      omega
    · simp only [t2, if_false]
      exact ⟨st, rfl, rfl, hoff, le_refl _, by omega, le_refl _⟩

open CVtHalfLineCalib

/-- One iteration of the main pass on a uniform frame with unit gain: the row at
which it starts becomes uniform, the pass stays as `UniformPass` describes it, and
the bound on the remaining iterations goes down. -/
theorem applyStep_uniform (s : CVtHalfLineCalib) (api_type : API_TYPE) (h W v d p : Nat)
    (st : ApplyLoop) (hs : s.m_chip_height = h) (hh : 3 * h < 2147483648) (hW : 1 ≤ W)
    (hwide : api_type = .PANO_API ∨ h < 37 ∨ 1312 ≤ W)
    (hdark : s.m_darkC = List.replicate (3 * h) (d : ℚ))
    (hcoef : s.m_coef = List.replicate (3 * h) 1) (hped : s.m_pedestal = (p : ℚ))
    (hd : d ≤ v + p) (hc : v + p - d < 65535)
    (hinv : UniformPass h W (v + p - d) st) (hrow : 0 ≤ st.row) :
    ∃ st1, applyStep s api_type (List.replicate (3 * h) (List.replicate W v)) W st =
        .value st1 ∧ UniformPass h W (v + p - d) st1 ∧ passMeasure st1 < passMeasure st := by
  obtain ⟨st1, hseam, hout, hoff, hle, hlt, hmeas⟩ :=
    seamStep_uniform s api_type h W (v + p - d) st hs hh hW hwide hinv hrow
  obtain ⟨hoff0, hlen, hrows, hdone, hlo, hhi⟩ := hinv
  have hr : st.row.toNat < 3 * h := by omega
  have hrow' : (st.row.toNat : Int) = st.row := by omega
  have hOut : readAt st.out st.row.toNat = .value (st.out.getD st.row.toNat []) :=
    readAt_of_lt _ _ _ (by omega)
  refine ⟨{ st1 with out := st1.out.set st.row.toNat (List.replicate W (v + p - d)),
                     row := st1.row - 1 }, ?_, ?_, ?_⟩
  · unfold applyStep
    rw [readAt_replicate _ _ _ hr, hdark, readAt_replicate _ _ _ hr, hcoef,
      readAt_replicate _ _ _ hr, hOut, hseam]
    simp only [Calc.bind, hoff, hped]
    rw [calibRow_uniform v d p W _ hd hc hW (hrows _ hr)]
  · refine ⟨hoff, by simp only [List.length_set, hout, hlen], ?_, ?_, by simp only []; omega,
      by simp only []; omega⟩
    · intro r hr3
      simp only [hout, List.getD_eq_getElem?_getD]
      by_cases heq : st.row.toNat = r
      · subst heq
        rw [List.getElem?_set_self (by omega)]
        simp
      · rw [List.getElem?_set_ne heq]
        have := hrows r hr3
        simpa [List.getD_eq_getElem?_getD] using this
    · intro r hgt hr3
      simp only [] at hgt
      simp only [hout, List.getD_eq_getElem?_getD]
      by_cases heq : st.row.toNat = r
      · subst heq
        rw [List.getElem?_set_self (by omega)]
        simp
      · rw [List.getElem?_set_ne heq]
        have := hdone r (by omega) hr3
        simpa [List.getD_eq_getElem?_getD] using this
  · simp only [passMeasure] at hmeas ⊢
    have : (st1.row - 1 + 1).toNat + 1 = (st1.row + 1).toNat := by omega
    omega

/-- The main pass on a uniform frame with unit gain ends, with every row of the
output uniform. -/
theorem applyLoop_uniform (s : CVtHalfLineCalib) (api_type : API_TYPE) (h W v d p : Nat)
    (hs : s.m_chip_height = h) (hh : 3 * h < 2147483648) (hW : 1 ≤ W)
    (hwide : api_type = .PANO_API ∨ h < 37 ∨ 1312 ≤ W)
    (hdark : s.m_darkC = List.replicate (3 * h) (d : ℚ))
    (hcoef : s.m_coef = List.replicate (3 * h) 1) (hped : s.m_pedestal = (p : ℚ))
    (hd : d ≤ v + p) (hc : v + p - d < 65535) (fuel : Nat) :
    ∀ st, UniformPass h W (v + p - d) st → passMeasure st < fuel →
      ∃ st1, applyLoop s api_type (List.replicate (3 * h) (List.replicate W v)) W fuel st =
          .value st1 ∧
        st1.out = List.replicate (3 * h) (List.replicate W (v + p - d)) := by
  induction fuel with
  | zero => intro st _ hm; omega
  | succ fuel ih =>
    intro st hinv hm
    unfold applyLoop
    by_cases hneg : st.row < 0
    · simp only [hneg, if_true]
      refine ⟨st, rfl, ?_⟩
      obtain ⟨_, hlen, _, hdone, _, _⟩ := hinv
      apply List.ext_getElem?
      intro r
      by_cases hr : r < 3 * h
      · have := hdone r (by omega) hr
        rw [List.getD_eq_getElem?_getD, List.getElem?_eq_getElem (by omega)] at this
        simp only [Option.getD_some] at this
        rw [List.getElem?_eq_getElem (by omega), this]
        simp [List.getElem?_replicate, hr]
      · rw [List.getElem?_eq_none (by omega), List.getElem?_eq_none (by simp; omega)]
    · simp only [hneg, if_false]
      obtain ⟨st1, hstep, hinv1, hm1⟩ := applyStep_uniform s api_type h W v d p st hs hh hW
        hwide hdark hcoef hped hd hc hinv (by omega)
      rw [hstep]
      simp only [Calc.bind]
      exact ih st1 hinv1 (by omega)

end Vt

namespace Vt

open CVtUSBPipeData CVthdsLineParser

/-- C1. Single-chip `get_line` on a well-formed line: with the stream positioned at
a header word, `h ≥ 1` data words (header bit clear), an end-of-line word and the
next header, `get_line` returns true, has consumed the header and exactly the `h`
data words, leaves `Buff[i] = d_i & 0x0FFF` for every `i < h`, and leaves the
stream on the end-of-line word. -/
theorem hds_get_line_full_line (s : CVthdsLineParser) (hdr eol nxt : Nat) (ds : List Nat)
    (hwf : s.WF) (hh : 1 ≤ s.m_image_height) (hlen : ds.length = s.m_image_height)
    (hhdr : hdr &&& 0x8000 = 0x8000) (hdata : ∀ d ∈ ds, d &&& 0x8000 = 0)
    (heol : eol &&& 0xC000 = 0xC000)
    (hpos : positioned s.m_pipeData (hdr :: ds ++ [eol, nxt]) = true) :
    ∃ s1, get_line s = .done true s1 ∧
      (∀ i, i < ds.length → s1.Buff.getD i 0 = ds.getD i 0 &&& 0x0FFF) ∧
      skip (ds.length + 1) s.m_pipeData = some s1.m_pipeData ∧
      s1.m_pipeData.deref = eol ∧ positioned s1.m_pipeData [eol, nxt] = true ∧
      s1.m_errCount = s.m_errCount ∧ s1.WF := by
  have hbs : s.m_bufferSize = s.m_image_height := hwf.2.2
  obtain ⟨p, hskip, hpp, hget⟩ := get_line_data s hdr eol ds [nxt] hwf.2.1 (by omega)
    (by omega) hhdr hdata heol hpos
  obtain ⟨s1, hend, hB, hP, hS, hH, _, hE⟩ := get_line_end_spec
    { s with m_pipeData := p, Buff := store s.Buff 0 (ds.map (· &&& CHIP_DATA_MASK)),
             m_pBuff := ds.length, m_pBuffEnd := s.m_bufferSize } ds.length true
  obtain ⟨hst1, hst2, hst3⟩ := store_line s ds hwf (by omega)
  simp only [] at hB hP hS hH hE
  refine ⟨s1, by rw [hget, hend], ?_, by rw [hP]; exact hskip, ?_, by rw [hP]; exact hpp, ?_, ?_⟩
  · intro i hi
    rw [hB]
    exact hst1 i hi
  · rw [hP]
    exact positioned_head _ _ _ hpp
  · rw [hE]
    simp [hlen]
  · refine ⟨by rw [hB, hS]; exact hst3, ?_, by rw [hS, hH]; exact hbs⟩
    rw [hB, hS, hst2 _ (by omega)]
    exact hwf.2.1

/-- C1 at a concrete line: header `0x8001`, data `0x1234, 0x0fff`, end of line `0xC000`. -/
theorem hds_get_line_full_line_witness :
    ∃ s1, get_line hdsFullLine = .done true s1 ∧
      (∀ i, i < 2 → s1.Buff.getD i 0 = [0x1234, 0x0fff].getD i 0 &&& 0x0FFF) ∧
      skip 3 hdsFullLine.m_pipeData = some s1.m_pipeData ∧
      s1.m_pipeData.deref = 0xC000 ∧ positioned s1.m_pipeData [0xC000, 0x8002] = true ∧
      s1.m_errCount = hdsFullLine.m_errCount ∧ s1.WF :=
  hds_get_line_full_line hdsFullLine 0x8001 0xC000 0x8002 [0x1234, 0x0fff]
    ⟨by decide, by decide, by decide⟩ (by decide) (by decide) (by decide) (by decide)
    (by decide) (by decide)

open CVtUSBPipeData CVthdsLineParser

/-- C2, the claim as stated fails. With messages on, an overlong line and a
well-formed line give the caller the same result, true, and leave the same error
and correct-line counters: the overrun is raised after `h` samples, so that
`count` equals the line length and the error counter is not moved. -/
theorem hds_long_line_not_told_apart :
    (get_line hdsLongLineLoud).view (fun s => (s.m_errCount, s.m_corrCount)) =
      some (true, (hdsLongLineLoud.m_errCount, hdsLongLineLoud.m_corrCount)) ∧
    (get_line hdsFullLineLoud).view (fun s => (s.m_errCount, s.m_corrCount)) =
      some (true, (hdsFullLineLoud.m_errCount, hdsFullLineLoud.m_corrCount)) ∧
    hdsLongLineLoud.m_quiet = false ∧ hdsFullLineLoud.m_quiet = false := by
  refine ⟨by decide, by decide, by decide, by decide⟩

/-- C2, amended. Single-chip `get_line` on an overlong line: after the header and
`h` data words come `k ≥ 1` further data words and then a header word within
reach of the search (`k < TRY_MAX`). The call returns true, as for a well-formed
line, and leaves the error counter as it is, quiet or not; the buffer holds the
first `h` samples and the stream is just behind that header word. The next call,
on a following well-formed line, returns true with `Buff[i] = d2_i & 0x0FFF` for
every `i < h`, whatever the overlong line held. -/
theorem hds_get_line_long_line (s : CVthdsLineParser) (hdr H hdr2 eol2 nxt : Nat)
    (ds es ds2 : List Nat)
    (hwf : s.WF) (hh : 1 ≤ s.m_image_height) (hlen : ds.length = s.m_image_height)
    (hes : 1 ≤ es.length) (hreach : es.length < TRY_MAX)
    (hhdr : hdr &&& 0x8000 = 0x8000) (hdata : ∀ d ∈ ds, d &&& 0x8000 = 0)
    (hextra : ∀ d ∈ es, d &&& 0x8000 = 0) (hH : H &&& 0x8000 = 0x8000)
    (hlen2 : ds2.length = s.m_image_height)
    (hhdr2 : hdr2 &&& 0x8000 = 0x8000) (hdata2 : ∀ d ∈ ds2, d &&& 0x8000 = 0)
    (heol2 : eol2 &&& 0xC000 = 0xC000)
    (hpos : positioned s.m_pipeData (hdr :: ds ++ es ++ H :: hdr2 :: (ds2 ++ [eol2, nxt])) = true) :
    ∃ s1 s2, get_line s = .done true s1 ∧ s1.m_errCount = s.m_errCount ∧
      (∀ i, i < ds.length → s1.Buff.getD i 0 = ds.getD i 0 &&& 0x0FFF) ∧
      skip (ds.length + es.length + 2) s.m_pipeData = some s1.m_pipeData ∧
      positioned s1.m_pipeData (hdr2 :: (ds2 ++ [eol2, nxt])) = true ∧
      get_line s1 = .done true s2 ∧ s2.m_errCount = s.m_errCount ∧
      (∀ i, i < ds2.length → s2.Buff.getD i 0 = ds2.getD i 0 &&& 0x0FFF) ∧
      positioned s2.m_pipeData [eol2, nxt] = true := by
  have hbs : s.m_bufferSize = s.m_image_height := hwf.2.2
  obtain ⟨p, hskip, hpp, hget⟩ := get_line_overrun s hdr H hdr2 ds es (ds2 ++ [eol2, nxt])
    hwf.2.1 (by omega) (by omega) hes hreach hhdr hdata hextra hH hpos
  obtain ⟨s1, hend, hB, hP, hS, hHt, _, hE⟩ := get_line_end_spec
    { s with m_pipeData := p, Buff := store s.Buff 0 (ds.map (· &&& CHIP_DATA_MASK)),
             m_pBuff := ds.length, m_pBuffEnd := s.m_bufferSize } ds.length true
  simp only [] at hB hP hS hHt hE
  have hwf1 : s1.WF := wf_after_store s s1 ds hwf (by omega) hB hS hHt
  obtain ⟨q, _, hqq, hget2⟩ := get_line_data s1 hdr2 eol2 ds2 [nxt] hwf1.2.1 (by omega)
    (by omega) hhdr2 hdata2 heol2 (by rw [hP]; simpa using hpp)
  obtain ⟨s2, hend2, hB2, hP2, _, _, _, hE2⟩ := get_line_end_spec
    { s1 with m_pipeData := q, Buff := store s1.Buff 0 (ds2.map (· &&& CHIP_DATA_MASK)),
              m_pBuff := ds2.length, m_pBuffEnd := s1.m_bufferSize } ds2.length true
  simp only [] at hB2 hP2 hE2
  obtain ⟨hst0, _, _⟩ := store_line s ds hwf (by omega)
  obtain ⟨hst1, _, _⟩ := store_line s1 ds2 hwf1 (by omega)
  have hE1 : s1.m_errCount = s.m_errCount := by
    rw [hE, if_pos (Or.inl hlen)]
    rfl
  refine ⟨s1, s2, by rw [hget, hend], hE1, ?_, by rw [hP]; exact hskip, by rw [hP]; exact hpp,
    by rw [hget2, hend2], ?_, ?_, by rw [hP2]; exact hqq⟩
  · intro i hi
    rw [hB]
    exact hst0 i hi
  · rw [hE2, if_pos (Or.inl (by rw [hlen2, hHt])), Nat.add_zero, hE1]
  · intro i hi
    rw [hB2]
    exact hst1 i hi

/-- C2 amended, at a concrete stream with messages on: line length 2, an overlong
line of three data words closed by `0xC000`, then the line `0x1abc, 0x2def`. -/
theorem hds_get_line_long_line_witness :
    ∃ s1 s2, get_line hdsLongLineLoud = .done true s1 ∧
      s1.m_errCount = hdsLongLineLoud.m_errCount ∧
      (∀ i, i < 2 → s1.Buff.getD i 0 = [0x1111, 0x2222].getD i 0 &&& 0x0FFF) ∧
      skip 5 hdsLongLineLoud.m_pipeData = some s1.m_pipeData ∧
      positioned s1.m_pipeData (0x8002 :: ([0x1abc, 0x2def] ++ [0xC000, 0x8003])) = true ∧
      get_line s1 = .done true s2 ∧ s2.m_errCount = hdsLongLineLoud.m_errCount ∧
      (∀ i, i < 2 → s2.Buff.getD i 0 = [0x1abc, 0x2def].getD i 0 &&& 0x0FFF) ∧
      positioned s2.m_pipeData [0xC000, 0x8003] = true :=
  hds_get_line_long_line hdsLongLineLoud 0x8001 0xC000 0x8002 0xC000 0x8003
    [0x1111, 0x2222] [0x3333] [0x1abc, 0x2def]
    ⟨by decide, by decide, by decide⟩ (by decide) (by decide) (by decide) (by decide)
    (by decide) (by decide) (by decide) (by decide) (by decide) (by decide) (by decide)
    (by decide) (by decide)

/-- C3, the claim as stated fails. In quiet mode a short line and a full-length
line give the caller the same result, true, and leave the same error and
correct-line counters; and a header word directly followed by the end-of-line
word (no data word) at the end of the data gives false. -/
theorem hds_short_line_not_told_apart :
    (∃ s1 s2, get_line hdsShortLine = .done true s1 ∧ get_line hdsFullLine = .done true s2 ∧
      s1.m_errCount = s2.m_errCount ∧ s1.m_corrCount = s2.m_corrCount) ∧
    (∃ s3, get_line hdsEmptyLine = .done false s3) :=
  ⟨⟨_, _, rfl, rfl, rfl, rfl⟩, ⟨_, rfl⟩⟩

/-- C3, amended. Single-chip `get_line` on a short line: with the stream
positioned at a header word, `k` data words with `1 ≤ k < h` and an end-of-line
word, `get_line` returns true, as for a full-length line; `Buff[i] = d_i & 0x0FFF`
for every `i < k`, the entries from `k` on keep their earlier contents, and the
error counter moves by one exactly when the parser is not quiet. -/
theorem hds_get_line_short_line (s : CVthdsLineParser) (hdr eol : Nat) (ds rest : List Nat)
    (hwf : s.WF) (hk : 1 ≤ ds.length) (hshort : ds.length < s.m_image_height)
    (hhdr : hdr &&& 0x8000 = 0x8000) (hdata : ∀ d ∈ ds, d &&& 0x8000 = 0)
    (heol : eol &&& 0xC000 = 0xC000)
    (hpos : positioned s.m_pipeData (hdr :: ds ++ eol :: rest) = true) :
    ∃ s1, get_line s = .done true s1 ∧
      (∀ i, i < ds.length → s1.Buff.getD i 0 = ds.getD i 0 &&& 0x0FFF) ∧
      (∀ i, ds.length ≤ i → s1.Buff.getD i 0 = s.Buff.getD i 0) ∧
      positioned s1.m_pipeData (eol :: rest) = true ∧
      s1.m_errCount = s.m_errCount + (if s.m_quiet = true then 0 else 1) := by
  have hbs : s.m_bufferSize = s.m_image_height := hwf.2.2
  obtain ⟨p, _, hpp, hget⟩ := get_line_data s hdr eol ds rest hwf.2.1 hk
    (by omega) hhdr hdata heol hpos
  obtain ⟨s1, hend, hB, hP, _, _, _, hE⟩ := get_line_end_spec
    { s with m_pipeData := p, Buff := store s.Buff 0 (ds.map (· &&& CHIP_DATA_MASK)),
             m_pBuff := ds.length, m_pBuffEnd := s.m_bufferSize } ds.length true
  obtain ⟨hst1, hst2, _⟩ := store_line s ds hwf (by omega)
  simp only [] at hB hP hE
  refine ⟨s1, by rw [hget, hend], ?_, ?_, by rw [hP]; exact hpp, ?_⟩
  · intro i hi
    rw [hB]
    exact hst1 i hi
  · intro i hi
    rw [hB]
    exact hst2 i hi
  · rw [hE]
    have hne : ds.length ≠ s.m_image_height := by omega
    simp [hne]

/-- C3 amended, at a concrete short line: line length 2, one data word `0x1234`. -/
theorem hds_get_line_short_line_witness :
    ∃ s1, get_line hdsShortLine = .done true s1 ∧
      (∀ i, i < 1 → s1.Buff.getD i 0 = [0x1234].getD i 0 &&& 0x0FFF) ∧
      (∀ i, 1 ≤ i → s1.Buff.getD i 0 = hdsShortLine.Buff.getD i 0) ∧
      positioned s1.m_pipeData (0xC000 :: [0x8002, 0x0001]) = true ∧
      s1.m_errCount = hdsShortLine.m_errCount + (if hdsShortLine.m_quiet = true then 0 else 1) :=
  hds_get_line_short_line hdsShortLine 0x8001 0xC000 [0x1234] [0x8002, 0x0001]
    ⟨by decide, by decide, by decide⟩ (by decide) (by decide) (by decide) (by decide)
    (by decide) (by decide)

open CVtUSBPipeData

/-- The closing statements of the multi-chip `get_line` return the flag they are
given and leave the line buffer and the stream alone. -/
theorem CVtpcLineParser.pc_get_line_end_spec (s : CVtpcLineParser) (count : Nat) (b : Bool) :
    ∃ s1, CVtpcLineParser.get_line_end s count b = .done b s1 ∧ s1.Buff = s.Buff ∧
      s1.m_pipeData = s.m_pipeData := by
  unfold CVtpcLineParser.get_line_end
  by_cases h1 : count = s.m_chip_height
  · exact ⟨s, by simp [h1]⟩
  · cases h2 : s.m_quiet with
    | true => exact ⟨s, by simp [h1, h2]⟩
    | false => exact ⟨{ s with m_errCount := s.m_errCount + 1 }, by simp [h1, h2]⟩

/-- C4, the code at a failing input. An overlong line that runs into the end of the
data: the end-of-data failure is raised by the header search inside the handler
of `get_line` and leaves `get_line`, in the single-chip parser and in the
multi-chip parser alike; `get_line` does not return false. -/
theorem get_line_eod_escapes :
    (∃ s1, CVthdsLineParser.get_line hdsLongAtEnd = .raised .EOD s1) ∧
    (∃ s1, CVtpcLineParser.get_line pcLongAtEnd = .raised .EOD s1) :=
  ⟨⟨_, rfl⟩, ⟨_, rfl⟩⟩

/-- C5, the claim as stated fails. With three chips and the tag `0x3000`, and with
two chips and the tag `0x2000`, on the first data word after the header,
`get_line` raises nothing: it returns false. -/
theorem pc_get_line_bad_tag_returns :
    (∃ s1, CVtpcLineParser.get_line pcBadTag3 = .done false s1) ∧
    (∃ s1, CVtpcLineParser.get_line pcBadTag2 = .done false s1) :=
  ⟨⟨_, rfl⟩, ⟨_, rfl⟩⟩

/-- C5, amended. Multi-chip `get_line` with 2 or 3 chips, the stream positioned at
a header word followed by a data word whose chip tag is not valid for the
configuration (`0x3000` with three chips; neither A nor B with two chips): the
chip dispatch of `align` raises "chip data type not found", the handler of
`get_line` catches it, and `get_line` returns false without raising, the line
buffer unchanged and the stream left on that data word. -/
theorem pc_get_line_bad_tag (s : CVtpcLineParser) (hdr d : Nat) (rest : List Nat)
    (hsent : s.Buff.getD (s.m_bufferSize * 3) 0 = CVtpcLineParser.SENTINEL)
    (hbad : (s.m_numChips = 3 ∧ d &&& 0x3000 = 0x3000) ∨
      (s.m_numChips = 2 ∧ d &&& 0x3000 ≠ 0 ∧ d &&& 0x3000 ≠ 0x1000))
    (hhdr : hdr &&& 0x8000 = 0x8000) (hd : d &&& 0x8000 = 0)
    (hpos : positioned s.m_pipeData (hdr :: d :: rest) = true) :
    ∃ s0 s1, CVtpcLineParser.get_line_try s = .raised .chipTypeNotFound (s0, 0) ∧
      CVtpcLineParser.get_line s = .done false s1 ∧ s1.Buff = s.Buff ∧
      positioned s1.m_pipeData (d :: rest) = true := by
  have hreset : CVtpcLineParser.reset_ptrs s = .done ()
      { s with m_pBuff := 0,
               m_chipABuff := s.ABuff, m_AEnd := s.ABuff + s.m_bufferSize,
               m_chipBBuff := s.BBuff, m_BEnd := s.BBuff + s.m_bufferSize,
               m_chipCBuff := s.m_CEnd, m_CBeg := s.BBuff + s.m_bufferSize } := by
    simp only [CVtpcLineParser.reset_ptrs, hsent, ne_eq, not_true_eq_false, if_false]
  set r : CVtpcLineParser :=
      { s with m_pBuff := 0,
               m_chipABuff := s.ABuff, m_AEnd := s.ABuff + s.m_bufferSize,
               m_chipBBuff := s.BBuff, m_BEnd := s.BBuff + s.m_bufferSize,
               m_chipCBuff := s.m_CEnd, m_CBeg := s.BBuff + s.m_bufferSize } with hr
  obtain ⟨hf, hi, hah⟩ := CVtpcLineParser.alignHeader_spec r 0
  set a : CVtpcLineParser := { r with m_half := hf, m_half_idx := hi } with ha
  obtain ⟨p1, hinc, hp1, hskip⟩ := CVtpcLineParser.skipHdr_header a hdr d rest hhdr hd
    (by simpa [ha, hr] using hpos)
  have hd1 : p1.deref = d := positioned_head _ _ _ hp1
  have hchips := CVtpcLineParser.alignChips_bad_tag { a with m_pipeData := p1 }
    (by simpa [ha, hr, hd1] using hbad)
  have halign : CVtpcLineParser.align r 0 = .raised .chipTypeNotFound { a with m_pipeData := p1 } := by
    unfold CVtpcLineParser.align
    have : CVtpcLineParser.alignHeader r 0 = (a, (CVtpcLineParser.alignHeader r 0).2) :=
      Prod.ext hah rfl
    rw [this]
    simp only [hskip, hchips]
  have htry : CVtpcLineParser.get_line_try s =
      .raised .chipTypeNotFound ({ a with m_pipeData := p1 }, 0) := by
    simp only [CVtpcLineParser.get_line_try, hreset, halign]
  obtain ⟨s1, hend, hB, hP⟩ := CVtpcLineParser.pc_get_line_end_spec { a with m_pipeData := p1 } 0 false
  refine ⟨{ a with m_pipeData := p1 }, s1, htry, ?_, ?_, ?_⟩
  · simp only [CVtpcLineParser.get_line, htry, hend]
  · rw [hB]
  · rw [hP]
    exact hp1

/-- C5 amended, at the three-chip input with the tag `0x3000`. -/
theorem pc_get_line_bad_tag_witness :
    ∃ s0 s1, CVtpcLineParser.get_line_try pcBadTag3 = .raised .chipTypeNotFound (s0, 0) ∧
      CVtpcLineParser.get_line pcBadTag3 = .done false s1 ∧ s1.Buff = pcBadTag3.Buff ∧
      positioned s1.m_pipeData (0x3005 :: [0x1006, 0x2007, 0xC000, 0x8002]) = true :=
  pc_get_line_bad_tag pcBadTag3 0x8001 0x3005 [0x1006, 0x2007, 0xC000, 0x8002]
    (by decide) (Or.inl ⟨by decide, by decide⟩) (by decide) (by decide) (by decide)

open CVtHalfLineCalib

/-- C6, the code at the scenario of the claim: 2 chips, chip height 4, ceph mode,
dark frame of all 100 and bright frame of all 300 (3 columns). `recalc` yields
dark 100 and bright 300 on every row and gain 1 on the rows 1 to 7, but gain 0 on
row 0: the main loop starts at `start_row + 1`. -/
theorem recalc_uniform_first_gain :
    (recalc (create 4 2) .CEPH_API (CVtImage.filled 3 8 300) (CVtImage.filled 3 8 100)).view
        CVtHalfLineCalib.coefs =
      .value (List.replicate 8 100, List.replicate 8 300, [0, 1, 1, 1, 1, 1, 1, 1]) := by
  decide!

/-- C10, the code at a failing input: 2 chips, chip height 5, ceph mode, uniform
frames (dark 100, bright 300). After the main loop the difference collected for
row 1 is 1, which exceeds three standard deviations of the nine differences
(variance 8/81), yet the gain of row 1 stays 1: the rejection loop tests
`end_row < height`, which is false, and is never entered. -/
theorem recalc_outlier_not_rejected :
    coefLoop (List.replicate 10 100) (List.replicate 10 300) 200 9 1
        { m_coef := List.replicate 10 0, dfvec := List.replicate 10 none, dfsum := 0,
          dfsumsq := 0, dfcnt := 0 } = .value uniformTenLoop ∧
      readAt uniformTenLoop.dfvec 1 = .value (some 1) ∧
      exceeds3Std 1 (uniformTenLoop.dfsumsq / uniformTenLoop.dfcnt -
        uniformTenLoop.dfsum / uniformTenLoop.dfcnt *
          (uniformTenLoop.dfsum / uniformTenLoop.dfcnt)) = true ∧
      (recalc (create 5 2) .CEPH_API (CVtImage.filled 3 10 300)
          (CVtImage.filled 3 10 100)).view CVtHalfLineCalib.coefs =
        .value (List.replicate 10 100, List.replicate 10 300,
          [0, 1, 1, 1, 1, 1, 1, 1, 1, 1]) := by
  refine ⟨by decide!, by decide!, by decide!, by decide!⟩

open CVtHalfLineCalib

open CVtHalfLineCalib

open CVtHalfLineCalib

/-- C9. After every `recalc` that returns, every gain of the coefficient array is
at most 4 (`MAX_COEF`) or is 0; the rows outside the active row range and the
rows whose bright-minus-dark difference of row means is at most 1e-6 have gain 0. -/
theorem recalc_gain_clamp (s s1 : CVtHalfLineCalib) (api_type : API_TYPE)
    (BrightFrame DarkFrame : CVtImage)
    (h : recalc s api_type BrightFrame DarkFrame = .value s1) :
    s1.m_initialised = true ∧ s1.m_coef.length = BrightFrame.m_height ∧
      (∀ r, r < s1.m_coef.length → s1.m_coef.getD r 0 ≤ 4 ∨ s1.m_coef.getD r 0 = 0) ∧
      (∀ r, r < startRow s api_type ∨ endRow s ≤ r → s1.m_coef.getD r 0 = 0) ∧
      (∀ r, s1.m_brightC.getD r 0 - s1.m_darkC.getD r 0 ≤ 1 / 1000000 →
        s1.m_coef.getD r 0 = 0) := by
  obtain ⟨ms, hinit, hlen, hout, hin⟩ := recalc_value s s1 api_type BrightFrame DarkFrame h
  have hcases : ∀ r, s1.m_coef.getD r 0 = 0 ∨ s1.m_coef.getD r 0 =
      gainOf ms (s1.m_brightC.getD r 0 - s1.m_darkC.getD r 0) := by
    intro r
    by_cases h1 : r < startRow s api_type + 1 ∨ endRow s ≤ r
    · exact Or.inl (hout r h1)
    · exact Or.inr (hin r (by omega) (by omega))
  refine ⟨hinit, hlen, ?_, ?_, ?_⟩
  · intro r _
    rcases hcases r with h0 | hg
    · exact Or.inr h0
    · exact Or.inl (by rw [hg]; exact gainOf_le _ _)
  · intro r hr
    exact hout r (by omega)
  · intro r hr
    rcases hcases r with h0 | hg
    · exact h0
    · rw [hg]
      exact gainOf_of_le_eps _ _ hr

/-- C9 at a concrete pair of frames: 2 chips of height 2 in ceph mode, dark rows 0,
bright rows 10, 50, 0, 1000; the gains are 0, 0, 0 and 53/200. -/
theorem recalc_gain_clamp_witness :
    calibFour.m_initialised = true ∧ calibFour.m_coef.length = brightFour.m_height ∧
      (∀ r, r < calibFour.m_coef.length →
        calibFour.m_coef.getD r 0 ≤ 4 ∨ calibFour.m_coef.getD r 0 = 0) ∧
      (∀ r, r < startRow (create 2 2) .CEPH_API ∨ endRow (create 2 2) ≤ r →
        calibFour.m_coef.getD r 0 = 0) ∧
      (∀ r, calibFour.m_brightC.getD r 0 - calibFour.m_darkC.getD r 0 ≤ 1 / 1000000 →
        calibFour.m_coef.getD r 0 = 0) :=
  recalc_gain_clamp (create 2 2) calibFour .CEPH_API brightFour darkFour (by decide!)

open CVtHalfLineCalib

/-- C7, the claim as stated fails. In the configuration of the claim, 2 chips of
height 4 (an image of 8 rows), dark 100, gain 1, pedestal 1000 and an input of all
150, apply does not complete inside the image, in ceph mode and in pano mode
alike: after the main pass has written 1050 everywhere, `gap_fixAB` at position 4
reads row 11 and writes the rows up to 10; and with 2 chips `gap_fix` at position
8 reads row 8, one past the last row. -/
theorem apply_two_chips_outside_image :
    apply (unitCalib 4 2) .CEPH_API (CVtImage.filled 3 8 150) (CVtImage.filled 3 8 0) =
        .undefined ∧
      apply (unitCalib 4 2) .PANO_API (CVtImage.filled 3 8 150) (CVtImage.filled 3 8 0) =
        .undefined ∧
      gap_fixAB (List.replicate 8 [1050, 1050, 1050]) 4 3 = .undefined ∧
      gap_fix (List.replicate 8 [1050, 1050, 1050]) 8 3 = .undefined := by
  refine ⟨by decide!, by decide!, by decide!, by decide!⟩

/-- C7, amended. Apply with 3 chips of height `h ≥ 4`, where both gap-fix bands lie
inside the image of `3 * h` rows of `W ≥ 1` pixels (and, in ceph mode with
`h ≥ 37`, `W ≥ 1312`, so that the rectangles of the A/B offset lie inside it):
with dark `d` and gain 1 on every row, pedestal `p` and an input whose pixels all
equal `v`, where `0 ≤ v - d + p < 65535`, apply completes and every pixel of the
output equals `v - d + p`, whatever the output buffer held before. -/
theorem apply_uniform_three_chips (s : CVtHalfLineCalib) (api_type : API_TYPE)
    (h W v d p : Nat) (OutFrame : CVtImage)
    (hinit : s.m_initialised = true) (hs : s.m_chip_height = h) (hn : s.m_numChips = 3)
    (h4 : 4 ≤ h) (hh : 3 * h < 2147483648) (hW : 1 ≤ W)
    (hwide : api_type = .PANO_API ∨ h < 37 ∨ 1312 ≤ W)
    (hdark : s.m_darkC = List.replicate (3 * h) (d : ℚ))
    (hcoef : s.m_coef = List.replicate (3 * h) 1) (hped : s.m_pedestal = (p : ℚ))
    (hd : d ≤ v + p) (hc : v + p - d < 65535)
    (hlen : OutFrame.m_lines.length = 3 * h)
    (hrows : ∀ r, r < 3 * h → (OutFrame.m_lines.getD r []).length = W) :
    apply s api_type (CVtImage.filled W (3 * h) v) OutFrame =
      .value { OutFrame with
        m_lines := List.replicate (3 * h) (List.replicate W (v + p - d)) } := by
  have hin : (CVtImage.filled W (3 * h) v).m_lines =
      List.replicate (3 * h) (List.replicate W v) := by
    have : W * (3 * h) > 0 := Nat.mul_pos (by omega) (by omega)
    simp [CVtImage.filled, this]
  have hwid : (CVtImage.filled W (3 * h) v).m_width = W := rfl
  have hmul : s.m_chip_height * s.m_numChips = 3 * h := by rw [hs, hn]; ring
  obtain ⟨st1, hloop, hout⟩ := applyLoop_uniform s api_type h W v d p hs hh hW hwide hdark
    hcoef hped hd hc (3 * h + 2 * overshoot + 2)
    { out := OutFrame.m_lines, row := ((3 * h : Nat) : Int) - 1, c1to2_done := false,
      c2to3_done := false, offset := 0 }
    ⟨rfl, hlen, hrows, fun r hr1 hr2 => by simp only [] at hr1; omega, by simp only []; omega,
      by simp only []; omega⟩
    (by simp [passMeasure, overshoot, CVtRectPairs.RECT_SIZE, CVtRectPairs.OFFSET])
  unfold apply
  simp only [hinit, Bool.true_eq_false, if_false, hin, hwid, hmul, hloop, Calc.bind, hout]
  rw [hs, gap_fixAB_uniform _ W (3 * h) h (by omega) (by omega) (by omega) (by omega)]
  simp only []
  rw [gap_fix_uniform _ W (3 * h) (2 * h) (by omega) (by omega) (by omega) (by omega)]

/-- C7 amended, at 3 chips of height 4: dark 100, gain 1, pedestal 1000 and an
input of all 150 give 1050 in every pixel. -/
theorem apply_uniform_three_chips_witness :
    apply (unitCalib 4 3) .CEPH_API (CVtImage.filled 3 (3 * 4) 150) (CVtImage.filled 3 12 0) =
      .value { CVtImage.filled 3 12 0 with
        m_lines := List.replicate (3 * 4) (List.replicate 3 (150 + 1000 - 100)) } :=
  apply_uniform_three_chips (unitCalib 4 3) .CEPH_API 4 3 150 100 1000 (CVtImage.filled 3 12 0)
    rfl rfl rfl (by decide) (by decide) (by decide) (Or.inr (Or.inl (by decide)))
    (by decide!) (by decide!) (by decide!) (by decide) (by decide) (by decide) (by decide)

end Vt

namespace Vt

open CVtHalfLineCalib

theorem readAt_congr {α : Type} (a b : List α) (r : Nat) (d : α) (hl : a.length = b.length)
    (h : a.getD r d = b.getD r d) : readAt a r = readAt b r := by
  unfold readAt
  by_cases hr : r < a.length
  · have hr2 : r < b.length := by omega
    simp only [List.getD_eq_getElem?_getD, List.getElem?_eq_getElem hr,
      List.getElem?_eq_getElem hr2, Option.getD_some] at h
    simp only [List.getElem?_eq_getElem hr, List.getElem?_eq_getElem hr2, h]
  · have hr2 : ¬ r < b.length := by omega
    simp only [List.getElem?_eq_none (Nat.le_of_not_lt hr),
      List.getElem?_eq_none (Nat.le_of_not_lt hr2)]

theorem roiRow_congr (im im1 : List (List Nat)) (row c_start c_end : Nat)
    (h : readAt im row = readAt im1 row) :
    roiRow im row c_start c_end = roiRow im1 row c_start c_end := by
  unfold roiRow
  rw [h]

theorem roiPixels_congr (im im1 : List (List Nat)) (c_start c_end : Nat) (n : Nat) :
    ∀ row, (∀ r, row ≤ r → r < row + n → readAt im r = readAt im1 r) →
      roiPixels im c_start c_end n row = roiPixels im1 c_start c_end n row := by
  induction n with
  | zero => intro row _; rfl
  | succ n ih =>
    intro row h
    unfold roiPixels
    rw [roiRow_congr im im1 row c_start c_end (h row (le_refl _) (by omega)),
      ih (row + 1) (fun r h1 h2 => h r (by omega) (by omega))]

theorem roi_mu_std_congr (im im1 : List (List Nat)) (r : CVtRect)
    (h : ∀ k, r.y ≤ k → k < r.y + r.ysize → readAt im k = readAt im1 k) :
    roi_mu_std im r = roi_mu_std im1 r := by
  unfold roi_mu_std
  rw [roiPixels_congr im im1 _ _ r.ysize r.y h]

theorem roi_pooled_var_congr (im im1 : List (List Nat)) (top bot : CVtRect)
    (h : ∀ k, top.y ≤ k → k < top.y + top.ysize → readAt im k = readAt im1 k) :
    roi_pooled_var im top bot = roi_pooled_var im1 top bot := by
  unfold roi_pooled_var
  rw [roi_mu_std_congr im im1 top h]

theorem collectStats_congr (im im1 : List (List Nat)) (pairs : List (CVtRect × CVtRect)) :
    (∀ p ∈ pairs, ∀ k, p.1.y ≤ k → k < p.1.y + p.1.ysize → readAt im k = readAt im1 k) →
      collectStats im pairs = collectStats im1 pairs := by
  induction pairs with
  | nil => intro _; rfl
  | cons p rest ih =>
    intro h
    obtain ⟨top, bot⟩ := p
    unfold collectStats
    rw [roi_pooled_var_congr im im1 top bot (h (top, bot) (List.mem_cons_self _ _)),
      ih (fun q hq => h q (List.mem_cons_of_mem _ hq))]

/-- The A/B offset reads only the 32 rows from `ab_split - 35` on. -/
theorem ABoffset_congr (ab_split : Nat) (im im1 : List (List Nat))
    (h : ∀ k, usub32 ab_split 35 ≤ k → k < usub32 ab_split 35 + 32 →
      readAt im k = readAt im1 k) :
    ABoffset ab_split im = ABoffset ab_split im1 := by
  unfold ABoffset
  rw [collectStats_congr im im1 (CVtRectPairs.create ab_split)]
  intro p hp k h1 h2
  unfold CVtRectPairs.create at hp
  obtain ⟨rectno, _, hrect⟩ := List.mem_map.mp hp
  subst hrect
  simp only [CVtRectPairs.RECT_SIZE, CVtRectPairs.OFFSET] at h1 h2
  exact h k h1 h2

/-- The B/C offset reads only the rows `2 * h - 2` and `2 * h + 1`. -/
theorem BCoffset_congr (s : CVtHalfLineCalib) (im im1 : List (List Nat)) (width : Nat)
    (h1 : readAt im (usub32 (2 * s.m_chip_height) 2) = readAt im1 (usub32 (2 * s.m_chip_height) 2))
    (h2 : readAt im (2 * s.m_chip_height + 1) = readAt im1 (2 * s.m_chip_height + 1)) :
    BCoffset s im width = BCoffset s im1 width := by
  unfold BCoffset
  rw [h1, h2]

theorem BCoffset_value_bound (s : CVtHalfLineCalib) (im : List (List Nat)) (width : Nat) (x : ℚ)
    (h : BCoffset s im width = .value x) : 2 * s.m_chip_height + 1 < im.length := by
  unfold BCoffset at h
  obtain ⟨p1, _, h⟩ := Calc.bind_eq_value _ _ _ h
  obtain ⟨p2, hp2, _⟩ := Calc.bind_eq_value _ _ _ h
  exact (readAt_value _ _ _ hp2).1

open CVtHalfLineCalib

theorem Calc.rel_bind {α β : Type} {R : α → α → Prop} {S : β → β → Prop} (x y : Calc α)
    (f g : α → Calc β) (h : Calc.Rel R x y) (hfg : ∀ a b, R a b → Calc.Rel S (f a) (g b)) :
    Calc.Rel S (x.bind f) (y.bind g) := by
  cases x <;> cases y <;> simp only [Calc.Rel] at h <;> simp only [Calc.bind, Calc.Rel]
  · exact hfg _ _ h
  · exact h

theorem Calc.rel_bind_same {α β : Type} {S : β → β → Prop} (x : Calc α)
    (f g : α → Calc β) (hfg : ∀ a, x = .value a → Calc.Rel S (f a) (g a)) :
    Calc.Rel S (x.bind f) (x.bind g) := by
  cases x <;> simp only [Calc.bind, Calc.Rel]
  exact hfg _ rfl

/-- The seam branch of the main pass on two output buffers: the offsets are taken
from rows that the pass has written, so both runs end alike, with the same locals;
the output rows are left alone and `row` does not go down. -/
theorem seamStep_same (s : CVtHalfLineCalib) (api_type : API_TYPE) (W N : Nat)
    (a b : ApplyLoop) (hrel : SamePass W N a b) (h0 : 0 ≤ a.row) (hN : N < 2147483648)
    (hh : s.m_chip_height ≤ N) :
    Calc.Rel (fun a1 b1 => a1.out = a.out ∧ b1.out = b.out ∧ a1.row = b1.row ∧
        a.row ≤ a1.row ∧ a1.row ≤ (N : Int) ∧ a1.c1to2_done = b1.c1to2_done ∧
        a1.c2to3_done = b1.c2to3_done ∧ a1.offset = b1.offset)
      (seamStep s api_type W a) (seamStep s api_type W b) := by
  obtain ⟨hrow, hc1, hc2, hoff, hla, hlb, hlt, _, hrows⟩ := hrel
  have hnat : ((a.row.toNat : Nat) : Int) = a.row := Int.toNat_of_nonneg h0
  have hread : ∀ k : Nat, a.row < (k : Int) → readAt a.out k = readAt b.out k := fun k hk =>
    readAt_congr a.out b.out k [] (by rw [hla, hlb]) (hrows k hk)
  unfold seamStep
  rw [← hrow, ← hc1, ← hc2]
  by_cases hs1 : a.row.toNat % 4294967296 = usub32 s.m_chip_height overshoot ∧
      a.c1to2_done = false
  · simp only [hs1, and_self, if_true]
    have hrow1 : a.row = (s.m_chip_height : Int) - 37 ∧ 37 ≤ s.m_chip_height := by
      have h1 := hs1.1
      simp only [usub32, overshoot, CVtRectPairs.RECT_SIZE, CVtRectPairs.OFFSET] at h1
      omega
    by_cases hp : api_type = .PANO_API
    · simp only [hp, if_true, Calc.bind, Calc.Rel]
      refine ⟨trivial, trivial, trivial, by omega, by omega, trivial, trivial, trivial⟩
    · simp only [hp, if_false]
      have hab : ABoffset s.m_chip_height a.out = ABoffset s.m_chip_height b.out := by
        apply ABoffset_congr
        intro k hk1 _
        apply hread
        simp only [usub32] at hk1
        omega
      rw [hab]
      apply Calc.rel_bind_same
      intro x _
      simp only [Calc.Rel]
      refine ⟨trivial, trivial, trivial, by omega, by omega, trivial, trivial, trivial⟩
  · simp only [hs1, if_false]
    by_cases hs2 : a.row.toNat % 4294967296 = usub32 (2 * s.m_chip_height) overshoot ∧
        a.c2to3_done = false
    · simp only [hs2, and_self, if_true]
      have hrow2 : a.row = (2 * s.m_chip_height : Int) - 37 ∧ 37 ≤ 2 * s.m_chip_height := by
        have h1 := hs2.1
        simp only [usub32, overshoot, CVtRectPairs.RECT_SIZE, CVtRectPairs.OFFSET] at h1
        omega
      have hbc : BCoffset s a.out W = BCoffset s b.out W := by
        apply BCoffset_congr
        · apply hread
          simp only [usub32]
          omega
        · apply hread
          push_cast
          omega
      rw [← hbc]
      apply Calc.rel_bind_same
      intro x hx
      have hb := BCoffset_value_bound s a.out W x hx
      simp only [Calc.Rel]
      refine ⟨trivial, trivial, trivial, by omega, ?_, trivial, trivial, trivial⟩
      rw [hla] at hb
      omega
    · simp only [hs2, if_false, Calc.Rel]
      exact ⟨trivial, trivial, hrow, le_refl _, le_of_lt hlt, hc1, hc2, hoff⟩

open CVtHalfLineCalib

theorem getD_set_rows {α : Type} (l : List α) (i j : Nat) (v d : α) :
    (l.set i v).getD j d = if i = j ∧ i < l.length then v else l.getD j d := by
  simp only [List.getD_eq_getElem?_getD, List.getElem?_set]
  by_cases hij : i = j
  · subst hij
    by_cases hi : i < l.length
    · simp [hi]
    · simp [hi, List.getElem?_eq_none (Nat.le_of_not_lt hi)]
  · simp [hij]

theorem readAt_undefined {α : Type} (xs : List α) (i : Nat) (hi : ¬ i < xs.length) :
    readAt xs i = .undefined := by
  simp [readAt, List.getElem?_eq_none (Nat.le_of_not_lt hi)]

/-- The column loop on two output rows of one length, not longer than the width:
the row computed is the same and not longer than the width. -/
theorem calibRow_congr (InVec OutVec OutVec1 : List Nat) (width : Nat)
    (dark coef actual_offset : ℚ) (hl : OutVec1.length = OutVec.length)
    (hw : OutVec.length ≤ width) :
    calibRow InVec OutVec1 width dark coef actual_offset =
        calibRow InVec OutVec width dark coef actual_offset ∧
      ∀ newRow, calibRow InVec OutVec width dark coef actual_offset = .value newRow →
        newRow.length ≤ width := by
  unfold calibRow
  by_cases h0 : width = 0
  · have e1 : OutVec = [] := List.length_eq_zero.mp (by omega)
    have e2 : OutVec1 = [] := List.length_eq_zero.mp (by omega)
    simp only [h0, if_true, e1, e2, true_and]
    intro newRow h
    injection h with h
    simp [← h]
  · simp only [h0, if_false, hl]
    have d1 : OutVec.drop width = [] := List.drop_eq_nil_of_le hw
    have d2 : OutVec1.drop width = [] := List.drop_eq_nil_of_le (by omega)
    rw [d1, d2]
    refine ⟨rfl, ?_⟩
    intro newRow h
    split at h
    · cases h
    · injection h with h
      simp only [← h, List.append_nil, List.length_map, List.length_take]
      omega

/-- One iteration of the main pass on two output buffers ends alike, and the rows
written so far stay equal. -/
theorem applyStep_same (s : CVtHalfLineCalib) (api_type : API_TYPE) (inptr : List (List Nat))
    (W N : Nat) (a b : ApplyLoop) (hrel : SamePass W N a b) (h0 : 0 ≤ a.row)
    (hN : N < 2147483648) (hh : s.m_chip_height ≤ N) :
    Calc.Rel (SamePass W N) (applyStep s api_type inptr W a) (applyStep s api_type inptr W b) := by
  have hrel0 := hrel
  obtain ⟨hrow, hc1, hc2, hoff, hla, hlb, hlt, hlen, hrows⟩ := hrel
  unfold applyStep
  rw [← hrow]
  apply Calc.rel_bind_same
  intro InVec _
  apply Calc.rel_bind_same
  intro dark _
  apply Calc.rel_bind_same
  intro coef _
  have hr : a.row.toNat < N := by omega
  rw [readAt_of_lt a.out a.row.toNat [] (by omega), readAt_of_lt b.out a.row.toNat [] (by omega)]
  simp only [Calc.bind]
  apply Calc.rel_bind _ _ _ _ (seamStep_same s api_type W N a b hrel0 h0 hN hh)
  intro a1 b1 ⟨ha1, hb1, hrow1, hge, hle, hc11, hc21, hoff1⟩
  obtain ⟨hcr, hcl⟩ := calibRow_congr InVec (a.out.getD a.row.toNat []) (b.out.getD a.row.toNat [])
    W dark coef (s.m_pedestal + a1.offset) (hlen _).2 (hlen _).1
  rw [← hoff1, hcr]
  apply Calc.rel_bind_same
  intro newRow hnew
  have hnl := hcl newRow hnew
  simp only [Calc.Rel]
  unfold SamePass
  dsimp only
  rw [ha1, hb1]
  refine ⟨by rw [hrow1], hc11, hc21, rfl, by rw [List.length_set]; exact hla,
    by rw [List.length_set]; exact hlb, by omega, ?_, ?_⟩
  · intro r
    rw [getD_set_rows, getD_set_rows, hla, hlb]
    by_cases hc : a.row.toNat = r ∧ a.row.toNat < N
    · rw [if_pos hc, if_pos hc]
      exact ⟨hnl, rfl⟩
    · rw [if_neg hc, if_neg hc]
      exact hlen r
  · intro r hr1
    rw [getD_set_rows, getD_set_rows, hla, hlb]
    by_cases hc : a.row.toNat = r ∧ a.row.toNat < N
    · rw [if_pos hc, if_pos hc]
    · rw [if_neg hc, if_neg hc]
      apply hrows
      have : a.row.toNat ≠ r := fun h => hc ⟨h, hr⟩
      omega

/-- The main pass on two output buffers ends alike; when it returns, the two
outputs are equal. -/
theorem applyLoop_same (s : CVtHalfLineCalib) (api_type : API_TYPE) (inptr : List (List Nat))
    (W N : Nat) (hN : N < 2147483648) (hh : s.m_chip_height ≤ N) (fuel : Nat) :
    ∀ a b, SamePass W N a b →
      Calc.Rel (fun a1 b1 => a1.out = b1.out)
        (applyLoop s api_type inptr W fuel a) (applyLoop s api_type inptr W fuel b) := by
  induction fuel with
  | zero => intro a b _; simp only [applyLoop, Calc.Rel]
  | succ fuel ih =>
    intro a b hrel
    have hrel0 := hrel
    obtain ⟨hrow, _, _, _, hla, hlb, _, _, hrows⟩ := hrel
    unfold applyLoop
    rw [← hrow]
    by_cases hneg : a.row < 0
    · simp only [hneg, if_true, Calc.Rel]
      apply List.ext_getElem (by rw [hla, hlb])
      intro r h1 h2
      have := hrows r (by omega)
      simpa [List.getD_eq_getElem?_getD, List.getElem?_eq_getElem h1,
        List.getElem?_eq_getElem h2] using this
    · simp only [hneg, if_false]
      exact Calc.rel_bind _ _ _ _
        (applyStep_same s api_type inptr W N a b hrel0 (by omega) hN hh) (fun a1 b1 h => ih a1 b1 h)

open CVtHalfLineCalib

theorem Calc.rel_bind_eq {α β : Type} {R : α → α → Prop} (x y : Calc α)
    (f g : α → Calc β) (h : Calc.Rel R x y) (hfg : ∀ a b, R a b → f a = g b) :
    x.bind f = y.bind g := by
  cases x <;> cases y <;> simp only [Calc.Rel] at h <;> simp only [Calc.bind]
  · exact hfg _ _ h
  · rw [h]

theorem getD_length_of_rows (l : List (List Nat)) (W r : Nat) (h : ∀ x ∈ l, x.length = W) :
    (l.getD r []).length ≤ W ∧ (r < l.length → (l.getD r []).length = W) ∧
      (¬ r < l.length → l.getD r [] = []) := by
  by_cases hr : r < l.length
  · have hm : l.getD r [] ∈ l := by
      rw [List.getD_eq_getElem?_getD, List.getElem?_eq_getElem hr]
      exact List.getElem_mem hr
    exact ⟨le_of_eq (h _ hm), fun _ => h _ hm, fun hn => absurd hr hn⟩
  · have he : l.getD r [] = [] := by
      rw [List.getD_eq_getElem?_getD, List.getElem?_eq_none (Nat.le_of_not_lt hr)]
      rfl
    exact ⟨by rw [he]; exact Nat.zero_le _, fun h1 => absurd h1 hr, fun _ => he⟩

theorem land_shiftRight (x m k : Nat) : (x &&& m) >>> k = (x >>> k) &&& (m >>> k) := by
  apply Nat.eq_of_testBit_eq
  intro i
  simp only [Nat.testBit_shiftRight, Nat.testBit_and]

theorem land_byte3 (x : Nat) : (x &&& 0xff000000) >>> (3 * 8) = x / 16777216 % 256 := by
  rw [land_shiftRight]
  have : (0xff000000 : Nat) >>> (3 * 8) = 2 ^ 8 - 1 := by decide
  rw [this, Nat.and_pow_two_sub_one_eq_mod, Nat.shiftRight_eq_div_pow]

theorem land_byte2 (x : Nat) : (x &&& 0x00ff0000) >>> (2 * 8) = x / 65536 % 256 := by
  rw [land_shiftRight]
  have : (0x00ff0000 : Nat) >>> (2 * 8) = 2 ^ 8 - 1 := by decide
  rw [this, Nat.and_pow_two_sub_one_eq_mod, Nat.shiftRight_eq_div_pow]

theorem land_byte1 (x : Nat) : (x &&& 0xff00) >>> (1 * 8) = x / 256 % 256 := by
  rw [land_shiftRight]
  have : (0xff00 : Nat) >>> (1 * 8) = 2 ^ 8 - 1 := by decide
  rw [this, Nat.and_pow_two_sub_one_eq_mod, Nat.shiftRight_eq_div_pow]

theorem land_byte0 (x : Nat) : x &&& 0xff = x % 256 := by
  have : (0xff : Nat) = 2 ^ 8 - 1 := by decide
  rw [this, Nat.and_pow_two_sub_one_eq_mod]

theorem land_nibble (x : Nat) : x &&& 0x0f = x % 16 := by
  have : (0x0f : Nat) = 2 ^ 4 - 1 := by decide
  rw [this, Nat.and_pow_two_sub_one_eq_mod]

theorem land_high_nibble (x : Nat) : (x &&& 0xf0) >>> 4 = x / 16 % 16 := by
  rw [land_shiftRight]
  have : (0xf0 : Nat) >>> 4 = 2 ^ 4 - 1 := by decide
  rw [this, Nat.and_pow_two_sub_one_eq_mod, Nat.shiftRight_eq_div_pow]

theorem lor_nibbles (a b : Nat) (ha : a < 16) : a ||| (b <<< 4) = 16 * b + a := by
  have h := Nat.mul_add_lt_is_or (i := 4) (b := a) (by simpa using ha) b
  rw [Nat.shiftLeft_eq, Nat.mul_comm b, Nat.lor_comm]
  simpa using h.symm

theorem byte_shift_eq (byte bytenum : Nat) :
    sensor_info.byte_shift byte bytenum = byte * 2 ^ (8 * bytenum) % 4294967296 := by
  unfold sensor_info.byte_shift
  rw [Nat.shiftLeft_eq]

open sensor_info

theorem list_length_sixteen {α : Type} (l : List α) (h : l.length = 16) :
    ∃ b0 b1 b2 b3 b4 b5 b6 b7 b8 b9 b10 b11 b12 b13 b14 b15,
      l = [b0, b1, b2, b3, b4, b5, b6, b7, b8, b9, b10, b11, b12, b13, b14, b15] := by
  match l, h with
  | [b0, b1, b2, b3, b4, b5, b6, b7, b8, b9, b10, b11, b12, b13, b14, b15], _ =>
    exact ⟨b0, b1, b2, b3, b4, b5, b6, b7, b8, b9, b10, b11, b12, b13, b14, b15, rfl⟩

/-- The layout of the 16 bytes: what `operator=(buf)` decodes from them. -/
theorem decode_bytes (b0 b1 b2 b3 b4 b5 b6 b7 b8 b9 b10 b11 b12 b13 b14 b15 : Nat)
    (h0 : b0 < 256) (h1 : b1 < 256) (h2 : b2 < 256) (h3 : b3 < 256) (h4 : b4 < 256)
    (h5 : b5 < 256) (h6 : b6 < 256) (h7 : b7 < 256) (h8 : b8 < 256) (h9 : b9 < 256)
    (h10 : b10 < 256) (h11 : b11 < 256) (h12 : b12 < 256) (h13 : b13 < 256)
    (h14 : b14 < 256) (h15 : b15 < 256) :
    decode [b0, b1, b2, b3, b4, b5, b6, b7, b8, b9, b10, b11, b12, b13, b14, b15] =
      .value { serial_number := b0 * 16777216 + b1 * 65536 + b2 * 256 + b3,
               manufacturing_date := b4 * 256 + b5, sensor_type := b6,
               row := b7 * 256 + b8, col := b9 * 256 + b10,
               size := b11 % 16, location := b11 / 16,
               detector_batch := b12 * 256 + b13, asic_batch := b14 * 256 + b15 } := by
  unfold decode
  simp only [SENSOR_INFO_SIZE, List.length_cons, List.length_nil, List.getD_cons_zero,
    List.getD_cons_succ, byte_shift_eq, land_nibble, land_high_nibble]
  norm_num
  refine ⟨?_, ?_, ?_, ?_, ?_, ?_, ?_, ?_⟩ <;> omega

open sensor_info

/-- The bytes that `operator vt_byte*()` produces for a record that fits. -/
theorem encode_bytes (r : sensor_info) (h : r.Fits) :
    encode r =
      [r.serial_number / 16777216, r.serial_number / 65536 % 256,
       r.serial_number / 256 % 256, r.serial_number % 256,
       r.manufacturing_date / 256, r.manufacturing_date % 256, r.sensor_type,
       r.row / 256, r.row % 256, r.col / 256, r.col % 256, r.location * 16 + r.size,
       r.detector_batch / 256, r.detector_batch % 256,
       r.asic_batch / 256, r.asic_batch % 256] := by
  obtain ⟨h1, h2, h3, h4, h5, h6, h7, h8, h9⟩ := h
  unfold encode
  rw [land_byte3, land_byte2, land_byte1, land_byte0, land_byte1, land_byte0, land_byte1,
    land_byte0, land_byte1, land_byte0, land_byte1, land_byte0, land_byte1, land_byte0,
    land_nibble, land_nibble, lor_nibbles _ _ (Nat.mod_lt _ (by decide))]
  simp only [List.cons.injEq, and_true]
  refine ⟨?_, ?_, ?_, ?_, ?_, ?_, ?_, ?_, ?_, ?_, ?_, ?_, ?_, ?_, ?_, ?_⟩ <;> omega

theorem decode_encode (r : sensor_info) (h : r.Fits) : decode (encode r) = .value r := by
  rw [encode_bytes r h]
  obtain ⟨h1, h2, h3, h4, h5, h6, h7, h8, h9⟩ := h
  rw [decode_bytes _ _ _ _ _ _ _ _ _ _ _ _ _ _ _ _ (by omega) (by omega) (by omega) (by omega)
    (by omega) (by omega) (by omega) (by omega) (by omega) (by omega) (by omega) (by omega)
    (by omega) (by omega) (by omega) (by omega)]
  cases r
  simp only [Calc.value.injEq, sensor_info.mk.injEq] at *
  repeat' constructor
  all_goals omega

theorem encode_decode (buf : List Nat) (hl : buf.length = 16) (hb : ∀ b ∈ buf, b < 256) :
    ∃ r, decode buf = .value r ∧ r.Fits ∧ encode r = buf := by
  obtain ⟨b0, b1, b2, b3, b4, b5, b6, b7, b8, b9, b10, b11, b12, b13, b14, b15, rfl⟩ :=
    list_length_sixteen buf hl
  simp only [List.mem_cons, List.mem_singleton, List.not_mem_nil, or_false, forall_eq_or_imp,
    forall_eq] at hb
  obtain ⟨h0, h1, h2, h3, h4, h5, h6, h7, h8, h9, h10, h11, h12, h13, h14, h15⟩ := hb
  have hfit : Fits
      ({ serial_number := b0 * 16777216 + b1 * 65536 + b2 * 256 + b3,
         manufacturing_date := b4 * 256 + b5, sensor_type := b6,
         row := b7 * 256 + b8, col := b9 * 256 + b10,
         size := b11 % 16, location := b11 / 16,
         detector_batch := b12 * 256 + b13, asic_batch := b14 * 256 + b15 } : sensor_info) := by
    unfold Fits
    simp only []
    refine ⟨?_, ?_, ?_, ?_, ?_, ?_, ?_, ?_, ?_⟩ <;> omega
  refine ⟨_, decode_bytes b0 b1 b2 b3 b4 b5 b6 b7 b8 b9 b10 b11 b12 b13 b14 b15 h0 h1 h2 h3 h4 h5
    h6 h7 h8 h9 h10 h11 h12 h13 h14 h15, hfit, ?_⟩
  rw [encode_bytes _ hfit]
  simp only [List.cons.injEq, and_true]
  repeat' constructor
  all_goals omega

theorem readBytes_append (l : List Nat) : ∀ (rest : List Cell),
    readBytes l.length (l.map Cell.byte ++ rest) = .value (l, rest) := by
  induction l with
  | nil => intro rest; rfl
  | cons b l ih =>
    intro rest
    simp only [List.length_cons, List.map_cons, List.cons_append]
    unfold readBytes
    rw [ih]
    rfl

theorem readCells_append (l : List ℚ) : ∀ (rest : List Cell),
    readCells l.length (l.map Cell.coef ++ rest) = .value (l, rest) := by
  induction l with
  | nil => intro rest; rfl
  | cons b l ih =>
    intro rest
    simp only [List.length_cons, List.map_cons, List.cons_append]
    unfold readCells
    rw [ih]
    rfl

/-- The comparison `operator!=` of two identity records is true exactly when they
differ in a field. -/
theorem sensor_info_ne_iff (a b : sensor_info) : sensor_info.ne a b = true ↔ a ≠ b := by
  have hext : a = b ↔ (a.serial_number = b.serial_number ∧
      a.manufacturing_date = b.manufacturing_date ∧ a.sensor_type = b.sensor_type ∧
      a.row = b.row ∧ a.col = b.col ∧ a.size = b.size ∧ a.location = b.location ∧
      a.detector_batch = b.detector_batch ∧ a.asic_batch = b.asic_batch) := by
    cases a
    cases b
    simp only [sensor_info.mk.injEq]
  unfold sensor_info.ne
  refine Iff.trans ?_ (not_congr hext).symm
  by_cases h1 : a.serial_number = b.serial_number
  · by_cases h2 : a.manufacturing_date = b.manufacturing_date
    · by_cases h3 : a.sensor_type = b.sensor_type
      · by_cases h4 : a.row = b.row
        · by_cases h5 : a.col = b.col
          · by_cases h6 : a.size = b.size
            · by_cases h7 : a.location = b.location
              · by_cases h8 : a.detector_batch = b.detector_batch
                · by_cases h9 : a.asic_batch = b.asic_batch
                  · simp [h1, h2, h3, h4, h5, h6, h7, h8, h9]
                  · simp [h1, h2, h3, h4, h5, h6, h7, h8, h9]
                · simp [h1, h2, h3, h4, h5, h6, h7, h8]
              · simp [h1, h2, h3, h4, h5, h6, h7]
            · simp [h1, h2, h3, h4, h5, h6]
          · simp [h1, h2, h3, h4, h5]
        · simp [h1, h2, h3, h4]
      · simp [h1, h2, h3]
    · simp [h1, h2]
  · simp [h1]

open CVtpcImpAPI

/-- A tile loop over the rows `[row, row + n)`: each of these rows gets, in the
column `lineno`, the sample under `inptr` when the row is reached; no other cell
changes. -/
theorem tileLoop_spec (inRow : List Nat) (lineno : Nat) (step : Int) (n : Nat) :
    ∀ (row : Nat) (inptr : Int) (im : List (List Nat)), row + n ≤ im.length →
      (∀ r, row ≤ r → r < row + n → lineno < (im.getD r []).length) →
      (∀ k : Nat, k < n → 0 ≤ inptr + k * step ∧ (inptr + k * step).toNat < inRow.length) →
      ∃ im1, tileLoop inRow lineno step n row inptr im = .value (im1, inptr + n * step) ∧
        im1.length = im.length ∧
        ∀ r, im1.getD r [] =
          if row ≤ r ∧ r < row + n then
            (im.getD r []).set lineno (inRow.getD (inptr + ((r - row : Nat) : Int) * step).toNat 0)
          else im.getD r [] := by
  induction n with
  | zero =>
    intro row inptr im _ _ _
    refine ⟨im, by simp [tileLoop], rfl, ?_⟩
    intro r
    rw [if_neg (by omega)]
  | succ n ih =>
    intro row inptr im hrows hcols hin
    have h0 := hin 0 (by omega)
    simp only [Nat.cast_zero, zero_mul, add_zero] at h0
    have hc := hcols row (le_refl _) (by omega)
    unfold tileLoop
    rw [if_neg (by omega), readAt_of_lt inRow _ 0 h0.2, readAt_of_lt im row [] (by omega)]
    simp only [Calc.bind, writeAt, hc, if_true]
    obtain ⟨im1, h1, hl, hr⟩ := ih (row + 1) (inptr + step)
      (im.set row ((im.getD row []).set lineno (inRow.getD inptr.toNat 0)))
      (by rw [List.length_set]; omega)
      (by
        intro r hr1 hr2
        rw [getD_set_rows, if_neg (by omega)]
        exact hcols r (by omega) (by omega))
      (by
        intro k hk
        have := hin (k + 1) (by omega)
        push_cast at this
        have e : inptr + step + k * step = inptr + (k + 1) * step := by ring
        rw [e]
        exact this)
    refine ⟨im1, ?_, by rw [hl, List.length_set], ?_⟩
    · rw [h1]
      congr 2
      push_cast
      ring
    · intro r
      rw [hr r, getD_set_rows]
      by_cases hr0 : r = row
      · subst hr0
        rw [if_neg (by omega), if_pos ⟨rfl, by omega⟩, if_pos ⟨le_refl _, by omega⟩]
        simp
      · by_cases hin1 : row + 1 ≤ r ∧ r < row + 1 + n
        · rw [if_pos hin1, if_neg (by omega), if_pos (by omega)]
          congr 3
          have : ((r - (row + 1) : Nat) : Int) = ((r - row : Nat) : Int) - 1 := by omega
          rw [this]
          ring
        · rw [if_neg hin1, if_neg (by omega), if_neg (by omega)]

open CVtpcImpAPI

/-- The body of the loop over the lines, on an image of `3 * h` rows and a line of
at least `3 * h` samples: every row gets its sample in the column `lineno`. -/
theorem transposeLine_spec (h : Nat) (inv : Bool) (inRow : List Nat) (lineno : Nat)
    (im : List (List Nat)) (hlen : im.length = 3 * h)
    (hcols : ∀ r, r < 3 * h → lineno < (im.getD r []).length) (hin : 3 * h ≤ inRow.length) :
    ∃ im1, transposeLine h inv inRow lineno im = .value im1 ∧ im1.length = im.length ∧
      ∀ r, im1.getD r [] =
        if r < 3 * h then (im.getD r []).set lineno (sampleFor h inv inRow r)
        else im.getD r [] := by
  have e2 : 2 * h - h = h := by omega
  have e3 : 3 * h - 2 * h = h := by omega
  obtain ⟨ima, ha, hla, hra⟩ := tileLoop_spec inRow lineno 1 h 0 0 im (by omega)
    (fun r _ hr => hcols r (by omega)) (fun k hk => by constructor <;> omega)
  have hca : ∀ r, r < 3 * h → lineno < (ima.getD r []).length := by
    intro r hr
    rw [hra r]
    split
    · rw [List.length_set]; exact hcols r hr
    · exact hcols r hr
  obtain ⟨imb, hb, hlb, hrb⟩ := tileLoop_spec inRow lineno 1 h h (0 + (h : Int) * 1) ima
    (by omega) (fun r _ hr => hca r (by omega)) (fun k hk => by constructor <;> omega)
  have hcb : ∀ r, r < 3 * h → lineno < (imb.getD r []).length := by
    intro r hr
    rw [hrb r]
    split
    · rw [List.length_set]; exact hca r hr
    · exact hca r hr
  unfold transposeLine
  rw [ha]
  simp only [Calc.bind, e2, e3]
  rw [hb]
  simp only []
  cases inv with
  | true =>
    obtain ⟨imc, hc, hlc, hrc⟩ := tileLoop_spec inRow lineno (-1) h (2 * h)
      (0 + (h : Int) * 1 + (h : Int) * 1 + ((h : Int) - 1)) imb (by omega)
      (fun r _ hr => hcb r (by omega)) (fun k hk => by constructor <;> omega)
    simp only [if_true]
    rw [hc]
    refine ⟨imc, rfl, by omega, ?_⟩
    intro r
    rw [hrc r, hrb r, hra r]
    unfold sampleFor
    by_cases h1 : r < h
    · rw [if_neg (by omega), if_neg (by omega), if_pos (by omega), if_pos (by omega),
        if_pos (Or.inl (by omega))]
      congr 2
      omega
    · by_cases h2 : r < 2 * h
      · rw [if_neg (by omega), if_pos (by omega), if_neg (by omega), if_pos (by omega),
          if_pos (Or.inl (by omega))]
        congr 2
        omega
      · by_cases h3 : r < 3 * h
        · rw [if_pos (by omega), if_neg (by omega), if_neg (by omega), if_pos (by omega),
            if_neg (by simp; omega)]
          congr 2
          omega
        · rw [if_neg (by omega), if_neg (by omega), if_neg (by omega), if_neg (by omega)]
  | false =>
    obtain ⟨imc, hc, hlc, hrc⟩ := tileLoop_spec inRow lineno 1 h (2 * h)
      (0 + (h : Int) * 1 + (h : Int) * 1) imb (by omega)
      (fun r _ hr => hcb r (by omega)) (fun k hk => by constructor <;> omega)
    simp only [Bool.false_eq_true, if_false]
    rw [hc]
    refine ⟨imc, rfl, by omega, ?_⟩
    intro r
    rw [hrc r, hrb r, hra r]
    unfold sampleFor
    by_cases h1 : r < h
    · rw [if_neg (by omega), if_neg (by omega), if_pos (by omega), if_pos (by omega),
        if_pos (Or.inr rfl)]
      congr 2
      omega
    · by_cases h2 : r < 2 * h
      · rw [if_neg (by omega), if_pos (by omega), if_neg (by omega), if_pos (by omega),
          if_pos (Or.inr rfl)]
        congr 2
        omega
      · by_cases h3 : r < 3 * h
        · rw [if_pos (by omega), if_neg (by omega), if_neg (by omega), if_pos (by omega),
            if_pos (Or.inr rfl)]
          congr 2
          omega
        · rw [if_neg (by omega), if_neg (by omega), if_neg (by omega), if_neg (by omega)]

open CVtpcImpAPI

/-- The loop over the lines `[lineno, lineno + n)`: the columns of these lines are
filled with their samples, the other cells are left alone. -/
theorem transposeLoop_spec (h : Nat) (inv : Bool) (lines : List (List Nat)) (n : Nat) :
    ∀ (lineno : Nat) (im : List (List Nat)), lineno + n ≤ lines.length →
      (∀ c, lineno ≤ c → c < lineno + n → 3 * h ≤ (lines.getD c []).length) →
      im.length = 3 * h → (∀ r, r < 3 * h → lineno + n ≤ (im.getD r []).length) →
      ∃ im1, transposeLoop h inv lines n lineno im = .value im1 ∧ im1.length = 3 * h ∧
        ∀ r, r < 3 * h → (im1.getD r []).length = (im.getD r []).length ∧
          ∀ c, (im1.getD r []).getD c 0 =
            if lineno ≤ c ∧ c < lineno + n then sampleFor h inv (lines.getD c []) r
            else (im.getD r []).getD c 0 := by
  induction n with
  | zero =>
    intro lineno im _ _ hlen _
    refine ⟨im, rfl, hlen, ?_⟩
    intro r _
    refine ⟨rfl, ?_⟩
    intro c
    rw [if_neg (by omega)]
  | succ n ih =>
    intro lineno im hlines hl3 hlen hw
    unfold transposeLoop
    rw [readAt_of_lt lines lineno [] (by omega)]
    obtain ⟨im1, h1, hl1, hr1⟩ := transposeLine_spec h inv (lines.getD lineno []) lineno im hlen
      (fun r hr => by have := hw r hr; omega) (hl3 lineno (le_refl _) (by omega))
    simp only [Calc.bind, h1]
    have hlen1 : ∀ r, (im1.getD r []).length = (im.getD r []).length := by
      intro r
      rw [hr1 r]
      split
      · rw [List.length_set]
      · rfl
    obtain ⟨im2, h2, hl2, hr2⟩ := ih (lineno + 1) im1 (by omega)
      (fun c hc1 hc2 => hl3 c (by omega) (by omega)) (by rw [hl1, hlen])
      (fun r hr => by rw [hlen1 r]; have := hw r hr; omega)
    refine ⟨im2, h2, hl2, ?_⟩
    intro r hr
    obtain ⟨ha, hb⟩ := hr2 r hr
    refine ⟨by rw [ha, hlen1 r], ?_⟩
    intro c
    rw [hb c, hr1 r, if_pos hr, getD_set_rows]
    have hwr := hw r hr
    by_cases hc : c = lineno
    · subst hc
      rw [if_neg (by omega), if_pos ⟨rfl, by omega⟩, if_pos ⟨le_refl _, by omega⟩]
    · by_cases hin : lineno + 1 ≤ c ∧ c < lineno + 1 + n
      · rw [if_pos hin, if_pos (by omega)]
      · rw [if_neg hin, if_neg (fun hx => hc hx.1.symm), if_neg (by omega)]

namespace CVtpcLineParser
open CVtUSBPipeData

theorem pc_isEOL_of_data (w : Nat) (h : w &&& 0x8000 = 0) : isEOL w = false := by
  have := CVthdsLineParser.isEOL_of_data w h
  simpa [isEOL, CVthdsLineParser.isEOL, HDR_EOL_PTRN, HDR_MASK, HDR_SOL_EOL_MASK,
    CVthdsLineParser.HDR_EOL_PTRN, CVthdsLineParser.HDR_MASK,
    CVthdsLineParser.HDR_SOL_EOL_MASK] using this

theorem pc_isEOL_of_land (w : Nat) (h : w &&& 0xC000 = 0xC000) : isEOL w = true := by
  simp only [isEOL, HDR_EOL_PTRN, HDR_MASK, HDR_SOL_EOL_MASK, beq_iff_eq]
  exact h

/-- One round of the filling loop for three chips on a triple of data words that
has room in the three segments: the words are stored through the three cursors
and the stream is three words further. -/
theorem moveChips_triple (s : CVtpcLineParser) (a b c v : Nat) (vs : List Nat)
    (h3 : s.m_numChips = 3) (hA : s.m_chipABuff < s.m_AEnd) (hB : s.m_chipBBuff < s.m_BEnd)
    (hC : (s.m_CBeg : Int) ≤ s.m_chipCBuff)
    (ha : a &&& 0x8000 = 0) (hb : b &&& 0x8000 = 0) (hc : c &&& 0x8000 = 0)
    (hpos : positioned s.m_pipeData (a :: b :: c :: v :: vs) = true) :
    ∃ p, skip 3 s.m_pipeData = some p ∧ positioned p (v :: vs) = true ∧
      moveChips s = .done ()
        { s with m_pipeData := p,
                 Buff := setC ((s.Buff.set s.m_chipABuff a).set s.m_chipBBuff
                   (b &&& CHIP_DATA_MASK)) s.m_chipCBuff (c &&& CHIP_DATA_MASK),
                 m_chipABuff := s.m_chipABuff + 1, m_chipBBuff := s.m_chipBBuff + 1,
                 m_chipCBuff := s.m_chipCBuff - 1 } := by
  obtain ⟨hda, p1, hinc1, hp1⟩ := positioned_cons _ _ _ _ hpos
  obtain ⟨hdb, p2, hinc2, hp2⟩ := positioned_cons _ _ _ _ hp1
  obtain ⟨hdc, p3, hinc3, hp3⟩ := positioned_cons _ _ _ _ hp2
  refine ⟨p3, by simp only [skip, hinc1, hinc2, hinc3], hp3, ?_⟩
  have hmA : MOVA s = .done ()
      { s with m_pipeData := p1, Buff := s.Buff.set s.m_chipABuff a,
               m_chipABuff := s.m_chipABuff + 1 } := by
    simp only [MOVA, hda, pc_isEOL_of_data a ha, Bool.false_eq_true, if_false, hA, if_true]
    rw [pc_advance_done _ p1 (by simpa using hinc1)]
  have hmB : MOVB
      { s with m_pipeData := p1, Buff := s.Buff.set s.m_chipABuff a,
               m_chipABuff := s.m_chipABuff + 1 } = .done ()
      { s with m_pipeData := p2,
               Buff := (s.Buff.set s.m_chipABuff a).set s.m_chipBBuff (b &&& CHIP_DATA_MASK),
               m_chipABuff := s.m_chipABuff + 1, m_chipBBuff := s.m_chipBBuff + 1 } := by
    simp only [MOVB, hdb, pc_isEOL_of_data b hb, Bool.false_eq_true, if_false, hB, if_true]
    rw [pc_advance_done _ p2 (by simpa using hinc2)]
  have hmC : MOVC
      { s with m_pipeData := p2,
               Buff := (s.Buff.set s.m_chipABuff a).set s.m_chipBBuff (b &&& CHIP_DATA_MASK),
               m_chipABuff := s.m_chipABuff + 1, m_chipBBuff := s.m_chipBBuff + 1 } = .done ()
      { s with m_pipeData := p3,
               Buff := setC ((s.Buff.set s.m_chipABuff a).set s.m_chipBBuff
                 (b &&& CHIP_DATA_MASK)) s.m_chipCBuff (c &&& CHIP_DATA_MASK),
               m_chipABuff := s.m_chipABuff + 1, m_chipBBuff := s.m_chipBBuff + 1,
               m_chipCBuff := s.m_chipCBuff - 1 } := by
    simp only [MOVC, hdc, pc_isEOL_of_data c hc, Bool.false_eq_true, if_false, hC, if_true]
    rw [pc_advance_done _ p3 (by simpa using hinc3)]
  unfold moveChips
  rw [if_neg (by omega), if_neg (by omega), if_pos h3, hmA]
  simp only []
  rw [hmB]
  simp only []
  rw [hmC]

end CVtpcLineParser

namespace CVtpcLineParser
open CVtUSBPipeData

/-- Filling over triples of data words that have room in the three segments: the
loop of `get_line` stores them through the three cursors, one triple per
iteration, and goes on from the word that follows them. -/
theorem pc_fillLine_steps (w : Nat) (rest : List Nat) (ts : List (Nat × Nat × Nat)) :
    ∀ (s : CVtpcLineParser) (count fuel : Nat), s.m_numChips = 3 →
      s.m_chipABuff + ts.length ≤ s.m_AEnd → s.m_chipBBuff + ts.length ≤ s.m_BEnd →
      (s.m_CBeg : Int) + ts.length ≤ s.m_chipCBuff + 1 →
      (∀ t ∈ ts, t.1 &&& 0x8000 = 0 ∧ t.2.1 &&& 0x8000 = 0 ∧ t.2.2 &&& 0x8000 = 0) →
      positioned s.m_pipeData (flatten3 ts ++ w :: rest) = true →
      ∃ p, skip (3 * ts.length) s.m_pipeData = some p ∧ positioned p (w :: rest) = true ∧
        fillLine (fuel + ts.length) s count =
          fillLine fuel
            { s with m_pipeData := p,
                     Buff := storeLine3 s.Buff s.m_chipABuff s.m_chipBBuff s.m_chipCBuff ts,
                     m_chipABuff := s.m_chipABuff + ts.length,
                     m_chipBBuff := s.m_chipBBuff + ts.length,
                     m_chipCBuff := s.m_chipCBuff - ts.length } (count + ts.length) := by
  induction ts with
  | nil =>
    intro s count fuel _ _ _ _ _ hpos
    refine ⟨s.m_pipeData, rfl, by simpa [flatten3] using hpos, ?_⟩
    simp [storeLine3]
  | cons t ts ih =>
    intro s count fuel h3 hA hB hC hdata hpos
    obtain ⟨a, b, c⟩ := t
    simp only [List.length_cons] at hA hB hC
    push_cast at hC
    obtain ⟨ha, hb, hc⟩ := hdata (a, b, c) (List.mem_cons_self _ _)
    simp only [] at ha hb hc
    obtain ⟨v, vs, hvs⟩ : ∃ v vs, flatten3 ts ++ w :: rest = v :: vs := by
      cases ts with
      | nil => exact ⟨w, rest, rfl⟩
      | cons x xs =>
        obtain ⟨x1, x2, x3⟩ := x
        exact ⟨x1, x2 :: x3 :: flatten3 xs ++ w :: rest, rfl⟩
    have hpos1 : positioned s.m_pipeData (a :: b :: c :: v :: vs) = true := by
      rw [← hvs]
      simpa [flatten3] using hpos
    obtain ⟨p3, hskip3, hp3, hmove⟩ := moveChips_triple s a b c v vs h3 (by omega) (by omega)
      (by omega) ha hb hc hpos1
    rw [← hvs] at hp3
    obtain ⟨p, hskip, hpp, hfill⟩ := ih
      { s with m_pipeData := p3,
               Buff := setC ((s.Buff.set s.m_chipABuff a).set s.m_chipBBuff
                 (b &&& CHIP_DATA_MASK)) s.m_chipCBuff (c &&& CHIP_DATA_MASK),
               m_chipABuff := s.m_chipABuff + 1, m_chipBBuff := s.m_chipBBuff + 1,
               m_chipCBuff := s.m_chipCBuff - 1 }
      (count + 1) fuel h3 (by simp only []; omega) (by simp only []; omega)
      (by simp only []; omega) (fun x hx => hdata x (List.mem_cons_of_mem _ hx)) hp3
    simp only [] at hskip hfill
    simp only [List.length_cons]
    refine ⟨p, ?_, hpp, ?_⟩
    · rw [show 3 * (ts.length + 1) = 3 + 3 * ts.length by omega, skip_add, hskip3]
      exact hskip
    · have hda : s.m_pipeData.deref = a := positioned_head _ _ _ hpos1
      rw [show fuel + (ts.length + 1) = (fuel + ts.length) + 1 by omega]
      conv_lhs => unfold fillLine
      simp only [hda, pc_isEOL_of_data a ha, Bool.false_eq_true, if_false, hmove]
      rw [hfill]
      simp only [storeLine3]
      have e1 : s.m_chipABuff + 1 + ts.length = s.m_chipABuff + (ts.length + 1) := by omega
      have e2 : s.m_chipBBuff + 1 + ts.length = s.m_chipBBuff + (ts.length + 1) := by omega
      have e3 : s.m_chipCBuff - 1 - (ts.length : Int) =
          s.m_chipCBuff - ((ts.length + 1 : Nat) : Int) := by
        push_cast
        ring
      have e4 : count + 1 + ts.length = count + (ts.length + 1) := by omega
      rw [e1, e2, e3, e4]

end CVtpcLineParser

open CVtpcLineParser

theorem setC_length (buf : List Nat) (i : Int) (v : Nat) : (setC buf i v).length = buf.length := by
  unfold setC
  split
  · rw [List.length_set]
  · rfl

theorem setC_getD (buf : List Nat) (i : Int) (v j : Nat) :
    (setC buf i v).getD j 0 =
      if (j : Int) = i ∧ j < buf.length then v else buf.getD j 0 := by
  unfold setC
  by_cases h0 : 0 ≤ i
  · rw [if_pos h0, getD_set_rows]
    by_cases hj : (j : Int) = i
    · have : i.toNat = j := by omega
      simp [hj, this]
    · have : ¬ i.toNat = j := by omega
      simp [hj, this]
  · rw [if_neg h0, if_neg (by omega)]

theorem storeLine3_length (ts : List (Nat × Nat × Nat)) : ∀ (buf : List Nat) (ia ib : Nat)
    (ic : Int), (storeLine3 buf ia ib ic ts).length = buf.length := by
  induction ts with
  | nil => intro buf ia ib ic; rfl
  | cons t ts ih =>
    intro buf ia ib ic
    obtain ⟨a, b, c⟩ := t
    simp only [storeLine3]
    rw [ih, setC_length, List.length_set, List.length_set]

/-- Storing a line leaves every word outside the three ranges written as it was. -/
theorem storeLine3_other (ts : List (Nat × Nat × Nat)) : ∀ (buf : List Nat) (ia ib : Nat)
    (ic : Int) (j : Nat), (j < ia ∨ ia + ts.length ≤ j) → (j < ib ∨ ib + ts.length ≤ j) →
      ((j : Int) ≤ ic - ts.length ∨ ic < j) →
      (storeLine3 buf ia ib ic ts).getD j 0 = buf.getD j 0 := by
  induction ts with
  | nil => intro buf ia ib ic j _ _ _; rfl
  | cons t ts ih =>
    intro buf ia ib ic j h1 h2 h3
    obtain ⟨a, b, c⟩ := t
    simp only [List.length_cons] at h1 h2 h3
    push_cast at h3
    simp only [storeLine3]
    rw [ih _ _ _ _ j (by omega) (by omega) (by omega), setC_getD, if_neg (by omega),
      getD_set_rows, if_neg (by omega), getD_set_rows, if_neg (by omega)]

/-- The line buffer after a line was stored into three segments that do not
overlap: chip A and chip B in stream order, chip C back to front. -/
theorem storeLine3_get (ts : List (Nat × Nat × Nat)) : ∀ (buf : List Nat) (ia ib : Nat)
    (ic : Int), ia + ts.length ≤ ib → ((ib + ts.length : Nat) : Int) ≤ ic - ts.length + 1 →
      ic < buf.length → ∀ i, i < ts.length →
      (storeLine3 buf ia ib ic ts).getD (ia + i) 0 = (ts.getD i (0, 0, 0)).1 ∧
      (storeLine3 buf ia ib ic ts).getD (ib + i) 0 =
        (ts.getD i (0, 0, 0)).2.1 &&& CHIP_DATA_MASK ∧
      (storeLine3 buf ia ib ic ts).getD (ic - i).toNat 0 =
        (ts.getD i (0, 0, 0)).2.2 &&& CHIP_DATA_MASK := by
  induction ts with
  | nil => intro buf ia ib ic _ _ _ i hi; simp at hi
  | cons t ts ih =>
    intro buf ia ib ic h1 h2 h3 i hi
    obtain ⟨a, b, c⟩ := t
    simp only [List.length_cons] at h1 h2 hi
    push_cast at h2
    simp only [storeLine3]
    cases i with
    | zero =>
      simp only [Nat.add_zero, Nat.cast_zero, sub_zero, List.getD_cons_zero]
      refine ⟨?_, ?_, ?_⟩
      · rw [storeLine3_other _ _ _ _ _ ia (by omega) (by omega) (by omega), setC_getD,
          if_neg (by omega), getD_set_rows, if_neg (by omega), getD_set_rows,
          if_pos ⟨rfl, by omega⟩]
      · rw [storeLine3_other _ _ _ _ _ ib (by omega) (by omega) (by omega), setC_getD,
          if_neg (by omega), getD_set_rows, if_pos ⟨rfl, by rw [List.length_set]; omega⟩]
      · rw [storeLine3_other _ _ _ _ _ ic.toNat (by omega) (by omega) (by omega), setC_getD,
          if_pos ⟨by omega, by rw [List.length_set, List.length_set]; omega⟩]
    | succ k =>
      have := ih (setC ((buf.set ia a).set ib (b &&& CHIP_DATA_MASK)) ic
        (c &&& CHIP_DATA_MASK)) (ia + 1) (ib + 1) (ic - 1) (by omega)
        (by push_cast; omega)
        (by rw [setC_length, List.length_set, List.length_set]; omega) k (by omega)
      simp only [List.getD_cons_succ]
      rw [show ia + (k + 1) = ia + 1 + k by omega, show ib + (k + 1) = ib + 1 + k by omega,
        show ic - ((k + 1 : Nat) : Int) = ic - 1 - (k : Int) by push_cast; ring]
      exact this

end Vt

namespace Vt

open CVtHalfLineCalib

open CVtHalfLineCalib

/-- C12. Round trip of the line-variant coefficient file: for a coefficient set
whose dark, bright and gain arrays hold `N = chip_height * num_chips` values each,
`save` writes exactly `3 * N` values, the dark array, then the bright array, then
the gains; and `operator>>` of that file into an object with the same chip height
and number of chips consumes it all and leaves the three arrays equal to those
saved, element for element, with the object marked initialised. -/
theorem save_load_round_trip (s Object : CVtHalfLineCalib)
    (hd : s.m_darkC.length = s.m_chip_height * s.m_numChips)
    (hb : s.m_brightC.length = s.m_chip_height * s.m_numChips)
    (hc : s.m_coef.length = s.m_chip_height * s.m_numChips)
    (hh : Object.m_chip_height = s.m_chip_height) (hn : Object.m_numChips = s.m_numChips) :
    ∃ file, save s = .value file ∧ file = s.m_darkC ++ s.m_brightC ++ s.m_coef ∧
      file.length = 3 * (s.m_chip_height * s.m_numChips) ∧
      ∃ Object1, load file Object = .value ([], Object1) ∧
        Object1.m_darkC = s.m_darkC ∧ Object1.m_brightC = s.m_brightC ∧
        Object1.m_coef = s.m_coef ∧ Object1.m_initialised = true := by
  have hsave : save s = .value (s.m_darkC ++ s.m_brightC ++ s.m_coef) := by
    unfold save fwriteCoefs
    simp only [hd, hb, hc, lt_self_iff_false, if_false, Calc.bind]
    rw [← hd, List.take_length, hd, ← hb, List.take_length, hb, ← hc, List.take_length]
  refine ⟨_, hsave, rfl, by simp only [List.length_append, hd, hb, hc]; omega, ?_⟩
  have hload : load (s.m_darkC ++ s.m_brightC ++ s.m_coef) Object =
      .value ([], { Object with m_darkC := s.m_darkC, m_brightC := s.m_brightC,
                                m_coef := s.m_coef, m_initialised := true }) := by
    unfold load readCoefs
    rw [hh, hn]
    have h1 : ¬ (s.m_darkC ++ s.m_brightC ++ s.m_coef).length <
        s.m_chip_height * s.m_numChips := by
      simp only [List.length_append, hd, hb, hc]; omega
    have ht1 : (s.m_darkC ++ s.m_brightC ++ s.m_coef).take (s.m_chip_height * s.m_numChips) =
        s.m_darkC := by
      rw [List.append_assoc, ← hd, List.take_left]
    have hr1 : (s.m_darkC ++ s.m_brightC ++ s.m_coef).drop (s.m_chip_height * s.m_numChips) =
        s.m_brightC ++ s.m_coef := by
      rw [List.append_assoc, ← hd, List.drop_left]
    have h2 : ¬ (s.m_brightC ++ s.m_coef).length < s.m_chip_height * s.m_numChips := by
      simp only [List.length_append, hb, hc]; omega
    have ht2 : (s.m_brightC ++ s.m_coef).take (s.m_chip_height * s.m_numChips) =
        s.m_brightC := by
      rw [← hb, List.take_left]
    have hr2 : (s.m_brightC ++ s.m_coef).drop (s.m_chip_height * s.m_numChips) = s.m_coef := by
      rw [← hb, List.drop_left]
    have h3 : ¬ s.m_coef.length < s.m_chip_height * s.m_numChips := by omega
    have ht3 : s.m_coef.take (s.m_chip_height * s.m_numChips) = s.m_coef := by
      rw [← hc, List.take_length]
    have hr3 : s.m_coef.drop (s.m_chip_height * s.m_numChips) = [] := by
      rw [← hc, List.drop_length]
    simp only [h1, if_false, Calc.bind, ht1, hr1, h2, ht2, hr2, h3, ht3, hr3]
  exact ⟨_, hload, rfl, rfl, rfl, rfl⟩

/-- C12 at the calibration computed from `brightFour` and `darkFour`, read into a
new object for 2 chips of height 2. -/
theorem save_load_round_trip_witness :
    ∃ file, save calibFour = .value file ∧
      file = calibFour.m_darkC ++ calibFour.m_brightC ++ calibFour.m_coef ∧
      file.length = 3 * (calibFour.m_chip_height * calibFour.m_numChips) ∧
      ∃ Object1, load file (create 2 2) = .value ([], Object1) ∧
        Object1.m_darkC = calibFour.m_darkC ∧ Object1.m_brightC = calibFour.m_brightC ∧
        Object1.m_coef = calibFour.m_coef ∧ Object1.m_initialised = true :=
  save_load_round_trip calibFour (create 2 2) rfl rfl rfl rfl rfl

open CVtHalfLineCalib

/-- C13, the claim as stated fails. A calibration that holds coefficient arrays but
is not marked initialised returns at once: a buffer of zeros stays all 0, a buffer
of sevens stays all 7, for the same input and coefficients. And output buffers
wider than the input keep what they held in the columns beyond its width. -/
theorem apply_keeps_buffer_contents :
    apply { unitCalib 4 3 with m_initialised := false } .CEPH_API (CVtImage.filled 3 12 150)
        (CVtImage.filled 3 12 0) = .value (CVtImage.filled 3 12 0) ∧
      apply { unitCalib 4 3 with m_initialised := false } .CEPH_API (CVtImage.filled 3 12 150)
        (CVtImage.filled 3 12 7) = .value (CVtImage.filled 3 12 7) ∧
      (apply (unitCalib 4 3) .CEPH_API (CVtImage.filled 3 12 150) (CVtImage.filled 4 12 0)).view
        CVtImage.m_lines = .value (List.replicate 12 [1050, 1050, 1050, 0]) ∧
      (apply (unitCalib 4 3) .CEPH_API (CVtImage.filled 3 12 150) (CVtImage.filled 4 12 7)).view
        CVtImage.m_lines = .value (List.replicate 12 [1050, 1050, 1050, 7]) := by
  refine ⟨by decide!, by decide!, by decide!, by decide!⟩

/-- C13, amended. For a calibration marked initialised, with `N = chip_height *
num_chips` rows (`N < 2^31`), two calls of apply with the same input image into two
output buffers of the size of the image, `N` rows of `width` pixels each, end
alike whatever the buffers held before: when one returns, so does the other,
with the same output image; when one does not, because it reaches outside an
array, neither does the other. -/
theorem apply_same_output (s : CVtHalfLineCalib) (api_type : API_TYPE)
    (InFrame OutFrame OutFrame1 : CVtImage) (hinit : s.m_initialised = true)
    (hN : s.m_chip_height * s.m_numChips < 2147483648)
    (hw : OutFrame1.m_width = OutFrame.m_width) (hh : OutFrame1.m_height = OutFrame.m_height)
    (hl : OutFrame.m_lines.length = s.m_chip_height * s.m_numChips)
    (hl1 : OutFrame1.m_lines.length = s.m_chip_height * s.m_numChips)
    (hr : ∀ r ∈ OutFrame.m_lines, r.length = InFrame.m_width)
    (hr1 : ∀ r ∈ OutFrame1.m_lines, r.length = InFrame.m_width) :
    apply s api_type InFrame OutFrame = apply s api_type InFrame OutFrame1 := by
  by_cases hz : s.m_chip_height * s.m_numChips = 0
  · have e : OutFrame = OutFrame1 := by
      cases OutFrame
      cases OutFrame1
      simp only [] at hw hh hl hl1
      rw [hz] at hl hl1
      rw [List.length_eq_zero.mp hl, List.length_eq_zero.mp hl1, hw, hh]
    rw [e]
  · have hle : s.m_chip_height ≤ s.m_chip_height * s.m_numChips := by
      have hn : 1 ≤ s.m_numChips := by
        rcases Nat.eq_zero_or_pos s.m_numChips with h0 | h0
        · rw [h0, Nat.mul_zero] at hz
          exact absurd rfl hz
        · exact h0
      exact Nat.le_mul_of_pos_right _ hn
    have hsame : SamePass InFrame.m_width (s.m_chip_height * s.m_numChips)
        { out := OutFrame.m_lines, row := ((s.m_chip_height * s.m_numChips : Nat) : Int) - 1,
          c1to2_done := false, c2to3_done := false, offset := 0 }
        { out := OutFrame1.m_lines, row := ((s.m_chip_height * s.m_numChips : Nat) : Int) - 1,
          c1to2_done := false, c2to3_done := false, offset := 0 } := by
      refine ⟨rfl, rfl, rfl, rfl, hl, hl1, by simp only []; omega, ?_, ?_⟩
      · intro r
        simp only []
        obtain ⟨a1, a2, a3⟩ := getD_length_of_rows OutFrame.m_lines InFrame.m_width r hr
        obtain ⟨b1, b2, b3⟩ := getD_length_of_rows OutFrame1.m_lines InFrame.m_width r hr1
        refine ⟨a1, ?_⟩
        by_cases hlt : r < s.m_chip_height * s.m_numChips
        · rw [a2 (by omega), b2 (by omega)]
        · rw [a3 (by omega), b3 (by omega)]
      · intro r hlt
        simp only [] at hlt ⊢
        rw [(getD_length_of_rows OutFrame.m_lines InFrame.m_width r hr).2.2 (by omega),
          (getD_length_of_rows OutFrame1.m_lines InFrame.m_width r hr1).2.2 (by omega)]
    unfold apply
    simp only [hinit, Bool.true_eq_false, if_false]
    apply Calc.rel_bind_eq _ _ _ _
      (applyLoop_same s api_type InFrame.m_lines InFrame.m_width _ hN hle _ _ _ hsame)
    intro a b hab
    rw [hab]
    have e : ∀ o2 : List (List Nat), ({ OutFrame with m_lines := o2 } : CVtImage) =
        { OutFrame1 with m_lines := o2 } := by
      intro o2
      rw [hw, hh]
    simp only [e]

/-- C13 amended, at 3 chips of height 4 with unit gain: an input of all 150 into a
buffer of zeros and into a buffer of sevens; both calls return 1050 in every pixel. -/
theorem apply_same_output_witness :
    apply (unitCalib 4 3) .CEPH_API (CVtImage.filled 3 12 150) (CVtImage.filled 3 12 0) =
        apply (unitCalib 4 3) .CEPH_API (CVtImage.filled 3 12 150) (CVtImage.filled 3 12 7) ∧
      apply (unitCalib 4 3) .CEPH_API (CVtImage.filled 3 12 150) (CVtImage.filled 3 12 7) =
        .value (CVtImage.filled 3 12 1050) :=
  ⟨apply_same_output (unitCalib 4 3) .CEPH_API (CVtImage.filled 3 12 150)
      (CVtImage.filled 3 12 0) (CVtImage.filled 3 12 7) rfl (by decide) rfl rfl (by decide)
      (by decide) (by decide) (by decide),
    by decide!⟩

open sensor_info

/-- C17. The codec of the hardware-identity record is a bijection between 16-byte
buffers and records that fit (every field within the width of its type, `size` and
`location` within 4 bits): decoding the 16 bytes encoded from such a record gives
the record back, equal in all nine fields; every buffer of 16 bytes decodes to
such a record, whose encoding is the buffer; and the layout is the serial number
big-endian in the bytes 0 to 3, the manufacturing date in 4 and 5, the sensor type
in 6, row in 7 and 8, col in 9 and 10, size in the low and location in the high
nibble of 11, the detector batch in 12 and 13, the asic batch in 14 and 15. -/
theorem sensor_info_codec :
    (∀ r : sensor_info, r.Fits →
      (encode r).length = 16 ∧ (∀ b ∈ encode r, b < 256) ∧ decode (encode r) = .value r ∧
        ne r r = false ∧
        encode r =
          [r.serial_number / 16777216, r.serial_number / 65536 % 256,
           r.serial_number / 256 % 256, r.serial_number % 256,
           r.manufacturing_date / 256, r.manufacturing_date % 256, r.sensor_type,
           r.row / 256, r.row % 256, r.col / 256, r.col % 256, r.location * 16 + r.size,
           r.detector_batch / 256, r.detector_batch % 256,
           r.asic_batch / 256, r.asic_batch % 256]) ∧
    (∀ buf : List Nat, buf.length = 16 → (∀ b ∈ buf, b < 256) →
      ∃ r, decode buf = .value r ∧ r.Fits ∧ encode r = buf) := by
  refine ⟨?_, encode_decode⟩
  intro r h
  refine ⟨rfl, ?_, decode_encode r h, by simp [ne], encode_bytes r h⟩
  intro b hb
  unfold encode at hb
  simp only [List.mem_cons, List.mem_singleton, List.not_mem_nil, or_false] at hb
  rcases hb with h | h | h | h | h | h | h | h | h | h | h | h | h | h | h | h <;>
    (rw [h]; exact Nat.mod_lt _ (by decide))

/-- C17 at the record of the default constructor and at the bytes `1, 2, ..., 16`. -/
theorem sensor_info_codec_witness :
    decode (encode sensor_info.default) = .value sensor_info.default ∧
      encode sensor_info.default =
        [0x12, 0x34, 0x56, 0x78, 0xDC, 0x83, 0, 2, 176, 3, 176, 1, 0, 0, 0, 0] ∧
      ∃ r, decode [1, 2, 3, 4, 5, 6, 7, 8, 9, 10, 11, 12, 13, 14, 15, 16] = .value r ∧ r.Fits ∧
        encode r = [1, 2, 3, 4, 5, 6, 7, 8, 9, 10, 11, 12, 13, 14, 15, 16] :=
  ⟨(sensor_info_codec.1 sensor_info.default (by decide)).2.2.1, by decide,
    sensor_info_codec.2 [1, 2, 3, 4, 5, 6, 7, 8, 9, 10, 11, 12, 13, 14, 15, 16] rfl (by decide)⟩

/-- C14, the code at failing inputs. Whenever the dataset holds at least one image,
`operator()` raises "No images present": its precondition asks for
`m_data.size() == 0`. On the 1 x 1 calibration `hdsCalibOne` with one image of
value 7 in the dataset and `num_images = 1` it raises, where the claim gives the
pixel `poly3(poly5(7) - poly5(5))`; with the dataset empty it returns, every
pixel being `poly3(0 / num_images) = 0`. -/
theorem hds_apply_rejects_images :
    (∀ (s : CVthdsCalib) (im : CVtImage) (rest : List CVtImage) (out : CVtImage)
        (num_images : Nat),
      CVthdsCalib.apply { s with m_data := im :: rest } out num_images =
        .failed .noImagesPresent) ∧
    CVthdsCalib.apply { hdsCalibOne with m_data := [CVtImage.filled 1 1 7] }
        (CVtImage.filled 1 1 9) 1 = .failed .noImagesPresent ∧
    CVthdsCalib.apply hdsCalibOne (CVtImage.filled 1 1 9) 1 = .value (CVtImage.filled 1 1 0) := by
  refine ⟨?_, by decide!, by decide!⟩
  intro s im rest out num_images
  simp [CVthdsCalib.apply]

open sensor_info

/-- C15, the claim as stated fails. The file `hdsFileOther` carries the serial
number 1 and the sensor answers with the record of the default constructor: the
two records compare unequal and `init` raises, but the file was read before the
comparison, so the coefficient images and the mask in memory are those of the
file, not those held before. -/
theorem init_mismatch_overwrites :
    ne sensor_info.default { sensor_info.default with serial_number := 1 } = true ∧
      CVthdsImpAPI.init hdsApiOne (some hdsFileOther) (encode sensor_info.default) 1 1 =
        .value (.raised .hwInfoMismatch
          { initialised := true, m_hw_info := sensor_info.default,
            m_calib :=
              { hdsCalibOne with
                m_hw_info := { sensor_info.default with serial_number := 1 },
                m_cal5 := { m_width := 1, m_height := 1,
                            m_data := [some 100, none, none, none, none, none] },
                m_cal3 := { m_width := 1, m_height := 1, m_data := [some 200, none, none] },
                m_mask := { m_width := 1, m_height := 1, m_lines := [[0]] } } }) ∧
      hdsCalibOne.m_cal5.m_data ≠ [some 100, none, none, none, none, none] ∧
      hdsCalibOne.m_cal3.m_data ≠ [some 200, none, none] ∧
      hdsCalibOne.m_mask.m_lines ≠ [[0]] := by
  refine ⟨by decide, by decide!, by decide, by decide, by decide⟩

/-- C15, amended. When the identity record `frec` stored in a well-formed
calibration file differs in any field from the record `dev` of the attached
sensor, `init` raises "Calibration file hardware information does not match EPROM
hardware information", the comparison being made field by field after the file
was read: the coefficient images and the mask in memory then hold what was read
from the file (the first `num_pix` values of each coefficient array, the rest
unset), and the identity record of the calibration is that of the file. -/
theorem init_mismatch_after_load (api : CVthdsImpAPI) (frec dev : sensor_info)
    (c5 c3 : List ℚ) (mask : List Nat) (W H : Nat) (hinit : api.initialised = false)
    (hf : frec.Fits) (hd : dev.Fits) (h5 : c5.length = W * H % 4294967296)
    (h3 : c3.length = W * H % 4294967296) (hm : mask.length = W * H % 4294967296)
    (hne : dev ≠ frec) :
    ne dev frec = true ∧
      CVthdsImpAPI.init api
          (some ((encode frec).map Cell.byte ++ c5.map Cell.coef ++ c3.map Cell.coef ++
            mask.map Cell.byte)) (encode dev) W H =
        .value (.raised .hwInfoMismatch
          { initialised := true, m_hw_info := dev,
            m_calib :=
              { m_hw_info := frec,
                m_cal5 := { m_width := W, m_height := H,
                            m_data := c5.map some ++ List.replicate
                              (6 * (W * H % 4294967296) - W * H % 4294967296) none },
                m_cal3 := { m_width := W, m_height := H,
                            m_data := c3.map some ++ List.replicate
                              (3 * (W * H % 4294967296) - W * H % 4294967296) none },
                m_dark := api.m_calib.m_dark,
                m_mask := { m_width := W, m_height := H, m_lines := rowsOver mask W H },
                m_data := [] } }) := by
  have hne1 : ne dev frec = true := (sensor_info_ne_iff dev frec).mpr hne
  refine ⟨hne1, ?_⟩
  have hlen : sensor_info.length = (encode frec).length := rfl
  unfold CVthdsImpAPI.init
  simp only [hinit, Bool.false_eq_true, if_false]
  unfold CVthdsCalib.load
  simp only [List.append_assoc]
  rw [hlen, readBytes_append]
  simp only [Calc.bind, decode_encode frec hf, decode_encode dev hd]
  rw [← h5, readCells_append]
  simp only [Calc.bind]
  rw [h5, ← h3, readCells_append]
  simp only [Calc.bind]
  rw [h3, ← hm]
  have hb := readBytes_append mask []
  rw [List.append_nil] at hb
  rw [hb]
  simp only [hne1, if_true]

/-- C15 amended, at the file `hdsFileOther` and the sensor of the default record. -/
theorem init_mismatch_after_load_witness :
    ne sensor_info.default { sensor_info.default with serial_number := 1 } = true ∧
      CVthdsImpAPI.init hdsApiOne
          (some ((encode { sensor_info.default with serial_number := 1 }).map Cell.byte ++
            [100].map Cell.coef ++ [200].map Cell.coef ++ [0].map Cell.byte))
          (encode sensor_info.default) 1 1 =
        .value (.raised .hwInfoMismatch
          { initialised := true, m_hw_info := sensor_info.default,
            m_calib :=
              { m_hw_info := { sensor_info.default with serial_number := 1 },
                m_cal5 := { m_width := 1, m_height := 1,
                            m_data := [100].map some ++ List.replicate
                              (6 * (1 * 1 % 4294967296) - 1 * 1 % 4294967296) none },
                m_cal3 := { m_width := 1, m_height := 1,
                            m_data := [200].map some ++ List.replicate
                              (3 * (1 * 1 % 4294967296) - 1 * 1 % 4294967296) none },
                m_dark := hdsApiOne.m_calib.m_dark,
                m_mask := { m_width := 1, m_height := 1, m_lines := rowsOver [0] 1 1 },
                m_data := [] } }) :=
  init_mismatch_after_load hdsApiOne { sensor_info.default with serial_number := 1 }
    sensor_info.default [100] [200] [0] 1 1 rfl (by decide) (by decide) (by decide) (by decide)
    (by decide) (by decide)

open sensor_info

/-- C16, the code at a failing input: the sensor of 1 x 1 pixels with the
calibration `hdsCalibOne` (5th-order coefficients 1 to 6, 3rd-order coefficients 7,
8, 9, mask 1). `save` writes the 16 bytes of the identity record, then one value
of the 5th-order image, one value of the 3rd-order image and one mask byte: 33
bytes, not the `16 + 72 + 1 = 89` of the claim, as each `fwrite` of coefficients
counts `num_pix` values of `sizeof(CoefType)`. `operator>>` reads these counts
back, into arrays of 6 and 3 values: the other coefficients stay unset. -/
theorem hds_save_coefficient_count :
    CVthdsCalib.save hdsCalibOne 1 1 =
        .value ((encode sensor_info.default).map Cell.byte ++
          [Cell.coef 1, Cell.coef 7, Cell.byte 1]) ∧
      (CVthdsCalib.save hdsCalibOne 1 1).view fileSize = .value 33 ∧
      (CVthdsCalib.save hdsCalibOne 1 1).view fileSize ≠ .value (16 + 72 * 1 * 1 + 1 * 1) ∧
      (CVthdsCalib.load ((encode sensor_info.default).map Cell.byte ++
            [Cell.coef 1, Cell.coef 7, Cell.byte 1]) hdsCalibOne 1 1).view
          (fun r => (r.1, r.2.m_cal5.m_data, r.2.m_cal3.m_data, r.2.m_mask.m_lines)) =
        .value ([], [some 1, none, none, none, none, none], [some 7, none, none], [[1]]) := by
  refine ⟨by decide!, by decide!, by decide!, by decide!⟩

open CVtImageBaseClass

/-- C18, the claim as stated fails. On an image of 4 x 4 pixels `SetROI` with the
origin `(3, 3)` and the size `(3, 3)` succeeds, although origin + size, `(6, 6)`,
lies outside the image: the sum is not among the preconditions. -/
theorem setROI_sum_outside :
    SetROI (CVtImageBaseClass.create 4 4) ⟨3, 3⟩ ⟨3, 3⟩ =
        .done () { CVtImageBaseClass.create 4 4 with m_roiorigin := ⟨3, 3⟩, m_roisize := ⟨3, 3⟩ } ∧
      ¬ ((3 : Int) + 3 < 4) := by
  refine ⟨by decide, by decide⟩

/-- C18, amended. For `vt_int` coordinates, `SetROI` on a `width x height` image
succeeds exactly when the origin and the size are each, taken alone, non-negative
and below `(width, height)` in both components, and then stores both; so after
every successful `SetROI` the stored origin lies within `[0, width) x [0, height)`
and the stored size is below the image size in both directions. When `SetROI`
fails, it raises and the stored region of interest is unchanged. -/
theorem setROI_spec (im : CVtImageBaseClass) (ROIOrigin ROISize : Diff2D)
    (hox : ROIOrigin.x < 2147483648) (hoy : ROIOrigin.y < 2147483648)
    (hsx : ROISize.x < 2147483648) (hsy : ROISize.y < 2147483648) :
    ((0 ≤ ROIOrigin.x ∧ ROIOrigin.x < im.m_width ∧ 0 ≤ ROIOrigin.y ∧
          ROIOrigin.y < im.m_height ∧ 0 ≤ ROISize.x ∧ ROISize.x < im.m_width ∧
          0 ≤ ROISize.y ∧ ROISize.y < im.m_height) →
        SetROI im ROIOrigin ROISize =
          .done () { im with m_roiorigin := ROIOrigin, m_roisize := ROISize }) ∧
      (¬ (0 ≤ ROIOrigin.x ∧ ROIOrigin.x < im.m_width ∧ 0 ≤ ROIOrigin.y ∧
          ROIOrigin.y < im.m_height ∧ 0 ≤ ROISize.x ∧ ROISize.x < im.m_width ∧
          0 ≤ ROISize.y ∧ ROISize.y < im.m_height) →
        ∃ e, SetROI im ROIOrigin ROISize = .raised e im) := by
  have conv : ∀ v : Int, 0 ≤ v → v < 2147483648 → ((toUInt v : Nat) : Int) = v := by
    intro v h0 h1
    unfold toUInt
    rw [Int.emod_eq_of_lt h0 (by omega), Int.toNat_of_nonneg h0]
  unfold SetROI
  constructor
  · rintro ⟨h1, h2, h3, h4, h5, h6, h7, h8⟩
    have c1 := conv _ h1 hox
    have c2 := conv _ h3 hoy
    have c3 := conv _ h5 hsx
    have c4 := conv _ h7 hsy
    rw [if_neg (by simp only [not_not]; exact ⟨h1, h3⟩),
      if_neg (by simp only [not_not]; exact ⟨h5, h7⟩),
      if_neg (by simp only [not_not]; constructor <;> omega),
      if_neg (by simp only [not_not]; constructor <;> omega)]
  · intro hn
    by_cases a1 : ROIOrigin.x ≥ 0 ∧ ROIOrigin.y ≥ 0
    · rw [if_neg (not_not.mpr a1)]
      by_cases a2 : ROISize.x ≥ 0 ∧ ROISize.y ≥ 0
      · rw [if_neg (not_not.mpr a2)]
        have c1 := conv _ a1.1 hox
        have c2 := conv _ a1.2 hoy
        have c3 := conv _ a2.1 hsx
        have c4 := conv _ a2.2 hsy
        by_cases a3 : toUInt ROIOrigin.x < im.m_width ∧ toUInt ROIOrigin.y < im.m_height
        · rw [if_neg (not_not.mpr a3)]
          by_cases a4 : toUInt ROISize.x < im.m_width ∧ toUInt ROISize.y < im.m_height
          · exfalso
            apply hn
            obtain ⟨b1, b2⟩ := a1
            obtain ⟨b3, b4⟩ := a2
            obtain ⟨b5, b6⟩ := a3
            obtain ⟨b7, b8⟩ := a4
            refine ⟨b1, ?_, b2, ?_, b3, ?_, b4, ?_⟩ <;> omega
          · rw [if_pos a4]
            exact ⟨_, rfl⟩
        · rw [if_pos a3]
          exact ⟨_, rfl⟩
      · rw [if_pos a2]
        exact ⟨_, rfl⟩
    · rw [if_pos a1]
      exact ⟨_, rfl⟩

/-- C18 amended, on an image of 4 x 4 pixels with the region `(1, 1)`, `(2, 2)`
stored: the origin `(3, 3)` with the size `(3, 3)` is accepted, and the origin
`(1, 1)` with the size `(4, 1)` is refused, the region stored staying as it was. -/
theorem setROI_spec_witness :
    SetROI { CVtImageBaseClass.create 4 4 with m_roiorigin := ⟨1, 1⟩, m_roisize := ⟨2, 2⟩ } ⟨3, 3⟩ ⟨3, 3⟩ =
        .done () { CVtImageBaseClass.create 4 4 with m_roiorigin := ⟨3, 3⟩, m_roisize := ⟨3, 3⟩ } ∧
      ∃ e, SetROI { CVtImageBaseClass.create 4 4 with m_roiorigin := ⟨1, 1⟩, m_roisize := ⟨2, 2⟩ } ⟨1, 1⟩ ⟨4, 1⟩ =
        .raised e { CVtImageBaseClass.create 4 4 with m_roiorigin := ⟨1, 1⟩, m_roisize := ⟨2, 2⟩ } :=
  ⟨(setROI_spec { CVtImageBaseClass.create 4 4 with m_roiorigin := ⟨1, 1⟩, m_roisize := ⟨2, 2⟩ } ⟨3, 3⟩ ⟨3, 3⟩
      (by decide) (by decide) (by decide) (by decide)).1 (by decide),
    (setROI_spec { CVtImageBaseClass.create 4 4 with m_roiorigin := ⟨1, 1⟩, m_roisize := ⟨2, 2⟩ } ⟨1, 1⟩ ⟨4, 1⟩
      (by decide) (by decide) (by decide) (by decide)).2 (by decide)⟩

/-- C19. The member `transpose_lineim` is a pure layout transform: for 3 chips and
a line image of `W` lines of (at least) `3 * chip_height` samples it returns an
image `W` columns wide and `3 * chip_height` rows high, with exactly that many
rows of `W` pixels, and `out[r][c] = in[c][r]` for every `r < 2 * chip_height` (the
rows of chip A, then those of chip B), and for `r` in `[2 * chip_height,
3 * chip_height)` `out[r][c] = in[c][r]` without inversion and
`out[r][c] = in[c][5 * chip_height - 1 - r]` with inversion of chip C. -/
theorem transpose_lineim_layout (h : Nat) (invertC : Bool) (lineim : CVtImage)
    (hrows : lineim.m_lines.length = lineim.m_height)
    (hsamples : ∀ line ∈ lineim.m_lines, 3 * h ≤ line.length) :
    ∃ out, CVtpcImpAPI.transpose_lineim h 3 invertC lineim = .value out ∧
      out.m_width = lineim.m_height ∧ out.m_height = 3 * h ∧
      (0 < lineim.m_height * (3 * h) → out.m_lines.length = 3 * h) ∧
      ∀ r c, r < 3 * h → c < lineim.m_height →
        (out.m_lines.getD r []).length = lineim.m_height ∧
        (out.m_lines.getD r []).getD c 0 =
          CVtpcImpAPI.sampleFor h invertC (lineim.m_lines.getD c []) r ∧
        (r < 2 * h →
          (out.m_lines.getD r []).getD c 0 = (lineim.m_lines.getD c []).getD r 0) ∧
        (2 * h ≤ r → invertC = false →
          (out.m_lines.getD r []).getD c 0 = (lineim.m_lines.getD c []).getD r 0) ∧
        (2 * h ≤ r → invertC = true →
          (out.m_lines.getD r []).getD c 0 =
            (lineim.m_lines.getD c []).getD (5 * h - 1 - r) 0) := by
  have hmul : h * 3 = 3 * h := Nat.mul_comm _ _
  unfold CVtpcImpAPI.transpose_lineim
  simp only [hmul]
  by_cases hz : lineim.m_height * (3 * h) = 0
  · rcases Nat.mul_eq_zero.mp hz with h0 | h0
    · refine ⟨CVtImage.filled lineim.m_height (3 * h) 0, ?_, rfl, rfl, by omega, by omega⟩
      rw [h0]
      rfl
    · have hh : h = 0 := by omega
      subst hh
      have hfill : (CVtImage.filled lineim.m_height (3 * 0) 0).m_lines = [] := by
        simp [CVtImage.filled]
      obtain ⟨im1, h1, hl1, _⟩ := transposeLoop_spec 0 invertC lineim.m_lines
        lineim.m_height 0 [] (by omega) (fun c _ _ => Nat.zero_le _) rfl
        (fun r hr => by omega)
      rw [hfill, h1]
      exact ⟨_, rfl, rfl, rfl, by omega, by omega⟩
  · have hpos : lineim.m_height * (3 * h) > 0 := Nat.pos_of_ne_zero hz
    have hfill : (CVtImage.filled lineim.m_height (3 * h) 0).m_lines =
        List.replicate (3 * h) (List.replicate lineim.m_height 0) := by
      simp [CVtImage.filled, hpos]
    obtain ⟨im1, h1, hl1, hr1⟩ := transposeLoop_spec h invertC lineim.m_lines
      lineim.m_height 0 (List.replicate (3 * h) (List.replicate lineim.m_height 0))
      (by omega)
      (fun c _ hc => hsamples _ (by
        rw [List.getD_eq_getElem?_getD, List.getElem?_eq_getElem (by omega)]
        exact List.getElem_mem _))
      (by simp)
      (fun r hr => by
        rw [List.getD_eq_getElem?_getD, List.getElem?_replicate, if_pos hr]
        simp)
    rw [hfill, h1]
    refine ⟨_, rfl, rfl, rfl, fun _ => hl1, ?_⟩
    intro r c hr hc
    obtain ⟨ha, hb⟩ := hr1 r hr
    have hcell := hb c
    rw [if_pos ⟨Nat.zero_le _, by omega⟩] at hcell
    have hlenr : (im1.getD r []).length = lineim.m_height := by
      rw [ha, List.getD_eq_getElem?_getD, List.getElem?_replicate, if_pos hr]
      simp
    refine ⟨hlenr, hcell, ?_, ?_, ?_⟩
    · intro h2
      rw [hcell, CVtpcImpAPI.sampleFor, if_pos (Or.inl h2)]
    · intro _ hinv
      rw [hcell, CVtpcImpAPI.sampleFor, if_pos (Or.inr hinv)]
    · intro h2 hinv
      rw [hcell, CVtpcImpAPI.sampleFor, if_neg (by simp [hinv]; omega)]

/-- C19 at the line image `lineTwo` with inversion of chip C: the rows of the
result are the samples 1 to 4 of the lines, then the samples 6 and 5. -/
theorem transpose_lineim_layout_witness :
    (∃ out, CVtpcImpAPI.transpose_lineim 2 3 true lineTwo = .value out ∧
      out.m_width = lineTwo.m_height ∧ out.m_height = 3 * 2 ∧
      (0 < lineTwo.m_height * (3 * 2) → out.m_lines.length = 3 * 2) ∧
      ∀ r c, r < 3 * 2 → c < lineTwo.m_height →
        (out.m_lines.getD r []).length = lineTwo.m_height ∧
        (out.m_lines.getD r []).getD c 0 =
          CVtpcImpAPI.sampleFor 2 true (lineTwo.m_lines.getD c []) r ∧
        (r < 2 * 2 →
          (out.m_lines.getD r []).getD c 0 = (lineTwo.m_lines.getD c []).getD r 0) ∧
        (2 * 2 ≤ r → true = false →
          (out.m_lines.getD r []).getD c 0 = (lineTwo.m_lines.getD c []).getD r 0) ∧
        (2 * 2 ≤ r → true = true →
          (out.m_lines.getD r []).getD c 0 =
            (lineTwo.m_lines.getD c []).getD (5 * 2 - 1 - r) 0)) ∧
      CVtpcImpAPI.transpose_lineim 2 3 true lineTwo =
        .value { m_width := 2, m_height := 6,
                 m_lines := [[1, 7], [2, 8], [3, 9], [4, 10], [6, 12], [5, 11]] } :=
  ⟨transpose_lineim_layout 2 true lineTwo (by decide) (by decide), by decide⟩

open CVtUSBPipeData

/-- C20. Multi-chip `get_line` with 3 chips and line length `h ≥ 1` on a
well-formed line: with the stream positioned at a header word, `h` triples
`(a_i, b_i, c_i)` of words with the header bit clear, the first of them with the
tag of chip A, and an end-of-line word, `get_line` returns true after `h`
iterations of its filling loop and leaves `A[i] = a_i`, `B[i] = b_i & 0x0FFF` and
`C[h - 1 - i] = c_i & 0x0FFF` for every `i < h`: chip C is stored back to front.
The stream is left on the end-of-line word, `3 * h + 1` words further. -/
theorem pc_get_line_full_line (s : CVtpcLineParser) (hdr eol : Nat)
    (ts : List (Nat × Nat × Nat)) (rest : List Nat) (hwf : s.WF3)
    (hh : 1 ≤ s.m_chip_height) (hlen : ts.length = s.m_chip_height)
    (hhdr : hdr &&& 0x8000 = 0x8000)
    (hdata : ∀ t ∈ ts, t.1 &&& 0x8000 = 0 ∧ t.2.1 &&& 0x8000 = 0 ∧ t.2.2 &&& 0x8000 = 0)
    (htag : (ts.getD 0 (0, 0, 0)).1 &&& 0x3000 = 0x0000)
    (heol : eol &&& 0xC000 = 0xC000)
    (hpos : positioned s.m_pipeData (hdr :: flatten3 ts ++ eol :: rest) = true) :
    ∃ s0 s1, CVtpcLineParser.get_line_try s = .done () (s0, s.m_chip_height) ∧
      CVtpcLineParser.get_line s = .done true s1 ∧
      (∀ i, i < s.m_chip_height →
        s1.Buff.getD (s1.ABuff + i) 0 = (ts.getD i (0, 0, 0)).1 ∧
        s1.Buff.getD (s1.BBuff + i) 0 = (ts.getD i (0, 0, 0)).2.1 &&& 0x0FFF ∧
        s1.Buff.getD (s1.CBuff + (s.m_chip_height - 1 - i)) 0 =
          (ts.getD i (0, 0, 0)).2.2 &&& 0x0FFF) ∧
      skip (3 * s.m_chip_height + 1) s.m_pipeData = some s1.m_pipeData ∧
      s1.m_pipeData.deref = eol ∧ s1.m_errCount = s.m_errCount ∧ s1.WF3 := by
  obtain ⟨h3, hbs, hbl, hsent, hA0, hB0, hC0, hCE⟩ := hwf
  obtain ⟨t0, ts1, hts⟩ : ∃ t0 ts1, ts = t0 :: ts1 := by
    cases ts with
    | nil => simp at hlen; omega
    | cons t0 ts1 => exact ⟨t0, ts1, rfl⟩
  obtain ⟨a0, b0, c0⟩ := t0
  have ha0 : a0 &&& 0x8000 = 0 := by
    have := hdata (a0, b0, c0) (by rw [hts]; exact List.mem_cons_self _ _)
    exact this.1
  have htag0 : a0 &&& 0x3000 = 0 := by
    rw [hts] at htag
    simpa using htag
  have hflat : hdr :: flatten3 ts ++ eol :: rest =
      hdr :: a0 :: (b0 :: c0 :: flatten3 ts1 ++ eol :: rest) := by
    rw [hts]
    simp [flatten3]
  have hreset : CVtpcLineParser.reset_ptrs s = .done ()
      { s with m_pBuff := 0,
               m_chipABuff := s.ABuff, m_AEnd := s.ABuff + s.m_bufferSize,
               m_chipBBuff := s.BBuff, m_BEnd := s.BBuff + s.m_bufferSize,
               m_chipCBuff := s.m_CEnd, m_CBeg := s.BBuff + s.m_bufferSize } := by
    simp only [CVtpcLineParser.reset_ptrs, hsent, ne_eq, not_true_eq_false, if_false]
  set r : CVtpcLineParser :=
      { s with m_pBuff := 0,
               m_chipABuff := s.ABuff, m_AEnd := s.ABuff + s.m_bufferSize,
               m_chipBBuff := s.BBuff, m_BEnd := s.BBuff + s.m_bufferSize,
               m_chipCBuff := s.m_CEnd, m_CBeg := s.BBuff + s.m_bufferSize } with hr
  obtain ⟨hf, hi, hah⟩ := CVtpcLineParser.alignHeader_spec r 0
  set a : CVtpcLineParser := { r with m_half := hf, m_half_idx := hi } with ha
  obtain ⟨p1, hinc, hp1, hskip⟩ := CVtpcLineParser.skipHdr_header a hdr a0
    (b0 :: c0 :: flatten3 ts1 ++ eol :: rest) hhdr ha0 (by rw [← hflat]; simpa [ha, hr] using hpos)
  have hd1 : p1.deref = a0 := positioned_head _ _ _ hp1
  have hchips : CVtpcLineParser.alignChips { a with m_pipeData := p1 } =
      .done true { a with m_pipeData := p1 } := by
    unfold CVtpcLineParser.alignChips
    simp only [CVtpcLineParser.DATA_CHIP_MASK, CVtpcLineParser.DATA_CHIPA_PTRN, hd1, htag0]
    simp [ha, hr, h3]
  have halign : CVtpcLineParser.align r 0 =
      .done (true, (CVtpcLineParser.alignHeader r 0).2) { a with m_pipeData := p1 } := by
    unfold CVtpcLineParser.align
    have : CVtpcLineParser.alignHeader r 0 = (a, (CVtpcLineParser.alignHeader r 0).2) :=
      Prod.ext hah rfl
    rw [this]
    simp only [hskip, hchips]
  have hp1' : positioned p1 (flatten3 ts ++ eol :: rest) = true := by
    rw [hts]
    simpa [flatten3] using hp1
  obtain ⟨p, hskipn, hpp, hfill⟩ := CVtpcLineParser.pc_fillLine_steps eol rest ts
    { a with m_pipeData := p1 } 0 1 (by simp [ha, hr, h3])
    (by simp only [ha, hr]; omega) (by simp only [ha, hr]; omega)
    (by simp only [ha, hr]; push_cast; omega) hdata hp1'
  have hdp : p.deref = eol := positioned_head _ _ _ hpp
  have hfuel : ({ a with m_pipeData := p1 } : CVtpcLineParser).m_bufferSize + 1 =
      1 + ts.length := by
    simp only [ha, hr]
    omega
  obtain ⟨fin, hfin⟩ : ∃ fin : CVtpcLineParser, fin =
      { a with m_pipeData := p,
               Buff := storeLine3 s.Buff s.ABuff s.BBuff s.m_CEnd ts,
               m_chipABuff := s.ABuff + ts.length, m_chipBBuff := s.BBuff + ts.length,
               m_chipCBuff := s.m_CEnd - ts.length } := ⟨_, rfl⟩
  have htry : CVtpcLineParser.get_line_try s = .done () (fin, s.m_chip_height) := by
    simp only [CVtpcLineParser.get_line_try, hreset, halign]
    rw [hfuel, hfill]
    unfold CVtpcLineParser.fillLine
    simp only [hdp, CVtpcLineParser.pc_isEOL_of_land eol heol, if_true, ha, hr, Nat.zero_add,
      hlen, hfin]
  have hend : CVtpcLineParser.get_line_end fin s.m_chip_height true = .done true fin := by
    unfold CVtpcLineParser.get_line_end
    simp [hfin, ha, hr]
  have hstore := storeLine3_get ts s.Buff s.ABuff s.BBuff s.m_CEnd (by omega)
    (by rw [hCE]; push_cast; omega) (by rw [hCE, hbl]; push_cast; omega)
  refine ⟨fin, fin, htry, by simp only [CVtpcLineParser.get_line, htry, hend], ?_, ?_,
    by rw [hfin]; exact hdp, by rw [hfin], ?_⟩
  · intro i hi0
    obtain ⟨g1, g2, g3⟩ := hstore i (by omega)
    simp only [hfin, ha, hr]
    refine ⟨g1, g2, ?_⟩
    have : s.CBuff + (s.m_chip_height - 1 - i) = (s.m_CEnd - (i : Int)).toNat := by
      rw [hCE, hC0]
      omega
    rw [this]
    exact g3
  · rw [show 3 * s.m_chip_height + 1 = 1 + 3 * ts.length by omega, skip_add, hfin]
    simp only [skip, hinc]
    exact hskipn
  · rw [hfin]
    refine ⟨h3, hbs, ?_, ?_, hA0, hB0, hC0, hCE⟩
    · simp only [ha, hr]
      rw [storeLine3_length]
      exact hbl
    · simp only [ha, hr]
      rw [storeLine3_other _ _ _ _ _ _ (by omega) (by omega) (by rw [hCE]; push_cast; omega)]
      exact hsent

open CVtUSBPipeData

/-- C20 at the parser `pcFullLine`, 3 chips of height 2, on the line of the triples
`(0x0111, 0x1222, 0x2333)` and `(0x4444, 0x1555, 0x2666)`: the buffer ends as
`0x0111, 0x4444` for chip A, `0x0222, 0x0555` for chip B and `0x0666, 0x0333` for
chip C, before the sentinel. -/
theorem pc_get_line_full_line_witness :
    (∃ s0 s1, CVtpcLineParser.get_line_try pcFullLine = .done () (s0, pcFullLine.m_chip_height) ∧
      CVtpcLineParser.get_line pcFullLine = .done true s1 ∧
      (∀ i, i < pcFullLine.m_chip_height →
        s1.Buff.getD (s1.ABuff + i) 0 =
          ([(0x0111, 0x1222, 0x2333), (0x4444, 0x1555, 0x2666)].getD i (0, 0, 0)).1 ∧
        s1.Buff.getD (s1.BBuff + i) 0 =
          ([(0x0111, 0x1222, 0x2333), (0x4444, 0x1555, 0x2666)].getD i (0, 0, 0)).2.1 &&& 0x0FFF ∧
        s1.Buff.getD (s1.CBuff + (pcFullLine.m_chip_height - 1 - i)) 0 =
          ([(0x0111, 0x1222, 0x2333), (0x4444, 0x1555, 0x2666)].getD i (0, 0, 0)).2.2 &&&
            0x0FFF) ∧
      skip (3 * pcFullLine.m_chip_height + 1) pcFullLine.m_pipeData = some s1.m_pipeData ∧
      s1.m_pipeData.deref = 0xC000 ∧ s1.m_errCount = pcFullLine.m_errCount ∧ s1.WF3) ∧
    (CVtpcLineParser.get_line pcFullLine).view CVtpcLineParser.Buff =
      some (true, [0x0111, 0x4444, 0x0222, 0x0555, 0x0666, 0x0333, 0xdead]) :=
  ⟨pc_get_line_full_line pcFullLine 0x8001 0xC000
      [(0x0111, 0x1222, 0x2333), (0x4444, 0x1555, 0x2666)] [0x8002]
      ⟨by decide, by decide, by decide, by decide, by decide, by decide, by decide, by decide⟩
      (by decide) (by decide) (by decide) (by decide) (by decide) (by decide) (by decide),
    by decide⟩

end Vt

namespace Vt

open CVtpcLineParser

/-- Advancing the stream leaves the line buffer alone, whatever the outcome. -/
theorem CVtpcLineParser.pc_advance_state_Buff (s : CVtpcLineParser) :
    (advance s).state.Buff = s.Buff := by
  unfold advance
  cases s.m_pipeData.increment <;> rfl

/-- C21, the claim as stated fails. On the well-formed line of `pcFullLine` the
second chip A word is `0x4444`: `get_line` returns true and the chip A buffer
holds `0x4444`, above `0x0FFF`, while the chip B and chip C words `0x1555` and
`0x2666` of the same triple are stored as `0x0555` and `0x0666`. -/
theorem pc_chipA_sample_unmasked :
    (CVtpcLineParser.get_line pcFullLine).view
        (fun s => (s.Buff.getD (s.ABuff + 1) 0, s.Buff.getD (s.BBuff + 1) 0,
          s.Buff.getD s.CBuff 0)) = some (true, (0x4444, 0x0555, 0x0666)) ∧
      ¬ (0x4444 ≤ 0x0FFF) := by
  decide

/-- C21, amended. For every state of the parser, with `data` the word under the
read position: on a word that is no end-of-line word and with the cursor before
its limit, `MOVB` and `MOVC` store `data & 0x0FFF` at their cursor, a value of at
most `0x0FFF`, and `MOVA` stores `data` as it is, so that the chip A sample
equals `data & 0x0FFF` only when `data` has no bit above `0x0FFF` set; on an
end-of-line word each of the three stores 0 at its cursor; with the cursor at
its limit nothing is stored. -/
theorem pc_mov_stored_samples (s : CVtpcLineParser) :
    (isEOL s.m_pipeData.deref = false →
      (s.m_chipABuff < s.m_AEnd →
        (MOVA s).state.Buff = s.Buff.set s.m_chipABuff s.m_pipeData.deref) ∧
      (s.m_chipBBuff < s.m_BEnd →
        (MOVB s).state.Buff = s.Buff.set s.m_chipBBuff (s.m_pipeData.deref &&& 0x0FFF)) ∧
      ((s.m_CBeg : Int) ≤ s.m_chipCBuff →
        (MOVC s).state.Buff = setC s.Buff s.m_chipCBuff (s.m_pipeData.deref &&& 0x0FFF)) ∧
      (¬ s.m_chipABuff < s.m_AEnd → (MOVA s).state.Buff = s.Buff) ∧
      (¬ s.m_chipBBuff < s.m_BEnd → (MOVB s).state.Buff = s.Buff) ∧
      (¬ (s.m_CBeg : Int) ≤ s.m_chipCBuff → (MOVC s).state.Buff = s.Buff)) ∧
    (isEOL s.m_pipeData.deref = true →
      (MOVA s).state.Buff = s.Buff.set s.m_chipABuff 0 ∧
      (MOVB s).state.Buff = s.Buff.set s.m_chipBBuff 0 ∧
      (MOVC s).state.Buff = setC s.Buff s.m_chipCBuff 0) ∧
    s.m_pipeData.deref &&& 0x0FFF ≤ 0x0FFF ∧
    (s.m_pipeData.deref = s.m_pipeData.deref &&& 0x0FFF ↔ s.m_pipeData.deref ≤ 0x0FFF) := by
  refine ⟨fun he => ⟨fun h => ?_, fun h => ?_, fun h => ?_, fun h => ?_, fun h => ?_,
    fun h => ?_⟩, fun he => ⟨?_, ?_, ?_⟩, ?_, ?_⟩
  · unfold MOVA
    simp only [he, Bool.false_eq_true, if_false, h, if_true]
    rw [pc_advance_state_Buff]
  · unfold MOVB
    simp only [he, Bool.false_eq_true, if_false, h, if_true]
    rw [pc_advance_state_Buff]; rfl
  · unfold MOVC
    simp only [he, Bool.false_eq_true, if_false, h, if_true]
    rw [pc_advance_state_Buff]; rfl
  · unfold MOVA
    simp only [he, Bool.false_eq_true, if_false, h]
    rfl
  · unfold MOVB
    simp only [he, Bool.false_eq_true, if_false, h]
    rfl
  · unfold MOVC
    simp only [he, Bool.false_eq_true, if_false, h]
    rfl
  · unfold MOVA
    simp only [he, if_true]
    rfl
  · unfold MOVB
    simp only [he, if_true]
    rfl
  · unfold MOVC
    simp only [he, if_true]
    rfl
  · exact Nat.and_le_right
  · have hm : s.m_pipeData.deref &&& 0x0FFF = s.m_pipeData.deref % 2 ^ 12 :=
      Nat.and_pow_two_sub_one_eq_mod _ 12
    rw [hm]
    constructor
    · intro h
      have := Nat.mod_lt s.m_pipeData.deref (show 0 < 2 ^ 12 by norm_num)
      omega
    · intro h
      exact (Nat.mod_eq_of_lt (by omega)).symm

/-- C21 amended, at the parser `pcAtSample` on the word `0x4444`: chip A stores
`0x4444` at index 0, chip B stores `0x0444` at index 2 and chip C stores `0x0444`
at index 5, the last word of its segment. -/
theorem pc_mov_stored_samples_witness :
    isEOL pcAtSample.m_pipeData.deref = false ∧
    (MOVA pcAtSample).state.Buff = [0x4444, 7, 7, 7, 7, 7, 0xdead] ∧
    (MOVB pcAtSample).state.Buff = [7, 7, 0x0444, 7, 7, 7, 0xdead] ∧
    (MOVC pcAtSample).state.Buff = [7, 7, 7, 7, 7, 0x0444, 0xdead] :=
  ⟨by decide, ((pc_mov_stored_samples pcAtSample).1 (by decide)).1 (by decide),
    ((pc_mov_stored_samples pcAtSample).1 (by decide)).2.1 (by decide),
    ((pc_mov_stored_samples pcAtSample).1 (by decide)).2.2.1 (by decide)⟩

/-- C22, the code at a failing input: the stream of an overlong line (three data
words for a line length of 2) followed by a well-formed line. Both parsers store
two samples and raise "long line detected" at the third data word; the
handler of the single-chip `get_line` assigns the result of `find_hdr`, which
finds the end-of-line word `0xC000`, and returns true; the handler of the
multi-chip `get_line`, configured with one chip, calls `find_hdr` and drops its
result, and returns false. Both leave the stream on the word after `0xC000`. -/
theorem get_line_long_line_differs :
    (CVthdsLineParser.get_line hdsLongLine).view (fun s => s.m_pipeData.deref) =
      some (true, 0x8002) ∧
    (CVtpcLineParser.get_line pcLongLine).view (fun s => s.m_pipeData.deref) =
      some (false, 0x8002) ∧
    (CVtpcLineParser.find_hdr (CVtpcLineParser.get_line_try pcLongLine).state.1).view
        (fun s => s.m_pipeData.deref) = some ((true, 2), 0x8002) := by
  refine ⟨by decide, by decide, by decide⟩

/-- C23, the code at a failing input: 3 chips of height 2 (below 1536), first line
index 100, header word `0xA032` with the half marker and the line index 50. The
line counter has wrapped once, 8142 lines have elapsed and the claim gives
8142 / 2 = 4071; `align` latches (0x1FFF - 100 + 50) / 2 = 4070. Without
wraparound, at the header word `0xA096` with the line index 150, it latches
(150 - 100) / 2 = 25, as claimed. -/
theorem pc_align_half_idx_wrap :
    (CVtpcLineParser.align pcHalfWrap 0).view (fun s => (s.m_half, s.m_half_idx)) =
      some ((true, 50), (true, 4070)) ∧
    (0x2000 + 50 - 100) % 0x2000 / 2 = 4071 ∧
    (CVtpcLineParser.align pcHalfPlain 0).view (fun s => (s.m_half, s.m_half_idx)) =
      some ((true, 150), (true, 25)) ∧
    (0x2000 + 150 - 100) % 0x2000 / 2 = 25 := by
  refine ⟨by decide, by decide, by decide, by decide⟩

open CVtHalfLineCalib

theorem Calc.bind_assoc {α β γ : Type} (x : Calc α) (f : α → Calc β) (g : β → Calc γ) :
    (x.bind f).bind g = x.bind fun a => (f a).bind g := by
  cases x <;> rfl

/-- The iterations of the main pass compose. -/
theorem applyIter_add (s : CVtHalfLineCalib) (api_type : API_TYPE) (inptr : List (List Nat))
    (width a : Nat) (st : ApplyLoop) : ∀ b,
    applyIter s api_type inptr width (a + b) st =
      (applyIter s api_type inptr width a st).bind (applyIter s api_type inptr width b) := by
  intro b
  induction b with
  | zero =>
    rw [Nat.add_zero]
    cases applyIter s api_type inptr width a st <;> rfl
  | succ b ih =>
    have e1 : applyIter s api_type inptr width (a + (b + 1)) st =
        (applyIter s api_type inptr width (a + b) st).bind (applyStep s api_type inptr width) :=
      rfl
    have e2 : applyIter s api_type inptr width (b + 1) = fun x =>
        (applyIter s api_type inptr width b x).bind (applyStep s api_type inptr width) := rfl
    rw [e1, ih, Calc.bind_assoc, e2]

/-- The column loop on an output row of `width` pixels. -/
theorem calibRow_full (InVec OutVec : List Nat) (width : Nat) (dark coef off : ℚ)
    (hw : 1 ≤ width) (hi : width ≤ InVec.length) (ho : OutVec.length = width) :
    calibRow InVec OutVec width dark coef off =
      .value ((InVec.take width).map (calibPixel · dark coef off)) := by
  unfold calibRow
  have h0 : width ≠ 0 := by omega
  have h1 : ¬ (InVec.length < width ∨ OutVec.length < width) := by omega
  simp only [h0, if_false, h1]
  rw [List.drop_of_length_le (by omega), List.append_nil]

theorem calibratedRow_length (s : CVtHalfLineCalib) (inptr : List (List Nat)) (width r : Nat)
    (off : ℚ) (hi : width ≤ (inptr.getD r []).length) :
    (calibratedRow s inptr width r off).length = width := by
  unfold calibratedRow
  rw [List.length_map, List.length_take]
  omega

theorem passOut_length (s : CVtHalfLineCalib) (inptr out : List (List Nat))
    (width lo hi : Nat) (off : ℚ) : (passOut s inptr out width lo hi off).length = out.length := by
  unfold passOut
  simp

theorem passOut_getD (s : CVtHalfLineCalib) (inptr out : List (List Nat))
    (width lo hi : Nat) (off : ℚ) (r : Nat) (hr : r < out.length) :
    (passOut s inptr out width lo hi off).getD r [] =
      if lo ≤ r ∧ r < hi then calibratedRow s inptr width r off else out.getD r [] := by
  unfold passOut
  rw [List.getD_eq_getElem?_getD, List.getElem?_map, List.getElem?_range hr]
  rfl

/-- A list of rows is determined by its length and its rows. -/
theorem passOut_ext (s : CVtHalfLineCalib) (inptr out l : List (List Nat))
    (width lo hi : Nat) (off : ℚ) (hl : l.length = out.length)
    (hrows : ∀ r, r < out.length → l.getD r [] =
      if lo ≤ r ∧ r < hi then calibratedRow s inptr width r off else out.getD r []) :
    l = passOut s inptr out width lo hi off := by
  apply List.ext_getElem (by rw [hl, passOut_length])
  intro r h1 h2
  have a := hrows r (by omega)
  have b := passOut_getD s inptr out width lo hi off r (by omega)
  rw [List.getD_eq_getElem _ _ h1] at a
  rw [List.getD_eq_getElem _ _ h2] at b
  rw [a, b]

/-- Away from a seam that is still to be crossed the seam branch does nothing. -/
theorem seamStep_plain (s : CVtHalfLineCalib) (api_type : API_TYPE) (width h r : Nat)
    (st : ApplyLoop) (hs : s.m_chip_height = h) (h37 : 37 ≤ h) (hh : 3 * h < 2147483648)
    (hr : st.row = (r : Int)) (hr3 : r < 3 * h)
    (hA : st.c1to2_done = true ∨ r ≠ h - 37) (hB : st.c2to3_done = true ∨ r ≠ 2 * h - 37) :
    seamStep s api_type width st = .value st := by
  unfold seamStep
  rw [hs, hr, Int.toNat_ofNat, Nat.mod_eq_of_lt (by omega), usub32_of_le h _ (by omega)
    (by simp [overshoot, CVtRectPairs.RECT_SIZE, CVtRectPairs.OFFSET]; omega),
    usub32_of_le (2 * h) _ (by omega)
    (by simp [overshoot, CVtRectPairs.RECT_SIZE, CVtRectPairs.OFFSET]; omega)]
  have e : overshoot = 37 := rfl
  rw [e]
  have c1 : ¬ (r = h - 37 ∧ st.c1to2_done = false) := by
    rintro ⟨a, b⟩
    rcases hA with hA | hA
    · rw [hA] at b; cases b
    · exact hA a
  have c2 : ¬ (r = 2 * h - 37 ∧ st.c2to3_done = false) := by
    rintro ⟨a, b⟩
    rcases hB with hB | hB
    · rw [hB] at b; cases b
    · exact hB a
  simp only [c1, c2, if_false]

/-- The seam branch at the row `2 * chip_height - 37` with the B/C flag pending. -/
theorem seamStep_BC (s : CVtHalfLineCalib) (api_type : API_TYPE) (width h : Nat)
    (st : ApplyLoop) (bc : ℚ) (hs : s.m_chip_height = h) (h37 : 37 ≤ h)
    (hh : 3 * h < 2147483648) (hr : st.row = ((2 * h - 37 : Nat) : Int))
    (hB : st.c2to3_done = false) (hbc : BCoffset s st.out width = .value bc) :
    seamStep s api_type width st =
      .value { st with offset := bc, row := ((2 * h : Nat) : Int), c2to3_done := true } := by
  unfold seamStep
  rw [hs, hr, Int.toNat_ofNat, Nat.mod_eq_of_lt (by omega), usub32_of_le h _ (by omega)
    (by simp [overshoot, CVtRectPairs.RECT_SIZE, CVtRectPairs.OFFSET]; omega),
    usub32_of_le (2 * h) _ (by omega)
    (by simp [overshoot, CVtRectPairs.RECT_SIZE, CVtRectPairs.OFFSET]; omega)]
  have e : overshoot = 37 := rfl
  rw [e]
  have c1 : ¬ (2 * h - 37 = h - 37 ∧ st.c1to2_done = false) := by
    rintro ⟨a, _⟩
    omega
  simp only [c1, if_false, hB, and_self, if_true]
  rw [← hs, hbc]
  simp only [Calc.bind, Nat.cast_mul, Nat.cast_ofNat]

/-- The seam branch at the row `chip_height - 37` with the A/B flag pending. -/
theorem seamStep_AB (s : CVtHalfLineCalib) (api_type : API_TYPE) (width h : Nat)
    (st : ApplyLoop) (ab : ℚ) (hs : s.m_chip_height = h) (h37 : 37 ≤ h)
    (hh : 3 * h < 2147483648) (hr : st.row = ((h - 37 : Nat) : Int))
    (hA : st.c1to2_done = false)
    (hab : (if api_type = .PANO_API then .value 0 else ABoffset h st.out) = .value ab) :
    seamStep s api_type width st =
      .value { st with offset := ab, row := (h : Int), c1to2_done := true } := by
  unfold seamStep
  rw [hs, hr, Int.toNat_ofNat, Nat.mod_eq_of_lt (by omega), usub32_of_le h _ (by omega)
    (by simp [overshoot, CVtRectPairs.RECT_SIZE, CVtRectPairs.OFFSET]; omega)]
  have e : overshoot = 37 := rfl
  rw [e]
  simp only [hA, and_self, if_true]
  rw [hab]
  rfl

open CVtHalfLineCalib

/-- One iteration of the main pass, given the outcome of its seam branch: the row
at which it starts is written with the offset in force after the seam branch. -/
theorem applyStep_of_seam (s : CVtHalfLineCalib) (api_type : API_TYPE)
    (inptr : List (List Nat)) (W h L r : Nat) (st st1 : ApplyLoop)
    (hd : PassData s inptr W h) (hr : st.row = (r : Int)) (hr3 : r < 3 * h)
    (hL : st.out.length = L) (h3L : 3 * h ≤ L)
    (hrows : ∀ r, r < L → (st.out.getD r []).length = W)
    (hseam : seamStep s api_type W st = .value st1) (hout : st1.out = st.out) :
    applyStep s api_type inptr W st =
      .value { st1 with out := st.out.set r (calibratedRow s inptr W r st1.offset),
                        row := st1.row - 1 } := by
  obtain ⟨_, _, _, hW, hin, hinrows, hdark, hcoef⟩ := hd
  unfold applyStep
  rw [hr, Int.toNat_ofNat, readAt_of_lt inptr r [] (by omega),
    readAt_of_lt s.m_darkC r 0 (by omega), readAt_of_lt s.m_coef r 0 (by omega),
    readAt_of_lt st.out r [] (by omega), hseam]
  simp only [Calc.bind]
  rw [calibRow_full _ _ W _ _ _ hW (hinrows r hr3) (hrows r (by omega))]
  simp only [hout]
  rfl

/-- A run of `n` iterations of the main pass that crosses no pending seam: the
rows `(r0 - n, r0]` are written with the offset in force, the flags and the
offset stay. -/
theorem applyIter_plain (s : CVtHalfLineCalib) (api_type : API_TYPE)
    (inptr : List (List Nat)) (W h L : Nat) (hd : PassData s inptr W h) (h3L : 3 * h ≤ L)
    (st : ApplyLoop) (r0 : Nat) (hr : st.row = (r0 : Int)) (hr3 : r0 < 3 * h)
    (hL : st.out.length = L) (hrows : ∀ r, r < L → (st.out.getD r []).length = W) :
    ∀ n, n ≤ r0 + 1 → (st.c1to2_done = true ∨ h - 37 + n ≤ r0) →
      (st.c2to3_done = true ∨ 2 * h - 37 + n ≤ r0) →
      ∃ st1, applyIter s api_type inptr W n st = .value st1 ∧ st1.row = (r0 : Int) - n ∧
        st1.c1to2_done = st.c1to2_done ∧ st1.c2to3_done = st.c2to3_done ∧
        st1.offset = st.offset ∧ st1.out.length = L ∧
        (∀ r, r < L → (st1.out.getD r []).length = W) ∧
        (∀ r, r < L → st1.out.getD r [] =
          if r0 < r + n ∧ r ≤ r0 then calibratedRow s inptr W r st.offset
          else st.out.getD r []) := by
  intro n
  induction n with
  | zero =>
    intro _ _ _
    refine ⟨st, rfl, by simp [hr], rfl, rfl, rfl, hL, hrows, ?_⟩
    intro r _
    have : ¬ (r0 < r + 0 ∧ r ≤ r0) := by omega
    simp only [this, if_false]
  | succ n ih =>
    intro hn hA hB
    obtain ⟨st1, hiter, hrow1, hc1, hc2, hoff, hL1, hrows1, hout1⟩ := ih (by omega)
      (by rcases hA with hA | hA; exact Or.inl hA; exact Or.inr (by omega))
      (by rcases hB with hB | hB; exact Or.inl hB; exact Or.inr (by omega))
    have hd' := hd
    obtain ⟨hs, h37, hh, hW, hin, hinrows, hdark, hcoef⟩ := hd'
    have hrowN : st1.row = ((r0 - n : Nat) : Int) := by
      rw [hrow1]
      omega
    have hseam : seamStep s api_type W st1 = .value st1 :=
      seamStep_plain s api_type W h (r0 - n) st1 hs h37 hh hrowN (by omega)
        (by rw [hc1]; rcases hA with hA | hA; exact Or.inl hA; exact Or.inr (by omega))
        (by rw [hc2]; rcases hB with hB | hB; exact Or.inl hB; exact Or.inr (by omega))
    have hstep := applyStep_of_seam s api_type inptr W h L (r0 - n) st1 st1 hd hrowN (by omega)
      hL1 h3L hrows1 hseam rfl
    refine ⟨{ st1 with out := st1.out.set (r0 - n) (calibratedRow s inptr W (r0 - n) st1.offset),
                       row := st1.row - 1 }, ?_, ?_, hc1, hc2, hoff, ?_, ?_, ?_⟩
    · show (applyIter s api_type inptr W n st).bind (applyStep s api_type inptr W) = _
      rw [hiter]
      exact hstep
    · simp only []
      rw [hrow1]
      push_cast
      ring
    · simp only [List.length_set]
      exact hL1
    · intro r hrL
      simp only []
      rw [getD_set_rows]
      by_cases e : r0 - n = r ∧ r0 - n < st1.out.length
      · rw [if_pos e]
        exact calibratedRow_length s inptr W (r0 - n) _ (hinrows _ (by omega))
      · rw [if_neg e]
        exact hrows1 r hrL
    · intro r hrL
      simp only []
      rw [getD_set_rows, hout1 r hrL, hoff]
      by_cases e : r0 - n = r
      · have e1 : r0 - n = r ∧ r0 - n < st1.out.length := ⟨e, by omega⟩
        have e2 : r0 < r + (n + 1) ∧ r ≤ r0 := by omega
        rw [if_pos e1, if_pos e2, e]
      · have e1 : ¬ (r0 - n = r ∧ r0 - n < st1.out.length) := fun hx => e hx.1
        simp only [e1, if_false]
        by_cases e2 : r0 < r + n ∧ r ≤ r0
        · have e3 : r0 < r + (n + 1) ∧ r ≤ r0 := by omega
          simp only [e2, and_self, if_true, e3]
        · have e3 : ¬ (r0 < r + (n + 1) ∧ r ≤ r0) := by omega
          simp only [e2, if_false, e3]

/-- The B/C offset is a number when the rows `2 * chip_height - 2` and
`2 * chip_height + 1` hold `W ≥ 1` pixels. -/
theorem BCoffset_defined (s : CVtHalfLineCalib) (im : List (List Nat)) (W : Nat)
    (h1 : 1 ≤ s.m_chip_height) (hh : 2 * s.m_chip_height < 4294967296) (hW : 1 ≤ W)
    (hlen : 2 * s.m_chip_height + 1 < im.length)
    (hr1 : W ≤ (im.getD (2 * s.m_chip_height - 2) []).length)
    (hr2 : W ≤ (im.getD (2 * s.m_chip_height + 1) []).length) :
    ∃ bc, BCoffset s im W = .value bc := by
  unfold BCoffset
  rw [usub32_of_le _ 2 hh (by omega), readAt_of_lt im _ [] (by omega),
    readAt_of_lt im _ [] (by omega)]
  have hw0 : W ≠ 0 := by omega
  have hnl : ¬ ((im.getD (2 * s.m_chip_height - 2) []).length < W ∨
      (im.getD (2 * s.m_chip_height + 1) []).length < W) := by omega
  simp only [Calc.bind, hw0, if_false, hnl]
  unfold fdiv
  have hq : (W : ℚ) ≠ 0 := by exact_mod_cast hw0
  simp only [hq, if_false]
  exact ⟨_, rfl⟩

/-- The main pass returns the locals reached after `n` iterations when the row
index is negative then and not before. -/
theorem applyLoop_of_iter (s : CVtHalfLineCalib) (api_type : API_TYPE)
    (inptr : List (List Nat)) (W : Nat) (stEnd : ApplyLoop) : ∀ (n fuel : Nat) (st : ApplyLoop),
    (∀ k, k < n → ∃ stk, applyIter s api_type inptr W k st = .value stk ∧ 0 ≤ stk.row) →
    applyIter s api_type inptr W n st = .value stEnd → stEnd.row < 0 → n < fuel →
    applyLoop s api_type inptr W fuel st = .value stEnd := by
  intro n
  induction n with
  | zero =>
    intro fuel st _ hit hneg hf
    obtain ⟨f, rfl⟩ : ∃ f, fuel = f + 1 := ⟨fuel - 1, by omega⟩
    have e : st = stEnd := by
      have : applyIter s api_type inptr W 0 st = .value st := rfl
      rw [this] at hit
      injection hit
    unfold applyLoop
    rw [e]
    simp only [hneg, if_true]
  | succ n ih =>
    intro fuel st hk hit hneg hf
    obtain ⟨f, rfl⟩ : ∃ f, fuel = f + 1 := ⟨fuel - 1, by omega⟩
    obtain ⟨st0, h0, hpos⟩ := hk 0 (by omega)
    have e0 : st0 = st := by
      have : applyIter s api_type inptr W 0 st = .value st := rfl
      rw [this] at h0
      injection h0 with h0
      exact h0.symm
    rw [e0] at hpos
    have hadd := applyIter_add s api_type inptr W 1 st
    have h1 : applyIter s api_type inptr W 1 st = applyStep s api_type inptr W st := rfl
    have hit' := hit
    rw [Nat.add_comm, hadd n, h1] at hit'
    obtain ⟨st1, hstep, hrest⟩ := Calc.bind_eq_value _ _ _ hit'
    unfold applyLoop
    have hnn : ¬ st.row < 0 := by omega
    simp only [hnn, if_false, hstep, Calc.bind]
    apply ih f st1 _ hrest hneg (by omega)
    intro k hkn
    obtain ⟨stk, hstk, hp⟩ := hk (k + 1) (by omega)
    rw [Nat.add_comm, hadd k, h1, hstep] at hstk
    exact ⟨stk, hstk, hp⟩

open CVtHalfLineCalib

/-- Writing a calibrated row keeps the number and the width of the rows. -/
theorem set_calibratedRow_rows (s : CVtHalfLineCalib) (inptr out : List (List Nat))
    (W h L i : Nat) (off : ℚ) (hd : PassData s inptr W h) (hi : i < 3 * h)
    (hL : out.length = L) (hrows : ∀ r, r < L → (out.getD r []).length = W) :
    (out.set i (calibratedRow s inptr W i off)).length = L ∧
      ∀ r, r < L → ((out.set i (calibratedRow s inptr W i off)).getD r []).length = W := by
  refine ⟨by rw [List.length_set, hL], ?_⟩
  intro r hr
  rw [getD_set_rows]
  by_cases e : i = r ∧ i < out.length
  · rw [if_pos e]
    exact calibratedRow_length s inptr W i off (hd.2.2.2.2.2.1 i hi)
  · rw [if_neg e]
    exact hrows r hr

/-- The main pass up to the B/C seam: after `h + 37` iterations the rows from
`2 * h - 36` on are written with the offset 0, the B/C offset is taken from them,
the row `2 * h - 37` is written with it and `row` is `2 * h - 1`. -/
theorem applyIter_to_BC (s : CVtHalfLineCalib) (api_type : API_TYPE)
    (inptr out : List (List Nat)) (W h : Nat) (hd : PassData s inptr W h)
    (hout : 3 * h ≤ out.length) (hrows : ∀ r, r < out.length → (out.getD r []).length = W) :
    ∃ bc stb,
      BCoffset s (passOut s inptr out W (2 * h - 36) (3 * h) 0) W = .value bc ∧
      applyIter s api_type inptr W (h + 37)
        { out := out, row := ((3 * h : Nat) : Int) - 1, c1to2_done := false,
          c2to3_done := false, offset := 0 } = .value stb ∧
      stb.row = ((2 * h - 1 : Nat) : Int) ∧ stb.c1to2_done = false ∧ stb.c2to3_done = true ∧
      stb.offset = bc ∧ stb.out.length = out.length ∧
      (∀ r, r < out.length → (stb.out.getD r []).length = W) ∧
      (∀ r, r < out.length → stb.out.getD r [] =
        if r = 2 * h - 37 then calibratedRow s inptr W r bc
        else (passOut s inptr out W (2 * h - 36) (3 * h) 0).getD r []) := by
  have hd' := hd
  obtain ⟨hs, h37, hh, hW, hin, hinrows, hdark, hcoef⟩ := hd'
  obtain ⟨sta, hita, hrowa, hc1a, hc2a, hoffa, hLa, hrowsa, houta⟩ :=
    applyIter_plain s api_type inptr W h out.length hd hout
      { out := out, row := ((3 * h : Nat) : Int) - 1, c1to2_done := false,
        c2to3_done := false, offset := 0 } (3 * h - 1) (by simp only []; omega) (by omega) rfl
      hrows (h + 36) (by omega) (Or.inr (by omega)) (Or.inr (by omega))
  simp only [] at hc1a hc2a hoffa houta
  have hout1 : sta.out = passOut s inptr out W (2 * h - 36) (3 * h) 0 := by
    apply passOut_ext s inptr out sta.out W _ _ 0 hLa
    intro r hr
    rw [houta r hr]
    by_cases e : 2 * h - 36 ≤ r ∧ r < 3 * h
    · rw [if_pos e, if_pos (by omega)]
    · rw [if_neg e, if_neg (by omega)]
  have hrowa' : sta.row = ((2 * h - 37 : Nat) : Int) := by
    rw [hrowa]
    omega
  obtain ⟨bc, hbc⟩ := BCoffset_defined s sta.out W (by omega) (by omega) hW (by omega)
    (by rw [hs, hrowsa _ (by omega)]) (by rw [hs, hrowsa _ (by omega)])
  have hseam := seamStep_BC s api_type W h sta bc hs h37 hh hrowa' hc2a hbc
  have hstep := applyStep_of_seam s api_type inptr W h out.length (2 * h - 37) sta _ hd hrowa'
    (by omega) hLa hout hrowsa hseam rfl
  obtain ⟨hlen, hrw⟩ := set_calibratedRow_rows s inptr sta.out W h out.length (2 * h - 37) bc hd
    (by omega) hLa hrowsa
  refine ⟨bc, { out := sta.out.set (2 * h - 37) (calibratedRow s inptr W (2 * h - 37) bc),
                row := ((2 * h : Nat) : Int) - 1, c1to2_done := sta.c1to2_done,
                c2to3_done := true, offset := bc },
    by rw [← hout1]; exact hbc, ?_, ?_, hc1a, rfl, rfl, hlen, hrw, ?_⟩
  · show (applyIter s api_type inptr W (h + 36) _).bind (applyStep s api_type inptr W) = _
    rw [hita]
    exact hstep
  · simp only []
    omega
  · intro r hr
    simp only []
    rw [getD_set_rows, ← hout1]
    by_cases e : r = 2 * h - 37
    · rw [if_pos e, if_pos ⟨e.symm, by omega⟩, e]
    · rw [if_neg e, if_neg (fun hx => e hx.1.symm)]

/-- The main pass from the B/C seam to the A/B seam: `h + 37` further iterations
write the rows from `h - 36` to `2 * h - 1` with the B/C offset, take the A/B
offset, write the row `h - 37` with it and leave `row` at `h - 1`. -/
theorem applyIter_to_AB (s : CVtHalfLineCalib) (api_type : API_TYPE)
    (inptr out1 : List (List Nat)) (W h : Nat) (bc : ℚ) (stb : ApplyLoop)
    (hd : PassData s inptr W h) (hwide : api_type = .PANO_API ∨ 1312 ≤ W)
    (hout : 3 * h ≤ out1.length) (hrowb : stb.row = ((2 * h - 1 : Nat) : Int))
    (hc1 : stb.c1to2_done = false) (hc2 : stb.c2to3_done = true) (hoff : stb.offset = bc)
    (hL : stb.out.length = out1.length)
    (hrows : ∀ r, r < out1.length → (stb.out.getD r []).length = W)
    (hpt : ∀ r, r < out1.length → stb.out.getD r [] =
      if r = 2 * h - 37 then calibratedRow s inptr W r bc else out1.getD r []) :
    ∃ ab std,
      (if api_type = .PANO_API then .value 0
        else ABoffset h (passOut s inptr out1 W (h - 36) (2 * h) bc)) = .value ab ∧
      applyIter s api_type inptr W (h + 37) stb = .value std ∧
      std.row = ((h - 1 : Nat) : Int) ∧ std.c1to2_done = true ∧ std.c2to3_done = true ∧
      std.offset = ab ∧ std.out.length = out1.length ∧
      (∀ r, r < out1.length → (std.out.getD r []).length = W) ∧
      (∀ r, r < out1.length → std.out.getD r [] =
        if r = h - 37 then calibratedRow s inptr W r ab
        else (passOut s inptr out1 W (h - 36) (2 * h) bc).getD r []) := by
  have hd' := hd
  obtain ⟨hs, h37, hh, hW, hin, hinrows, hdark, hcoef⟩ := hd'
  obtain ⟨stc, hitc, hrowc, hc1c, hc2c, hoffc, hLc, hrowsc, houtc⟩ :=
    applyIter_plain s api_type inptr W h out1.length hd hout stb (2 * h - 1) hrowb (by omega) hL
      hrows (h + 36) (by omega) (Or.inr (by omega)) (Or.inl hc2)
  have hout2 : stc.out = passOut s inptr out1 W (h - 36) (2 * h) bc := by
    apply passOut_ext s inptr out1 stc.out W _ _ bc hLc
    intro r hr
    rw [houtc r hr, hpt r hr, hoff]
    by_cases e : h - 36 ≤ r ∧ r < 2 * h
    · rw [if_pos e, if_pos (by omega)]
    · rw [if_neg e, if_neg (by omega), if_neg (by omega)]
  have hrowc' : stc.row = ((h - 37 : Nat) : Int) := by
    rw [hrowc]
    omega
  have hab : ∃ ab, (if api_type = .PANO_API then (.value 0 : Calc ℚ)
      else ABoffset h stc.out) = .value ab := by
    by_cases hp : api_type = .PANO_API
    · exact ⟨0, by rw [if_pos hp]⟩
    · refine ⟨0, ?_⟩
      rw [if_neg hp]
      have hW2 : 1312 ≤ W := by
        rcases hwide with h1 | h1
        · exact absurd h1 hp
        · exact h1
      exact ABoffset_zero h W stc.out h37 (by omega) hW2 (by omega)
        (fun r hr => hrowsc r (by omega))
  obtain ⟨ab, hab⟩ := hab
  have hseam := seamStep_AB s api_type W h stc ab hs h37 hh hrowc' (by rw [hc1c, hc1]) hab
  have hstep := applyStep_of_seam s api_type inptr W h out1.length (h - 37) stc _ hd hrowc'
    (by omega) hLc hout hrowsc hseam rfl
  obtain ⟨hlen, hrw⟩ := set_calibratedRow_rows s inptr stc.out W h out1.length (h - 37) ab hd
    (by omega) hLc hrowsc
  refine ⟨ab, { out := stc.out.set (h - 37) (calibratedRow s inptr W (h - 37) ab),
                row := (h : Int) - 1, c1to2_done := true, c2to3_done := stc.c2to3_done,
                offset := ab },
    by rw [← hout2]; exact hab, ?_, ?_, rfl, by rw [hc2c, hc2], rfl, hlen, hrw, ?_⟩
  · show (applyIter s api_type inptr W (h + 36) _).bind (applyStep s api_type inptr W) = _
    rw [hitc]
    exact hstep
  · simp only []
    omega
  · intro r hr
    simp only []
    rw [getD_set_rows, ← hout2]
    by_cases e : r = h - 37
    · rw [if_pos e, if_pos ⟨e.symm, by omega⟩, e]
    · rw [if_neg e, if_neg (fun hx => e hx.1.symm)]

open CVtHalfLineCalib

/-- C24. The main pass of apply on 3 chips of height `h ≥ 37` (`3 * h < 2^31`), an
input of `3 * h` rows of at least `W ≥ 1` pixels, dark and gain arrays of `3 * h`
elements and an output of at least `3 * h` rows of `W` pixels (`W ≥ 1312` outside
pano mode, so that the rectangles of the A/B offset lie inside the image). The
pass makes `3 * h + 74` iterations and returns. After each of the first `h + 36`
iterations both flags are pending and the offset is 0; iteration `h + 37`
computes the B/C offset `bc` from the rows written so far, and after each of the
iterations `h + 37` to `2 * h + 73` the B/C flag is set, the A/B flag pending and
the offset `bc`; iteration `2 * h + 74` takes the A/B offset `ab` (0 in pano
mode), and from then on both flags are set and the offset is `ab`, not
`bc + ab`. When the pass ends every row of `[2 * h, 3 * h)` holds the pixels
computed with the offset 0, every row of `[h, 2 * h)` those computed with `bc`,
and every row of `[0, h)` those computed with `ab`. -/
theorem apply_seam_offsets_once (s : CVtHalfLineCalib) (api_type : API_TYPE)
    (inptr out : List (List Nat)) (W h : Nat)
    (hs : s.m_chip_height = h) (hn : s.m_numChips = 3) (h37 : 37 ≤ h)
    (hh : 3 * h < 2147483648) (hW : 1 ≤ W) (hwide : api_type = .PANO_API ∨ 1312 ≤ W)
    (hin : 3 * h ≤ inptr.length) (hinrows : ∀ r, r < 3 * h → W ≤ (inptr.getD r []).length)
    (hdark : 3 * h ≤ s.m_darkC.length) (hcoef : 3 * h ≤ s.m_coef.length)
    (hout : 3 * h ≤ out.length) (houtrows : ∀ r ∈ out, r.length = W) :
    ∃ bc ab stEnd,
      BCoffset s (passOut s inptr out W (2 * h - 36) (3 * h) 0) W = .value bc ∧
      (if api_type = .PANO_API then .value 0
        else ABoffset h (passOut s inptr (passOut s inptr out W (2 * h - 36) (3 * h) 0) W
          (h - 36) (2 * h) bc)) = .value ab ∧
      applyLoop s api_type inptr W (s.m_chip_height * s.m_numChips + 2 * overshoot + 2)
        { out := out, row := ((s.m_chip_height * s.m_numChips : Nat) : Int) - 1,
          c1to2_done := false, c2to3_done := false, offset := 0 } = .value stEnd ∧
      applyIter s api_type inptr W (3 * h + 74)
        { out := out, row := ((s.m_chip_height * s.m_numChips : Nat) : Int) - 1,
          c1to2_done := false, c2to3_done := false, offset := 0 } = .value stEnd ∧
      (∀ k, k < 3 * h + 74 → ∃ st,
        applyIter s api_type inptr W k
          { out := out, row := ((s.m_chip_height * s.m_numChips : Nat) : Int) - 1,
            c1to2_done := false, c2to3_done := false, offset := 0 } = .value st ∧
        0 ≤ st.row ∧
        (k ≤ h + 36 → st.c2to3_done = false ∧ st.c1to2_done = false ∧ st.offset = 0) ∧
        (h + 37 ≤ k → k ≤ 2 * h + 73 →
          st.c2to3_done = true ∧ st.c1to2_done = false ∧ st.offset = bc) ∧
        (2 * h + 74 ≤ k → st.c2to3_done = true ∧ st.c1to2_done = true ∧ st.offset = ab)) ∧
      stEnd.row = -1 ∧ stEnd.c2to3_done = true ∧ stEnd.c1to2_done = true ∧
      stEnd.offset = ab ∧ stEnd.out.length = out.length ∧
      (∀ r, 2 * h ≤ r → r < 3 * h → stEnd.out.getD r [] = calibratedRow s inptr W r 0) ∧
      (∀ r, h ≤ r → r < 2 * h → stEnd.out.getD r [] = calibratedRow s inptr W r bc) ∧
      (∀ r, r < h → stEnd.out.getD r [] = calibratedRow s inptr W r ab) ∧
      (∀ r, 3 * h ≤ r → stEnd.out.getD r [] = out.getD r []) := by
  have hd : PassData s inptr W h := ⟨hs, h37, hh, hW, hin, hinrows, hdark, hcoef⟩
  have hrows : ∀ r, r < out.length → (out.getD r []).length = W :=
    fun r hr => (getD_length_of_rows out W r houtrows).2.1 hr
  have hmul : s.m_chip_height * s.m_numChips = 3 * h := by rw [hs, hn]; ring
  rw [hmul]
  have hfuel : 3 * h + 2 * overshoot + 2 = 3 * h + 76 := rfl
  rw [hfuel]
  -- the three stages
  obtain ⟨bc, stb, hbc, hitb, hrowb, hc1b, hc2b, hoffb, hLb, hrowsb, hptb⟩ :=
    applyIter_to_BC s api_type inptr out W h hd hout hrows
  have hL1 : (passOut s inptr out W (2 * h - 36) (3 * h) 0).length = out.length :=
    passOut_length _ _ _ _ _ _ _
  obtain ⟨ab, std, hab, hitd, hrowd, hc1d, hc2d, hoffd, hLd, hrowsd, hptd⟩ :=
    applyIter_to_AB s api_type inptr (passOut s inptr out W (2 * h - 36) (3 * h) 0) W h bc stb hd
      hwide (by rw [hL1]; exact hout) hrowb hc1b hc2b hoffb (by rw [hL1]; exact hLb)
      (by rw [hL1]; exact hrowsb) (by rw [hL1]; exact hptb)
  have hL2 : (passOut s inptr (passOut s inptr out W (2 * h - 36) (3 * h) 0) W (h - 36) (2 * h)
      bc).length = out.length := by rw [passOut_length, hL1]
  rw [hL1] at hLd hrowsd hptd
  -- runs without a pending seam, from the three starting points
  have run1 := applyIter_plain s api_type inptr W h out.length hd hout
    { out := out, row := ((3 * h : Nat) : Int) - 1, c1to2_done := false, c2to3_done := false,
      offset := 0 } (3 * h - 1) (by simp only []; omega) (by omega) rfl hrows
  have run2 := applyIter_plain s api_type inptr W h out.length hd hout stb (2 * h - 1) hrowb
    (by omega) hLb hrowsb
  have run3 := applyIter_plain s api_type inptr W h out.length hd hout std (h - 1) hrowd
    (by omega) hLd hrowsd
  have add2 : ∀ j, applyIter s api_type inptr W (h + 37 + j)
      { out := out, row := ((3 * h : Nat) : Int) - 1, c1to2_done := false, c2to3_done := false,
        offset := 0 } = applyIter s api_type inptr W j stb := by
    intro j
    rw [applyIter_add, hitb]
    rfl
  have hitd0 : applyIter s api_type inptr W (2 * h + 74)
      { out := out, row := ((3 * h : Nat) : Int) - 1, c1to2_done := false, c2to3_done := false,
        offset := 0 } = .value std := by
    rw [show 2 * h + 74 = h + 37 + (h + 37) by omega, add2, hitd]
  have add3 : ∀ j, applyIter s api_type inptr W (2 * h + 74 + j)
      { out := out, row := ((3 * h : Nat) : Int) - 1, c1to2_done := false, c2to3_done := false,
        offset := 0 } = applyIter s api_type inptr W j std := by
    intro j
    rw [applyIter_add, hitd0]
    rfl
  obtain ⟨ste, hite, hrowe, hc1e, hc2e, hoffe, hLe, _, hpte⟩ :=
    run3 h (by omega) (Or.inl hc1d) (Or.inl hc2d)
  have hiter : applyIter s api_type inptr W (3 * h + 74)
      { out := out, row := ((3 * h : Nat) : Int) - 1, c1to2_done := false, c2to3_done := false,
        offset := 0 } = .value ste := by
    rw [show 3 * h + 74 = 2 * h + 74 + h by omega, add3, hite]
  have htrace : ∀ k, k < 3 * h + 74 → ∃ st,
      applyIter s api_type inptr W k
        { out := out, row := ((3 * h : Nat) : Int) - 1, c1to2_done := false,
          c2to3_done := false, offset := 0 } = .value st ∧
      0 ≤ st.row ∧
      (k ≤ h + 36 → st.c2to3_done = false ∧ st.c1to2_done = false ∧ st.offset = 0) ∧
      (h + 37 ≤ k → k ≤ 2 * h + 73 →
        st.c2to3_done = true ∧ st.c1to2_done = false ∧ st.offset = bc) ∧
      (2 * h + 74 ≤ k → st.c2to3_done = true ∧ st.c1to2_done = true ∧ st.offset = ab) := by
    intro k hk
    by_cases k1 : k ≤ h + 36
    · obtain ⟨st, hit, hrow, hc1, hc2, hoff, _, _, _⟩ :=
        run1 k (by omega) (Or.inr (by omega)) (Or.inr (by omega))
      exact ⟨st, hit, by rw [hrow]; omega, fun _ => ⟨hc2, hc1, hoff⟩, fun hx => by omega,
        fun hx => by omega⟩
    · by_cases k2 : k ≤ 2 * h + 73
      · obtain ⟨st, hit, hrow, hc1, hc2, hoff, _, _, _⟩ :=
          run2 (k - (h + 37)) (by omega) (Or.inr (by omega)) (Or.inl hc2b)
        refine ⟨st, ?_, by rw [hrow]; omega, fun hx => by omega,
          fun _ _ => ⟨by rw [hc2, hc2b], by rw [hc1, hc1b], by rw [hoff, hoffb]⟩,
          fun hx => by omega⟩
        rw [show k = h + 37 + (k - (h + 37)) by omega, add2]
        exact hit
      · obtain ⟨st, hit, hrow, hc1, hc2, hoff, _, _, _⟩ :=
          run3 (k - (2 * h + 74)) (by omega) (Or.inl hc1d) (Or.inl hc2d)
        refine ⟨st, ?_, by rw [hrow]; omega, fun hx => by omega, fun _ hx => by omega,
          fun _ => ⟨by rw [hc2, hc2d], by rw [hc1, hc1d], by rw [hoff, hoffd]⟩⟩
        rw [show k = 2 * h + 74 + (k - (2 * h + 74)) by omega, add3]
        exact hit
  have hneg : ste.row = -1 := by
    rw [hrowe]
    omega
  -- the rows of the output at the end
  have hrow_end : ∀ r, r < out.length → ste.out.getD r [] =
      if r < h then calibratedRow s inptr W r ab
      else if r < 2 * h then calibratedRow s inptr W r bc
      else if r < 3 * h then calibratedRow s inptr W r 0
      else out.getD r [] := by
    intro r hr
    rw [hpte r hr, hoffd]
    by_cases e1 : r < h
    · rw [if_pos (by omega), if_pos e1]
    · rw [if_neg (by omega), if_neg e1, hptd r hr, if_neg (by omega),
        passOut_getD _ _ _ _ _ _ _ _ (by rw [hL1]; exact hr)]
      by_cases e2 : r < 2 * h
      · rw [if_pos (by omega), if_pos e2]
      · rw [if_neg (by omega), if_neg e2, passOut_getD _ _ _ _ _ _ _ _ hr]
        by_cases e3 : r < 3 * h
        · rw [if_pos (by omega), if_pos e3]
        · rw [if_neg (by omega), if_neg e3]
  refine ⟨bc, ab, ste, hbc, hab, ?_, hiter, htrace, hneg, by rw [hc2e, hc2d],
    by rw [hc1e, hc1d], by rw [hoffe, hoffd], hLe, ?_, ?_, ?_, ?_⟩
  · exact applyLoop_of_iter s api_type inptr W ste (3 * h + 74) (3 * h + 76) _
      (fun k hk => by
        obtain ⟨st, hit, hpos, _⟩ := htrace k hk
        exact ⟨st, hit, hpos⟩)
      hiter (by rw [hneg]; decide) (by omega)
  · intro r h1 h2
    rw [hrow_end r (by omega), if_neg (by omega), if_neg (by omega), if_pos h2]
  · intro r h1 h2
    rw [hrow_end r (by omega), if_neg (by omega), if_pos h2]
  · intro r h1
    rw [hrow_end r (by omega), if_pos h1]
  · intro r h1
    by_cases hr : r < out.length
    · rw [hrow_end r hr, if_neg (by omega), if_neg (by omega), if_neg (by omega)]
    · rw [List.getD_eq_default _ _ (by omega), List.getD_eq_default _ _ (by omega)]

open CVtHalfLineCalib

/-- C24 at 3 chips of height 37 in pano mode, dark 100, gain 1 and pedestal 1000 on
every row, the input `rampInput` with the pixel `200 + r` in row `r` and an output
of 111 rows of one pixel: the pass makes 185 iterations; the B/C offset is the
difference 3 of the rows 75 and 72 and the A/B offset is 0. -/
theorem apply_seam_offsets_once_witness :
    (∃ bc ab stEnd,
      BCoffset (unitCalib 37 3) (passOut (unitCalib 37 3) rampInput (List.replicate 111 [0]) 1
        (2 * 37 - 36) (3 * 37) 0) 1 = .value bc ∧
      (if API_TYPE.PANO_API = .PANO_API then .value 0
        else ABoffset 37 (passOut (unitCalib 37 3) rampInput
          (passOut (unitCalib 37 3) rampInput (List.replicate 111 [0]) 1 (2 * 37 - 36) (3 * 37) 0)
          1 (37 - 36) (2 * 37) bc)) = .value ab ∧
      applyLoop (unitCalib 37 3) .PANO_API rampInput 1
        ((unitCalib 37 3).m_chip_height * (unitCalib 37 3).m_numChips + 2 * overshoot + 2)
        { out := List.replicate 111 [0],
          row := (((unitCalib 37 3).m_chip_height * (unitCalib 37 3).m_numChips : Nat) : Int) - 1,
          c1to2_done := false, c2to3_done := false, offset := 0 } = .value stEnd ∧
      applyIter (unitCalib 37 3) .PANO_API rampInput 1 (3 * 37 + 74)
        { out := List.replicate 111 [0],
          row := (((unitCalib 37 3).m_chip_height * (unitCalib 37 3).m_numChips : Nat) : Int) - 1,
          c1to2_done := false, c2to3_done := false, offset := 0 } = .value stEnd ∧
      (∀ k, k < 3 * 37 + 74 → ∃ st,
        applyIter (unitCalib 37 3) .PANO_API rampInput 1 k
          { out := List.replicate 111 [0],
            row := (((unitCalib 37 3).m_chip_height * (unitCalib 37 3).m_numChips : Nat) : Int) - 1,
            c1to2_done := false, c2to3_done := false, offset := 0 } = .value st ∧
        0 ≤ st.row ∧
        (k ≤ 37 + 36 → st.c2to3_done = false ∧ st.c1to2_done = false ∧ st.offset = 0) ∧
        (37 + 37 ≤ k → k ≤ 2 * 37 + 73 →
          st.c2to3_done = true ∧ st.c1to2_done = false ∧ st.offset = bc) ∧
        (2 * 37 + 74 ≤ k → st.c2to3_done = true ∧ st.c1to2_done = true ∧ st.offset = ab)) ∧
      stEnd.row = -1 ∧ stEnd.c2to3_done = true ∧ stEnd.c1to2_done = true ∧
      stEnd.offset = ab ∧ stEnd.out.length = (List.replicate 111 [0]).length ∧
      (∀ r, 2 * 37 ≤ r → r < 3 * 37 →
        stEnd.out.getD r [] = calibratedRow (unitCalib 37 3) rampInput 1 r 0) ∧
      (∀ r, 37 ≤ r → r < 2 * 37 →
        stEnd.out.getD r [] = calibratedRow (unitCalib 37 3) rampInput 1 r bc) ∧
      (∀ r, r < 37 → stEnd.out.getD r [] = calibratedRow (unitCalib 37 3) rampInput 1 r ab) ∧
      (∀ r, 3 * 37 ≤ r → stEnd.out.getD r [] = (List.replicate 111 [0]).getD r [])) ∧
    BCoffset (unitCalib 37 3) (passOut (unitCalib 37 3) rampInput (List.replicate 111 [0]) 1
      (2 * 37 - 36) (3 * 37) 0) 1 = .value 3 ∧
    calibratedRow (unitCalib 37 3) rampInput 1 80 0 = [1180] ∧
    calibratedRow (unitCalib 37 3) rampInput 1 50 3 = [1153] ∧
    calibratedRow (unitCalib 37 3) rampInput 1 10 0 = [1110] :=
  ⟨apply_seam_offsets_once (unitCalib 37 3) .PANO_API rampInput (List.replicate 111 [0]) 1 37
      rfl rfl (by decide) (by decide) (by decide) (Or.inl rfl) (by decide) (by decide)
      (by decide) (by decide) (by decide) (by decide),
    by decide!, by decide!, by decide!, by decide!⟩

open CVtHalfLineCalib

/-- The sum of the differences of the first `w` elements of two arrays, column by
column. -/
theorem zipWith_take_sum_range (f : Nat → Nat → Int) (w : Nat) : ∀ (r1 r2 : List Nat),
    w ≤ r1.length → w ≤ r2.length →
    (List.zipWith f (r1.take w) (r2.take w)).sum =
      ∑ col in Finset.range w, f (r1.getD col 0) (r2.getD col 0) := by
  induction w with
  | zero => intro r1 r2 _ _; simp
  | succ w ih =>
    intro r1 r2 h1 h2
    cases r1 with
    | nil => simp at h1
    | cons a t1 =>
      cases r2 with
      | nil => simp at h2
      | cons b t2 =>
        simp only [List.length_cons] at h1 h2
        rw [Finset.sum_range_succ', List.take_succ_cons, List.take_succ_cons,
          List.zipWith_cons_cons, List.sum_cons, ih t1 t2 (by omega) (by omega)]
        simp only [List.getD_cons_succ, List.getD_cons_zero]
        ring

open CVtHalfLineCalib

/-- C26, the code at a failing input: the twelve rows `gapTwelve` of one pixel with
the seam at `pos = 4`, the reference rows 2 and 11 holding `M = 0` and `P = 900`.
The first row of the loop of `gap_fixAB` is the reference row `pos - 2` itself: it
becomes 100, and the rows after it are computed from the new value, row 3 as
`100 + 2/9 * 800 = 277` and so on up to row 10; the interpolation between the
original values gives the multiples of 100, `0 + 2/9 * 900 = 200` for row 3. The
rows outside `[2, 11)` keep their values. -/
theorem gap_fixAB_reference_overwritten :
    gap_fixAB gapTwelve 4 1 =
        .value [[1], [2], [100], [277], [366], [455], [544], [633], [722], [811], [900], [900]] ∧
      readAt gapTwelve (4 - 2) = .value [0] ∧ readAt gapTwelve (4 + 7) = .value [900] ∧
      (List.range 9).map (fun k => toUShort (gapValueAB 0 900 (((k : ℚ) + 1) / 9))) =
        [100, 200, 300, 400, 500, 600, 700, 800, 900] := by
  refine ⟨by decide!, by decide!, by decide!, by decide!⟩

open CVthdsCalib

/-- A coefficient that is set is read as it is. -/
theorem readCoef_some (p : List (Option ℚ)) (i : Nat) (c : ℚ) (h : p[i]? = some (some c)) :
    readCoef p i = .value c := by
  unfold readCoef readAt
  rw [h]
  rfl

/-- The loop of `poly` adds one Horner step per coefficient. -/
theorem polyLoop_closed (data : ℚ) (p : List (Option ℚ)) (base : Nat) (c : Nat → ℚ) (n : Nat) :
    ∀ (coefno : Nat) (val : ℚ), (∀ k, k < coefno + n → p[base + k]? = some (some (c k))) →
      polyLoop data p base n coefno val =
        .value (val * data ^ n + ∑ k in Finset.range n, c (coefno + k) * data ^ (n - 1 - k)) := by
  induction n with
  | zero => intro coefno val _; simp [polyLoop]
  | succ n ih =>
    intro coefno val hc
    unfold polyLoop
    rw [readCoef_some p _ _ (hc coefno (by omega))]
    simp only [Calc.bind]
    rw [ih (coefno + 1) _ (fun k hk => hc k (by omega)), Finset.sum_range_succ']
    congr 1
    have e : ∀ k ∈ Finset.range n,
        c (coefno + 1 + k) * data ^ (n - 1 - k) = c (coefno + (k + 1)) * data ^ (n + 1 - 1 - (k + 1)) := by
      intro k _
      rw [show coefno + 1 + k = coefno + (k + 1) by omega,
        show n + 1 - 1 - (k + 1) = n - 1 - k by omega]
    rw [Finset.sum_congr rfl e]
    simp only [Nat.add_zero, Nat.add_sub_cancel, Nat.sub_zero]
    ring

/-- The closed form of `poly` for an order of at least 2. -/
theorem poly_sum (data : ℚ) (p : List (Option ℚ)) (base n : Nat) (c : Nat → ℚ) (hn : 2 ≤ n)
    (hc : ∀ k, k < n → p[base + k]? = some (some (c k))) :
    poly data p base n = .value (∑ k in Finset.range n, c k * data ^ (n - k)) := by
  unfold poly
  have h0 : readCoef p base = .value (c 0) := readCoef_some p _ _ (hc 0 (by omega))
  rw [readCoef_some p _ _ (hc 1 (by omega)), h0]
  simp only [Calc.bind]
  rw [polyLoop_closed data p base c (n - 2) 2 _ (fun k hk => hc k (by omega))]
  simp only [Calc.bind]
  congr 1
  obtain ⟨m, rfl⟩ : ∃ m, n = m + 2 := ⟨n - 2, by omega⟩
  simp only [Nat.add_sub_cancel]
  rw [Finset.sum_range_succ', Finset.sum_range_succ', add_mul, Finset.sum_mul]
  have e : ∀ k ∈ Finset.range m,
      c (2 + k) * data ^ (m - 1 - k) * data = c (k + 1 + 1) * data ^ (m + 2 - (k + 1 + 1)) := by
    intro k hk
    have hk' := Finset.mem_range.mp hk
    rw [show 2 + k = k + 1 + 1 by omega, show m + 2 - (k + 1 + 1) = (m - 1 - k) + 1 by omega,
      pow_succ]
    ring
  rw [Finset.sum_congr rfl e]
  simp only [Nat.sub_zero, zero_add]
  rw [show m + 2 - (0 + 1) = m + 1 by omega]
  ring

open CVthdsCalib

open CVtHalfLineCalib

/-- C28, the code at failing inputs. The first window is summed by
`for (idx = -smooth_span; idx < smooth_span; idx++)`, over the 10 elements
`vec[0] .. vec[9]`, and divided by 11; the element `vec[10]` never enters the
sum and leaves it at position 16. A constant vector of 12 elements 11 comes back
as the constant 10; the vector `1, 2, ..., 11` has the mean 6 at position 5 and
gets 5; a vector of 22 elements that is 0 except for `vec[10] = 11` comes back
as 0 up to position 15 and as -1 from position 16 on, where the centred mean is
1 at the positions 5 to 15 and 0 from position 16 on. -/
theorem smooth_first_window_short :
    smooth (List.replicate 12 11) 12 = .value (List.replicate 12 10) ∧
    smooth [1, 2, 3, 4, 5, 6, 7, 8, 9, 10, 11] 11 = .value (List.replicate 11 5) ∧
    (([1, 2, 3, 4, 5, 6, 7, 8, 9, 10, 11] : List ℚ).sum / 11 = 6) ∧
    smooth (List.replicate 10 0 ++ [11] ++ List.replicate 11 0) 22 =
      .value (List.replicate 16 0 ++ List.replicate 6 (-1)) := by
  refine ⟨by decide!, by decide!, by decide!, by decide!⟩

/-- C29, the code at a failing input: 3 chips of height 1, the line buffer holding
A at index 0, B at index 1, C at index 2 and the sentinel at index 3. The first
data word carries the tag of chip B: `align` stores 5 for chip B at index 1 and 6
for chip C at index 2. The filling loop stores 7 for chip A, then `MOVB` meets
the end-of-line word with its cursor at the end of the segment of chip B and
writes the 0 of the short line at index 2, over the sample of chip C. `get_line`
returns true with the buffer `7, 5, 0`; the sentinel is not written. -/
theorem pc_short_line_zero_outside_segment :
    (CVtpcLineParser.reset_ptrs pcMisaligned).state.m_AEnd = 1 ∧
    (CVtpcLineParser.reset_ptrs pcMisaligned).state.m_BEnd = 2 ∧
    (CVtpcLineParser.reset_ptrs pcMisaligned).state.m_CBeg = 2 ∧
    (CVtpcLineParser.align (CVtpcLineParser.reset_ptrs pcMisaligned).state 0).view
        (fun s => (s.Buff, s.m_chipABuff, s.m_chipBBuff, s.m_chipCBuff)) =
      some ((true, 1), ([9, 5, 6, 0xdead], 0, 2, 1)) ∧
    (∃ s1, CVtpcLineParser.get_line_try pcMisaligned = .raised .shortLine (s1, 0) ∧
      s1.Buff = [7, 5, 0, 0xdead] ∧ s1.m_chipBBuff = 3) ∧
    (CVtpcLineParser.get_line pcMisaligned).view CVtpcLineParser.Buff =
      some (true, [7, 5, 0, 0xdead]) := by
  refine ⟨by decide, by decide, by decide, by decide, ⟨_, rfl, by decide, by decide⟩, by decide⟩

/-- C30, the code at a failing input: 2 chips of height 2 in ceph mode (end row 4)
and uniform frames of 5 rows, dark 100 and bright 300 (mean signal 200). The main
loop ends with three differences collected; the rejection loop
`for (row = start_row + 1; end_row < height; row++)` has the condition `4 < 5`
at every row, so that no number of iterations lets it return: it runs on behind
the rows that were set, and `recalc` does not return. -/
theorem recalc_rejection_loop_unbounded :
    coefLoop [100, 100, 100, 100, 0] [300, 300, 300, 300, 0] 200 3 1
        { m_coef := List.replicate 5 0, dfvec := List.replicate 5 none, dfsum := 0,
          dfsumsq := 0, dfcnt := 0 } = .value uniformFiveLoop ∧
    (∀ (fuel row : Nat) (coef c : List ℚ),
      rejectLoop 4 5 uniformFiveLoop.dfvec
        (uniformFiveLoop.dfsumsq / uniformFiveLoop.dfcnt -
          uniformFiveLoop.dfsum / uniformFiveLoop.dfcnt *
            (uniformFiveLoop.dfsum / uniformFiveLoop.dfcnt)) fuel row coef ≠ .value c) ∧
    rejectStep uniformFiveLoop.dfvec
        (uniformFiveLoop.dfsumsq / uniformFiveLoop.dfcnt -
          uniformFiveLoop.dfsum / uniformFiveLoop.dfcnt *
            (uniformFiveLoop.dfsum / uniformFiveLoop.dfcnt)) 4 [0, 0, 1, 1, 0] = .undefined ∧
    recalc (create 2 2) .CEPH_API (CVtImage.filled 3 5 300) (CVtImage.filled 3 5 100) =
      .undefined ∧
    (recalc (create 2 2) .CEPH_API (CVtImage.filled 3 4 300) (CVtImage.filled 3 4 100)).view
        CVtHalfLineCalib.coefs =
      .value ([100, 100, 100, 100], [300, 300, 300, 300], [0, 1, 1, 1]) := by
  refine ⟨by decide!, ?_, by decide!, by decide!, by decide!⟩
  intro fuel row coef c hv
  exact (rejectLoop_value 4 5 _ _ fuel row coef c hv).1 (by decide)

end Vt

namespace Vt

theorem bitsLoop_zero (fuel : Nat) : bitsLoop fuel 0 = 0 := by
  cases fuel <;> simp [bitsLoop]

/-- The number of binary digits brackets the number between two powers of 2. -/
theorem bitsLoop_spec (fuel : Nat) : ∀ n, 0 < n → n ≤ fuel →
    1 ≤ bitsLoop fuel n ∧ 2 ^ (bitsLoop fuel n - 1) ≤ n ∧ n < 2 ^ bitsLoop fuel n := by
  induction fuel with
  | zero => intro n h0 h1; omega
  | succ fuel ih =>
    intro n h0 h1
    have hn : n ≠ 0 := by omega
    simp only [bitsLoop, hn, if_false]
    by_cases h2 : n / 2 = 0
    · have h3 : n = 1 := by omega
      rw [h2, bitsLoop_zero, h3]
      simp
    · obtain ⟨b1, b2, b3⟩ := ih (n / 2) (by omega) (by omega)
      refine ⟨by omega, ?_, ?_⟩
      · have e : bitsLoop fuel (n / 2) + 1 - 1 = (bitsLoop fuel (n / 2) - 1) + 1 := by omega
        rw [e, pow_succ]
        omega
      · rw [pow_succ]
        omega

theorem bits_spec (n : Nat) (h0 : 0 < n) :
    1 ≤ bits n ∧ 2 ^ (bits n - 1) ≤ n ∧ n < 2 ^ bits n :=
  bitsLoop_spec n n h0 (le_refl n)

theorem fl_zero : fl 0 = 0 := by
  simp [fl]

/-- Rounding to the nearest integer moves a quotient by at most one half. -/
theorem roundHalfEven_err (N D : Nat) (hD : 0 < D) :
    |((roundHalfEven N D : Nat) : ℚ) - (N : ℚ) / (D : ℚ)| ≤ 1 / 2 := by
  have hdm := Nat.div_add_mod N D
  have hr := Nat.mod_lt N hD
  have hDq : (0 : ℚ) < (D : ℚ) := by exact_mod_cast hD
  have hN : (N : ℚ) = (D : ℚ) * ((N / D : Nat) : ℚ) + ((N % D : Nat) : ℚ) := by
    exact_mod_cast hdm.symm
  have hq : (N : ℚ) / (D : ℚ) = ((N / D : Nat) : ℚ) + ((N % D : Nat) : ℚ) / (D : ℚ) := by
    rw [hN]
    field_simp
    ring
  have hrq : ((N % D : Nat) : ℚ) < (D : ℚ) := by exact_mod_cast hr
  have hr0 : (0 : ℚ) ≤ ((N % D : Nat) : ℚ) := by positivity
  rw [hq, abs_le]
  unfold roundHalfEven
  by_cases c1 : 2 * (N % D) < D
  · simp only [c1, if_true]
    have c1q : 2 * ((N % D : Nat) : ℚ) < (D : ℚ) := by exact_mod_cast c1
    have : ((N % D : Nat) : ℚ) / (D : ℚ) < 1 / 2 := by
      rw [div_lt_iff₀ hDq]
      linarith
    have h0 : 0 ≤ ((N % D : Nat) : ℚ) / (D : ℚ) := div_nonneg hr0 (le_of_lt hDq)
    constructor <;> linarith
  · simp only [c1, if_false]
    have c1q : (D : ℚ) ≤ 2 * ((N % D : Nat) : ℚ) := by exact_mod_cast Nat.le_of_not_lt c1
    have hge : (1 : ℚ) / 2 ≤ ((N % D : Nat) : ℚ) / (D : ℚ) := by
      rw [le_div_iff₀ hDq]
      linarith
    have hlt : ((N % D : Nat) : ℚ) / (D : ℚ) < 1 := by
      rw [div_lt_iff₀ hDq]
      linarith
    by_cases c2 : D < 2 * (N % D)
    · simp only [c2, if_true]
      push_cast
      constructor <;> linarith
    · simp only [c2, if_false]
      have c3 : 2 * (N % D) = D := by omega
      have c3q : 2 * ((N % D : Nat) : ℚ) = (D : ℚ) := by exact_mod_cast c3
      have heq : ((N % D : Nat) : ℚ) / (D : ℚ) = 1 / 2 := by
        rw [div_eq_iff (ne_of_gt hDq)]
        linarith
      by_cases c4 : N / D % 2 = 0
      · simp only [c4, if_true]
        constructor <;> linarith
      · simp only [c4, if_false]
        push_cast
        constructor <;> linarith

end Vt

namespace Vt

theorem ilog2_le (n d E : Nat) (hn : 0 < n) (hd : 0 < d) (h : n ≤ 2 ^ E * d) :
    ilog2 n d ≤ (E : Int) := by
  obtain ⟨_, a2, _⟩ := bits_spec n hn
  obtain ⟨_, _, b3⟩ := bits_spec d hd
  have h1 : 2 ^ (bits n - 1) < 2 ^ (E + bits d) := by
    calc 2 ^ (bits n - 1) ≤ n := a2
      _ ≤ 2 ^ E * d := h
      _ < 2 ^ E * 2 ^ bits d := Nat.mul_lt_mul_of_pos_left b3 (by positivity)
      _ = 2 ^ (E + bits d) := (pow_add 2 E (bits d)).symm
  have h2 : bits n - 1 < E + bits d := (Nat.pow_lt_pow_iff_right (by norm_num)).mp h1
  unfold ilog2
  split_ifs <;> omega

/-- A natural number below `2^53` is a binary64 number. -/
theorem fl_natCast (n : Nat) (h : n < 2 ^ 53) : fl (n : ℚ) = (n : ℚ) := by
  rcases Nat.eq_zero_or_pos n with h0 | h0
  · rw [h0]
    simp [fl]
  obtain ⟨a1, a2, a3⟩ := bits_spec n h0
  have hb : bits n ≤ 53 := by
    by_contra hc
    have : 2 ^ 53 ≤ 2 ^ (bits n - 1) := Nat.pow_le_pow_right (by norm_num) (by omega)
    omega
  have hne : (n : ℚ) ≠ 0 := by exact_mod_cast (ne_of_gt h0)
  have hnn : ¬ ((n : ℚ) < 0) := by
    have : (0 : ℚ) ≤ (n : ℚ) := by positivity
    linarith
  have hb1 : bits 1 = 1 := by decide
  have hil : ilog2 n 1 = (bits n : Int) - 1 := by
    unfold ilog2
    rw [hb1]
    have e1 : ((bits n : Int) - ((1 : Nat) : Int)).toNat = bits n - 1 := by omega
    have e2 : (((1 : Nat) : Int) - (bits n : Int)).toNat = 0 := by omega
    rw [e1, e2]
    have : 1 * 2 ^ (bits n - 1) ≤ n * 2 ^ 0 := by omega
    simp only [this, if_true]
    rfl
  have hsc : flScale n 1 = ((53 - bits n : Nat) : Int) := by
    unfold flScale
    rw [hil]
    omega
  simp only [fl, hne, if_false, hnn, Rat.num_natCast, Int.natAbs_ofNat, Rat.den_natCast]
  unfold flAbs
  rw [hsc]
  have e3 : (-((53 - bits n : Nat) : Int)).toNat = 0 := by omega
  rw [Int.toNat_ofNat, e3]
  have hr : roundHalfEven (n * 2 ^ (53 - bits n)) (1 * 2 ^ 0) = n * 2 ^ (53 - bits n) := by
    unfold roundHalfEven
    have e1 : 1 * 2 ^ 0 = 1 := by norm_num
    rw [e1, Nat.mod_one, Nat.div_one]
    simp
  rw [hr]
  push_cast
  field_simp

/-- The rounding error of a value of magnitude at most `2^E`, `E ≤ 52`, is at most
`2^(E - 53)`. -/
theorem fl_err (y : ℚ) (E : Nat) (hE : E ≤ 52) (hy : |y| ≤ 2 ^ E) :
    |fl y - y| ≤ 1 / 2 ^ (53 - E) := by
  by_cases h0 : y = 0
  · rw [h0, fl_zero]
    simp
  have hnum : y.num ≠ 0 := by
    intro hx
    exact h0 (Rat.num_eq_zero.mp hx)
  have hn : 0 < y.num.natAbs := Int.natAbs_pos.mpr hnum
  have hd : 0 < y.den := y.den_pos
  have hdq : (0 : ℚ) < (y.den : ℚ) := by exact_mod_cast hd
  -- the magnitude as a quotient of natural numbers
  have habs : |y| = (y.num.natAbs : ℚ) / (y.den : ℚ) := by
    have hy' : y = (y.num : ℚ) / (y.den : ℚ) := (Rat.num_div_den y).symm
    conv_lhs => rw [hy']
    rw [abs_div, abs_of_pos hdq]
    congr 1
    rw [Nat.cast_natAbs, Int.cast_abs]
  have hle : y.num.natAbs ≤ 2 ^ E * y.den := by
    rw [habs, div_le_iff₀ hdq] at hy
    exact_mod_cast hy
  have hil := ilog2_le _ _ E hn hd hle
  obtain ⟨K, hK, hK2⟩ : ∃ K : Nat, flScale y.num.natAbs y.den = (K : Int) ∧ 52 - E ≤ K := by
    refine ⟨(flScale y.num.natAbs y.den).toNat, ?_, ?_⟩
    · unfold flScale
      omega
    · unfold flScale
      omega
  have hfa : flAbs y.num.natAbs y.den =
      ((roundHalfEven (y.num.natAbs * 2 ^ K) y.den : Nat) : ℚ) / 2 ^ K := by
    unfold flAbs
    rw [hK, Int.toNat_ofNat]
    have e3 : (-(K : Int)).toNat = 0 := by omega
    rw [e3]
    simp
  have hrh := roundHalfEven_err (y.num.natAbs * 2 ^ K) y.den hd
  have hpos : (0 : ℚ) < 2 ^ K := by positivity
  have herr : |flAbs y.num.natAbs y.den - abs y| ≤ 1 / 2 ^ (53 - E) := by
    rw [hfa, habs]
    have e : ((roundHalfEven (y.num.natAbs * 2 ^ K) y.den : Nat) : ℚ) / 2 ^ K -
        (y.num.natAbs : ℚ) / (y.den : ℚ) =
        (((roundHalfEven (y.num.natAbs * 2 ^ K) y.den : Nat) : ℚ) -
          ((y.num.natAbs * 2 ^ K : Nat) : ℚ) / (y.den : ℚ)) / 2 ^ K := by
      push_cast
      field_simp
      ring
    rw [e, abs_div, abs_of_pos hpos]
    have h53 : (2 : ℚ) ^ (53 - E) ≤ 2 * 2 ^ K := by
      rw [← pow_succ']
      exact pow_le_pow_right₀ (by norm_num) (by omega)
    have hp2 : (0 : ℚ) < 2 ^ (53 - E) := by positivity
    rw [div_le_div_iff₀ hpos hp2]
    calc |((roundHalfEven (y.num.natAbs * 2 ^ K) y.den : Nat) : ℚ) -
          ((y.num.natAbs * 2 ^ K : Nat) : ℚ) / (y.den : ℚ)| * 2 ^ (53 - E)
        ≤ 1 / 2 * 2 ^ (53 - E) := mul_le_mul_of_nonneg_right hrh (le_of_lt hp2)
      _ ≤ 1 / 2 * (2 * 2 ^ K) := mul_le_mul_of_nonneg_left h53 (by norm_num)
      _ = 1 * 2 ^ K := by ring
  unfold fl
  simp only [h0, if_false]
  by_cases hneg : y < 0
  · simp only [hneg, if_true]
    rw [abs_of_neg hneg] at herr
    have : -flAbs y.num.natAbs y.den - y = -(flAbs y.num.natAbs y.den - -y) := by ring
    rw [this, abs_neg]
    exact herr
  · simp only [hneg, if_false]
    rw [abs_of_nonneg (le_of_not_lt hneg)] at herr
    exact herr

end Vt

namespace Vt

/-- A value inside the range of a `vt_long` is not changed by the wraparound. -/
theorem wrap32_of_range (z : Int) (h0 : -2147483648 ≤ z) (h1 : z < 2147483648) :
    F64.wrap32 z = z := by
  unfold F64.wrap32
  omega

/-- The 32-bit sum of the column differences is the exact sum as long as the
columns cannot take it out of the 32-bit range. -/
theorem diffSum_exact : ∀ (prow1 prow2 : List Nat) (sum : Int),
    (∀ v ∈ prow1, v ≤ 65535) → (∀ v ∈ prow2, v ≤ 65535) →
    |sum| + (prow1.length : Int) * 65535 < 2147483648 →
    F64.diffSum prow1 prow2 sum =
        sum + (List.zipWith (fun (d1 d2 : Nat) => (d2 : Int) - (d1 : Int)) prow1 prow2).sum ∧
      |sum + (List.zipWith (fun (d1 d2 : Nat) => (d2 : Int) - (d1 : Int)) prow1 prow2).sum| ≤
        |sum| + (prow1.length : Int) * 65535 := by
  intro prow1
  induction prow1 with
  | nil =>
    intro prow2 sum _ _ _
    simp [F64.diffSum]
  | cons d1 t1 ih =>
    intro prow2 sum h1 h2 hb
    cases prow2 with
    | nil =>
      simp only [F64.diffSum, List.zipWith_nil_right, List.sum_nil, add_zero, true_and]
      have : (0 : Int) ≤ ((d1 :: t1).length : Int) * 65535 := by positivity
      omega
    | cons d2 t2 =>
      have hd1 : d1 ≤ 65535 := h1 d1 (by simp)
      have hd2 : d2 ≤ 65535 := h2 d2 (by simp)
      simp only [List.length_cons, Nat.cast_add, Nat.cast_one] at hb
      have hstep : |sum + ((d2 : Int) - (d1 : Int))| ≤ |sum| + 65535 := by
        have := abs_add sum ((d2 : Int) - (d1 : Int))
        have hd : |(d2 : Int) - (d1 : Int)| ≤ 65535 := by
          rw [abs_le]
          constructor <;> omega
        omega
      have hnn : (0 : Int) ≤ (t1.length : Int) * 65535 := by positivity
      have hw : F64.wrap32 (sum + ((d2 : Int) - (d1 : Int))) = sum + ((d2 : Int) - (d1 : Int)) := by
        have := abs_le.mp (le_trans hstep (by omega : |sum| + 65535 ≤ 2147483647))
        exact wrap32_of_range _ (by omega) (by omega)
      obtain ⟨e1, e2⟩ := ih t2 (sum + ((d2 : Int) - (d1 : Int)))
        (fun v hv => h1 v (by simp [hv])) (fun v hv => h2 v (by simp [hv])) (by omega)
      simp only [F64.diffSum, hw, List.zipWith_cons_cons, List.sum_cons, List.length_cons,
        Nat.cast_add, Nat.cast_one]
      refine ⟨by rw [e1]; ring, ?_⟩
      have e3 : sum + ((d2 : Int) - (d1 : Int) +
          (List.zipWith (fun (d1 d2 : Nat) => (d2 : Int) - (d1 : Int)) t1 t2).sum) =
          sum + ((d2 : Int) - (d1 : Int)) +
          (List.zipWith (fun (d1 d2 : Nat) => (d2 : Int) - (d1 : Int)) t1 t2).sum := by ring
      rw [e3]
      omega

end Vt

namespace Vt

theorem wrap32_wrap32_add (x y : Int) : F64.wrap32 (F64.wrap32 x + y) = F64.wrap32 (x + y) := by
  unfold F64.wrap32
  omega

/-- The 32-bit sum of the differences of two constant rows. -/
theorem diffSum_replicate (a b : Nat) (n : Nat) : ∀ sum : Int,
    F64.diffSum (List.replicate (n + 1) a) (List.replicate (n + 1) b) sum =
      F64.wrap32 (sum + ((n + 1 : Nat) : Int) * ((b : Int) - (a : Int))) := by
  induction n with
  | zero =>
    intro sum
    simp [List.replicate, F64.diffSum]
  | succ n ih =>
    intro sum
    have e : F64.diffSum (List.replicate (n + 1 + 1) a) (List.replicate (n + 1 + 1) b) sum =
        F64.diffSum (List.replicate (n + 1) a) (List.replicate (n + 1) b)
          (F64.wrap32 (sum + ((b : Int) - (a : Int)))) := rfl
    rw [e, ih, wrap32_wrap32_add]
    congr 1
    push_cast
    ring

/-- The B/C offset of two constant rows of `n + 1` pixels around the seam of chips
of height 1. -/
theorem BCoffset_constant_rows (s : CVtHalfLineCalib) (n a b : Nat) (hs : s.m_chip_height = 1) :
    F64.BCoffset s [List.replicate (n + 1) a, [], [], List.replicate (n + 1) b] (n + 1) =
      .value (fl (((F64.wrap32 (((n + 1 : Nat) : Int) * ((b : Int) - (a : Int))) : Int) : ℚ) /
        ((n + 1 : Nat) : ℚ))) := by
  unfold F64.BCoffset
  rw [hs]
  have h0 : usub32 (2 * 1) 2 = 0 := by decide
  rw [h0]
  simp only [readAt, List.getElem?_cons_zero, List.getElem?_cons_succ, Calc.bind,
    List.length_replicate, lt_self_iff_false, or_self, if_false]
  rw [if_neg (by omega), List.take_replicate, List.take_replicate, Nat.min_self,
    diffSum_replicate, zero_add]
  unfold F64.fdiv
  have hq : ((n + 1 : Nat) : ℚ) ≠ 0 := by exact_mod_cast Nat.succ_ne_zero n
  rw [if_neg hq]

end Vt

namespace Vt

/-- C25, the claim as stated fails. On the six rows `seamSix` for chip height 2
the rows 3 and 4 next to the seam differ by 30, and `BCoffset` returns 90, the
difference of the rows 5 and 2. On the rows `wideSeam` of 40000 pixels, whose
difference is 65535 in every column, the 32-bit sum wraps around to -1673567296
and `BCoffset` returns the `double` nearest to -1673567296 / 40000, about
-41839.18. -/
theorem BCoffset_not_adjacent_rows :
    F64.BCoffset (unitCalib 2 3) seamSix 1 = .value 90 ∧
      (((seamSix.getD (2 * 2) []).getD 0 0 : ℚ) - ((seamSix.getD (2 * 2 - 1) []).getD 0 0 : ℚ)) / 1
        = 30 ∧
      F64.BCoffset (unitCalib 1 3) wideSeam (39999 + 1) = .value (fl (-1673567296 / 40000)) ∧
      fl (-1673567296 / 40000) < -41839 := by
  refine ⟨by decide!, by decide!, ?_, by decide!⟩
  have h := BCoffset_constant_rows (unitCalib 1 3) 39999 0 65535 rfl
  have hw : F64.wrap32 (((39999 + 1 : Nat) : Int) * (((65535 : Nat) : Int) - ((0 : Nat) : Int))) =
      -1673567296 := by decide
  rw [hw] at h
  rw [wideSeam, h]
  norm_num

/-- C25, amended. For a chip height of at least 1 and a width of 1 to 32768
columns, with the rows `2 * chip_height - 2` and `2 * chip_height + 1` of the
image holding at least `width` pixels of at most 65535: `BCoffset` returns the
`double` nearest to the mean over all columns of the difference between these
two rows,
`(1 / width) * sum over col of (out[2 * chip_height + 1][col] - out[2 * chip_height - 2][col])`;
the 32-bit sum of the differences does not wrap around. -/
theorem BCoffset_rows (s : CVtHalfLineCalib) (imptr : List (List Nat)) (width : Nat)
    (prow1 prow2 : List Nat) (h1 : 1 ≤ s.m_chip_height)
    (hh : 2 * s.m_chip_height < 4294967296) (hw : 1 ≤ width) (hw2 : width ≤ 32768)
    (hr1 : imptr[2 * s.m_chip_height - 2]? = some prow1)
    (hr2 : imptr[2 * s.m_chip_height + 1]? = some prow2)
    (hl1 : width ≤ prow1.length) (hl2 : width ≤ prow2.length)
    (hp1 : ∀ v ∈ prow1, v ≤ 65535) (hp2 : ∀ v ∈ prow2, v ≤ 65535) :
    F64.BCoffset s imptr width =
        .value (fl ((∑ col in Finset.range width,
          ((prow2.getD col 0 : ℚ) - (prow1.getD col 0 : ℚ))) / width)) ∧
      F64.diffSum (prow1.take width) (prow2.take width) 0 =
        ∑ col in Finset.range width, ((prow2.getD col 0 : Int) - (prow1.getD col 0 : Int)) ∧
      |∑ col in Finset.range width, ((prow2.getD col 0 : Int) - (prow1.getD col 0 : Int))| <
        2147483648 := by
  have hlen : (prow1.take width).length = width := by
    rw [List.length_take]
    omega
  have hwi : (width : Int) * 65535 ≤ 32768 * 65535 :=
    mul_le_mul_of_nonneg_right (by exact_mod_cast hw2) (by norm_num)
  obtain ⟨e1, e2⟩ := diffSum_exact (prow1.take width) (prow2.take width) 0
    (fun v hv => hp1 v (List.mem_of_mem_take hv)) (fun v hv => hp2 v (List.mem_of_mem_take hv))
    (by rw [hlen]; simp only [abs_zero, zero_add]; omega)
  rw [zero_add, zipWith_take_sum_range _ width prow1 prow2 hl1 hl2] at e1 e2
  rw [hlen] at e2
  simp only [abs_zero, zero_add] at e2
  refine ⟨?_, e1, by omega⟩
  unfold F64.BCoffset
  rw [usub32_of_le _ 2 hh (by omega)]
  unfold readAt
  rw [hr1, hr2]
  have hw0 : width ≠ 0 := by omega
  have hnl : ¬ (prow1.length < width ∨ prow2.length < width) := by omega
  simp only [Calc.bind, hw0, if_false, hnl]
  rw [e1]
  unfold F64.fdiv
  have hq : (width : ℚ) ≠ 0 := by exact_mod_cast hw0
  simp only [hq, if_false]
  push_cast
  rfl

/-- C25 amended, on the six rows `seamSix` for chip height 2: the offset is the
difference 100 - 10 of the rows 5 and 2. -/
theorem BCoffset_rows_witness :
    (F64.BCoffset (unitCalib 2 3) seamSix 1 =
        .value (fl ((∑ col in Finset.range 1,
          (([100].getD col 0 : ℚ) - (([10] : List Nat).getD col 0 : ℚ))) / (1 : Nat))) ∧
      F64.diffSum (([10] : List Nat).take 1) (([100] : List Nat).take 1) 0 =
        ∑ col in Finset.range 1, ((([100] : List Nat).getD col 0 : Int) -
          (([10] : List Nat).getD col 0 : Int)) ∧
      |∑ col in Finset.range 1, ((([100] : List Nat).getD col 0 : Int) -
          (([10] : List Nat).getD col 0 : Int))| < 2147483648) ∧
    F64.BCoffset (unitCalib 2 3) seamSix 1 = .value 90 :=
  ⟨BCoffset_rows (unitCalib 2 3) seamSix 1 [10] [100] (by decide) (by decide) (by decide)
    (by decide) rfl rfl (by decide) (by decide) (by decide) (by decide), by decide!⟩

end Vt

namespace Vt

/-- The loop of `poly` is a fold over the coefficients it reads. -/
theorem F64.polyLoop_foldl (data : ℚ) (p : List (Option ℚ)) (base : Nat) (c : Nat → ℚ)
    (n : Nat) : ∀ (coefno : Nat) (val : ℚ),
    (∀ k, k < coefno + n → p[base + k]? = some (some (c k))) →
      F64.polyLoop data p base n coefno val =
        .value (((List.range' coefno n).map c).foldl
          (fun val c => fl (c + fl (data * val))) val) := by
  induction n with
  | zero => intro coefno val _; rfl
  | succ n ih =>
    intro coefno val hc
    unfold F64.polyLoop
    rw [readCoef_some p _ _ (hc coefno (by omega))]
    simp only [Calc.bind]
    rw [ih (coefno + 1) _ (fun k hk => hc k (by omega))]
    rfl

/-- The member `poly` is the Horner evaluation of the specification on the
coefficients `c 0, ..., c (n - 1)`. -/
theorem F64.poly_horner (data : ℚ) (p : List (Option ℚ)) (base n : Nat) (c : Nat → ℚ)
    (hn : 2 ≤ n) (hc : ∀ k, k < n → p[base + k]? = some (some (c k))) :
    F64.poly data p base n = .value (hornerSpec data ((List.range n).map c)) := by
  obtain ⟨m, rfl⟩ : ∃ m, n = m + 2 := ⟨n - 2, by omega⟩
  unfold F64.poly
  have h0 : readCoef p base = .value (c 0) := readCoef_some p _ _ (hc 0 (by omega))
  rw [readCoef_some p _ _ (hc 1 (by omega)), h0]
  simp only [Calc.bind, Nat.add_sub_cancel]
  rw [F64.polyLoop_foldl data p base c m 2 _ (fun k hk => hc k (by omega))]
  simp only [Calc.bind]
  have hr : List.range (m + 2) = 0 :: 1 :: List.range' 2 m := by
    rw [List.range_eq_range', show m + 2 = (m + 1) + 1 by rfl, List.range'_succ,
      List.range'_succ]
  rw [hr]
  rfl

/-- C27, the claim as stated fails. At order 3 with the coefficients 0.2, 0.9 and
0.7 (as `double` values) and the sample 25, `poly` returns
`8147381161820159 / 2^41`, about 3704.9999999999995, below 3705; the closed form
`c[0] * 25^3 + c[1] * 25^2 + c[2] * 25` of the same coefficients is about
3705.00000000000003, above 3705. -/
theorem poly_not_closed_form :
    F64.poly 25 tenthsCoefs 0 3 = .value (8147381161820159 / 2199023255552) ∧
    (8147381161820159 / 2199023255552 : ℚ) < 3705 ∧
    (3705 : ℚ) < ∑ k in Finset.range 3, (tenthsCoefs.getD k none).getD 0 * 25 ^ (3 - k) := by
  refine ⟨by decide!, by norm_num, by decide!⟩

/-- C27, amended. For every sample `x`, every order `n ≥ 2` and every coefficient
storage whose `n` elements from `base` on are set to `c 0, ..., c (n - 1)`:
`poly` returns the Horner evaluation of the specification, every product and
every sum rounded to the nearest `double`; with exact arithmetic the same steps
give the sum over `k = 0 .. n - 1` of `c[k] * x^(n - k)`; `poly` returns 0 at
`x = 0` (there is no constant term); and it returns the same for every storage
that agrees on these `n` elements, so that at order 5 the sixth stored
coefficient is not used. -/
theorem poly_horner_rounded (x : ℚ) (p q : List (Option ℚ)) (base n : Nat) (c : Nat → ℚ)
    (hn : 2 ≤ n) (hc : ∀ k, k < n → p[base + k]? = some (some (c k)))
    (hq : ∀ k, k < n → q[base + k]? = p[base + k]?) :
    F64.poly x p base n = .value (hornerSpec x ((List.range n).map c)) ∧
      CVthdsCalib.poly x p base n = .value (∑ k in Finset.range n, c k * x ^ (n - k)) ∧
      F64.poly 0 p base n = .value 0 ∧ F64.poly x q base n = F64.poly x p base n := by
  refine ⟨F64.poly_horner x p base n c hn hc, poly_sum x p base n c hn hc, ?_, ?_⟩
  · obtain ⟨m, rfl⟩ : ∃ m, n = m + 2 := ⟨n - 2, by omega⟩
    unfold F64.poly
    have h0 : readCoef p base = .value (c 0) := readCoef_some p _ _ (hc 0 (by omega))
    rw [readCoef_some p _ _ (hc 1 (by omega)), h0]
    simp only [Calc.bind, Nat.add_sub_cancel]
    rw [F64.polyLoop_foldl 0 p base c m 2 _ (fun k hk => hc k (by omega))]
    simp only [Calc.bind, mul_zero, fl_zero]
  · rw [F64.poly_horner x p base n c hn hc,
      F64.poly_horner x q base n c hn (fun k hk => by rw [hq k hk]; exact hc k hk)]

/-- C27 amended, at order 5 on a pixel with the six stored coefficients 1, 2, 3, 4,
5, 6, at `x = 2`: the value is `1*32 + 2*16 + 3*8 + 4*4 + 5*2 = 114`, nothing
being rounded, also when the sixth coefficient is not set. -/
theorem poly_horner_rounded_witness :
    (F64.poly 2 [some 1, some 2, some 3, some 4, some 5, some 6] 0 5 =
        .value (hornerSpec 2 ((List.range 5).map
          (fun k => ([1, 2, 3, 4, 5, 6] : List ℚ).getD k 0))) ∧
      CVthdsCalib.poly 2 [some 1, some 2, some 3, some 4, some 5, some 6] 0 5 =
        .value (∑ k in Finset.range 5, ([1, 2, 3, 4, 5, 6] : List ℚ).getD k 0 * 2 ^ (5 - k)) ∧
      F64.poly 0 [some 1, some 2, some 3, some 4, some 5, some 6] 0 5 = .value 0 ∧
      F64.poly 2 [some 1, some 2, some 3, some 4, some 5, none] 0 5 =
        F64.poly 2 [some 1, some 2, some 3, some 4, some 5, some 6] 0 5) ∧
    F64.poly 2 [some 1, some 2, some 3, some 4, some 5, some 6] 0 5 = .value 114 :=
  ⟨poly_horner_rounded 2 [some 1, some 2, some 3, some 4, some 5, some 6]
      [some 1, some 2, some 3, some 4, some 5, none] 0 5
      (fun k => ([1, 2, 3, 4, 5, 6] : List ℚ).getD k 0) (by decide) (by decide) (by decide),
    by decide!⟩

end Vt

namespace Vt

open CVtHalfLineCalib

/-- The pixel sum of `row_mean` is exact as long as it stays below `2^53`. -/
theorem F64.sumLoop_exact (vs : List Nat) : ∀ (acc : Nat), acc + vs.sum < 2 ^ 53 →
    F64.sumLoop vs (acc : ℚ) = ((acc + vs.sum : Nat) : ℚ) := by
  induction vs with
  | nil => intro acc _; simp [F64.sumLoop]
  | cons v vs ih =>
    intro acc h
    simp only [List.sum_cons] at h
    unfold F64.sumLoop
    rw [← Nat.cast_add, fl_natCast (acc + v) (by omega), ih (acc + v) (by omega)]
    simp only [List.sum_cons, Nat.add_assoc]

theorem F64.rowSum64_of_wf (data : List (List Nat)) (width row : Nat) (hrow : row < data.length)
    (hw : ∀ r ∈ data, r.length = width) (hs : (data.getD row []).sum < 2 ^ 53) :
    F64.rowSum data width row = .value (((data.getD row []).sum : Nat) : ℚ) := by
  unfold F64.rowSum
  rw [readAt_of_lt data row [] hrow]
  have hmem : data.getD row [] ∈ data := by
    rw [List.getD_eq_getElem?_getD, List.getElem?_eq_getElem hrow]
    exact List.getElem_mem hrow
  have hl := hw _ hmem
  simp only [Calc.bind, hl, lt_self_iff_false, if_false]
  rw [← hl, List.take_length]
  have := F64.sumLoop_exact (data.getD row []) 0 (by omega)
  simpa using this

/-- The row loop of `row_mean` on a well-formed image returns: the running total
grows by the sum of the pixels of the rows visited, nothing being rounded as long
as the total stays below `2^53`. -/
theorem F64.rowMeanLoop64_total (data : List (List Nat)) (width : Nat) (hwpos : 0 < width)
    (hw : ∀ r ∈ data, r.length = width) (n : Nat) :
    ∀ (row : Nat) (row_means : List ℚ) (tot : Nat), row + n ≤ data.length →
      row + n ≤ row_means.length →
      tot + (((data.drop row).take n).map List.sum).sum < 2 ^ 53 →
      ∃ rm, F64.rowMeanLoop data width n row row_means (tot : ℚ) =
          .value (rm, ((tot + (((data.drop row).take n).map List.sum).sum : Nat) : ℚ)) ∧
        rm.length = row_means.length := by
  induction n with
  | zero =>
    intro row row_means tot _ _ _
    exact ⟨row_means, by simp [F64.rowMeanLoop], rfl⟩
  | succ n ih =>
    intro row row_means tot h1 h2 h3
    have hdrop : data.drop row = data.getD row [] :: data.drop (row + 1) := by
      rw [List.getD_eq_getElem?_getD, List.getElem?_eq_getElem (by omega : row < data.length)]
      exact List.drop_eq_getElem_cons (by omega)
    rw [hdrop] at h3 ⊢
    simp only [List.take_succ_cons, List.map_cons, List.sum_cons] at h3 ⊢
    unfold F64.rowMeanLoop
    rw [F64.rowSum64_of_wf data width row (by omega) hw (by omega)]
    have hwne : (width : ℚ) ≠ 0 := by exact_mod_cast (by omega : width ≠ 0)
    simp only [Calc.bind, F64.fdiv, hwne, if_false, writeAt,
      show row < row_means.length by omega, if_true]
    rw [← Nat.cast_add, fl_natCast _ (by omega)]
    obtain ⟨rm, hrm, hlen⟩ := ih (row + 1) (row_means.set row
      (fl ((((data.getD row []).sum : Nat) : ℚ) / width))) (tot + (data.getD row []).sum)
      (by omega) (by rw [List.length_set]; omega) (by omega)
    refine ⟨rm, ?_, by rw [hlen, List.length_set]⟩
    rw [hrm, Nat.add_assoc]

/-- The function `row_mean` on a well-formed image of positive width over a row
range that is not empty, the sum and the number of the pixels being below `2^53`:
it returns the `double` nearest to the mean of the specification. -/
theorem F64.row_mean64_total (im : CVtImage) (row_means : List ℚ) (row_start row_end : Nat)
    (hwf : im.WF) (hwpos : 0 < im.m_width) (hlt : row_start < row_end)
    (hend : row_end ≤ im.m_height) (hrm : row_end ≤ row_means.length)
    (hsum : im.activeSum row_start row_end < 2 ^ 53)
    (hcnt : im.m_width * (row_end - row_start) < 2 ^ 53) :
    ∃ rm, F64.row_mean row_means im.m_lines im.m_width row_start row_end =
        .value (rm, im.activeMean64 row_start row_end) ∧ rm.length = row_means.length := by
  obtain ⟨hlen, hw⟩ := hwf
  obtain ⟨rm, h, hl⟩ := F64.rowMeanLoop64_total im.m_lines im.m_width hwpos hw
    (row_end - row_start) row_start row_means 0 (by omega) (by omega)
    (by rw [Nat.zero_add]; exact hsum)
  refine ⟨rm, ?_, hl⟩
  unfold F64.row_mean
  rw [Nat.cast_zero] at h
  rw [h]
  have hprod : (im.m_width : ℚ) * ((row_end : ℚ) - (row_start : ℚ)) =
      ((im.m_width * (row_end - row_start) : Nat) : ℚ) := by
    rw [Nat.cast_mul, Nat.cast_sub (by omega)]
  have hne : fl ((im.m_width : ℚ) * ((row_end : ℚ) - (row_start : ℚ))) ≠ 0 := by
    rw [hprod, fl_natCast _ hcnt]
    have : 0 < im.m_width * (row_end - row_start) := Nat.mul_pos hwpos (by omega)
    exact_mod_cast (by omega : im.m_width * (row_end - row_start) ≠ 0)
  simp only [Calc.bind, F64.fdiv, hne, if_false, Nat.zero_add, CVtImage.activeMean64,
    CVtImage.activeMean, CVtImage.activeSum]
  rw [hprod, fl_natCast _ hcnt]

theorem F64.coefStep64_total (darkC brightC : List ℚ) (mean_signal : ℚ) (row : Nat)
    (st : CoefLoop) (hd : row < darkC.length) (hb : row < brightC.length)
    (hc : row < st.m_coef.length) (hv : row < st.dfvec.length) :
    ∃ st1, F64.coefStep darkC brightC mean_signal row st = .value st1 ∧
      st1.m_coef.length = st.m_coef.length ∧ st1.dfvec.length = st.dfvec.length := by
  unfold F64.coefStep
  rw [readAt_of_lt brightC row 0 hb, readAt_of_lt darkC row 0 hd]
  simp only [Calc.bind, writeAt, hc, if_true]
  split
  · rw [readAt_of_lt _ (row - 1) 0 (by rw [List.length_set]; omega)]
    simp only [hv, if_true]
    exact ⟨_, rfl, by simp, by simp⟩
  · exact ⟨_, rfl, by simp, rfl⟩

theorem F64.coefLoop64_total (darkC brightC : List ℚ) (mean_signal : ℚ) (n : Nat) :
    ∀ (row : Nat) (st : CoefLoop), row + n ≤ darkC.length → row + n ≤ brightC.length →
      row + n ≤ st.m_coef.length → row + n ≤ st.dfvec.length →
      ∃ st1, F64.coefLoop darkC brightC mean_signal n row st = .value st1 := by
  induction n with
  | zero => intro row st _ _ _ _; exact ⟨st, rfl⟩
  | succ n ih =>
    intro row st h1 h2 h3 h4
    obtain ⟨st1, hst, hl1, hl2⟩ := F64.coefStep64_total darkC brightC mean_signal row st
      (by omega) (by omega) (by omega) (by omega)
    unfold F64.coefLoop
    rw [hst]
    exact ih (row + 1) st1 (by omega) (by omega) (by omega) (by omega)

/-- The block of `recalc` under `if (mean_signal != 0)` returns when the frames are
exactly as high as the active range ends. -/
theorem F64.recalcCoef64_total (darkC brightC : List ℚ) (mean_signal : ℚ)
    (start_row end_row height : Nat) (hd : darkC.length = height)
    (hb : brightC.length = height) (he : end_row = height) (hlt : start_row < end_row) :
    ∃ coef, F64.recalcCoef darkC brightC mean_signal start_row end_row height =
      .value coef := by
  unfold F64.recalcCoef
  obtain ⟨st, hst⟩ := F64.coefLoop64_total darkC brightC mean_signal (end_row - (start_row + 1))
    (start_row + 1)
    { m_coef := List.replicate height 0, dfvec := List.replicate height none, dfsum := 0,
      dfsumsq := 0, dfcnt := 0 }
    (by omega) (by omega) (by simp only [List.length_replicate]; omega)
    (by simp only [List.length_replicate]; omega)
  rw [hst]
  simp only [Calc.bind]
  split
  · unfold rejectLoop
    simp only [he, lt_self_iff_false, if_false]
    exact ⟨_, rfl⟩
  · exact ⟨_, rfl⟩

/-- Frames of different heights: `recalc` raises. -/
theorem F64.recalc64_heights_differ (s : CVtHalfLineCalib) (api_type : API_TYPE)
    (BrightFrame DarkFrame : CVtImage) (h : BrightFrame.m_height ≠ DarkFrame.m_height) :
    F64.recalc s api_type BrightFrame DarkFrame = .failed .invalidFrames := by
  unfold F64.recalc
  simp only [h, ne_eq, not_false_eq_true, if_true]

/-- Well-formed frames of the height of the active range: `recalc` raises when the
mean signal it computes is 0 and otherwise returns with the calibration marked
initialised. -/
theorem F64.recalc64_same_height (s : CVtHalfLineCalib) (api_type : API_TYPE)
    (BrightFrame DarkFrame : CVtImage) (hB : BrightFrame.WF) (hD : DarkFrame.WF)
    (hBw : 0 < BrightFrame.m_width) (hDw : 0 < DarkFrame.m_width)
    (hBh : BrightFrame.m_height = s.m_chip_height * s.m_numChips)
    (hDh : DarkFrame.m_height = s.m_chip_height * s.m_numChips)
    (hrange : startRow s api_type < endRow s)
    (hBs : BrightFrame.activeSum (startRow s api_type) (endRow s) < 2 ^ 53)
    (hDs : DarkFrame.activeSum (startRow s api_type) (endRow s) < 2 ^ 53)
    (hBc : BrightFrame.m_width * (endRow s - startRow s api_type) < 2 ^ 53)
    (hDc : DarkFrame.m_width * (endRow s - startRow s api_type) < 2 ^ 53) :
    (fl (BrightFrame.activeMean64 (startRow s api_type) (endRow s) -
        DarkFrame.activeMean64 (startRow s api_type) (endRow s)) = 0 →
      F64.recalc s api_type BrightFrame DarkFrame = .failed .invalidDarkOrBright) ∧
    (fl (BrightFrame.activeMean64 (startRow s api_type) (endRow s) -
        DarkFrame.activeMean64 (startRow s api_type) (endRow s)) ≠ 0 →
      ∃ s1, F64.recalc s api_type BrightFrame DarkFrame = .value s1 ∧
        s1.m_initialised = true) := by
  have hend : endRow s = s.m_chip_height * s.m_numChips := by
    unfold endRow; exact Nat.mul_comm _ _
  obtain ⟨dm, hdm, hdl⟩ := F64.row_mean64_total DarkFrame
    (List.replicate BrightFrame.m_height 0)
    (startRow s api_type) (endRow s) hD hDw hrange (by omega)
    (by simp only [List.length_replicate]; omega) hDs hDc
  obtain ⟨bm, hbm, hbl⟩ := F64.row_mean64_total BrightFrame
    (List.replicate BrightFrame.m_height 0)
    (startRow s api_type) (endRow s) hB hBw hrange (by omega)
    (by simp only [List.length_replicate]; omega) hBs hBc
  simp only [List.length_replicate] at hdl hbl
  have hne : ¬ BrightFrame.m_height ≠ DarkFrame.m_height := by omega
  constructor
  · intro h0
    unfold F64.recalc
    simp only [hne, if_false, hdm, hbm, Calc.bind, h0, ne_eq, not_true_eq_false]
  · intro h0
    obtain ⟨coef, hcoef⟩ := F64.recalcCoef64_total dm bm
      (fl (BrightFrame.activeMean64 (startRow s api_type) (endRow s) -
        DarkFrame.activeMean64 (startRow s api_type) (endRow s)))
      (startRow s api_type) (endRow s) BrightFrame.m_height hdl hbl (by omega) hrange
    unfold F64.recalc
    simp only [hne, if_false, hdm, hbm, Calc.bind, h0, ne_eq, not_false_eq_true, if_true, hcoef]
    exact ⟨_, rfl, rfl⟩

/-- The frame `nearFlat n` is well formed and the sum of its pixels is
`65535 + 65534 * n`. -/
theorem nearFlat_spec (n : Nat) :
    (nearFlat n).WF ∧ (nearFlat n).activeSum 0 1 = 65535 + n * 65534 := by
  refine ⟨⟨rfl, ?_⟩, ?_⟩
  · intro r hr
    simp only [nearFlat, List.mem_singleton] at hr
    subst hr
    simp [nearFlat]
  · simp [nearFlat, CVtImage.activeSum]

end Vt

namespace Vt

open CVtHalfLineCalib

/-- The exact mean of the frame `nearFlat n` is `(65535 + 65534 * n) / (n + 1)`. -/
theorem nearFlat_mean (n : Nat) :
    (nearFlat n).activeMean 0 1 = ((65535 + n * 65534 : Nat) : ℚ) / ((n + 1 : Nat) : ℚ) := by
  unfold CVtImage.activeMean
  rw [(nearFlat_spec n).2]
  have : (nearFlat n).m_width = n + 1 := rfl
  rw [this]
  norm_num

/-- C11, the claim as stated fails. In ceph mode with one chip of height 1, the
bright frame being one row of 1048577 pixels and the dark frame one row of 1048576
pixels, each with one pixel 65535 and all others 65534: the two frames have the
height `chip_height * num_chips` and their exact means differ, by
`1 / (1048576 * 1048577)`, so that the mean signal of the claim is not 0; but both
means round to the same `double`, `65534 + 2^-20`, the mean signal that the code
computes is 0, and `recalc` raises "Invalid dark or bright frame". -/
theorem recalc_fails_on_unequal_means :
    (nearFlat 1048576).m_height = (nearFlat 1048575).m_height ∧
    (nearFlat 1048576).m_height = (create 1 1).m_chip_height * (create 1 1).m_numChips ∧
    (nearFlat 1048576).activeMean (startRow (create 1 1) .CEPH_API) (endRow (create 1 1)) -
      (nearFlat 1048575).activeMean (startRow (create 1 1) .CEPH_API) (endRow (create 1 1)) =
        -1 / 1099512676352 ∧
    F64.recalc (create 1 1) .CEPH_API (nearFlat 1048576) (nearFlat 1048575) =
      .failed .invalidDarkOrBright := by
  have hs : startRow (create 1 1) .CEPH_API = 0 := by decide
  have he : endRow (create 1 1) = 1 := by decide
  refine ⟨rfl, rfl, ?_, ?_⟩
  · rw [hs, he, nearFlat_mean, nearFlat_mean]
    norm_num
  · refine (F64.recalc64_same_height (create 1 1) .CEPH_API (nearFlat 1048576)
      (nearFlat 1048575) (nearFlat_spec _).1 (nearFlat_spec _).1 (Nat.succ_pos _)
      (Nat.succ_pos _) rfl rfl (by decide) ?_ ?_ ?_ ?_).1 ?_
    · rw [hs, he, (nearFlat_spec _).2]; norm_num
    · rw [hs, he, (nearFlat_spec _).2]; norm_num
    · rw [hs, he]; exact (by decide : (1048576 + 1) * (1 - 0) < 2 ^ 53)
    · rw [hs, he]; exact (by decide : (1048575 + 1) * (1 - 0) < 2 ^ 53)
    · rw [hs, he]
      unfold CVtImage.activeMean64
      rw [nearFlat_mean, nearFlat_mean]
      have e : fl (fl (((65535 + 1048576 * 65534 : Nat) : ℚ) / ((1048576 + 1 : Nat) : ℚ)) -
          fl (((65535 + 1048575 * 65534 : Nat) : ℚ) / ((1048575 + 1 : Nat) : ℚ))) = 0 := by
        decide!
      exact e

/-- C11, amended. `recalc` raises "Invalid dark bright frames" whenever the bright
and the dark frame differ in height. For two well-formed frames of positive width
and of the height `chip_height * num_chips`, over an active row range that is not
empty, the sum and the number of the pixels of the active rows of each frame being
below `2^53`, it raises "Invalid dark or bright frame" exactly when the mean signal
that it computes is 0, that is the `double` nearest to the difference of the two
overall means, each of them the `double` nearest to the sum of the pixels of the
active rows over their number; in every other case it returns with the calibration
marked initialised. It raises in particular when the exact means are equal. -/
theorem recalc_fails_exactly (s : CVtHalfLineCalib) (api_type : API_TYPE)
    (BrightFrame DarkFrame : CVtImage) :
    (BrightFrame.m_height ≠ DarkFrame.m_height →
      F64.recalc s api_type BrightFrame DarkFrame = .failed .invalidFrames) ∧
    (BrightFrame.WF → DarkFrame.WF → 0 < BrightFrame.m_width → 0 < DarkFrame.m_width →
      BrightFrame.m_height = s.m_chip_height * s.m_numChips →
      DarkFrame.m_height = s.m_chip_height * s.m_numChips →
      startRow s api_type < endRow s →
      BrightFrame.activeSum (startRow s api_type) (endRow s) < 2 ^ 53 →
      DarkFrame.activeSum (startRow s api_type) (endRow s) < 2 ^ 53 →
      BrightFrame.m_width * (endRow s - startRow s api_type) < 2 ^ 53 →
      DarkFrame.m_width * (endRow s - startRow s api_type) < 2 ^ 53 →
      ((∃ e, F64.recalc s api_type BrightFrame DarkFrame = .failed e) ↔
        fl (BrightFrame.activeMean64 (startRow s api_type) (endRow s) -
          DarkFrame.activeMean64 (startRow s api_type) (endRow s)) = 0) ∧
      (fl (BrightFrame.activeMean64 (startRow s api_type) (endRow s) -
          DarkFrame.activeMean64 (startRow s api_type) (endRow s)) = 0 →
        F64.recalc s api_type BrightFrame DarkFrame = .failed .invalidDarkOrBright) ∧
      (fl (BrightFrame.activeMean64 (startRow s api_type) (endRow s) -
          DarkFrame.activeMean64 (startRow s api_type) (endRow s)) ≠ 0 →
        ∃ s1, F64.recalc s api_type BrightFrame DarkFrame = .value s1 ∧
          s1.m_initialised = true) ∧
      (BrightFrame.activeMean (startRow s api_type) (endRow s) =
          DarkFrame.activeMean (startRow s api_type) (endRow s) →
        F64.recalc s api_type BrightFrame DarkFrame = .failed .invalidDarkOrBright)) := by
  refine ⟨F64.recalc64_heights_differ s api_type BrightFrame DarkFrame, ?_⟩
  intro hB hD hBw hDw hBh hDh hrange hBs hDs hBc hDc
  obtain ⟨hzero, hnz⟩ := F64.recalc64_same_height s api_type BrightFrame DarkFrame hB hD hBw
    hDw hBh hDh hrange hBs hDs hBc hDc
  refine ⟨⟨?_, fun h0 => ⟨_, hzero h0⟩⟩, hzero, hnz, ?_⟩
  · rintro ⟨e, he⟩
    by_contra hne
    obtain ⟨s1, hs1, _⟩ := hnz hne
    rw [hs1] at he
    cases he
  · intro heq
    apply hzero
    unfold CVtImage.activeMean64
    rw [heq, sub_self, fl_zero]

/-- C11 amended, at concrete frames, 2 chips of height 2 in ceph mode: a bright
frame of 3 rows against a dark frame of 4 rows raises; `brightFour` against
`darkFour`, with the mean signal 265, returns; a frame against itself raises. -/
theorem recalc_fails_exactly_witness :
    F64.recalc (create 2 2) .CEPH_API (CVtImage.filled 1 3 7) darkFour =
      .failed .invalidFrames ∧
    (∃ s1, F64.recalc (create 2 2) .CEPH_API brightFour darkFour = .value s1 ∧
      s1.m_initialised = true) ∧
    F64.recalc (create 2 2) .CEPH_API brightFour brightFour = .failed .invalidDarkOrBright :=
  ⟨(recalc_fails_exactly (create 2 2) .CEPH_API (CVtImage.filled 1 3 7) darkFour).1 (by decide),
   ((recalc_fails_exactly (create 2 2) .CEPH_API brightFour darkFour).2 (by decide) (by decide)
      (by decide) (by decide) (by decide) (by decide) (by decide) (by decide) (by decide)
      (by decide) (by decide)).2.2.1 (by decide!),
   ((recalc_fails_exactly (create 2 2) .CEPH_API brightFour brightFour).2 (by decide)
      (by decide) (by decide) (by decide) (by decide) (by decide) (by decide) (by decide)
      (by decide) (by decide) (by decide)).2.1 (by decide!)⟩

end Vt

namespace Vt

open CVtHalfLineCalib

/-- The factor of `gap_fixAB` stays between 0 and `1 + 2^-52` in the 9 iterations of
the loop. -/
theorem gapFactor_range (j : Nat) (hj : j < 9) :
    0 ≤ gapFactor j ∧ gapFactor j ≤ 1 + 1 / 4503599627370496 := by
  interval_cases j <;> decide!

/-- The value `new_val` of `gap_fixAB` for two 16-bit pixels and a factor between 0
and `1 + 2^-52` lies strictly between -1 and 65536. -/
theorem F64.gapValueAB64_range (vm vp : Nat) (F : ℚ) (hvm : vm ≤ 65535) (hvp : vp ≤ 65535)
    (hF0 : 0 ≤ F) (hF1 : F ≤ 1 + 1 / 4503599627370496) :
    -1 < F64.gapValueAB vm vp F ∧ F64.gapValueAB vm vp F < 65536 := by
  unfold F64.gapValueAB
  have hm0 : (0 : ℚ) ≤ vm := by positivity
  have hp0 : (0 : ℚ) ≤ vp := by positivity
  have hm1 : (vm : ℚ) ≤ 65535 := by exact_mod_cast hvm
  have hp1 : (vp : ℚ) ≤ 65535 := by exact_mod_cast hvp
  have hd : ((((vp : Int) - (vm : Int) : Int)) : ℚ) = (vp : ℚ) - (vm : ℚ) := by push_cast; ring
  rw [hd]
  have hy : (if (vp : ℚ) - vm ≥ 0 then 0 else (1 + 1 / 4503599627370496) * ((vp : ℚ) - vm)) ≤
        F * ((vp : ℚ) - vm) ∧
      F * ((vp : ℚ) - vm) ≤
        (if (vp : ℚ) - vm ≥ 0 then (1 + 1 / 4503599627370496) * ((vp : ℚ) - vm) else 0) := by
    by_cases hs : (vp : ℚ) - vm ≥ 0
    · simp only [hs, if_true]
      exact ⟨mul_nonneg hF0 hs, mul_le_mul_of_nonneg_right hF1 hs⟩
    · simp only [hs, if_false]
      have hs2 : (vp : ℚ) - vm ≤ 0 := by linarith
      exact ⟨mul_le_mul_of_nonpos_right hF1 hs2, mul_nonpos_of_nonneg_of_nonpos hF0 hs2⟩
  have hy2 : -65536 ≤ F * ((vp : ℚ) - vm) ∧ F * ((vp : ℚ) - vm) ≤ 65536 ∧
      -(1 / 1000000) ≤ (vm : ℚ) + F * ((vp : ℚ) - vm) ∧
      (vm : ℚ) + F * ((vp : ℚ) - vm) ≤ 65535 + 1 / 1000000 := by
    obtain ⟨h1, h2⟩ := hy
    by_cases hs : (vp : ℚ) - vm ≥ 0
    · simp only [hs, if_true] at h1 h2
      refine ⟨by linarith, by linarith, by linarith, by linarith⟩
    · simp only [hs, if_false] at h1 h2
      have hs2 : (vp : ℚ) - vm ≤ 0 := by linarith
      refine ⟨by linarith, by linarith, by linarith, by linarith⟩
  obtain ⟨ha, hb, hc, hdd⟩ := hy2
  have e1 := fl_err (F * ((vp : ℚ) - vm)) 16 (by norm_num)
    (abs_le.mpr ⟨by norm_num; linarith, by norm_num; linarith⟩)
  obtain ⟨e1a, e1b⟩ := abs_le.mp e1
  norm_num at e1a e1b
  have e2 := fl_err ((vm : ℚ) + fl (F * ((vp : ℚ) - vm))) 17 (by norm_num)
    (abs_le.mpr ⟨by norm_num; linarith, by norm_num; linarith⟩)
  obtain ⟨e2a, e2b⟩ := abs_le.mp e2
  norm_num at e2a e2b
  constructor <;> linarith

/-- A `double` strictly between -1 and 65536 is narrowed to `vt_ushort` without
wraparound: the result is the value clamped to `[0, 65535]`. -/
theorem toUShort_clamp (v : ℚ) (h0 : -1 < v) (h1 : v < 65536) :
    toUShort v = clampExact v := by
  unfold clampExact
  by_cases hn : v < 0
  · rw [if_pos hn]
    unfold toUShort
    rw [if_neg (by linarith)]
    have : ⌊-v⌋ = 0 := by
      rw [Int.floor_eq_iff]
      constructor <;> norm_num <;> linarith
    rw [this]
    rfl
  · rw [if_neg hn]
    by_cases hb : v ≥ 65535
    · rw [if_pos hb]
      unfold toUShort
      rw [if_pos (by linarith)]
      have : ⌊v⌋ = 65535 := by
        rw [Int.floor_eq_iff]
        constructor <;> norm_num <;> linarith
      rw [this]
      rfl
    · rw [if_neg hb]
      exact (toUShort_of_range v (by linarith) (by linarith)).1

/-- The narrowing to `vt_ushort` gives a 16-bit value. -/
theorem toUShort_le (x : ℚ) : toUShort x ≤ 65535 := by
  unfold toUShort
  have h := Int.emod_lt_of_pos (if 0 ≤ x then ⌊x⌋ else -⌊-x⌋) (by norm_num : (0 : Int) < 65536)
  have h2 := Int.emod_nonneg (if 0 ≤ x then ⌊x⌋ else -⌊-x⌋) (by norm_num : (65536 : Int) ≠ 0)
  omega

end Vt

namespace Vt

open CVtHalfLineCalib

theorem mem_zipWith_elim {α β γ : Type} (f : α → β → γ) : ∀ (as : List α) (bs : List β) (c : γ),
    c ∈ List.zipWith f as bs → ∃ a ∈ as, ∃ b ∈ bs, c = f a b := by
  intro as
  induction as with
  | nil => intro bs c h; simp at h
  | cons a as ih =>
    intro bs c h
    cases bs with
    | nil => simp at h
    | cons b bs =>
      simp only [List.zipWith_cons_cons, List.mem_cons] at h
      rcases h with h | h
      · exact ⟨a, List.mem_cons_self _ _, b, List.mem_cons_self _ _, h⟩
      · obtain ⟨a1, ha1, b1, hb1, hc⟩ := ih bs c h
        exact ⟨a1, List.mem_cons_of_mem _ ha1, b1, List.mem_cons_of_mem _ hb1, hc⟩

theorem zipWith_getD {α β γ : Type} (f : α → β → γ) : ∀ (as : List α) (bs : List β) (i : Nat)
    (a0 : α) (b0 : β) (c0 : γ), i < as.length → i < bs.length →
      (List.zipWith f as bs).getD i c0 = f (as.getD i a0) (bs.getD i b0) := by
  intro as
  induction as with
  | nil => intro bs i a0 b0 c0 h; simp at h
  | cons a as ih =>
    intro bs i a0 b0 c0 h1 h2
    cases bs with
    | nil => simp at h2
    | cons b bs =>
      cases i with
      | zero => rfl
      | succ i =>
        simp only [List.zipWith_cons_cons, List.getD_cons_succ]
        simp only [List.length_cons] at h1 h2
        exact ih bs i a0 b0 c0 (by omega) (by omega)

theorem take_getD {α : Type} (l : List α) (w i : Nat) (d : α) (h : i < w) :
    (l.take w).getD i d = l.getD i d := by
  simp [List.getD_eq_getElem?_getD, List.getElem?_take, h]

theorem readAt_mem {α : Type} (xs : List α) (i : Nat) (a : α) (h : readAt xs i = .value a) :
    a ∈ xs := by
  obtain ⟨hi, ha⟩ := readAt_value xs i a h
  rw [← ha]
  exact List.getElem_mem hi

/-- The row that the column loop of `gap_fixAB` returns holds 16-bit pixels when the
row it rewrites does. -/
theorem F64.gapRowAB_16 (VecM VecP Vec : List Nat) (width : Nat) (mult_fac : ℚ)
    (newRow : List Nat) (h : F64.gapRowAB VecM VecP Vec width mult_fac = .value newRow)
    (hV : ∀ v ∈ Vec, v ≤ 65535) :
    (∀ v ∈ newRow, v ≤ 65535) ∧
      (F64.gapRowVals VecM VecP width mult_fac).length = width := by
  unfold F64.gapRowAB at h
  by_cases hw : width = 0
  · rw [if_pos hw] at h
    injection h with h
    subst h
    exact ⟨hV, by simp [F64.gapRowVals, hw]⟩
  · rw [if_neg hw] at h
    split at h
    · cases h
    · rename_i hlen
      simp only [not_or, not_lt] at hlen
      injection h with h
      subst h
      refine ⟨?_, ?_⟩
      · intro v hv
        rcases List.mem_append.mp hv with hv | hv
        · obtain ⟨x, _, hx⟩ := List.mem_map.mp hv
          rw [← hx]
          exact toUShort_le x
        · exact hV v (List.mem_of_mem_drop hv)
      · simp only [F64.gapRowVals, List.length_zipWith, List.length_take]
        omega

/-- The values `new_val` of one row of `gap_fixAB`, for reference rows of 16-bit
pixels and a factor between 0 and `1 + 2^-52`, lie strictly between -1 and 65536. -/
theorem F64.gapRowVals_range (VecM VecP : List Nat) (width : Nat) (F : ℚ)
    (hM : ∀ v ∈ VecM, v ≤ 65535) (hP : ∀ v ∈ VecP, v ≤ 65535) (hF0 : 0 ≤ F)
    (hF1 : F ≤ 1 + 1 / 4503599627370496) :
    ∀ v ∈ F64.gapRowVals VecM VecP width F, -1 < v ∧ v < 65536 := by
  intro v hv
  obtain ⟨vm, hvm, vp, hvp, rfl⟩ := mem_zipWith_elim _ _ _ _ hv
  exact F64.gapValueAB64_range vm vp F (hM vm (List.mem_of_mem_take hvm))
    (hP vp (List.mem_of_mem_take hvp)) hF0 hF1

/-- The row loop of `gap_fixAB` in its iterations `j, ..., j + n - 1`, at most 9 in
all, on an image of 16-bit pixels: the image stays one of 16-bit pixels, every
value `new_val` lies strictly between -1 and 65536, and `width` values are
computed for every row. -/
theorem F64.gapLoopAB_range (rowM rowP width : Nat) : ∀ (n j row : Nat)
    (r r1 : List (List Nat) × List ℚ), j + n ≤ 9 → Image16 r.1 →
      (∀ v ∈ r.2, -1 < v ∧ v < 65536) →
      F64.gapLoopAB rowM rowP width n row (gapFactor j) r = .value r1 →
      Image16 r1.1 ∧ (∀ v ∈ r1.2, -1 < v ∧ v < 65536) ∧
        r1.2.length = r.2.length + n * width := by
  intro n
  induction n with
  | zero =>
    intro j row r r1 _ h16 hv h
    unfold F64.gapLoopAB at h
    injection h with h
    subst h
    exact ⟨h16, hv, by simp⟩
  | succ n ih =>
    intro j row r r1 hj h16 hv h
    unfold F64.gapLoopAB at h
    obtain ⟨VecM, hM, h⟩ := Calc.bind_eq_value _ _ _ h
    obtain ⟨VecP, hP, h⟩ := Calc.bind_eq_value _ _ _ h
    obtain ⟨Vec, hVec, h⟩ := Calc.bind_eq_value _ _ _ h
    obtain ⟨newRow, hrow, h⟩ := Calc.bind_eq_value _ _ _ h
    have hF := gapFactor_range j (by omega)
    obtain ⟨hnew, hlen⟩ := F64.gapRowAB_16 VecM VecP Vec width (gapFactor j) newRow hrow
      (h16 Vec (readAt_mem _ _ _ hVec))
    have hvals := F64.gapRowVals_range VecM VecP width (gapFactor j)
      (h16 VecM (readAt_mem _ _ _ hM)) (h16 VecP (readAt_mem _ _ _ hP)) hF.1 hF.2
    have h2 : F64.gapLoopAB rowM rowP width n (row + 1) (gapFactor (j + 1))
        (r.1.set row newRow, r.2 ++ F64.gapRowVals VecM VecP width (gapFactor j)) =
          .value r1 := h
    obtain ⟨a, b, c⟩ := ih (j + 1) (row + 1) _ r1 (by omega)
      (by
        intro r0 hr0
        rcases List.mem_or_eq_of_mem_set hr0 with hr0 | hr0
        · exact h16 r0 hr0
        · rw [hr0]; exact hnew)
      (by
        intro v hv0
        rcases List.mem_append.mp hv0 with hv0 | hv0
        · exact hv v hv0
        · exact hvals v hv0)
      h2
    refine ⟨a, b, ?_⟩
    rw [c, List.length_append, hlen]
    ring

/-- The member `gap_fixAB` on an image of 16-bit pixels: every value `new_val` lies
strictly between -1 and 65536 and the image stays one of 16-bit pixels. -/
theorem F64.gap_fixAB_range (imptr : List (List Nat)) (pos width : Nat)
    (r : List (List Nat) × List ℚ) (h16 : Image16 imptr) (hpos : pos < 4294967296)
    (h : F64.gap_fixAB imptr pos width = .value r) :
    Image16 r.1 ∧ (∀ v ∈ r.2, -1 < v ∧ v < 65536) ∧
      r.2.length = (pos + 7 - usub32 pos 2) * width := by
  unfold F64.gap_fixAB at h
  obtain ⟨_, _, h⟩ := Calc.bind_eq_value _ _ _ h
  obtain ⟨_, _, h⟩ := Calc.bind_eq_value _ _ _ h
  have h2 : F64.gapLoopAB (usub32 pos 2) (pos + 7) width (pos + 7 - usub32 pos 2)
      (usub32 pos 2) (gapFactor 0) (imptr, []) = .value r := h
  have hn : 0 + (pos + 7 - usub32 pos 2) ≤ 9 := by
    unfold usub32
    omega
  obtain ⟨a, b, c⟩ := F64.gapLoopAB_range _ _ _ _ 0 _ _ r hn h16 (by simp) h2
  exact ⟨a, b, by simpa using c⟩

/-- The member `gap_fix` on an image of 16-bit pixels: the pixel written in the
column `col` of the row `pos - 1`. -/
theorem gap_fix_writes (imptr : List (List Nat)) (pos width : Nat) (out : List (List Nat))
    (col : Nat) (h16 : Image16 imptr) (h : gap_fix imptr pos width = .value out)
    (hcol : col < width) :
    (out.getD (usub32 pos 1) []).getD col 0 =
        (gapValue ((imptr.getD (usub32 pos 2) []).getD col 0)
          ((imptr.getD pos []).getD col 0)).toNat ∧
      0 ≤ gapValue ((imptr.getD (usub32 pos 2) []).getD col 0)
          ((imptr.getD pos []).getD col 0) ∧
      gapValue ((imptr.getD (usub32 pos 2) []).getD col 0)
          ((imptr.getD pos []).getD col 0) ≤ 65535 := by
  unfold gap_fix at h
  obtain ⟨VecP1, hP, h⟩ := Calc.bind_eq_value _ _ _ h
  obtain ⟨Vec, hV, h⟩ := Calc.bind_eq_value _ _ _ h
  obtain ⟨VecM1, hM, h⟩ := Calc.bind_eq_value _ _ _ h
  rw [if_neg (by omega)] at h
  split at h
  · cases h
  · rename_i hlen
    simp only [not_or, not_lt] at hlen
    injection h with h
    subst h
    obtain ⟨hi, _⟩ := readAt_value _ _ _ hV
    rw [readAt_getD _ _ _ [] hP, readAt_getD _ _ _ [] hM, getD_set_rows, if_pos ⟨rfl, hi⟩]
    have hvm : VecM1.getD col 0 ≤ 65535 := by
      have : VecM1.getD col 0 ∈ VecM1 := by
        rw [List.getD_eq_getElem?_getD, List.getElem?_eq_getElem (by omega)]
        exact List.getElem_mem _
      exact h16 _ (readAt_mem _ _ _ hM) _ this
    have hvp : VecP1.getD col 0 ≤ 65535 := by
      have : VecP1.getD col 0 ∈ VecP1 := by
        rw [List.getD_eq_getElem?_getD, List.getElem?_eq_getElem (by omega)]
        exact List.getElem_mem _
      exact h16 _ (readAt_mem _ _ _ hP) _ this
    obtain ⟨g0, g1, g2⟩ := gapValue_range (VecM1.getD col 0) (VecP1.getD col 0) hvm hvp
    refine ⟨?_, g0, g1⟩
    have hl : col < (List.zipWith (fun vm1 vp1 => intToUShort (gapValue vm1 vp1))
        (VecM1.take width) (VecP1.take width)).length := by
      simp only [List.length_zipWith, List.length_take]
      omega
    rw [List.getD_append _ _ _ _ hl, zipWith_getD _ _ _ col 0 0 0
      (by rw [List.length_take]; omega) (by rw [List.length_take]; omega),
      take_getD _ _ _ _ hcol, take_getD _ _ _ _ hcol, g2]

end Vt

namespace Vt

open CVtHalfLineCalib

/-- The pixel stored in the main pass is the value computed clamped to
`[0, 65535]`. -/
theorem F64.calibPixel64_clamp (inp : Nat) (dark coef actual_offset : ℚ) :
    F64.calibPixel inp dark coef actual_offset =
        clampExact (F64.calibValue inp dark coef actual_offset) ∧
      F64.calibPixel inp dark coef actual_offset ≤ 65535 := by
  unfold F64.calibPixel clampExact
  simp only [USHRT_MAX, Nat.cast_ofNat]
  by_cases h0 : F64.calibValue inp dark coef actual_offset < 0
  · simp [h0]
  · by_cases h1 : F64.calibValue inp dark coef actual_offset ≥ 65535
    · simp [h0, h1]
    · have := toUShort_of_range (F64.calibValue inp dark coef actual_offset) (by linarith)
        (by linarith)
      simp only [h0, h1, if_false]
      exact this

/-- Every pixel that the column loop of the main pass writes is `calibPixel` of
the input pixel of the same column. -/
theorem F64.calibRow64_pixel (InVec OutVec : List Nat) (width : Nat)
    (dark coef actual_offset : ℚ) (r : List Nat)
    (h : F64.calibRow InVec OutVec width dark coef actual_offset = .value r)
    (col : Nat) (hcol : col < width) :
    r.getD col 0 = F64.calibPixel (InVec.getD col 0) dark coef actual_offset := by
  unfold F64.calibRow at h
  have hw : width ≠ 0 := by omega
  simp only [hw, if_false] at h
  split at h
  · cases h
  · rename_i hlen
    simp only [not_or, not_lt] at hlen
    injection h with h
    subst h
    have h1 : col <
        ((InVec.take width).map (F64.calibPixel · dark coef actual_offset)).length := by
      simp; omega
    simp only [List.getD_eq_getElem?_getD]
    rw [List.getElem?_append_left h1]
    have h2 : col < InVec.length := by omega
    simp [List.getElem?_map, List.getElem?_take, hcol, List.getElem?_eq_getElem h2]

/-- One iteration of the main pass writes the row at which it starts, all its
first `width` pixels computed by the column loop with the coefficients of that
row and the seam offset in force after the seam branch, and no other row. -/
theorem F64.applyStep64_writes (s : CVtHalfLineCalib) (api_type : API_TYPE)
    (inptr : List (List Nat)) (width : Nat) (st st1 : ApplyLoop)
    (h : F64.applyStep s api_type inptr width st = .value st1) :
    ∃ InVec dark coef OutVec newRow,
      readAt inptr st.row.toNat = .value InVec ∧ readAt s.m_darkC st.row.toNat = .value dark ∧
      readAt s.m_coef st.row.toNat = .value coef ∧ readAt st.out st.row.toNat = .value OutVec ∧
      F64.calibRow InVec OutVec width dark coef (fl (s.m_pedestal + st1.offset)) =
        .value newRow ∧
      st1.out = st.out.set st.row.toNat newRow := by
  unfold F64.applyStep at h
  obtain ⟨InVec, hIn, h⟩ := Calc.bind_eq_value _ _ _ h
  obtain ⟨dark, hdark, h⟩ := Calc.bind_eq_value _ _ _ h
  obtain ⟨coef, hcoef, h⟩ := Calc.bind_eq_value _ _ _ h
  obtain ⟨OutVec, hOut, h⟩ := Calc.bind_eq_value _ _ _ h
  obtain ⟨st2, hst2, h⟩ := Calc.bind_eq_value _ _ _ h
  obtain ⟨newRow, hrow, h⟩ := Calc.bind_eq_value _ _ _ h
  injection h with h
  have hout : st2.out = st.out := by
    unfold F64.seamStep at hst2
    split at hst2
    · obtain ⟨off, _, hst2⟩ := Calc.bind_eq_value _ _ _ hst2
      injection hst2 with hst2
      rw [← hst2]
    · split at hst2
      · obtain ⟨off, _, hst2⟩ := Calc.bind_eq_value _ _ _ hst2
        injection hst2 with hst2
        rw [← hst2]
      · injection hst2 with hst2
        rw [← hst2]
  refine ⟨InVec, dark, coef, OutVec, newRow, hIn, hdark, hcoef, hOut, ?_, ?_⟩
  · rw [← h]
    exact hrow
  · rw [← h, ← hout]

/-- C8, the claim as stated fails. With dark 0, gain 0.3 (as a `double`) and
pedestal 1000, the main pass stores 1003 for the input pixel 10: the product
`10 * 0.3` is rounded to 3, while the exact value
`(10 - 0) * gain + 1000 + 0` is below 1003 and its clamp is 1002. And `gap_fixAB`
on images of 16-bit pixels computes values outside `[0, 65535]`: in its last
iteration the factor, accumulated in 9 steps of `1.0 / 9`, is `1 + 2^-52`, and the
value is above 65535 on `gapRising` and below 0 on `gapFalling`. -/
theorem apply_pixel_not_exact_clamp :
    F64.applyStep tenthCalib .CEPH_API [[10]] 1 onePass =
        .value { onePass with out := [[1003]], row := -1 } ∧
      clampExact ((((10 : Nat) : ℚ) - tenthCalib.m_darkC.getD 0 0) *
        tenthCalib.m_coef.getD 0 0 + tenthCalib.m_pedestal + onePass.offset) = 1002 ∧
      Image16 gapRising ∧
      (F64.gap_fixAB gapRising 4 1).view (fun r => r.2.getD 8 0) =
        .value (4503530907893761 / 68719476736) ∧
      (65535 : ℚ) < 4503530907893761 / 68719476736 ∧
      Image16 gapFalling ∧
      (F64.gap_fixAB gapFalling 4 1).view (fun r => r.2.getD 8 0) =
        .value (-1 / 68719476736) := by
  refine ⟨by decide!, by decide!, by decide, by decide!, by norm_num, by decide, by decide!⟩

/-- C8, amended. Every pixel that an iteration of the main pass of apply writes
(row `st.row`, any column below the width) is the value
`(in - dark_row) * gain_row + (pedestal + seam_offset)`, each of the four
operations rounded to the nearest `double`, clamped to `[0, 65535]`: 0 below 0,
65535 at or above 65535, the integer part otherwise, so that nothing wraps
around. On an image of 16-bit pixels every value that `gap_fixAB` computes, one
for each pixel of the band, lies strictly between -1 and 65536 before it is
narrowed, so that the narrowing gives the value clamped to `[0, 65535]` and the
image stays one of 16-bit pixels; and every value that `gap_fix` computes lies in
`[0, 65535]` and is stored as it is. -/
theorem apply_pixel_clamp (s : CVtHalfLineCalib) (api_type : API_TYPE)
    (inptr : List (List Nat)) (width : Nat) (st st1 : ApplyLoop) (col : Nat)
    (imAB : List (List Nat)) (posAB widthAB : Nat) (rAB : List (List Nat) × List ℚ)
    (im out : List (List Nat)) (pos w c : Nat) :
    (F64.applyStep s api_type inptr width st = .value st1 → col < width →
      ∃ dark coef, readAt s.m_darkC st.row.toNat = .value dark ∧
        readAt s.m_coef st.row.toNat = .value coef ∧
        (st1.out.getD st.row.toNat []).getD col 0 =
          clampExact (fl (fl (fl ((((inptr.getD st.row.toNat []).getD col 0 : Nat) : ℚ) - dark) *
            coef) + fl (s.m_pedestal + st1.offset))) ∧
        (st1.out.getD st.row.toNat []).getD col 0 ≤ 65535) ∧
    (Image16 imAB → posAB < 4294967296 → F64.gap_fixAB imAB posAB widthAB = .value rAB →
      Image16 rAB.1 ∧ rAB.2.length = (posAB + 7 - usub32 posAB 2) * widthAB ∧
        ∀ v ∈ rAB.2, -1 < v ∧ v < 65536 ∧ toUShort v = clampExact v) ∧
    (Image16 im → gap_fix im pos w = .value out → c < w →
      (out.getD (usub32 pos 1) []).getD c 0 =
          (gapValue ((im.getD (usub32 pos 2) []).getD c 0) ((im.getD pos []).getD c 0)).toNat ∧
        0 ≤ gapValue ((im.getD (usub32 pos 2) []).getD c 0) ((im.getD pos []).getD c 0) ∧
        gapValue ((im.getD (usub32 pos 2) []).getD c 0) ((im.getD pos []).getD c 0) ≤
          65535) := by
  refine ⟨?_, ?_, ?_⟩
  · intro hstep hcol
    obtain ⟨InVec, dark, coef, OutVec, newRow, hIn, hdark, hcoef, hOut, hrow, hout⟩ :=
      F64.applyStep64_writes s api_type inptr width st st1 hstep
    obtain ⟨hr, _⟩ := readAt_value _ _ _ hOut
    have hIn2 : inptr.getD st.row.toNat [] = InVec := readAt_getD _ _ _ _ hIn
    have hnew : st1.out.getD st.row.toNat [] = newRow := by
      rw [hout]
      simp [List.getD_eq_getElem?_getD, List.getElem?_set_self, hr]
    have hpix := F64.calibRow64_pixel InVec OutVec width dark coef _ newRow hrow col hcol
    have hclamp := F64.calibPixel64_clamp (InVec.getD col 0) dark coef
      (fl (s.m_pedestal + st1.offset))
    refine ⟨dark, coef, hdark, hcoef, ?_, ?_⟩
    · rw [hnew, hIn2, hpix]
      exact hclamp.1
    · rw [hnew, hpix]
      exact hclamp.2
  · intro h16 hpos h
    obtain ⟨a, b, l⟩ := F64.gap_fixAB_range imAB posAB widthAB rAB h16 hpos h
    exact ⟨a, l, fun v hv => ⟨(b v hv).1, (b v hv).2, toUShort_clamp v (b v hv).1 (b v hv).2⟩⟩
  · intro h16 h hc
    exact gap_fix_writes im pos w out c h16 h hc

/-- C8 amended, at concrete inputs: the iteration for row 11 with 3 chips of height
4, dark 100, gain 1, pedestal 1000 and an input of all 150, column 1; `gap_fixAB`
at the seam row 4 of `gapTwelve`, with 9 values for the 9 rows of the band; and
`gap_fix` at the row 4 of `gapTwelve`, where row 3 becomes `0 + (5 - 0) / 2 = 2`. -/
theorem apply_pixel_clamp_witness :
    (∃ dark coef, readAt (unitCalib 4 3).m_darkC firstPass.row.toNat = .value dark ∧
      readAt (unitCalib 4 3).m_coef firstPass.row.toNat = .value coef ∧
      (firstPassDone.out.getD firstPass.row.toNat []).getD 1 0 =
        clampExact (fl (fl (fl (((((CVtImage.filled 3 12 150).m_lines.getD firstPass.row.toNat
          []).getD 1 0 : Nat) : ℚ) - dark) * coef) +
            fl ((unitCalib 4 3).m_pedestal + firstPassDone.offset))) ∧
      (firstPassDone.out.getD firstPass.row.toNat []).getD 1 0 ≤ 65535) ∧
    (Image16 gapTwelveFixed.1 ∧ gapTwelveFixed.2.length = (4 + 7 - usub32 4 2) * 1 ∧
      ∀ v ∈ gapTwelveFixed.2, -1 < v ∧ v < 65536 ∧ toUShort v = clampExact v) ∧
    ((([[1], [2], [0], [2], [5], [5], [5], [5], [5], [5], [5], [900]] : List (List Nat)).getD
          (usub32 4 1) []).getD 0 0 =
        (gapValue ((gapTwelve.getD (usub32 4 2) []).getD 0 0)
          ((gapTwelve.getD 4 []).getD 0 0)).toNat ∧
      0 ≤ gapValue ((gapTwelve.getD (usub32 4 2) []).getD 0 0)
        ((gapTwelve.getD 4 []).getD 0 0) ∧
      gapValue ((gapTwelve.getD (usub32 4 2) []).getD 0 0) ((gapTwelve.getD 4 []).getD 0 0) ≤
        65535) :=
  have h := apply_pixel_clamp (unitCalib 4 3) .CEPH_API (CVtImage.filled 3 12 150).m_lines 3
    firstPass firstPassDone 1 gapTwelve 4 1 gapTwelveFixed gapTwelve
    [[1], [2], [0], [2], [5], [5], [5], [5], [5], [5], [5], [900]] 4 1 0
  ⟨h.1 (by decide!) (by decide), h.2.1 (by decide) (by decide) (by decide!),
    h.2.2 (by decide) (by decide!) (by decide)⟩

end Vt

